import Mathlib

/-!
# Ultrasound processor: per-frame orchestrator and ego-pose buffer

Shallow embedding of `src/src/core/processor.cpp` (class `UltrasoundProcessor`),
of the loaders `src/src/io/config_loader.cpp` and `src/src/io/replay_source.cpp`, of the
dispatch hook `src/src/io/runtime_stub.cpp`, and of the data types of
`include/ultrasound/*.hpp`.

Conventions of the embedding:

* `std::uint64_t` values are natural numbers; every arithmetic operation the
  source performs on them is written with an explicit `% 2^64`
  (`incr64`, `add64`, `sub64`).
* `float` / `double` values are rationals (`ℚ`): arithmetic is exact, rounding
  and NaN are not modelled. The configuration loader is the exception: its final
  test compares the floats it has parsed, so there a float is a `FloatValue` (a
  number, an infinity or NaN) and `std::stof` is the field of `lib : Floatlib`.
* the member function `post_process` (the numeric detector pipeline) is an
  argument `pp` of `process_frame`; the orchestrator only stores its result and
  reads the length of its `clustered` list. The source's `post_process` is
  `post_process m h`, where `m : Libm` holds the `<cmath>` functions it calls and
  `h : HashOrder` the element order of its `std::unordered_map`.
* the readings of `std::chrono::steady_clock` are an argument `clock` of
  `process_frame`: the five stage durations measured during the call.
* texts are lists of characters; a file is `none` when it cannot be opened. The
  numeric parsers `std::stoull`, `std::stoul` and `std::stof` of the replay loader
  are the fields of its argument `lib : Strlib`, `none` standing for a thrown
  exception.
* the six `std::function` variables of `runtime_stub.cpp` are an explicit state
  `RuntimeSinks`; a dispatch returns the list of the sink invocations it makes.
-/

namespace Ultrasound

/-! ## Data model (`types.hpp`, `config.hpp`, `error.hpp`, `diagnostics.hpp`) -/

/-- Pre-increment `++x` of a `std::uint64_t`. -/
def incr64 (x : Nat) : Nat := (x + 1) % 2 ^ 64

/-- Compound assignment `x += y` on `std::uint64_t`. -/
def add64 (x y : Nat) : Nat := (x + y) % 2 ^ 64

/-- Unsigned subtraction `x - y` on `std::uint64_t` (wraps around). -/
def sub64 (x y : Nat) : Nat := (x + 2 ^ 64 - y) % 2 ^ 64

structure Pose2d where
  x_m : ℚ
  y_m : ℚ
  yaw_rad : ℚ
deriving DecidableEq, Repr

structure VehicleState where
  timestamp_us : Nat
  pose : Pose2d
  v_lon_mps : ℚ
  yaw_rate_rps : ℚ
deriving DecidableEq, Repr

structure SignalWay where
  timestamp_us : Nat
  distance_m : ℚ
  group_id : Nat
  signal_way_id : Nat
deriving DecidableEq, Repr

structure StaticFeature where
  x_m : ℚ
  y_m : ℚ
  std_x_m : ℚ
  std_y_m : ℚ
  angle_rad : ℚ
  existence : ℚ
  free_prob : ℚ
  height : Nat
  track_state : Nat
  source_mask : Nat
  valid : Bool
deriving DecidableEq, Repr

structure DynamicFeature where
  x_m : ℚ
  y_m : ℚ
  vx_mps : ℚ
  vy_mps : ℚ
  valid : Bool
deriving DecidableEq, Repr

structure LineMark where
  x0_m : ℚ
  y0_m : ℚ
  x1_m : ℚ
  y1_m : ℚ
  valid : Bool
deriving DecidableEq, Repr

structure GridMap where
  rows : Nat
  cols : Nat
  cell_size_m : ℚ
  origin_x_m : ℚ
  origin_y_m : ℚ
  occupancy : List ℚ
  valid : Bool
deriving DecidableEq, Repr

/-- A detection `std::array<double, 2>`: a point of the vehicle body frame. -/
abbrev Detection : Type := ℚ × ℚ

structure ProcessedDetections where
  tracing : List Detection
  fov_intersections : List Detection
  ellipse_intersections : List Detection
  fused : List Detection
  clustered : List Detection
deriving DecidableEq, Repr

structure FrameInput where
  timestamp_us : Nat
  signal_ways : List SignalWay
  static_features : List StaticFeature
  dynamic_features : List DynamicFeature
  line_marks : List LineMark
  grid_map : GridMap
deriving DecidableEq, Repr

structure FrameOutput where
  timestamp_us : Nat
  observation_pose : Pose2d
  signal_ways : List SignalWay
  static_features : List StaticFeature
  dynamic_features : List DynamicFeature
  line_marks : List LineMark
  grid_map : GridMap
  processed : ProcessedDetections
deriving DecidableEq, Repr

inductive GroupFilter where
  | Front
  | Rear
  | Surround
deriving DecidableEq, Repr

inductive ProcessingMethod where
  | SignalTracing
  | FovIntersection
  | EllipseIntersection
  | All
deriving DecidableEq, Repr

structure ProcessorConfig where
  n_sigma_valeo : ℚ
  use_legacy_valeo_bugfix : Bool
  group_filter : GroupFilter
  processing_method : ProcessingMethod
  min_range_m : ℚ
  max_range_m : ℚ
  cluster_radius_m : ℚ
  strict_monotonic_timestamps : Bool
deriving DecidableEq, Repr

/-- The member initialisers of `ProcessorConfig` (`ProcessorConfig{}`). -/
def ProcessorConfig.defaults : ProcessorConfig :=
  { n_sigma_valeo := 3
    use_legacy_valeo_bugfix := false
    group_filter := GroupFilter.Surround
    processing_method := ProcessingMethod.All
    min_range_m := 1 / 100000
    max_range_m := 11 / 2
    cluster_radius_m := 35 / 100
    strict_monotonic_timestamps := true }

inductive ErrorCode where
  | Ok
  | OutOfOrderTimestamp
  | MissingVehicleState
  | InvalidInput
  | InternalError
deriving DecidableEq, Repr

structure Status where
  code : ErrorCode
  message : String
deriving DecidableEq, Repr

/-- The static member `Status::ok()`. -/
def Status.ok : Status := { code := ErrorCode.Ok, message := "" }

/-- The static member `Status::fail(c, m)`. -/
def Status.fail (c : ErrorCode) (m : String) : Status := { code := c, message := m }

/-- The member `Status::is_ok()`. -/
def Status.is_ok (s : Status) : Bool := decide (s.code = ErrorCode.Ok)

structure StageTimingUs where
  decode : Nat
  interpolate : Nat
  convert : Nat
  postprocess : Nat
  publish : Nat
deriving DecidableEq, Repr

/-- Value-initialised `StageTimingUs{}`. -/
def StageTimingUs.zero : StageTimingUs :=
  { decode := 0, interpolate := 0, convert := 0, postprocess := 0, publish := 0 }

structure Diagnostics where
  processed_frames : Nat
  dropped_frames : Nat
  out_of_order_frames : Nat
  missing_state_frames : Nat
  invalid_input_frames : Nat
  filtered_signal_ways : Nat
  clustered_detections : Nat
  last_stage_timing_us : StageTimingUs
  cumulative_stage_timing_us : StageTimingUs
  replay_mode : Bool
  realtime_mode : Bool
deriving DecidableEq, Repr

/-- Value-initialised `Diagnostics{}`. -/
def Diagnostics.zero : Diagnostics :=
  { processed_frames := 0
    dropped_frames := 0
    out_of_order_frames := 0
    missing_state_frames := 0
    invalid_input_frames := 0
    filtered_signal_ways := 0
    clustered_detections := 0
    last_stage_timing_us := StageTimingUs.zero
    cumulative_stage_timing_us := StageTimingUs.zero
    replay_mode := true
    realtime_mode := false }

/-- An invalid, empty grid map (`GridMap{}`). -/
def GridMap.zero : GridMap :=
  { rows := 0, cols := 0, cell_size_m := 0, origin_x_m := 0, origin_y_m := 0, occupancy := [], valid := false }

/-- The private data members of `class UltrasoundProcessor` (`processor.hpp`). -/
structure UltrasoundProcessor where
  config_ : ProcessorConfig
  diagnostics_ : Diagnostics
  state_queue_ : List VehicleState
  last_output_ : Option FrameOutput
  last_timestamp_us_ : Nat
deriving DecidableEq, Repr

/-- The constructor `UltrasoundProcessor(ProcessorConfig config)`. -/
def UltrasoundProcessor.init (config : ProcessorConfig) : UltrasoundProcessor :=
  { config_ := config
    diagnostics_ := Diagnostics.zero
    state_queue_ := []
    last_output_ := none
    last_timestamp_us_ := 0 }

/-- The type of the member function `post_process`, with the configuration it reads. -/
abbrev PostProcess : Type := ProcessorConfig → List SignalWay → ProcessedDetections

/-! ## `processor.cpp` -/

/-- The function `group_matches` of `processor.cpp`. -/
def group_matches (filter : GroupFilter) (group_id : Nat) : Bool :=
  if group_id > 1 then false
  else
    match filter with
    | GroupFilter.Front => decide (group_id = 0)
    | GroupFilter.Rear => decide (group_id = 1)
    | GroupFilter.Surround => true

/-- The constant `kMaxQueue` of `push_vehicle_state`. -/
def kMaxQueue : Nat := 64

/-- The loop `while (state_queue_.size() > kMaxQueue) state_queue_.pop_front();`. -/
def trim_queue : List VehicleState → List VehicleState
  | [] => []
  | x :: xs => if (x :: xs).length > kMaxQueue then trim_queue xs else x :: xs

/-- The member `UltrasoundProcessor::push_vehicle_state`. -/
def push_vehicle_state (p : UltrasoundProcessor) (state : VehicleState) :
    UltrasoundProcessor × Status :=
  match p.state_queue_.getLast? with
  | some back =>
    if state.timestamp_us ≤ back.timestamp_us then
      (p, Status.fail ErrorCode.InvalidInput "vehicle state timestamps must be monotonic")
    else
      ({ p with state_queue_ := trim_queue (p.state_queue_ ++ [state]) }, Status.ok)
  | none =>
    ({ p with state_queue_ := trim_queue (p.state_queue_ ++ [state]) }, Status.ok)

/-- The linear blend `(1.0 - alpha) * a + alpha * b` of `interpolate_pose`. -/
def lerp (alpha a b : ℚ) : ℚ := (1 - alpha) * a + alpha * b

/-- The search loop of `interpolate_pose` (`for i = 1 .. size - 1`), entered with
`prev = state_queue_[i - 1]` and the entries from index `i` on. -/
def interpolate_loop (timestamp_us : Nat) : VehicleState → List VehicleState → Option Pose2d
  | _, [] => none
  | prev, next :: rest =>
    if timestamp_us ≤ next.timestamp_us then
      let dt : ℚ := (sub64 next.timestamp_us prev.timestamp_us : Nat)
      let alpha : ℚ := ((sub64 timestamp_us prev.timestamp_us : Nat) : ℚ) / dt
      some { x_m := lerp alpha prev.pose.x_m next.pose.x_m
             y_m := lerp alpha prev.pose.y_m next.pose.y_m
             yaw_rad := lerp alpha prev.pose.yaw_rad next.pose.yaw_rad }
    else interpolate_loop timestamp_us next rest

/-- The member `UltrasoundProcessor::interpolate_pose`, on the buffer it reads. -/
def interpolate_pose (state_queue : List VehicleState) (timestamp_us : Nat) : Option Pose2d :=
  match state_queue with
  | [] => none
  | front :: rest =>
    if timestamp_us ≤ front.timestamp_us then some front.pose
    else if timestamp_us ≥ ((front :: rest).getLast (List.cons_ne_nil front rest)).timestamp_us then
      some ((front :: rest).getLast (List.cons_ne_nil front rest)).pose
    else interpolate_loop timestamp_us front rest

/-- The range-and-group test of the signal-way loop of `process_frame`. -/
def signal_way_kept (cfg : ProcessorConfig) (sw : SignalWay) : Bool :=
  let range_ok := decide (sw.distance_m > cfg.min_range_m) && decide (sw.distance_m ≤ cfg.max_range_m)
  let group_ok := group_matches cfg.group_filter sw.group_id
  range_ok && group_ok

/-- One iteration of the signal-way loop of `process_frame`: the accumulator is
`(output.signal_ways, diagnostics_.filtered_signal_ways)`. -/
def signal_way_step (cfg : ProcessorConfig) (acc : List SignalWay × Nat) (sw : SignalWay) :
    List SignalWay × Nat :=
  if signal_way_kept cfg sw then (acc.1 ++ [sw], acc.2) else (acc.1, incr64 acc.2)

/-- The signal-way loop of `process_frame`. -/
def filter_signal_ways (cfg : ProcessorConfig) (input : List SignalWay) (filtered : Nat) :
    List SignalWay × Nat :=
  input.foldl (signal_way_step cfg) ([], filtered)

/-- The three copy loops of `process_frame` (`if (x.valid) out.push_back(x)`). -/
def copy_valid {α : Type} (valid : α → Bool) (input : List α) : List α :=
  input.foldl (fun out x => if valid x then out ++ [x] else out) []

/-- Accumulation `cumulative_stage_timing_us.* += last_stage_timing_us.*`. -/
def StageTimingUs.accumulate (c l : StageTimingUs) : StageTimingUs :=
  { decode := add64 c.decode l.decode
    interpolate := add64 c.interpolate l.interpolate
    convert := add64 c.convert l.convert
    postprocess := add64 c.postprocess l.postprocess
    publish := add64 c.publish l.publish }

/-- The member `UltrasoundProcessor::process_frame`. -/
def process_frame (pp : PostProcess) (clock : StageTimingUs) (p : UltrasoundProcessor)
    (input : FrameInput) : UltrasoundProcessor × Status :=
  let d0 : Diagnostics := { p.diagnostics_ with last_stage_timing_us := StageTimingUs.zero }
  if p.config_.strict_monotonic_timestamps && decide (input.timestamp_us ≤ p.last_timestamp_us_) then
    ({ p with diagnostics_ :=
        { d0 with dropped_frames := incr64 d0.dropped_frames
                  out_of_order_frames := incr64 d0.out_of_order_frames } },
     Status.fail ErrorCode.OutOfOrderTimestamp "frame timestamp out of order")
  else if input.signal_ways.isEmpty && input.static_features.isEmpty then
    ({ p with diagnostics_ :=
        { d0 with dropped_frames := incr64 d0.dropped_frames
                  invalid_input_frames := incr64 d0.invalid_input_frames } },
     Status.fail ErrorCode.InvalidInput "frame has no signal ways or static features")
  else
    match interpolate_pose p.state_queue_ input.timestamp_us with
    | none =>
      ({ p with diagnostics_ :=
          { d0 with dropped_frames := incr64 d0.dropped_frames
                    missing_state_frames := incr64 d0.missing_state_frames } },
       Status.fail ErrorCode.MissingVehicleState "no vehicle state available for frame")
    | some pose =>
      let sw := filter_signal_ways p.config_ input.signal_ways d0.filtered_signal_ways
      let output : FrameOutput :=
        { timestamp_us := input.timestamp_us
          observation_pose := pose
          signal_ways := sw.1
          static_features := copy_valid StaticFeature.valid input.static_features
          dynamic_features := copy_valid DynamicFeature.valid input.dynamic_features
          line_marks := copy_valid LineMark.valid input.line_marks
          grid_map := input.grid_map
          processed := pp p.config_ sw.1 }
      ({ p with
          last_output_ := some output
          last_timestamp_us_ := input.timestamp_us
          diagnostics_ :=
            { d0 with
                filtered_signal_ways := sw.2
                processed_frames := incr64 d0.processed_frames
                clustered_detections :=
                  add64 d0.clustered_detections output.processed.clustered.length
                last_stage_timing_us := clock
                cumulative_stage_timing_us :=
                  StageTimingUs.accumulate d0.cumulative_stage_timing_us clock } },
       Status.ok)

/-- The member `UltrasoundProcessor::last_output`. -/
def last_output (p : UltrasoundProcessor) : Option FrameOutput := p.last_output_

/-- The member `UltrasoundProcessor::diagnostics`. -/
def diagnostics (p : UltrasoundProcessor) : Diagnostics := p.diagnostics_

/-! ## The detectors of `processor.cpp` -/

/-- The functions of `<cmath>` the detectors call, as functions on the modelled reals:
their values are whatever the platform's library returns. -/
structure Libm where
  cos : ℚ → ℚ
  sin : ℚ → ℚ
  sqrt : ℚ → ℚ
  atan2 : ℚ → ℚ → ℚ

/-- The functions of `<cmath>` the ellipse builder calls, as functions on an ordered field
`K` that carries the values of `double`: `Libm` is the case `K = ℚ`. -/
structure LibmOver (K : Type) where
  cos : K → K
  sin : K → K
  sqrt : K → K
  atan2 : K → K → K

/-- The struct `SensorPose` of `processor.cpp`. -/
structure SensorPose where
  x_m : ℚ
  y_m : ℚ
  mounting_rad : ℚ
  fov_rad : ℚ
deriving DecidableEq, Repr

/-- The struct `EllipseModel` of `processor.cpp`. -/
structure EllipseModel where
  cx : ℚ
  cy : ℚ
  axis_a : ℚ
  axis_b : ℚ
  theta : ℚ
deriving DecidableEq, Repr

/-- The struct `EllipseModel` of `processor.cpp` with members in `K`. -/
structure EllipseModelOver (K : Type) where
  cx : K
  cy : K
  axis_a : K
  axis_b : K
  theta : K

/-- A library on the rationals as a library over the field `ℚ`. -/
def Libm.over (m : Libm) : LibmOver ℚ :=
  { cos := m.cos, sin := m.sin, sqrt := m.sqrt, atan2 := m.atan2 }

/-- An ellipse model as a model over the field `ℚ`. -/
def EllipseModel.over (e : EllipseModel) : EllipseModelOver ℚ :=
  { cx := e.cx, cy := e.cy, axis_a := e.axis_a, axis_b := e.axis_b, theta := e.theta }

/-- The constant `std::numbers::pi_v<double>`: the double nearest to pi. -/
def pi_d : ℚ := 884279719003555 / 281474976710656

/-- The constant `std::numeric_limits<double>::epsilon()`. -/
def epsilon_d : ℚ := 1 / 2 ^ 52

/-- The constant `std::numeric_limits<double>::max()`. -/
def max_d : ℚ := 2 ^ 1024 - 2 ^ 971

/-- Degrees to radians as the sensor table writes it: `d * (pi / 180.0)`. -/
def deg (d : ℚ) : ℚ := d * (pi_d / 180)

/-- The table `kDefaultSensors`. -/
def kDefaultSensors : List SensorPose :=
  [{ x_m := 3238 / 1000, y_m := 913 / 1000, mounting_rad := deg 87, fov_rad := deg 60 },
   { x_m := 36 / 10, y_m := 715 / 1000, mounting_rad := deg 38, fov_rad := deg 100 },
   { x_m := 3804 / 1000, y_m := 276 / 1000, mounting_rad := deg 7, fov_rad := deg 100 },
   { x_m := 3804 / 1000, y_m := -276 / 1000, mounting_rad := deg (-4), fov_rad := deg 75 },
   { x_m := 36 / 10, y_m := -715 / 1000, mounting_rad := deg (-28), fov_rad := deg 75 },
   { x_m := 3238 / 1000, y_m := -913 / 1000, mounting_rad := deg (-87), fov_rad := deg 45 },
   { x_m := -775 / 1000, y_m := -822 / 1000, mounting_rad := deg (-100), fov_rad := deg 75 },
   { x_m := -956 / 1000, y_m := -71 / 100, mounting_rad := deg (-165), fov_rad := deg 75 },
   { x_m := -109 / 100, y_m := -25 / 100, mounting_rad := deg (-175), fov_rad := deg 75 },
   { x_m := -109 / 100, y_m := 25 / 100, mounting_rad := deg 173, fov_rad := deg 100 },
   { x_m := -956 / 1000, y_m := 71 / 100, mounting_rad := deg 151, fov_rad := deg 100 },
   { x_m := -775 / 1000, y_m := 822 / 1000, mounting_rad := deg 99, fov_rad := deg 100 }]

/-- The table `kDefaultContour`. -/
def kDefaultContour : List (ℚ × ℚ) :=
  [(-775 / 1000, 822 / 1000), (-956 / 1000, 71 / 100), (-109 / 100, 25 / 100),
   (-109 / 100, -25 / 100), (-956 / 1000, -71 / 100), (-775 / 1000, -822 / 1000),
   (3238 / 1000, -913 / 1000), (36 / 10, -715 / 1000), (3804 / 1000, -276 / 1000),
   (3804 / 1000, 276 / 1000), (36 / 10, 715 / 1000), (3238 / 1000, 913 / 1000)]

/-- The function `sqr`. -/
def sqr (value : ℚ) : ℚ := value * value

/-- The function `map_signal_way_to_sensor_pair`: the `(tx, rx)` written through the
reference parameters when it returns true, `none` when it returns false. -/
def map_signal_way_to_sensor_pair (group_id signal_way_id : Nat) : Option (Int × Int) :=
  let base : Int := if group_id = 1 then 6 else 0
  if group_id > 1 ∨ signal_way_id > 15 then none
  else
    match signal_way_id with
    | 0 => some (base + 0, base + 0)
    | 1 => some (base + 0, base + 1)
    | 2 => some (base + 1, base + 0)
    | 3 => some (base + 1, base + 1)
    | 4 => some (base + 1, base + 2)
    | 5 => some (base + 2, base + 1)
    | 6 => some (base + 2, base + 2)
    | 7 => some (base + 2, base + 3)
    | 8 => some (base + 3, base + 2)
    | 9 => some (base + 3, base + 3)
    | 10 => some (base + 3, base + 4)
    | 11 => some (base + 4, base + 3)
    | 12 => some (base + 4, base + 4)
    | 13 => some (base + 4, base + 5)
    | 14 => some (base + 5, base + 4)
    | 15 => some (base + 5, base + 5)
    | _ => none

/-- The test `intersect` of one iteration of `is_inside_vehicle_contour`, for the edge
from contour vertex `(xj, yj)` to contour vertex `(xi, yi)`. -/
def contour_edge_intersect (x_m y_m : ℚ) (vi vj : ℚ × ℚ) : Bool :=
  (decide (vi.2 > y_m) != decide (vj.2 > y_m)) &&
    decide (x_m < (vj.1 - vi.1) * (y_m - vi.2) / ((vj.2 - vi.2) + epsilon_d) + vi.1)

/-- One iteration `i` of the loop of `is_inside_vehicle_contour` (`j` is the previous
index, `size - 1` at the start). -/
def contour_step (x_m y_m : ℚ) (inside : Bool) (i : Nat) : Bool :=
  let j := if i = 0 then kDefaultContour.length - 1 else i - 1
  if contour_edge_intersect x_m y_m (kDefaultContour.getD i (0, 0)) (kDefaultContour.getD j (0, 0))
  then !inside else inside

/-- The function `is_inside_vehicle_contour`. -/
def is_inside_vehicle_contour (x_m y_m : ℚ) : Bool :=
  (List.range kDefaultContour.length).foldl (contour_step x_m y_m) false

/-- The function `ellipse_point`. -/
def ellipse_point (m : Libm) (e : EllipseModel) (param_t : ℚ) : Detection :=
  let ct := m.cos param_t
  let st := m.sin param_t
  let cp := m.cos e.theta
  let sp := m.sin e.theta
  let x_local := e.axis_a * ct
  let y_local := e.axis_b * st
  (e.cx + x_local * cp - y_local * sp, e.cy + x_local * sp + y_local * cp)

/-- The function `ellipse_implicit_value`. -/
def ellipse_implicit_value (m : Libm) (e : EllipseModel) (x_m y_m : ℚ) : ℚ :=
  let dx := x_m - e.cx
  let dy := y_m - e.cy
  let cp := m.cos e.theta
  let sp := m.sin e.theta
  let xr := dx * cp + dy * sp
  let yr := -dx * sp + dy * cp
  sqr xr / max (sqr e.axis_a) (1 / 10 ^ 9) + sqr yr / max (sqr e.axis_b) (1 / 10 ^ 9) - 1

/-- The function `ellipse_implicit_error`. -/
def ellipse_implicit_error (m : Libm) (e : EllipseModel) (x_m y_m : ℚ) : ℚ :=
  let dx := x_m - e.cx
  let dy := y_m - e.cy
  let cp := m.cos e.theta
  let sp := m.sin e.theta
  let xr := dx * cp + dy * sp
  let yr := -dx * sp + dy * cp
  let v := sqr xr / max (sqr e.axis_a) (1 / 10 ^ 9) + sqr yr / max (sqr e.axis_b) (1 / 10 ^ 9)
  |v - 1|

/-- The constant `kMinSepSq` of `push_unique_detection`. -/
def kMinSepSq : ℚ := (8 / 100) * (8 / 100)

/-- The loop test of `push_unique_detection`: `p` is within the minimum separation of
`candidate`. -/
def too_close (candidate p : Detection) : Bool :=
  let dx := p.1 - candidate.1
  let dy := p.2 - candidate.2
  decide (dx * dx + dy * dy ≤ kMinSepSq)

/-- The function `push_unique_detection`: the vector after the call. -/
def push_unique_detection (detections : List Detection) (candidate : Detection) : List Detection :=
  if detections.any (too_close candidate) then detections else detections ++ [candidate]

/-- The index test `tx < 0 || rx < 0 || tx >= size || rx >= size` shared by the detectors. -/
def sensor_index_invalid (tx rx : Int) : Bool :=
  decide (tx < 0) || decide (rx < 0) || decide (tx ≥ (kDefaultSensors.length : Int)) ||
    decide (rx ≥ (kDefaultSensors.length : Int))

/-- Value-initialised `SensorPose{}`. -/
def SensorPose.zero : SensorPose :=
  { x_m := 0, y_m := 0, mounting_rad := 0, fov_rad := deg 100 }

/-- The access `kDefaultSensors[i]` (made only after the index test). -/
def sensor_at (i : Int) : SensorPose := kDefaultSensors.getD i.toNat SensorPose.zero

/-- The function `build_ellipse_from_signal_way`. -/
def build_ellipse_from_signal_way (m : Libm) (sw : SignalWay) : Option EllipseModel :=
  match map_signal_way_to_sensor_pair sw.group_id sw.signal_way_id with
  | none => none
  | some (tx, rx) =>
    if sensor_index_invalid tx rx then none
    else
      let s0 := sensor_at tx
      let s1 := sensor_at rx
      let distance := sw.distance_m
      if distance ≤ 0 then none
      else
        let dx := s1.x_m - s0.x_m
        let dy := s1.y_m - s0.y_m
        let sensor_distance := m.sqrt (dx * dx + dy * dy)
        let half_sensor_distance := (1 / 2) * sensor_distance
        if distance ≤ half_sensor_distance then none
        else
          some
            { cx := (1 / 2) * (s0.x_m + s1.x_m)
              cy := (1 / 2) * (s0.y_m + s1.y_m)
              axis_a := distance
              axis_b := m.sqrt (max 0 (distance * distance - half_sensor_distance * half_sensor_distance))
              theta := m.atan2 dy dx }

/-- The function `build_ellipse_from_signal_way` with its `double` arithmetic carried out
in an ordered field `K`, into which the entries of the sensor table and the distance of the
signal-way are converted: over `ℚ` it is `build_ellipse_from_signal_way`, over the real
numbers with the real square root and arc tangent it is the computation without
rounding. -/
def build_ellipse_from_signal_way_over {K : Type} [LinearOrderedField K] (m : LibmOver K)
    (sw : SignalWay) : Option (EllipseModelOver K) :=
  match map_signal_way_to_sensor_pair sw.group_id sw.signal_way_id with
  | none => none
  | some (tx, rx) =>
    if sensor_index_invalid tx rx then none
    else
      let s0 := sensor_at tx
      let s1 := sensor_at rx
      let distance : K := (sw.distance_m : K)
      if distance ≤ 0 then none
      else
        let dx : K := (s1.x_m : K) - (s0.x_m : K)
        let dy : K := (s1.y_m : K) - (s0.y_m : K)
        let sensor_distance := m.sqrt (dx * dx + dy * dy)
        let half_sensor_distance := (1 / 2) * sensor_distance
        if distance ≤ half_sensor_distance then none
        else
          some
            { cx := (1 / 2) * ((s0.x_m : K) + (s1.x_m : K))
              cy := (1 / 2) * ((s0.y_m : K) + (s1.y_m : K))
              axis_a := distance
              axis_b := m.sqrt (max 0 (distance * distance - half_sensor_distance * half_sensor_distance))
              theta := m.atan2 dy dx }

/-- The function `build_fov_model_from_signal_way`. -/
def build_fov_model_from_signal_way (m : Libm) (sw : SignalWay) : Option EllipseModel :=
  match map_signal_way_to_sensor_pair sw.group_id sw.signal_way_id with
  | none => none
  | some (tx, rx) =>
    if sensor_index_invalid tx rx then none
    else
      let s0 := sensor_at tx
      let s1 := sensor_at rx
      let distance := sw.distance_m
      if distance ≤ 0 then none
      else if tx = rx then
        some
          { cx := (1 / 2) * (s0.x_m + s1.x_m)
            cy := (1 / 2) * (s0.y_m + s1.y_m)
            axis_a := distance
            axis_b := distance
            theta := s0.mounting_rad }
      else
        let baseline := m.sqrt (sqr (s1.x_m - s0.x_m) + sqr (s1.y_m - s0.y_m))
        some
          { cx := (1 / 2) * (s0.x_m + s1.x_m)
            cy := (1 / 2) * (s0.y_m + s1.y_m)
            axis_a := distance
            axis_b := max ((1 / 4) * distance) ((1 / 2) * baseline)
            theta := (1 / 2) * (s0.mounting_rad + s1.mounting_rad) }

/-- The point `{distance_m, group_id == 0 ? 1.0 : -1.0}` that
`tracing_detection_from_signal_way` returns when the sensor pair cannot be decoded. -/
def tracing_fallback (sw : SignalWay) : Detection :=
  (sw.distance_m, if sw.group_id = 0 then 1 else -1)

/-- The function `tracing_detection_from_signal_way`. -/
def tracing_detection_from_signal_way (m : Libm) (sw : SignalWay) : Detection :=
  match map_signal_way_to_sensor_pair sw.group_id sw.signal_way_id with
  | none => tracing_fallback sw
  | some (tx, rx) =>
    if sensor_index_invalid tx rx then tracing_fallback sw
    else
      let s0 := sensor_at tx
      let s1 := sensor_at rx
      let distance := sw.distance_m
      let vx0 := m.cos s0.mounting_rad * distance
      let vy0 := m.sin s0.mounting_rad * distance
      let vx1 := m.cos s1.mounting_rad * distance
      let vy1 := m.sin s1.mounting_rad * distance
      let vx := vx0 + vx1
      let vy := vy0 + vy1
      let norm := m.sqrt (vx * vx + vy * vy)
      let v : ℚ × ℚ :=
        if norm > 1 / 10 ^ 9 then (distance * (vx / norm), distance * (vy / norm)) else (vx, vy)
      let cx := (1 / 2) * (s0.x_m + s1.x_m)
      let cy := (1 / 2) * (s0.y_m + s1.y_m)
      (cx + v.1, cy + v.2)

/-- The function `fov_detection_from_signal_way`. -/
def fov_detection_from_signal_way (m : Libm) (sw : SignalWay) : Detection :=
  let tracing := tracing_detection_from_signal_way m sw
  (tracing.1 * (98 / 100), tracing.2 * (98 / 100))

/-- The first loop of `wrap_to_pi` (`while (angle > pi) angle -= 2 * pi`), run for at
most `fuel` iterations. -/
def wrap_down : Nat → ℚ → ℚ
  | 0, angle => angle
  | fuel + 1, angle => if angle > pi_d then wrap_down fuel (angle - 2 * pi_d) else angle

/-- The second loop of `wrap_to_pi` (`while (angle < -pi) angle += 2 * pi`), run for at
most `fuel` iterations. -/
def wrap_up : Nat → ℚ → ℚ
  | 0, angle => angle
  | fuel + 1, angle => if angle < -pi_d then wrap_up fuel (angle + 2 * pi_d) else angle

/-- A number of iterations after which a loop of `wrap_to_pi` started at `angle` has
stopped: each iteration moves the angle by `2 * pi` towards zero. -/
def wrap_fuel (angle : ℚ) : Nat := Nat.ceil (|angle| / (2 * pi_d))

/-- The function `wrap_to_pi`. -/
def wrap_to_pi (angle : ℚ) : ℚ :=
  let a1 := wrap_down (wrap_fuel angle) angle
  wrap_up (wrap_fuel a1) a1

/-- The function `point_in_sensor_sector`. -/
def point_in_sensor_sector (m : Libm) (s : SensorPose) (p : Detection) (range_m : ℚ) : Bool :=
  let dx := p.1 - s.x_m
  let dy := p.2 - s.y_m
  let r := m.sqrt (dx * dx + dy * dy)
  if r > range_m + 1 / 10 ^ 6 then false
  else
    let bearing := m.atan2 dy dx
    let delta := |wrap_to_pi (bearing - s.mounting_rad)|
    decide (delta ≤ (1 / 2) * s.fov_rad + 1 / 10 ^ 6)

/-- The function `ray_intersection`: the returned flag and the value of the reference
parameter `out` after the call. -/
def ray_intersection (p0 d0 p1 d1 : Detection) (out : Detection) : Bool × Detection :=
  let det := d0.1 * d1.2 - d0.2 * d1.1
  if |det| < 1 / 10 ^ 6 then (false, out)
  else
    let px := p1.1 - p0.1
    let py := p1.2 - p0.2
    let t := (px * d1.2 - py * d1.1) / det
    let u := (px * d0.2 - py * d0.1) / det
    if t < 0 ∨ u < 0 then (false, out)
    else (true, (p0.1 + t * d0.1, p0.2 + t * d0.2))

/-- The function `fov_pie_detection`. -/
def fov_pie_detection (m : Libm) (sw : SignalWay) : Option Detection :=
  match map_signal_way_to_sensor_pair sw.group_id sw.signal_way_id with
  | none => none
  | some (tx, rx) =>
    if sensor_index_invalid tx rx then none
    else
      let s0 := sensor_at tx
      let s1 := sensor_at rx
      let range_m := sw.distance_m
      if range_m ≤ 0 then none
      else if tx = rx then
        some (s0.x_m + range_m * m.cos s0.mounting_rad, s0.y_m + range_m * m.sin s0.mounting_rad)
      else
        let p0 : Detection := (s0.x_m, s0.y_m)
        let d0 : Detection := (m.cos s0.mounting_rad, m.sin s0.mounting_rad)
        let p1 : Detection := (s1.x_m, s1.y_m)
        let d1 : Detection := (m.cos s1.mounting_rad, m.sin s1.mounting_rad)
        let r := ray_intersection p0 d0 p1 d1 (0, 0)
        if r.1 && point_in_sensor_sector m s0 r.2 range_m &&
            point_in_sensor_sector m s1 r.2 range_m then
          some r.2
        else some (fov_detection_from_signal_way m sw)

/-- The constant `kSamples` of the two intersection collectors. -/
def kSamples : Nat := 360

/-- The sample parameter `(s / kSamples) * (2 * pi)`. -/
def sample_param (s : Nat) : ℚ := ((s : ℚ) / (kSamples : ℚ)) * (2 * pi_d)

/-- One iteration `s` of the sample loop of `collect_ellipse_intersections`, for the pair
of models `(mi, mj)`; the state is `(out, best_err, best_pt)`. -/
def collect_sample_step (m : Libm) (mi mj : EllipseModel) (tolerance : ℚ)
    (st : List Detection × ℚ × Detection) (s : Nat) : List Detection × ℚ × Detection :=
  let t := sample_param s
  let p := ellipse_point m mi t
  let err := ellipse_implicit_error m mj p.1 p.2
  let best : ℚ × Detection := if err < st.2.1 then (err, p) else (st.2.1, st.2.2)
  let out :=
    if decide (err ≤ tolerance) && !is_inside_vehicle_contour p.1 p.2 then
      push_unique_detection st.1 p
    else st.1
  (out, best.1, best.2)

/-- The body of the pair loop of `collect_ellipse_intersections` for the pair `(mi, mj)`. -/
def collect_pair (m : Libm) (tolerance best_limit : ℚ) (mi : EllipseModel)
    (out : List Detection) (mj : EllipseModel) : List Detection :=
  let st := (List.range kSamples).foldl (collect_sample_step m mi mj tolerance) (out, max_d, (0, 0))
  if decide (st.2.1 ≤ best_limit) && !is_inside_vehicle_contour st.2.2.1 st.2.2.2 then
    push_unique_detection st.1 st.2.2
  else st.1

/-- The two nested pair loops (`i < j`) of `collect_ellipse_intersections`, on the models
from index `i` on. -/
def collect_pairs (m : Libm) (tolerance best_limit : ℚ) :
    List EllipseModel → List Detection → List Detection
  | [], out => out
  | mi :: rest, out =>
    collect_pairs m tolerance best_limit rest (rest.foldl (collect_pair m tolerance best_limit mi) out)

/-- The function `collect_ellipse_intersections`: the vector `out` after the call. -/
def collect_ellipse_intersections (m : Libm) (models : List EllipseModel) (out : List Detection)
    (tolerance best_limit : ℚ) : List Detection :=
  if models.length < 2 then out else collect_pairs m tolerance best_limit models out

/-- The sign test of `collect_ellipse_intersections_traverse`:
`(prev_v <= 0 && v >= 0) || (prev_v >= 0 && v <= 0)`. -/
def sign_change (prev_v v : ℚ) : Bool :=
  (decide (prev_v ≤ 0) && decide (v ≥ 0)) || (decide (prev_v ≥ 0) && decide (v ≤ 0))

/-- One iteration of the bisection loop of `collect_ellipse_intersections_traverse`; the
state is `(lo, hi, prev_v)`. -/
def bisect_step (m : Libm) (mi mj : EllipseModel) (st : ℚ × ℚ × ℚ) (_it : Nat) : ℚ × ℚ × ℚ :=
  let mid := (1 / 2) * (st.1 + st.2.1)
  let mid_p := ellipse_point m mi mid
  let mid_v := ellipse_implicit_value m mj mid_p.1 mid_p.2
  if sign_change st.2.2 mid_v then (st.1, mid, st.2.2) else (mid, st.2.1, mid_v)

/-- One iteration `s` of the sample loop of `collect_ellipse_intersections_traverse`, for
the pair of models `(mi, mj)`; the state is `(out, prev_t, prev_v)`. -/
def traverse_sample_step (m : Libm) (mi mj : EllipseModel) (st : List Detection × ℚ × ℚ)
    (s : Nat) : List Detection × ℚ × ℚ :=
  let t := sample_param s
  let p := ellipse_point m mi t
  let v := ellipse_implicit_value m mj p.1 p.2
  let out :=
    if sign_change st.2.2 v then
      let b := (List.range 20).foldl (bisect_step m mi mj) (st.2.1, t, st.2.2)
      let root_p := ellipse_point m mi ((1 / 2) * (b.1 + b.2.1))
      if !is_inside_vehicle_contour root_p.1 root_p.2 then push_unique_detection st.1 root_p
      else st.1
    else st.1
  (out, t, v)

/-- The body of the pair loop of `collect_ellipse_intersections_traverse` for `(mi, mj)`. -/
def traverse_pair (m : Libm) (mi : EllipseModel) (out : List Detection) (mj : EllipseModel) :
    List Detection :=
  let prev_t : ℚ := 0
  let prev_p := ellipse_point m mi prev_t
  let prev_v := ellipse_implicit_value m mj prev_p.1 prev_p.2
  ((List.range' 1 kSamples).foldl (traverse_sample_step m mi mj) (out, prev_t, prev_v)).1

/-- The two nested pair loops (`i < j`) of `collect_ellipse_intersections_traverse`. -/
def traverse_pairs (m : Libm) : List EllipseModel → List Detection → List Detection
  | [], out => out
  | mi :: rest, out => traverse_pairs m rest (rest.foldl (traverse_pair m mi) out)

/-- The function `collect_ellipse_intersections_traverse`: the vector `out` after the call. -/
def collect_ellipse_intersections_traverse (m : Libm) (models : List EllipseModel)
    (out : List Detection) : List Detection :=
  if models.length < 2 then out else traverse_pairs m models out

/-- The function `point_distance_sq`. -/
def point_distance_sq (a b : Detection) : ℚ := sqr (a.1 - b.1) + sqr (a.2 - b.2)

/-- The function `has_support_near`. -/
def has_support_near (detections : List Detection) (candidate : Detection) (radius_m : ℚ) : Bool :=
  let radius_sq := radius_m * radius_m
  detections.any (fun p => decide (point_distance_sq p candidate ≤ radius_sq))

/-- The constant `kSupportRadiusM` of `fuse_method_detections`. -/
def kSupportRadiusM : ℚ := 55 / 100

/-- The value `support_count` computed for a candidate in `fuse_method_detections`. -/
def support_count (inp : ProcessedDetections) (c : Detection) : Nat :=
  (if has_support_near inp.tracing c kSupportRadiusM then 1 else 0) +
  (if has_support_near inp.fov_intersections c kSupportRadiusM then 1 else 0) +
  (if has_support_near inp.ellipse_intersections c kSupportRadiusM then 1 else 0)

/-- The value `available_methods` computed in `fuse_method_detections`. -/
def available_methods (inp : ProcessedDetections) : Nat :=
  (if !inp.tracing.isEmpty then 1 else 0) + (if !inp.fov_intersections.isEmpty then 1 else 0) +
  (if !inp.ellipse_intersections.isEmpty then 1 else 0)

/-- The vector `candidates` built by the first three loops of `fuse_method_detections`. -/
def fuse_candidates (inp : ProcessedDetections) : List Detection :=
  inp.ellipse_intersections.foldl push_unique_detection
    (inp.fov_intersections.foldl push_unique_detection
      (inp.tracing.foldl push_unique_detection []))

/-- One iteration of the support loop of `fuse_method_detections`. -/
def fuse_step (inp : ProcessedDetections) (fused : List Detection) (c : Detection) : List Detection :=
  if available_methods inp ≤ 1 then push_unique_detection fused c
  else if support_count inp c ≥ 2 then push_unique_detection fused c
  else fused

/-- The function `fuse_method_detections`. -/
def fuse_method_detections (inp : ProcessedDetections) : List Detection :=
  let fused := (fuse_candidates inp).foldl (fuse_step inp) []
  if fused.isEmpty then
    let f1 :=
      if !inp.fov_intersections.isEmpty then inp.fov_intersections.foldl push_unique_detection fused
      else fused
    let f2 :=
      if f1.isEmpty && !inp.ellipse_intersections.isEmpty then
        inp.ellipse_intersections.foldl push_unique_detection f1
      else f1
    let f3 :=
      if f2.isEmpty && !inp.tracing.isEmpty then inp.tracing.foldl push_unique_detection f2
      else f2
    f3
  else fused

/-- An entry of the `std::unordered_map<int, std::array<double, 3>>` of
`cluster_with_table_melt`: a cluster id with its `(sum x, sum y, count)`. -/
abbrev AccumEntry : Type := Nat × ℚ × ℚ × ℚ

/-- The element order of a `std::unordered_map`, which the C++ standard leaves to the
implementation: after an insertion the table holds the same entries in an order chosen by
`reorder`. -/
structure HashOrder where
  reorder : List AccumEntry → List AccumEntry
  perm : ∀ l : List AccumEntry, (reorder l).Perm l

/-- The lookup `accum.find(cid)`. -/
def accum_find (accum : List AccumEntry) (cid : Nat) : Option AccumEntry :=
  accum.find? (fun e => e.1 == cid)

/-- One iteration of the accumulation loop: `auto& a = accum[cid]` (which inserts a zero
entry when the key is new) followed by `a[0] += x; a[1] += y; a[2] += 1.0`. -/
def accum_add (h : HashOrder) (accum : List AccumEntry) (cid : Nat) (p : Detection) :
    List AccumEntry :=
  let table := if (accum_find accum cid).isSome then accum else h.reorder (accum ++ [(cid, 0, 0, 0)])
  table.map (fun e => if e.1 = cid then (e.1, e.2.1 + p.1, e.2.2.1 + p.2, e.2.2.2 + 1) else e)

/-- The entry `adjacency[a][b] != 0` of the matrix built by `cluster_with_table_melt`:
the diagonal is set, and an off-diagonal pair is set when the squared distance between
the point of higher index and the point of lower index is at most `radius_sq`. -/
def adjacency (inp : List Detection) (radius_sq : ℚ) (a b : Nat) : Bool :=
  if a = b then true
  else
    let i := min a b
    let j := max a b
    let dx := (inp.getD j (0, 0)).1 - (inp.getD i (0, 0)).1
    let dy := (inp.getD j (0, 0)).2 - (inp.getD i (0, 0)).2
    decide (dx * dx + dy * dy ≤ radius_sq)

/-- One iteration `b` of the innermost loop of the flood fill, for a member `a` of the
cluster being grown; the state is `(cluster_id, changed)`. -/
def melt_neighbour (inp : List Detection) (radius_sq : ℚ) (next_id a : Nat)
    (st : List Nat × Bool) (b : Nat) : List Nat × Bool :=
  if adjacency inp radius_sq a b && decide (st.1.getD b 0 = 0) then (st.1.set b next_id, true)
  else st

/-- One iteration `a` of the middle loop of the flood fill. -/
def melt_member (inp : List Detection) (radius_sq : ℚ) (next_id : Nat)
    (st : List Nat × Bool) (a : Nat) : List Nat × Bool :=
  if st.1.getD a 0 ≠ next_id then st
  else (List.range inp.length).foldl (melt_neighbour inp radius_sq next_id a) st

/-- One pass of the body of `while (changed)`: it starts with `changed = false`. -/
def melt_pass (inp : List Detection) (radius_sq : ℚ) (next_id : Nat) (cluster_id : List Nat) :
    List Nat × Bool :=
  (List.range inp.length).foldl (melt_member inp radius_sq next_id) (cluster_id, false)

/-- The loop `while (changed)` of the flood fill, run for at most `fuel` passes. -/
def melt_loop (inp : List Detection) (radius_sq : ℚ) (next_id : Nat) :
    Nat → List Nat → List Nat
  | 0, cluster_id => cluster_id
  | fuel + 1, cluster_id =>
    let r := melt_pass inp radius_sq next_id cluster_id
    if r.2 then melt_loop inp radius_sq next_id fuel r.1 else r.1

/-- One iteration `i` of the outer labelling loop; the state is `(cluster_id, next_id)`.
The `while` loop is given `n + 1` passes: every pass but the last labels a new point. -/
def melt_seed (inp : List Detection) (radius_sq : ℚ) (st : List Nat × Nat) (i : Nat) :
    List Nat × Nat :=
  if st.1.getD i 0 ≠ 0 then st
  else (melt_loop inp radius_sq st.2 (inp.length + 1) (st.1.set i st.2), st.2 + 1)

/-- The labelling part of `cluster_with_table_melt`: the final `(cluster_id, next_id)`. -/
def melt_labels (inp : List Detection) (radius_sq : ℚ) : List Nat × Nat :=
  (List.range inp.length).foldl (melt_seed inp radius_sq) (List.replicate inp.length 0, 1)

/-- One iteration `i` of the accumulation loop of `cluster_with_table_melt`. -/
def accum_step (h : HashOrder) (inp : List Detection) (cluster_id : List Nat)
    (accum : List AccumEntry) (i : Nat) : List AccumEntry :=
  accum_add h accum (cluster_id.getD i 0) (inp.getD i (0, 0))

/-- One iteration `cid` of the output loop of `cluster_with_table_melt`. -/
def emit_step (accum : List AccumEntry) (clustered : List Detection) (cid : Nat) : List Detection :=
  match accum_find accum cid with
  | none => clustered
  | some e => if e.2.2.2 ≤ 0 then clustered else clustered ++ [(e.2.1 / e.2.2.2, e.2.2.1 / e.2.2.2)]

/-- The function `cluster_with_table_melt`. -/
def cluster_with_table_melt (h : HashOrder) (inp : List Detection) (radius_m : ℚ) :
    List Detection :=
  if inp.isEmpty then []
  else
    let radius_sq := radius_m * radius_m
    let labels := melt_labels inp radius_sq
    let accum := (List.range inp.length).foldl (accum_step h inp labels.1) []
    (List.range' 1 (labels.2 - 1)).foldl (emit_step accum) []

/-- The state of the signal-way loop of `post_process`. -/
structure PostState where
  out : ProcessedDetections
  ellipses : List EllipseModel
  fov_models : List EllipseModel

/-- The test `method == SignalTracing || method == All`. -/
def runs_tracing (method : ProcessingMethod) : Bool :=
  decide (method = ProcessingMethod.SignalTracing) || decide (method = ProcessingMethod.All)

/-- The test `method == FovIntersection || method == All`. -/
def runs_fov (method : ProcessingMethod) : Bool :=
  decide (method = ProcessingMethod.FovIntersection) || decide (method = ProcessingMethod.All)

/-- The test `method == EllipseIntersection || method == All`. -/
def runs_ellipse (method : ProcessingMethod) : Bool :=
  decide (method = ProcessingMethod.EllipseIntersection) || decide (method = ProcessingMethod.All)

/-- The tracing part of one iteration of the signal-way loop of `post_process`. -/
def post_tracing (m : Libm) (cfg : ProcessorConfig) (st : PostState) (sw : SignalWay) : PostState :=
  if runs_tracing cfg.processing_method then
    { st with out := { st.out with
        tracing := st.out.tracing ++ [tracing_detection_from_signal_way m sw] } }
  else st

/-- The FOV part of one iteration of the signal-way loop of `post_process`. -/
def post_fov (m : Libm) (cfg : ProcessorConfig) (st : PostState) (sw : SignalWay) : PostState :=
  if runs_fov cfg.processing_method then
    let st1 : PostState :=
      match fov_pie_detection m sw with
      | some fov_pt =>
        { st with out := { st.out with fov_intersections := st.out.fov_intersections ++ [fov_pt] } }
      | none => st
    match build_fov_model_from_signal_way m sw with
    | some fov => { st1 with fov_models := st1.fov_models ++ [fov] }
    | none => st1
  else st

/-- The ellipse part of one iteration of the signal-way loop of `post_process`. -/
def post_ellipse (m : Libm) (cfg : ProcessorConfig) (st : PostState) (sw : SignalWay) : PostState :=
  if runs_ellipse cfg.processing_method then
    match build_ellipse_from_signal_way m sw with
    | some ellipse =>
      let seed := ellipse_point m ellipse ((3 / 10) * pi_d)
      { st with
          ellipses := st.ellipses ++ [ellipse]
          out :=
            if !is_inside_vehicle_contour seed.1 seed.2 then
              { st.out with ellipse_intersections := st.out.ellipse_intersections ++ [seed] }
            else st.out }
    | none => st
  else st

/-- One iteration of the signal-way loop of `post_process`. -/
def post_step (m : Libm) (cfg : ProcessorConfig) (st : PostState) (sw : SignalWay) : PostState :=
  post_ellipse m cfg (post_fov m cfg (post_tracing m cfg st sw) sw) sw

/-- Value-initialised `ProcessedDetections`. -/
def ProcessedDetections.zero : ProcessedDetections :=
  { tracing := [], fov_intersections := [], ellipse_intersections := [], fused := [], clustered := [] }

/-- The member `UltrasoundProcessor::post_process`: it reads `config_` only. -/
def post_process (m : Libm) (h : HashOrder) : PostProcess := fun cfg signal_ways =>
  let st := signal_ways.foldl (post_step m cfg)
    { out := ProcessedDetections.zero, ellipses := [], fov_models := [] }
  let crossings := collect_ellipse_intersections_traverse m st.ellipses st.out.ellipse_intersections
  let ellipse_all := collect_ellipse_intersections m st.ellipses crossings (8 / 100) (2 / 10)
  let out1 : ProcessedDetections :=
    if runs_ellipse cfg.processing_method && decide (st.ellipses.length > 1) then
      { st.out with ellipse_intersections := ellipse_all }
    else st.out
  let fov_all := collect_ellipse_intersections m st.fov_models out1.fov_intersections
    (10 / 100) (25 / 100)
  let out2 : ProcessedDetections :=
    if runs_fov cfg.processing_method && decide (st.fov_models.length > 1) then
      { out1 with fov_intersections := fov_all }
    else out1
  let out3 : ProcessedDetections := { out2 with fused := fuse_method_detections out2 }
  { out3 with clustered := cluster_with_table_melt h out3.fused cfg.cluster_radius_m }

/-! ## Text input (`<string>`, `<sstream>`, `<cctype>`) -/

/-- The numeric parsers of `<string>` the replay loader calls, on the characters of their
argument: `none` when the call throws (`std::invalid_argument`, `std::out_of_range`),
otherwise the value returned. Their values are whatever the platform's library returns.
The replay loader stores the floats it parses and compares none of them; `stof` is taken
to return a number there. -/
structure Strlib where
  stoull : List Char → Option Nat
  stoul : List Char → Option Nat
  stof : List Char → Option ℚ

/-- One character of the loop `while (std::getline(stream, token, delim))`: the state is
`(tokens, current)`. -/
def getline_step (delim : Char) (st : List (List Char) × List Char) (c : Char) :
    List (List Char) × List Char :=
  if c = delim then (st.1 ++ [st.2], []) else (st.1, st.2 ++ [c])

/-- The tokens read by the loop `while (std::getline(stream, token, delim))` over a stream
holding `s`. A token ends at `delim` or at the end of the stream; nothing is read once the
stream is exhausted, so a trailing `delim` does not start an empty token. -/
def getline_tokens (delim : Char) (s : List Char) : List (List Char) :=
  let st := s.foldl (getline_step delim) ([], [])
  if st.2 = [] then st.1 else st.1 ++ [st.2]

/-- A value of a `float` as `load_processor_config_from_ini` stores and compares it: a
number, an infinity, or NaN. -/
inductive FloatValue where
  | num (q : ℚ)
  | inf (negative : Bool)
  | nan
deriving DecidableEq, Repr

/-- The comparison `a < b` of two floats: false when one of them is NaN. -/
def FloatValue.lt : FloatValue → FloatValue → Bool
  | FloatValue.num a, FloatValue.num b => decide (a < b)
  | FloatValue.num _, FloatValue.inf negative => !negative
  | FloatValue.inf negative, FloatValue.num _ => negative
  | FloatValue.inf n1, FloatValue.inf n2 => n1 && !n2
  | FloatValue.nan, _ => false
  | FloatValue.num _, FloatValue.nan => false
  | FloatValue.inf _, FloatValue.nan => false

/-- The comparison `a <= b` of two floats: false when one of them is NaN. -/
def FloatValue.le : FloatValue → FloatValue → Bool
  | FloatValue.num a, FloatValue.num b => decide (a ≤ b)
  | FloatValue.num _, FloatValue.inf negative => !negative
  | FloatValue.inf negative, FloatValue.num _ => negative
  | FloatValue.inf n1, FloatValue.inf n2 => n1 || !n2
  | FloatValue.nan, _ => false
  | FloatValue.num _, FloatValue.nan => false
  | FloatValue.inf _, FloatValue.nan => false

/-- The function `split_csv_line`. -/
def split_csv_line (line : List Char) : List (List Char) := getline_tokens ',' line

/-- The function `is_unsigned_number`. -/
def is_unsigned_number (s : List Char) : Bool :=
  if s.isEmpty then false else s.all Char.isDigit

/-- Value-initialised `FrameInput{}`. -/
def FrameInput.zero : FrameInput :=
  { timestamp_us := 0, signal_ways := [], static_features := [], dynamic_features := [],
    line_marks := [], grid_map := GridMap.zero }

/-- Value-initialised `StaticFeature{}`. -/
def StaticFeature.zero : StaticFeature :=
  { x_m := 0, y_m := 0, std_x_m := 0, std_y_m := 0, angle_rad := 0, existence := 0,
    free_prob := 0, height := 0, track_state := 0, source_mask := 0, valid := false }

/-- The access `frames_by_timestamp[ts]` of a `std::map<std::uint64_t, FrameInput>`,
followed by the changes `f` made through the reference it returns: the map is the list of
its entries in ascending key order, and a missing key is inserted with `FrameInput{}`. -/
def map_update (frames : List (Nat × FrameInput)) (ts : Nat) (f : FrameInput → FrameInput) :
    List (Nat × FrameInput) :=
  match frames with
  | [] => [(ts, f FrameInput.zero)]
  | (k, v) :: rest =>
    if ts < k then (ts, f FrameInput.zero) :: (k, v) :: rest
    else if ts = k then (k, f v) :: rest
    else (k, v) :: map_update rest ts f

/-- The element access `cols[i]` of the row loop (made after the size test). -/
def col (cols : List (List Char)) (i : Nat) : List Char := cols.getD i []

/-- The legacy row `timestamp_us,distance_m,group_id,signal_way_id[,x,y,valid]` from the
assignment `target.timestamp_us = ts` on: the frame `target` when the row is left, by
`continue` or by an exception. -/
def legacy_row (lib : Strlib) (cols : List (List Char)) (ts : Nat) (target : FrameInput) :
    FrameInput :=
  let t1 : FrameInput := { target with timestamp_us := ts }
  match lib.stof (col cols 1) with
  | none => t1
  | some d =>
    match lib.stoul (col cols 2) with
    | none => t1
    | some g =>
      match lib.stoul (col cols 3) with
      | none => t1
      | some w =>
        let sw : SignalWay :=
          { timestamp_us := ts, distance_m := d, group_id := g % 256, signal_way_id := w % 256 }
        let t2 : FrameInput := { t1 with signal_ways := t1.signal_ways ++ [sw] }
        if cols.length ≥ 7 then
          match lib.stof (col cols 4) with
          | none => t2
          | some x =>
            match lib.stof (col cols 5) with
            | none => t2
            | some y =>
              match lib.stoul (col cols 6) with
              | none => t2
              | some v =>
                { t2 with static_features := t2.static_features ++
                    [{ StaticFeature.zero with x_m := x, y_m := y, valid := decide (v ≠ 0) }] }
        else t2

/-- The loop of the `GM` row over the tokens of the occupancy column: `none` when `stof`
throws on a non-empty token, otherwise the vector `gm.occupancy`. -/
def parse_occupancy (lib : Strlib) : List (List Char) → List ℚ → Option (List ℚ)
  | [], occ => some occ
  | tok :: rest, occ =>
    if tok = [] then parse_occupancy lib rest occ
    else
      match lib.stof tok with
      | none => none
      | some v => parse_occupancy lib rest (occ ++ [v])

/-- The typed row `TAG,timestamp_us,...` from the assignment `target.timestamp_us = ts`
on: the frame `target` when the row is left, by `continue` or by an exception. -/
def typed_row (lib : Strlib) (cols : List (List Char)) (ts : Nat) (target : FrameInput) :
    FrameInput :=
  let t1 : FrameInput := { target with timestamp_us := ts }
  if col cols 0 = "SW".toList then
    if cols.length < 5 then t1
    else
      match lib.stof (col cols 2) with
      | none => t1
      | some d =>
        match lib.stoul (col cols 3) with
        | none => t1
        | some g =>
          match lib.stoul (col cols 4) with
          | none => t1
          | some w =>
            { t1 with signal_ways := t1.signal_ways ++
                [{ timestamp_us := ts, distance_m := d, group_id := g % 256,
                   signal_way_id := w % 256 }] }
  else if col cols 0 = "SF".toList then
    if cols.length < 5 then t1
    else
      match lib.stof (col cols 2) with
      | none => t1
      | some x =>
        match lib.stof (col cols 3) with
        | none => t1
        | some y =>
          match lib.stoul (col cols 4) with
          | none => t1
          | some v =>
            { t1 with static_features := t1.static_features ++
                [{ StaticFeature.zero with x_m := x, y_m := y, valid := decide (v ≠ 0) }] }
  else if col cols 0 = "DF".toList then
    if cols.length < 7 then t1
    else
      match lib.stof (col cols 2) with
      | none => t1
      | some x =>
        match lib.stof (col cols 3) with
        | none => t1
        | some y =>
          match lib.stof (col cols 4) with
          | none => t1
          | some vx =>
            match lib.stof (col cols 5) with
            | none => t1
            | some vy =>
              match lib.stoul (col cols 6) with
              | none => t1
              | some v =>
                { t1 with dynamic_features := t1.dynamic_features ++
                    [{ x_m := x, y_m := y, vx_mps := vx, vy_mps := vy, valid := decide (v ≠ 0) }] }
  else if col cols 0 = "LM".toList then
    if cols.length < 7 then t1
    else
      match lib.stof (col cols 2) with
      | none => t1
      | some x0 =>
        match lib.stof (col cols 3) with
        | none => t1
        | some y0 =>
          match lib.stof (col cols 4) with
          | none => t1
          | some x1 =>
            match lib.stof (col cols 5) with
            | none => t1
            | some y1 =>
              match lib.stoul (col cols 6) with
              | none => t1
              | some v =>
                { t1 with line_marks := t1.line_marks ++
                    [{ x0_m := x0, y0_m := y0, x1_m := x1, y1_m := y1, valid := decide (v ≠ 0) }] }
  else if col cols 0 = "GM".toList then
    if cols.length < 8 then t1
    else
      match lib.stoul (col cols 2) with
      | none => t1
      | some r =>
        match lib.stoul (col cols 3) with
        | none => t1
        | some c =>
          match lib.stof (col cols 4) with
          | none => t1
          | some cell =>
            match lib.stof (col cols 5) with
            | none => t1
            | some ox =>
              match lib.stof (col cols 6) with
              | none => t1
              | some oy =>
                match parse_occupancy lib (getline_tokens ';' (col cols 7)) [] with
                | none => t1
                | some occ =>
                  if occ.length % 2 ^ 64 = ((r % 2 ^ 32) * (c % 2 ^ 32)) % 2 ^ 64 then
                    { t1 with grid_map :=
                        { rows := r % 2 ^ 32, cols := c % 2 ^ 32, cell_size_m := cell,
                          origin_x_m := ox, origin_y_m := oy, occupancy := occ, valid := true } }
                  else t1
  else t1

/-- One iteration of the line loop of `load_replay_csv`: the map after the line. -/
def process_line (lib : Strlib) (frames : List (Nat × FrameInput)) (line : List Char) :
    List (Nat × FrameInput) :=
  if line = [] ∨ line.head? = some '#' then frames
  else
    let cols := split_csv_line line
    if cols = [] then frames
    else if is_unsigned_number (col cols 0) then
      if cols.length < 4 then frames
      else
        match lib.stoull (col cols 0) with
        | none => frames
        | some v => map_update frames (v % 2 ^ 64) (legacy_row lib cols (v % 2 ^ 64))
    else
      if cols.length < 3 then frames
      else
        match lib.stoull (col cols 1) with
        | none => frames
        | some v => map_update frames (v % 2 ^ 64) (typed_row lib cols (v % 2 ^ 64))

/-- The function `load_replay_csv` after the file is open, on the lines of the file. -/
def load_replay_lines (lib : Strlib) (lines : List (List Char)) : List FrameInput :=
  (lines.foldl (process_line lib) []).map Prod.snd

/-- The function `load_replay_csv`, on the content of the file at `path` (`none` when it
cannot be opened). -/
def load_replay_csv (lib : Strlib) (file : Option (List Char)) : List FrameInput :=
  match file with
  | none => []
  | some text => load_replay_lines lib (getline_tokens (Char.ofNat 10) text)

/-! ## `runtime_stub.cpp` -/

/-- One invocation of a sink by `dispatch_runtime_frame`: the channel, the sink that was
called (a natural number stands for the stored `std::function` target), the payload and
the timestamp it was called with. -/
inductive SinkCall where
  | signal_ways (sink : Nat) (payload : List SignalWay) (timestamp_us : Nat)
  | static_features (sink : Nat) (payload : List StaticFeature) (timestamp_us : Nat)
  | dynamic_features (sink : Nat) (payload : List DynamicFeature) (timestamp_us : Nat)
  | line_marks (sink : Nat) (payload : List LineMark) (timestamp_us : Nat)
  | grid_map (sink : Nat) (payload : GridMap) (timestamp_us : Nat)
  | processed (sink : Nat) (payload : ProcessedDetections) (timestamp_us : Nat)
deriving DecidableEq, Repr

/-- The six file-scope variables `g_*_cb` of `runtime_stub.cpp`: `none` is an empty
`std::function`, `some s` one that holds the target `s`. Sinks are taken not to call back
into the registry. -/
structure RuntimeSinks where
  g_signal_ways_cb : Option Nat
  g_static_features_cb : Option Nat
  g_dynamic_features_cb : Option Nat
  g_line_marks_cb : Option Nat
  g_grid_map_cb : Option Nat
  g_processed_cb : Option Nat
deriving DecidableEq, Repr

/-- The initial value of the six variables (`{}`). -/
def RuntimeSinks.init : RuntimeSinks :=
  { g_signal_ways_cb := none, g_static_features_cb := none, g_dynamic_features_cb := none,
    g_line_marks_cb := none, g_grid_map_cb := none, g_processed_cb := none }

/-- The function `register_signal_ways_callback`. -/
def register_signal_ways_callback (st : RuntimeSinks) (cb : Option Nat) : RuntimeSinks :=
  { st with g_signal_ways_cb := cb }

/-- The function `register_static_features_callback`. -/
def register_static_features_callback (st : RuntimeSinks) (cb : Option Nat) : RuntimeSinks :=
  { st with g_static_features_cb := cb }

/-- The function `register_dynamic_features_callback`. -/
def register_dynamic_features_callback (st : RuntimeSinks) (cb : Option Nat) : RuntimeSinks :=
  { st with g_dynamic_features_cb := cb }

/-- The function `register_line_marks_callback`. -/
def register_line_marks_callback (st : RuntimeSinks) (cb : Option Nat) : RuntimeSinks :=
  { st with g_line_marks_cb := cb }

/-- The function `register_grid_map_callback`. -/
def register_grid_map_callback (st : RuntimeSinks) (cb : Option Nat) : RuntimeSinks :=
  { st with g_grid_map_cb := cb }

/-- The function `register_processed_detections_callback`. -/
def register_processed_detections_callback (st : RuntimeSinks) (cb : Option Nat) : RuntimeSinks :=
  { st with g_processed_cb := cb }

/-- One statement `if (g_cb) g_cb(field, frame.timestamp_us);` of `dispatch_runtime_frame`:
the calls made so far, extended by the call of a registered sink. -/
def dispatch_slot (slot : Option Nat) (call : Nat → SinkCall) (calls : List SinkCall) :
    List SinkCall :=
  match slot with
  | some cb => calls ++ [call cb]
  | none => calls

/-- The function `dispatch_runtime_frame`: the six variables after the call and the sink
invocations it made, in order. -/
def dispatch_runtime_frame (st : RuntimeSinks) (frame : FrameOutput) :
    RuntimeSinks × List SinkCall :=
  let c1 := dispatch_slot st.g_signal_ways_cb
    (fun cb => SinkCall.signal_ways cb frame.signal_ways frame.timestamp_us) []
  let c2 := dispatch_slot st.g_static_features_cb
    (fun cb => SinkCall.static_features cb frame.static_features frame.timestamp_us) c1
  let c3 := dispatch_slot st.g_dynamic_features_cb
    (fun cb => SinkCall.dynamic_features cb frame.dynamic_features frame.timestamp_us) c2
  let c4 := dispatch_slot st.g_line_marks_cb
    (fun cb => SinkCall.line_marks cb frame.line_marks frame.timestamp_us) c3
  let c5 := dispatch_slot st.g_grid_map_cb
    (fun cb => SinkCall.grid_map cb frame.grid_map frame.timestamp_us) c4
  let c6 := dispatch_slot st.g_processed_cb
    (fun cb => SinkCall.processed cb frame.processed frame.timestamp_us) c5
  (st, c6)

/-- The function `clear_runtime_callbacks`. -/
def clear_runtime_callbacks (_st : RuntimeSinks) : RuntimeSinks :=
  { g_signal_ways_cb := none, g_static_features_cb := none, g_dynamic_features_cb := none,
    g_line_marks_cb := none, g_grid_map_cb := none, g_processed_cb := none }

/-! ## Call sequences on one processor -/

/-- One call of the public mutating interface of a processor. -/
inductive Call where
  | push (state : VehicleState)
  | frame (clock : StageTimingUs) (input : FrameInput)

/-- Perform one call. -/
def step (pp : PostProcess) (p : UltrasoundProcessor) : Call → UltrasoundProcessor × Status
  | Call.push s => push_vehicle_state p s
  | Call.frame clock input => process_frame pp clock p input

/-- The processor after a sequence of calls. -/
def run (pp : PostProcess) (p : UltrasoundProcessor) : List Call → UltrasoundProcessor
  | [] => p
  | c :: cs => run pp (step pp p c).1 cs

/-- The timestamps of the frames for which `process_frame` returned ok, in call order. -/
def ok_timestamps (pp : PostProcess) (p : UltrasoundProcessor) : List Call → List Nat
  | [] => []
  | Call.push s :: cs => ok_timestamps pp (push_vehicle_state p s).1 cs
  | Call.frame clock input :: cs =>
    if (process_frame pp clock p input).2.is_ok then
      input.timestamp_us :: ok_timestamps pp (process_frame pp clock p input).1 cs
    else ok_timestamps pp (process_frame pp clock p input).1 cs

/-- States reachable from a fresh processor by `push_vehicle_state` and `process_frame`. -/
def Reachable (pp : PostProcess) (p : UltrasoundProcessor) : Prop :=
  ∃ (config : ProcessorConfig) (calls : List Call), run pp (UltrasoundProcessor.init config) calls = p

/-- The ego-pose buffer invariant: timestamps strictly increase from oldest to newest. -/
def buffer_monotonic (q : List VehicleState) : Prop :=
  q.Pairwise (fun a b => a.timestamp_us < b.timestamp_us)

/-! ## The spec's wording of the filters and tables -/

/-- The spec's wording (section 4.1): the fixed table of sensor offsets `(tx_off, rx_off)`
indexed by the signal-way id. -/
def spec_offset_table : List (Int × Int) :=
  [(0, 0), (0, 1), (1, 0), (1, 1), (1, 2), (2, 1), (2, 2), (2, 3),
   (3, 2), (3, 3), (3, 4), (4, 3), (4, 4), (4, 5), (5, 4), (5, 5)]

/-- The spec's wording (section 4.3): the group filter
(`Front`: id == 0; `Rear`: id == 1; `Surround`: any). -/
def spec_group_accepts (filter : GroupFilter) (group_id : Nat) : Bool :=
  match filter with
  | GroupFilter.Front => decide (group_id = 0)
  | GroupFilter.Rear => decide (group_id = 1)
  | GroupFilter.Surround => true

/-- The spec's wording (section 4.3): a signal-way is kept iff it is in the range band
and its group satisfies the group filter of the spec. -/
def spec_signal_way_kept (cfg : ProcessorConfig) (sw : SignalWay) : Bool :=
  decide (sw.distance_m > cfg.min_range_m) && decide (sw.distance_m ≤ cfg.max_range_m) &&
    spec_group_accepts cfg.group_filter sw.group_id

/-- The group filter the code applies: `Front` accepts 0, `Rear` accepts 1, `Surround`
accepts 0 and 1; a group id above 1 is never accepted. -/
def code_group_accepts (filter : GroupFilter) (group_id : Nat) : Bool :=
  match filter with
  | GroupFilter.Front => decide (group_id = 0)
  | GroupFilter.Rear => decide (group_id = 1)
  | GroupFilter.Surround => decide (group_id ≤ 1)

/-! ## Concrete data used by the examples -/

/-- A post-processing function that reports one clustered detection per kept signal-way. -/
def pp_sample : PostProcess := fun _ sws =>
  { tracing := sws.map (fun sw => (sw.distance_m, 0))
    fov_intersections := []
    ellipse_intersections := []
    fused := sws.map (fun sw => (sw.distance_m, 0))
    clustered := sws.map (fun sw => (sw.distance_m, 0)) }

/-- Vehicle state with the given timestamp and pose, zero speed and yaw rate. -/
def state_at (ts : Nat) (x y yaw : ℚ) : VehicleState :=
  { timestamp_us := ts, pose := { x_m := x, y_m := y, yaw_rad := yaw }, v_lon_mps := 0, yaw_rate_rps := 0 }

/-- The two states pushed by `seed_states` of `tests/test_processor.cpp`. -/
def seed_queue : List VehicleState := [state_at 1000 1 0 0, state_at 2000 3 2 (2 / 5)]

/-- A frame carrying only signal-ways. -/
def frame_of (ts : Nat) (sws : List SignalWay) : FrameInput :=
  { timestamp_us := ts, signal_ways := sws, static_features := [], dynamic_features := [],
    line_marks := [], grid_map := GridMap.zero }

/-- The signal-way `(d = 1.0, g = 0, w = 1)` stamped `ts`. -/
def sw_sample (ts : Nat) : SignalWay :=
  { timestamp_us := ts, distance_m := 1, group_id := 0, signal_way_id := 1 }

/-- A processor with the default configuration holding the two seed states. -/
def seeded : UltrasoundProcessor :=
  { UltrasoundProcessor.init ProcessorConfig.defaults with state_queue_ := seed_queue }

/-- A frame stamped 1500 whose only content is one valid dynamic feature. -/
def frame_dynamic_only : FrameInput :=
  { timestamp_us := 1500, signal_ways := [], static_features := [],
    dynamic_features := [{ x_m := 1, y_m := 1, vx_mps := 0, vy_mps := 0, valid := true }],
    line_marks := [], grid_map := GridMap.zero }

/-- Scenario S1 extended: two pushes, then frames stamped 1500, 1400 and 1600. -/
def calls_s1 : List Call :=
  [Call.push (state_at 1000 1 0 0), Call.push (state_at 2000 3 2 (2 / 5)),
   Call.frame StageTimingUs.zero (frame_of 1500 [sw_sample 1500]),
   Call.frame StageTimingUs.zero (frame_of 1400 [sw_sample 1400]),
   Call.frame StageTimingUs.zero (frame_of 1600 [sw_sample 1600])]

/-- The calls pushing the states stamped `k + 1, ..., k + n` with zero pose. -/
def pushes : Nat → Nat → List Call
  | _, 0 => []
  | k, n + 1 => Call.push (state_at (k + 1) 0 0 0) :: pushes (k + 1) n

/-- The states stamped `k + 1, ..., k + n` with zero pose. -/
def states : Nat → Nat → List VehicleState
  | _, 0 => []
  | k, n + 1 => state_at (k + 1) 0 0 0 :: states (k + 1) n

/-- The configuration of scenario S5: front group, signal tracing, range band (0.5, 3.0]. -/
def cfg_s5 : ProcessorConfig :=
  { ProcessorConfig.defaults with
      group_filter := GroupFilter.Front
      processing_method := ProcessingMethod.SignalTracing
      min_range_m := 1 / 2
      max_range_m := 3 }

/-- The frame of scenario S5: signal-ways `(2.0, 0, 1)`, `(0.1, 0, 2)`, `(2.5, 1, 3)`. -/
def frame_s5 : FrameInput :=
  frame_of 1500
    [{ timestamp_us := 1500, distance_m := 2, group_id := 0, signal_way_id := 1 },
     { timestamp_us := 1500, distance_m := 1 / 10, group_id := 0, signal_way_id := 2 },
     { timestamp_us := 1500, distance_m := 5 / 2, group_id := 1, signal_way_id := 3 }]

/-- Truncated cosine series (degree 12), for arguments in `[-pi, pi]`. -/
def cos_series (x : ℚ) : ℚ :=
  1 - x ^ 2 / 2 + x ^ 4 / 24 - x ^ 6 / 720 + x ^ 8 / 40320 - x ^ 10 / 3628800 + x ^ 12 / 479001600

/-- Truncated sine series (degree 13), for arguments in `[-pi, pi]`. -/
def sin_series (x : ℚ) : ℚ :=
  x - x ^ 3 / 6 + x ^ 5 / 120 - x ^ 7 / 5040 + x ^ 9 / 362880 - x ^ 11 / 39916800 +
    x ^ 13 / 6227020800

/-- Six Newton steps for the square root, started at `(x + 1) / 2`. -/
def sqrt_newton (x : ℚ) : ℚ :=
  if x ≤ 0 then 0
  else (List.range 6).foldl (fun s _ => (s + x / s) / 2) ((x + 1) / 2)

/-- A rational approximation of the arctangent on `[-1, 1]`. -/
def atan_unit (z : ℚ) : ℚ := z * (pi_d / 4 + (273 / 1000) * (1 - |z|))

/-- A rational approximation of the arctangent. -/
def atan_approx (z : ℚ) : ℚ :=
  if |z| ≤ 1 then atan_unit z
  else if z > 0 then pi_d / 2 - atan_unit (1 / z)
  else -(pi_d / 2) - atan_unit (1 / z)

/-- A rational stand-in for `<cmath>` used by the examples: truncated series after range
reduction for `cos` and `sin`, Newton steps for `sqrt`, a rational `atan2`. -/
def libm_sample : Libm :=
  { cos := fun x => cos_series (wrap_to_pi x)
    sin := fun x => sin_series (wrap_to_pi x)
    sqrt := sqrt_newton
    atan2 := fun y x =>
      if x > 0 then atan_approx (y / x)
      else if x < 0 then (if y ≥ 0 then atan_approx (y / x) + pi_d else atan_approx (y / x) - pi_d)
      else if y > 0 then pi_d / 2
      else if y < 0 then -(pi_d / 2)
      else 0 }

/-- The hash order that keeps every entry where it was inserted. -/
def hash_sample : HashOrder := { reorder := fun l => l, perm := fun l => List.Perm.refl l }

/-- The hash order that reverses the table at every insertion. -/
def hash_reversed : HashOrder := { reorder := List.reverse, perm := fun l => List.reverse_perm l }

/-! ## Definitions used by the statements below -/

/-- A frame stamped 1500 with one in-range signal-way whose group id is 2. -/
def frame_group2 : FrameInput :=
  frame_of 1500 [{ timestamp_us := 1500, distance_m := 1, group_id := 2, signal_way_id := 0 }]

/-- The frame of the test `ProcessFrameInterpolatesPoseAndFiltersSignalWays`: the three
signal-ways of scenario S5, a valid and an invalid static feature, one valid dynamic
feature, one valid line mark and a valid 2 x 2 grid map. -/
def frame_test_aux : FrameInput :=
  { frame_s5 with
      static_features :=
        [{ x_m := 1, y_m := 2, std_x_m := 0, std_y_m := 0, angle_rad := 0, existence := 0,
           free_prob := 0, height := 0, track_state := 0, source_mask := 0, valid := true },
         { x_m := 0, y_m := 0, std_x_m := 0, std_y_m := 0, angle_rad := 0, existence := 0,
           free_prob := 0, height := 0, track_state := 0, source_mask := 0, valid := false }]
      dynamic_features := [{ x_m := 1, y_m := 1, vx_mps := 0, vy_mps := 0, valid := true }]
      line_marks := [{ x0_m := 0, y0_m := 0, x1_m := 1, y1_m := 1, valid := true }]
      grid_map :=
        { rows := 2, cols := 2, cell_size_m := 0, origin_x_m := 0, origin_y_m := 0,
          occupancy := [1 / 10, 2 / 10, 3 / 10, 4 / 10], valid := true } }

/-- The separation relation kept by `push_unique_detection`: the later point is not within
the minimum separation of the earlier one. -/
def apart (a b : Detection) : Prop := too_close b a = false

/-- The spec's wording (section 4.7): the candidate pool, the de-duplicating push of the
tracing, then the FOV, then the ellipse detections. -/
def spec_pool (inp : ProcessedDetections) : List Detection :=
  (inp.tracing ++ inp.fov_intersections ++ inp.ellipse_intersections).foldl
    push_unique_detection []

/-- The spec's wording (section 4.7): `M`, the count of non-empty methods. -/
def spec_method_count (inp : ProcessedDetections) : Nat :=
  ([inp.tracing, inp.fov_intersections, inp.ellipse_intersections].filter
    (fun l => !l.isEmpty)).length

/-- The spec's wording (section 4.7): `S(c)`, how many of the three method sets contain at
least one point within 0.55 m of `c`. -/
def spec_support (inp : ProcessedDetections) (c : Detection) : Nat :=
  ([inp.tracing, inp.fov_intersections, inp.ellipse_intersections].filter
    (fun l => l.any (fun p =>
      decide ((p.1 - c.1) ^ 2 + (p.2 - c.2) ^ 2 ≤ (55 / 100 : ℚ) ^ 2)))).length

/-- The spec's wording (section 4.7): the first non-empty list of a priority order, the
empty list when there is none. -/
def spec_first_nonempty (lists : List (List Detection)) : List Detection :=
  (lists.find? (fun l => !l.isEmpty)).getD []

/-- The test under which the support loop of `fuse_method_detections` pushes a candidate. -/
def fuse_passes (inp : ProcessedDetections) (c : Detection) : Bool :=
  decide (available_methods inp ≤ 1) || decide (support_count inp c ≥ 2)

/-- Method lists for the examples: two methods agree near `(1, 1)`, a second tracing point
is alone. -/
def detections_agree : ProcessedDetections :=
  { tracing := [(1, 1), (5, 5)], fov_intersections := [(11 / 10, 1)], ellipse_intersections := [],
    fused := [], clustered := [] }

/-- Method lists for the examples: tracing and FOV detections that do not support each
other; the second FOV point is within 0.08 m of the first. -/
def detections_disagree : ProcessedDetections :=
  { tracing := [(1, 1)], fov_intersections := [(5, 5), (501 / 100, 5)],
    ellipse_intersections := [], fused := [], clustered := [] }

/-- What the flood fill may do to the label vector while cluster `next_id` is grown: the
length is kept, and a label either keeps its value or goes from 0 to `next_id`. -/
def labels_ext (next_id : Nat) (ids ids2 : List Nat) : Prop :=
  ids2.length = ids.length ∧
  ∀ j, ids2.getD j 0 = ids.getD j 0 ∨ (ids.getD j 0 = 0 ∧ ids2.getD j 0 = next_id)

/-- The invariant of the outer labelling loop before iteration `k`, on `n` points: every
label is below `next_id`, the first `k` points are labelled, every id from 1 below
`next_id` is in use, and at most `k` ids have been given out. -/
def labels_inv (n k : Nat) (st : List Nat × Nat) : Prop :=
  st.1.length = n ∧ 1 ≤ st.2 ∧ st.2 ≤ k + 1 ∧
  (∀ j, st.1.getD j 0 < st.2) ∧
  (∀ j, j < k → st.1.getD j 0 ≠ 0) ∧
  (∀ c, 1 ≤ c → c < st.2 → ∃ j, j < n ∧ st.1.getD j 0 = c)

/-- The sums stored for cluster `cid`: those of its entry, zeros when it has none. -/
def accum_totals (accum : List AccumEntry) (cid : Nat) : ℚ × ℚ × ℚ :=
  match accum_find accum cid with
  | some e => e.2
  | none => (0, 0, 0)

/-- The indices below `k` carrying the label `cid`, in increasing order. -/
def members (cluster_id : List Nat) (k cid : Nat) : List Nat :=
  (List.range k).filter (fun j => decide (cluster_id.getD j 0 = cid))

/-- The centroid that `cluster_with_table_melt` emits for the label `cid`: the sums of the
coordinates of its members divided by their number. -/
def centroid (inp : List Detection) (cluster_id : List Nat) (cid : Nat) : Detection :=
  (((members cluster_id inp.length cid).map (fun j => (inp.getD j (0, 0)).1)).sum /
      ((members cluster_id inp.length cid).length : ℚ),
   ((members cluster_id inp.length cid).map (fun j => (inp.getD j (0, 0)).2)).sum /
      ((members cluster_id inp.length cid).length : ℚ))

/-- The frame of the test `DeterministicOutputForSameInputs`. -/
def frame_deterministic : FrameInput :=
  frame_of 1500
    [{ timestamp_us := 1500, distance_m := 2, group_id := 0, signal_way_id := 1 },
     { timestamp_us := 1500, distance_m := 5 / 2, group_id := 1, signal_way_id := 13 }]

/-- The configuration of the contour example: every group, signal tracing only, cluster
radius 2 m. -/
def cfg_wide : ProcessorConfig :=
  { ProcessorConfig.defaults with
      processing_method := ProcessingMethod.SignalTracing
      cluster_radius_m := 2 }

/-- Two signal-ways at 2 m whose id 16 encodes no sensor pair, one per group. -/
def sws_undecodable : List SignalWay :=
  [{ timestamp_us := 1500, distance_m := 2, group_id := 0, signal_way_id := 16 },
   { timestamp_us := 1500, distance_m := 2, group_id := 1, signal_way_id := 16 }]

/-- The processor of the contour example: the seeded processor under `cfg_wide`. -/
def wide_processor : UltrasoundProcessor := { seeded with config_ := cfg_wide }

/-- The invariant of one pass of the flood fill, against the zero count `K` at its start:
the label list keeps its length, holds at most `K` zeros, and fewer once `changed` is set. -/
def pass_inv (n K : Nat) (st : List Nat × Bool) : Prop :=
  st.1.length = n ∧ st.1.count 0 ≤ K ∧ (st.2 = true → st.1.count 0 < K)

/-- The configuration of the circle example: defaults with the ellipse method only. -/
def cfg_ellipse : ProcessorConfig :=
  { ProcessorConfig.defaults with processing_method := ProcessingMethod.EllipseIntersection }

/-- A signal-way at 1 m sent and received by sensor 0: its ellipse is a circle. -/
def sw_circle : SignalWay :=
  { timestamp_us := 1500, distance_m := 1, group_id := 0, signal_way_id := 0 }

/-- The configuration of the test `MonotonicGuardCanBeDisabled`: defaults with the strict
timestamp guard switched off. -/
def cfg_relaxed : ProcessorConfig :=
  { ProcessorConfig.defaults with strict_monotonic_timestamps := false }

/-- The calls of the test `MonotonicGuardCanBeDisabled` before its last frame: the two seed
states and the frame stamped 1500. -/
def calls_relaxed : List Call :=
  [Call.push (state_at 1000 1 0 0), Call.push (state_at 2000 3 2 (2 / 5)),
   Call.frame StageTimingUs.zero (frame_of 1500 [sw_sample 1500])]

/-- The last frame of the test `MonotonicGuardCanBeDisabled`: stamped 1400, with the
signal-way `(1.1, 0, 2)`. -/
def frame_relaxed : FrameInput :=
  frame_of 1400 [{ timestamp_us := 1400, distance_m := 11 / 10, group_id := 0, signal_way_id := 2 }]

/-- The value `sensor_distance` computed by `build_ellipse_from_signal_way` for the sensor
pair `(tx, rx)`: the library square root of the squared distance of the two sensors. -/
def sensor_baseline (m : Libm) (tx rx : Int) : ℚ :=
  m.sqrt (((sensor_at rx).x_m - (sensor_at tx).x_m) * ((sensor_at rx).x_m - (sensor_at tx).x_m) +
    ((sensor_at rx).y_m - (sensor_at tx).y_m) * ((sensor_at rx).y_m - (sensor_at tx).y_m))

/-- The library square root is exact at `x`: it returns the non-negative number whose
square is `x`. -/
def sqrt_exact_at (m : Libm) (x : ℚ) : Prop := 0 ≤ m.sqrt x ∧ m.sqrt x * m.sqrt x = x

/-- The signal-way of the example: 0.345 m on the front pair `(2, 3)` (id 7). -/
def sw_pair23 : SignalWay :=
  { timestamp_us := 1500, distance_m := 345 / 1000, group_id := 0, signal_way_id := 7 }

/-- The seed point the signal-way loop of `post_process` appends for one signal-way: the
point of its ellipse at parameter `0.30 * pi`, when an ellipse is built and that point is
not classified as inside the vehicle contour. -/
def seed_of (m : Libm) (sw : SignalWay) : Option Detection :=
  match build_ellipse_from_signal_way m sw with
  | some e =>
    if is_inside_vehicle_contour (ellipse_point m e ((3 / 10) * pi_d)).1
        (ellipse_point m e ((3 / 10) * pi_d)).2 then none
    else some (ellipse_point m e ((3 / 10) * pi_d))
  | none => none

/-- The seed points of a list of signal-ways, in signal-way order. -/
def seed_points (m : Libm) (sws : List SignalWay) : List Detection := sws.filterMap (seed_of m)

/-- Two detections are more than 0.08 m apart (squared distance above 0.0064). -/
def far_apart (a b : Detection) : Prop :=
  (a.1 - b.1) * (a.1 - b.1) + (a.2 - b.2) * (a.2 - b.2) > 64 / 10000

/-- Every entry from position `k` on is more than 0.08 m from every earlier entry. -/
def separated_from (k : Nat) (l : List Detection) : Prop :=
  ∀ (i j : Nat) (a b : Detection), i < j → k ≤ j → l[i]? = some a → l[j]? = some b → far_apart a b

/-- A stand-in for `<cmath>` with a step for cosine and sine, for an example in which one
sample of the traverse collector can be followed by hand: the cosine is 1 and the sine 0
below the first sample parameter `2 * pi / 360`, and 0 and 1 from there on. -/
def libm_step : Libm :=
  { cos := fun x => if x < pi_d / 180 then 1 else 0
    sin := fun x => if x < pi_d / 180 then 0 else 1
    sqrt := libm_sample.sqrt
    atan2 := fun _ _ => 0 }

/-- A signal-way at 1 m sent and received by sensor 1. -/
def sw_circle1 : SignalWay :=
  { timestamp_us := 1500, distance_m := 1, group_id := 0, signal_way_id := 3 }

/-- The circle of `sw_circle` under `libm_step`. -/
def circle0 : EllipseModel :=
  { cx := 3238 / 1000, cy := 913 / 1000, axis_a := 1, axis_b := 1, theta := 0 }

/-- The circle of `sw_circle1` under `libm_step`. -/
def circle1 : EllipseModel :=
  { cx := 36 / 10, cy := 715 / 1000, axis_a := 1, axis_b := 1, theta := 0 }

/-- The invocations a dispatch owes to the slots of a registry: one per registered slot,
in the order signal-ways, static features, dynamic features, line marks, grid map,
processed detections, each with the matching field of the frame and its timestamp. -/
def expected_calls (st : RuntimeSinks) (frame : FrameOutput) : List SinkCall :=
  (st.g_signal_ways_cb.map
      (fun cb => SinkCall.signal_ways cb frame.signal_ways frame.timestamp_us)).toList ++
  (st.g_static_features_cb.map
      (fun cb => SinkCall.static_features cb frame.static_features frame.timestamp_us)).toList ++
  (st.g_dynamic_features_cb.map
      (fun cb => SinkCall.dynamic_features cb frame.dynamic_features frame.timestamp_us)).toList ++
  (st.g_line_marks_cb.map
      (fun cb => SinkCall.line_marks cb frame.line_marks frame.timestamp_us)).toList ++
  (st.g_grid_map_cb.map
      (fun cb => SinkCall.grid_map cb frame.grid_map frame.timestamp_us)).toList ++
  (st.g_processed_cb.map
      (fun cb => SinkCall.processed cb frame.processed frame.timestamp_us)).toList

/-- The number of registered slots. -/
def registered_count (st : RuntimeSinks) : Nat :=
  [st.g_signal_ways_cb, st.g_static_features_cb, st.g_dynamic_features_cb, st.g_line_marks_cb,
    st.g_grid_map_cb, st.g_processed_cb].countP Option.isSome

/-- The frame dispatched by the test `DispatchInvokesRegisteredCallbacks`. -/
def frame_dispatched : FrameOutput :=
  { timestamp_us := 1000
    observation_pose := { x_m := 0, y_m := 0, yaw_rad := 0 }
    signal_ways := [sw_sample 1000]
    static_features :=
      [{ x_m := 1, y_m := 1, std_x_m := 0, std_y_m := 0, angle_rad := 0, existence := 0,
         free_prob := 0, height := 0, track_state := 0, source_mask := 0, valid := true }]
    dynamic_features := [{ x_m := 1, y_m := 1, vx_mps := 1 / 10, vy_mps := 0, valid := true }]
    line_marks := [{ x0_m := 0, y0_m := 0, x1_m := 1, y1_m := 0, valid := true }]
    grid_map := { GridMap.zero with valid := true }
    processed := { ProcessedDetections.zero with fused := [(1, 2)] } }

/-- The registry of the test `DispatchInvokesRegisteredCallbacks`: six sinks, numbered 1
to 6, registered after a clear. -/
def sinks_all : RuntimeSinks :=
  register_processed_detections_callback
    (register_grid_map_callback
      (register_line_marks_callback
        (register_dynamic_features_callback
          (register_static_features_callback
            (register_signal_ways_callback (clear_runtime_callbacks RuntimeSinks.init) (some 1))
            (some 2))
          (some 3))
        (some 4))
      (some 5))
    (some 6)

/-- The channel of an invocation: 0 signal-ways, 1 static features, 2 dynamic features,
3 line marks, 4 grid map, 5 processed detections. -/
def SinkCall.channel : SinkCall → Nat
  | SinkCall.signal_ways _ _ _ => 0
  | SinkCall.static_features _ _ _ => 1
  | SinkCall.dynamic_features _ _ _ => 2
  | SinkCall.line_marks _ _ _ => 3
  | SinkCall.grid_map _ _ _ => 4
  | SinkCall.processed _ _ _ => 5

/-- The invocations of a dispatch on one channel. -/
def calls_on (k : Nat) (st : RuntimeSinks) (frame : FrameOutput) : List SinkCall :=
  (dispatch_runtime_frame st frame).2.filter (fun c => decide (c.channel = k))

/-- The value of a string of decimal digits, `none` when the string is empty or holds
another character. -/
def parse_digits (s : List Char) : Option Nat :=
  if s = [] ∨ ¬ s.all Char.isDigit = true then none
  else some (s.foldl (fun n c => 10 * n + (c.toNat - 48)) 0)

/-- A decimal numeral `digits` or `digits.digits`, with an optional leading `-`, read as
`(negative, digits without the point, number of digits behind the point)`. -/
def parse_decimal (s : List Char) : Option (Bool × Nat × Nat) :=
  let negative := decide (s.head? = some '-')
  let body := if negative then s.drop 1 else s
  let int_part := body.takeWhile (fun c => c ≠ '.')
  let frac_part := (body.dropWhile (fun c => c ≠ '.')).drop 1
  if body.contains '.' ∧ frac_part = [] then none
  else
    match parse_digits (int_part ++ frac_part) with
    | some n => if int_part = [] then none else some (negative, n, frac_part.length)
    | none => none

/-- A stand-in for the numeric parsers of `<string>` used by the examples: it reads
unsigned decimal numerals for `stoull` and `stoul` and signed decimal numerals with an
optional fraction for `stof`, and throws on every other text. -/
def strlib_sample : Strlib :=
  { stoull := fun s => match parse_digits s with
      | some n => if n < 2 ^ 64 then some n else none
      | none => none
    stoul := fun s => match parse_digits s with
      | some n => if n < 2 ^ 64 then some n else none
      | none => none
    stof := fun s => (parse_decimal s).map
      (fun r => (if r.1 then -1 else 1) * ((r.2.1 : ℚ) / (10 : ℚ) ^ r.2.2)) }

/-- A file with one well-formed row and three malformed ones: an unknown tag, a field that
is not a number, and too few columns for the tag. -/
def csv_malformed : List Char :=
  "1000,1.0,0,1\nFOO,1200,1\nSW,1300,abc,0,1\nSW,1400,1.0\n".toList

/-- The file `csv_malformed` with its three malformed rows deleted. -/
def csv_wellformed : List Char := "1000,1.0,0,1\n".toList

/-- The number of `process_frame` calls in a call sequence. -/
def frame_calls : List Call → Nat
  | [] => 0
  | Call.push _ :: cs => frame_calls cs
  | Call.frame _ _ :: cs => frame_calls cs + 1

/-- The counter identities of the diagnostics after `k` calls of `process_frame`: the five
frame counters are 64-bit values, the drops are the sum of the three causes and the
processed and dropped frames add up to `k`, both modulo `2 ^ 64`. -/
def counters_inv (k : Nat) (d : Diagnostics) : Prop :=
  d.processed_frames < 2 ^ 64 ∧ d.dropped_frames < 2 ^ 64 ∧ d.out_of_order_frames < 2 ^ 64 ∧
  d.missing_state_frames < 2 ^ 64 ∧ d.invalid_input_frames < 2 ^ 64 ∧
  d.dropped_frames =
    (d.out_of_order_frames + d.missing_state_frames + d.invalid_input_frames) % 2 ^ 64 ∧
  (d.processed_frames + d.dropped_frames) % 2 ^ 64 = k % 2 ^ 64

/-- What one call of `process_frame` does to the frame counters: an accepted frame
increments `processed_frames` only, a rejected frame increments `dropped_frames` and the
one cause counter that belongs to its status code. -/
def counts_one (code : ErrorCode) (d d2 : Diagnostics) : Prop :=
  (code = ErrorCode.Ok ∧
    d2.processed_frames = (d.processed_frames + 1) % 2 ^ 64 ∧
    d2.dropped_frames = d.dropped_frames ∧
    d2.out_of_order_frames = d.out_of_order_frames ∧
    d2.missing_state_frames = d.missing_state_frames ∧
    d2.invalid_input_frames = d.invalid_input_frames) ∨
  (code = ErrorCode.OutOfOrderTimestamp ∧
    d2.processed_frames = d.processed_frames ∧
    d2.dropped_frames = (d.dropped_frames + 1) % 2 ^ 64 ∧
    d2.out_of_order_frames = (d.out_of_order_frames + 1) % 2 ^ 64 ∧
    d2.missing_state_frames = d.missing_state_frames ∧
    d2.invalid_input_frames = d.invalid_input_frames) ∨
  (code = ErrorCode.MissingVehicleState ∧
    d2.processed_frames = d.processed_frames ∧
    d2.dropped_frames = (d.dropped_frames + 1) % 2 ^ 64 ∧
    d2.out_of_order_frames = d.out_of_order_frames ∧
    d2.missing_state_frames = (d.missing_state_frames + 1) % 2 ^ 64 ∧
    d2.invalid_input_frames = d.invalid_input_frames) ∨
  (code = ErrorCode.InvalidInput ∧
    d2.processed_frames = d.processed_frames ∧
    d2.dropped_frames = (d.dropped_frames + 1) % 2 ^ 64 ∧
    d2.out_of_order_frames = d.out_of_order_frames ∧
    d2.missing_state_frames = d.missing_state_frames ∧
    d2.invalid_input_frames = (d.invalid_input_frames + 1) % 2 ^ 64)

/-- The determinant `d0.x * d1.y - d0.y * d1.x` of two ray directions. -/
def ray_det (d0 d1 : Detection) : ℚ := d0.1 * d1.2 - d0.2 * d1.1

/-- The parameter `t` of the crossing point on the ray `(p0, d0)`, in exact arithmetic. -/
def ray_param_t (p0 d0 p1 d1 : Detection) : ℚ :=
  ((p1.1 - p0.1) * d1.2 - (p1.2 - p0.2) * d1.1) / ray_det d0 d1

/-- The parameter `u` of the crossing point on the ray `(p1, d1)`, in exact arithmetic. -/
def ray_param_u (p0 d0 p1 d1 : Detection) : ℚ :=
  ((p1.1 - p0.1) * d0.2 - (p1.2 - p0.2) * d0.1) / ray_det d0 d1

/-- The vector `(vx, vy)` that `tracing_detection_from_signal_way` sums up for the sensor
pair `(tx, rx)` before it rescales it: the two sensor headings, each of length
`distance_m`, added. -/
def heading_sum (m : Libm) (sw : SignalWay) (tx rx : Int) : ℚ × ℚ :=
  (m.cos (sensor_at tx).mounting_rad * sw.distance_m +
      m.cos (sensor_at rx).mounting_rad * sw.distance_m,
   m.sin (sensor_at tx).mounting_rad * sw.distance_m +
      m.sin (sensor_at rx).mounting_rad * sw.distance_m)

/-- The value `norm` of `tracing_detection_from_signal_way`: the library square root of the
squared length of the summed vector. -/
def heading_norm (m : Libm) (sw : SignalWay) (tx rx : Int) : ℚ :=
  m.sqrt ((heading_sum m sw tx rx).1 * (heading_sum m sw tx rx).1 +
    (heading_sum m sw tx rx).2 * (heading_sum m sw tx rx).2)

/-- The midpoint of the sensor pair `(tx, rx)`. -/
def pair_midpoint (tx rx : Int) : ℚ × ℚ :=
  ((1 / 2) * ((sensor_at tx).x_m + (sensor_at rx).x_m),
   (1 / 2) * ((sensor_at tx).y_m + (sensor_at rx).y_m))

/-- A signal-way at 0.5 m sent and received by sensor 0. -/
def sw_half : SignalWay :=
  { timestamp_us := 1500, distance_m := 1 / 2, group_id := 0, signal_way_id := 0 }

/-- Twice the signed area of the triangle `a`, `b`, `c`: positive exactly when `c` lies
strictly to the left of the directed line from `a` to `b`. -/
def left_turn (a b c : ℚ × ℚ) : ℚ := (b.1 - a.1) * (c.2 - a.2) - (b.2 - a.2) * (c.1 - a.1)

/-- Vertex `i` of the contour ring, the index taken modulo the number of vertices. -/
def contour_vertex (i : Nat) : ℚ × ℚ := kDefaultContour.getD (i % kDefaultContour.length) (0, 0)

/-- The position of a sensor. -/
def SensorPose.position (s : SensorPose) : ℚ × ℚ := (s.x_m, s.y_m)

/-- The contour table in millimetres. -/
def contour_mm : List (Int × Int) :=
  [(-775, 822), (-956, 710), (-1090, 250), (-1090, -250), (-956, -710), (-775, -822),
   (3238, -913), (3600, -715), (3804, -276), (3804, 276), (3600, 715), (3238, 913)]

/-- The function `left_turn` on points in millimetres. -/
def left_turn_mm (a b c : Int × Int) : Int :=
  (b.1 - a.1) * (c.2 - a.2) - (b.2 - a.2) * (c.1 - a.1)

/-- A point in millimetres as a point in metres. -/
def of_mm (v : Int × Int) : ℚ × ℚ := ((v.1 : ℚ) / 1000, (v.2 : ℚ) / 1000)

/-- A signal-way at 2 m of the front group whose id 16 encodes no sensor pair. -/
def sw_undecodable : SignalWay :=
  { timestamp_us := 1500, distance_m := 2, group_id := 0, signal_way_id := 16 }

/-- The function sampled by `collect_ellipse_intersections_traverse` for the pair
`(mi, mj)`: the implicit value `F` of `mj` at the point of `mi` with parameter `t`. -/
def crossing_value (m : Libm) (mi mj : EllipseModel) (t : ℚ) : ℚ :=
  ellipse_implicit_value m mj (ellipse_point m mi t).1 (ellipse_point m mi t).2

/-- The state `(out, prev_t, prev_v)` of the sample loop of the traverse collector before
sample `s`, for the pair `(mi, mj)` entered with the vector `out`. -/
def traverse_state (m : Libm) (mi mj : EllipseModel) (out : List Detection) (s : Nat) :
    List Detection × ℚ × ℚ :=
  (List.range' 1 (s - 1)).foldl (traverse_sample_step m mi mj) (out, 0, crossing_value m mi mj 0)

/-- The state `(lo, hi, prev_v)` of the bisection loop after `k` iterations, started on the
interval between the samples `s - 1` and `s`. -/
def bisect_state (m : Libm) (mi mj : EllipseModel) (s k : Nat) : ℚ × ℚ × ℚ :=
  (List.range k).foldl (bisect_step m mi mj)
    (sample_param (s - 1), sample_param s, crossing_value m mi mj (sample_param (s - 1)))

/-- The bracket kept by the bisection loop, after `k` iterations on the interval between
the samples `s - 1` and `s`: the ends are ordered and inside the sample interval,
`prev_v` is the value of `F` at the lower end, `F` has weakly opposite signs at the two
ends, and the width is the sample spacing halved `k` times. -/
def bracket (m : Libm) (mi mj : EllipseModel) (s k : Nat) (b : ℚ × ℚ × ℚ) : Prop :=
  b.1 ≤ b.2.1 ∧ sample_param (s - 1) ≤ b.1 ∧ b.2.1 ≤ sample_param s ∧
  b.2.2 = crossing_value m mi mj b.1 ∧
  sign_change (crossing_value m mi mj b.1) (crossing_value m mi mj b.2.1) = true ∧
  b.2.1 - b.1 = (2 * pi_d / 360) / 2 ^ k

/-- Two points are at distance at most `r`, in exact arithmetic: `r` is not negative and
the squared distance is at most `r * r`. -/
def dist_le (p q : Detection) (r : ℚ) : Prop :=
  0 ≤ r ∧ (p.1 - q.1) * (p.1 - q.1) + (p.2 - q.2) * (p.2 - q.2) ≤ r * r

/-- An edge of the threshold graph of an input list: two input points (given by their
indices) at distance at most `r`. -/
def linked (inp : List Detection) (r : ℚ) (a b : Nat) : Prop :=
  a < inp.length ∧ b < inp.length ∧ dist_le (inp.getD a (0, 0)) (inp.getD b (0, 0)) r

/-- Two input points are joined by a chain of input points whose consecutive members are
at distance at most `r`. -/
def joined (inp : List Detection) (r : ℚ) : Nat → Nat → Prop :=
  Relation.ReflTransGen (linked inp r)

/-- An entry of the adjacency matrix between two input points is set. -/
def near (inp : List Detection) (radius_sq : ℚ) (a b : Nat) : Prop :=
  a < inp.length ∧ b < inp.length ∧ adjacency inp radius_sq a b = true

/-- Every point labelled `c` is joined to the point `seed` by a chain of set entries of the
adjacency matrix. -/
def grown_from (inp : List Detection) (radius_sq : ℚ) (c seed : Nat) (ids : List Nat) : Prop :=
  ∀ j, ids.getD j 0 = c → Relation.ReflTransGen (near inp radius_sq) seed j

/-- No point labelled `c` has an unlabelled neighbour. -/
def settled (inp : List Detection) (radius_sq : ℚ) (c : Nat) (ids : List Nat) : Prop :=
  ∀ a, a < inp.length → ids.getD a 0 = c →
    ∀ b, b < inp.length → adjacency inp radius_sq a b = true → ids.getD b 0 ≠ 0

/-- The invariant of the outer labelling loop that makes the labels the connected
components: a labelled point shares its label with every neighbour, points with the same
label are joined by a chain, and every label in use has a first point, before which all
points carry smaller labels. -/
def comp_inv (inp : List Detection) (radius_sq : ℚ) (st : List Nat × Nat) : Prop :=
  (∀ a b, a < inp.length → b < inp.length → st.1.getD a 0 ≠ 0 →
    adjacency inp radius_sq a b = true → st.1.getD b 0 = st.1.getD a 0) ∧
  (∀ a b, a < inp.length → b < inp.length → st.1.getD a 0 ≠ 0 →
    st.1.getD a 0 = st.1.getD b 0 → Relation.ReflTransGen (near inp radius_sq) a b) ∧
  (∀ c, 1 ≤ c → c < st.2 → ∃ s, s < inp.length ∧ st.1.getD s 0 = c ∧
    ∀ j, j < s → 1 ≤ st.1.getD j 0 ∧ st.1.getD j 0 < c)

/-- Three points for the examples: the first and the third 0.1 m apart, the second far
from both. -/
def points_three : List Detection := [(0, 0), (5, 5), (1 / 10, 0)]

/-- Two points 0.5 m apart. -/
def points_half : List Detection := [(0, 0), (1 / 2, 0)]

/-- The point `s` is the first one labelled `c`. -/
def first_member (ids : List Nat) (c s : Nat) : Prop :=
  ids.getD s 0 = c ∧ ∀ j, j < s → ids.getD j 0 ≠ c

/-- The squared distance of two points is above `s`. -/
def farther_sq (s : ℚ) (a b : Detection) : Prop :=
  (a.1 - b.1) * (a.1 - b.1) + (a.2 - b.2) * (a.2 - b.2) > s

/-- Two points 1 m apart. -/
def points_unit : List Detection := [(1, 1), (1, 2)]

/-- The value `sensor_distance` computed by `build_ellipse_from_signal_way_over` for the
sensor pair `(tx, rx)`. -/
def sensor_baseline_over {K : Type} [LinearOrderedField K] (m : LibmOver K) (tx rx : Int) : K :=
  m.sqrt ((((sensor_at rx).x_m : K) - ((sensor_at tx).x_m : K)) *
      (((sensor_at rx).x_m : K) - ((sensor_at tx).x_m : K)) +
    (((sensor_at rx).y_m : K) - ((sensor_at tx).y_m : K)) *
      (((sensor_at rx).y_m : K) - ((sensor_at tx).y_m : K)))

/-- The focal distance of an ellipse model as the library computes it:
`sqrt (a^2 - b_ax^2)`. -/
def focal_distance_over {K : Type} [LinearOrderedField K] (m : LibmOver K)
    (e : EllipseModelOver K) : K :=
  m.sqrt (e.axis_a * e.axis_a - e.axis_b * e.axis_b)

/-- The library over the real numbers is the mathematical one: `sqrt`, `cos` and `sin` are
the real square root, cosine and sine, and `atan2 (y, x)` is the angle of the point
`(x, y)` in `(-pi, pi]`, which is 0 at the origin. -/
def real_library (mr : LibmOver ℝ) : Prop :=
  (∀ x, mr.sqrt x = Real.sqrt x) ∧ (∀ x, mr.cos x = Real.cos x) ∧
  (∀ x, mr.sin x = Real.sin x) ∧ (∀ y x, mr.atan2 y x = Complex.arg ⟨x, y⟩)

/-- The signal-way of the second example: 0.5 m on the front pair `(0, 1)` (id 1), whose
sensors are at a distance that is not a rational number. -/
def sw_pair01 : SignalWay :=
  { timestamp_us := 1500, distance_m := 1 / 2, group_id := 0, signal_way_id := 1 }

/-! # Verification -/

/-! ## Machine arithmetic and the exits of `process_frame` -/

/-- Without wrap-around, unsigned subtraction is the plain difference. -/
theorem sub64_of_le (x y : Nat) (hy : y ≤ x) (hx : x < 2 ^ 64) : sub64 x y = x - y := by
  unfold sub64
  have h1 : x + 2 ^ 64 - y = (x - y) + 2 ^ 64 := by omega
  rw [h1, Nat.add_mod_right]
  exact Nat.mod_eq_of_lt (by omega)

/-- The timestamp guard of `process_frame` as a proposition. -/
theorem timestamp_guard_iff (p : UltrasoundProcessor) (input : FrameInput) :
    (p.config_.strict_monotonic_timestamps && decide (input.timestamp_us ≤ p.last_timestamp_us_)) = true ↔
      (p.config_.strict_monotonic_timestamps = true ∧ input.timestamp_us ≤ p.last_timestamp_us_) := by
  simp

/-- The input guard of `process_frame` as a proposition. -/
theorem input_guard_iff (input : FrameInput) :
    (input.signal_ways.isEmpty && input.static_features.isEmpty) = true ↔
      (input.signal_ways = [] ∧ input.static_features = []) := by
  simp [List.isEmpty_iff]

/-- First exit of `process_frame`: the timestamp guard fires. -/
theorem process_frame_out_of_order (pp : PostProcess) (clock : StageTimingUs)
    (p : UltrasoundProcessor) (input : FrameInput)
    (h1 : p.config_.strict_monotonic_timestamps = true ∧ input.timestamp_us ≤ p.last_timestamp_us_) :
    process_frame pp clock p input =
      ({ p with diagnostics_ :=
          { p.diagnostics_ with
              last_stage_timing_us := StageTimingUs.zero
              dropped_frames := incr64 p.diagnostics_.dropped_frames
              out_of_order_frames := incr64 p.diagnostics_.out_of_order_frames } },
       Status.fail ErrorCode.OutOfOrderTimestamp "frame timestamp out of order") := by
  unfold process_frame
  rw [if_pos ((timestamp_guard_iff p input).mpr h1)]

/-- Second exit of `process_frame`: the input guard fires. -/
theorem process_frame_invalid_input (pp : PostProcess) (clock : StageTimingUs)
    (p : UltrasoundProcessor) (input : FrameInput)
    (h1 : ¬ (p.config_.strict_monotonic_timestamps = true ∧ input.timestamp_us ≤ p.last_timestamp_us_))
    (h2 : input.signal_ways = [] ∧ input.static_features = []) :
    process_frame pp clock p input =
      ({ p with diagnostics_ :=
          { p.diagnostics_ with
              last_stage_timing_us := StageTimingUs.zero
              dropped_frames := incr64 p.diagnostics_.dropped_frames
              invalid_input_frames := incr64 p.diagnostics_.invalid_input_frames } },
       Status.fail ErrorCode.InvalidInput "frame has no signal ways or static features") := by
  unfold process_frame
  rw [if_neg (fun h => h1 ((timestamp_guard_iff p input).mp h)),
    if_pos ((input_guard_iff input).mpr h2)]

/-- Third exit of `process_frame`: no pose is available. -/
theorem process_frame_missing_state (pp : PostProcess) (clock : StageTimingUs)
    (p : UltrasoundProcessor) (input : FrameInput)
    (h1 : ¬ (p.config_.strict_monotonic_timestamps = true ∧ input.timestamp_us ≤ p.last_timestamp_us_))
    (h2 : ¬ (input.signal_ways = [] ∧ input.static_features = []))
    (h3 : interpolate_pose p.state_queue_ input.timestamp_us = none) :
    process_frame pp clock p input =
      ({ p with diagnostics_ :=
          { p.diagnostics_ with
              last_stage_timing_us := StageTimingUs.zero
              dropped_frames := incr64 p.diagnostics_.dropped_frames
              missing_state_frames := incr64 p.diagnostics_.missing_state_frames } },
       Status.fail ErrorCode.MissingVehicleState "no vehicle state available for frame") := by
  unfold process_frame
  rw [if_neg (fun h => h1 ((timestamp_guard_iff p input).mp h)),
    if_neg (fun h => h2 ((input_guard_iff input).mp h))]
  simp only [h3]

/-- The successful path of `process_frame`. -/
theorem process_frame_success (pp : PostProcess) (clock : StageTimingUs)
    (p : UltrasoundProcessor) (input : FrameInput) (pose : Pose2d)
    (h1 : ¬ (p.config_.strict_monotonic_timestamps = true ∧ input.timestamp_us ≤ p.last_timestamp_us_))
    (h2 : ¬ (input.signal_ways = [] ∧ input.static_features = []))
    (h3 : interpolate_pose p.state_queue_ input.timestamp_us = some pose) :
    process_frame pp clock p input =
      ({ p with
          last_output_ := some
            { timestamp_us := input.timestamp_us
              observation_pose := pose
              signal_ways :=
                (filter_signal_ways p.config_ input.signal_ways p.diagnostics_.filtered_signal_ways).1
              static_features := copy_valid StaticFeature.valid input.static_features
              dynamic_features := copy_valid DynamicFeature.valid input.dynamic_features
              line_marks := copy_valid LineMark.valid input.line_marks
              grid_map := input.grid_map
              processed := pp p.config_
                (filter_signal_ways p.config_ input.signal_ways p.diagnostics_.filtered_signal_ways).1 }
          last_timestamp_us_ := input.timestamp_us
          diagnostics_ :=
            { p.diagnostics_ with
                filtered_signal_ways :=
                  (filter_signal_ways p.config_ input.signal_ways p.diagnostics_.filtered_signal_ways).2
                processed_frames := incr64 p.diagnostics_.processed_frames
                clustered_detections := add64 p.diagnostics_.clustered_detections
                  (pp p.config_ (filter_signal_ways p.config_ input.signal_ways
                    p.diagnostics_.filtered_signal_ways).1).clustered.length
                last_stage_timing_us := clock
                cumulative_stage_timing_us :=
                  StageTimingUs.accumulate p.diagnostics_.cumulative_stage_timing_us clock } },
       Status.ok) := by
  unfold process_frame
  rw [if_neg (fun h => h1 ((timestamp_guard_iff p input).mp h)),
    if_neg (fun h => h2 ((input_guard_iff input).mp h))]
  simp only [h3]

/-- The status code of `process_frame`, by the order of its three guards. -/
theorem process_frame_code (pp : PostProcess) (clock : StageTimingUs) (p : UltrasoundProcessor)
    (input : FrameInput) :
    (process_frame pp clock p input).2.code =
      if p.config_.strict_monotonic_timestamps = true ∧ input.timestamp_us ≤ p.last_timestamp_us_ then
        ErrorCode.OutOfOrderTimestamp
      else if input.signal_ways = [] ∧ input.static_features = [] then ErrorCode.InvalidInput
      else if interpolate_pose p.state_queue_ input.timestamp_us = none then
        ErrorCode.MissingVehicleState
      else ErrorCode.Ok := by
  by_cases h1 : p.config_.strict_monotonic_timestamps = true ∧ input.timestamp_us ≤ p.last_timestamp_us_
  · rw [process_frame_out_of_order pp clock p input h1, if_pos h1]; rfl
  · by_cases h2 : input.signal_ways = [] ∧ input.static_features = []
    · rw [process_frame_invalid_input pp clock p input h1 h2, if_neg h1, if_pos h2]; rfl
    · cases h3 : interpolate_pose p.state_queue_ input.timestamp_us with
      | none =>
        rw [process_frame_missing_state pp clock p input h1 h2 h3, if_neg h1, if_neg h2]; rfl
      | some pose =>
        rw [process_frame_success pp clock p input pose h1 h2 h3, if_neg h1, if_neg h2]
        simp [Status.ok]

/-- The configuration is immutable under `process_frame`. -/
theorem process_frame_config (pp : PostProcess) (clock : StageTimingUs)
    (p : UltrasoundProcessor) (input : FrameInput) :
    (process_frame pp clock p input).1.config_ = p.config_ := by
  by_cases h1 : p.config_.strict_monotonic_timestamps = true ∧ input.timestamp_us ≤ p.last_timestamp_us_
  · rw [process_frame_out_of_order pp clock p input h1]
  · by_cases h2 : input.signal_ways = [] ∧ input.static_features = []
    · rw [process_frame_invalid_input pp clock p input h1 h2]
    · cases h3 : interpolate_pose p.state_queue_ input.timestamp_us with
      | none => rw [process_frame_missing_state pp clock p input h1 h2 h3]
      | some pose => rw [process_frame_success pp clock p input pose h1 h2 h3]

/-- The ego-pose buffer is not touched by `process_frame`. -/
theorem process_frame_state_queue (pp : PostProcess) (clock : StageTimingUs)
    (p : UltrasoundProcessor) (input : FrameInput) :
    (process_frame pp clock p input).1.state_queue_ = p.state_queue_ := by
  by_cases h1 : p.config_.strict_monotonic_timestamps = true ∧ input.timestamp_us ≤ p.last_timestamp_us_
  · rw [process_frame_out_of_order pp clock p input h1]
  · by_cases h2 : input.signal_ways = [] ∧ input.static_features = []
    · rw [process_frame_invalid_input pp clock p input h1 h2]
    · cases h3 : interpolate_pose p.state_queue_ input.timestamp_us with
      | none => rw [process_frame_missing_state pp clock p input h1 h2 h3]
      | some pose => rw [process_frame_success pp clock p input pose h1 h2 h3]

/-- What an accepted frame guarantees: all three guards were passed. -/
theorem process_frame_ok_guards (pp : PostProcess) (clock : StageTimingUs)
    (p : UltrasoundProcessor) (input : FrameInput)
    (h : (process_frame pp clock p input).2.code = ErrorCode.Ok) :
    ¬ (p.config_.strict_monotonic_timestamps = true ∧ input.timestamp_us ≤ p.last_timestamp_us_) ∧
    ¬ (input.signal_ways = [] ∧ input.static_features = []) ∧
    ∃ pose, interpolate_pose p.state_queue_ input.timestamp_us = some pose := by
  rw [process_frame_code] at h
  by_cases h1 : p.config_.strict_monotonic_timestamps = true ∧ input.timestamp_us ≤ p.last_timestamp_us_
  · rw [if_pos h1] at h; exact absurd h (by decide)
  · rw [if_neg h1] at h
    by_cases h2 : input.signal_ways = [] ∧ input.static_features = []
    · rw [if_pos h2] at h; exact absurd h (by decide)
    · rw [if_neg h2] at h
      cases h3 : interpolate_pose p.state_queue_ input.timestamp_us with
      | none => rw [if_pos h3] at h; exact absurd h (by decide)
      | some pose => exact ⟨h1, h2, pose, rfl⟩

/-- A failed `process_frame` changes nothing but the diagnostics. -/
theorem process_frame_failure_state (pp : PostProcess) (clock : StageTimingUs)
    (p : UltrasoundProcessor) (input : FrameInput)
    (h : (process_frame pp clock p input).2.code ≠ ErrorCode.Ok) :
    (process_frame pp clock p input).1 =
      { p with diagnostics_ := (process_frame pp clock p input).1.diagnostics_ } := by
  by_cases h1 : p.config_.strict_monotonic_timestamps = true ∧ input.timestamp_us ≤ p.last_timestamp_us_
  · rw [process_frame_out_of_order pp clock p input h1]
  · by_cases h2 : input.signal_ways = [] ∧ input.static_features = []
    · rw [process_frame_invalid_input pp clock p input h1 h2]
    · cases h3 : interpolate_pose p.state_queue_ input.timestamp_us with
      | none => rw [process_frame_missing_state pp clock p input h1 h2 h3]
      | some pose =>
        exfalso; apply h
        rw [process_frame_success pp clock p input pose h1 h2 h3]; rfl

/-! ## The signal-way loop -/

/-- The signal-way loop, from any accumulator: it appends the kept signal-ways in
order and increments the counter once per discarded signal-way. -/
theorem foldl_signal_way_step (cfg : ProcessorConfig) (l : List SignalWay)
    (acc : List SignalWay) (c : Nat) :
    l.foldl (signal_way_step cfg) (acc, c) =
      (acc ++ l.filter (signal_way_kept cfg),
       incr64^[l.length - (l.filter (signal_way_kept cfg)).length] c) := by
  induction l generalizing acc c with
  | nil => simp
  | cons sw l ih =>
    have hle : (l.filter (signal_way_kept cfg)).length ≤ l.length := List.length_filter_le _ _
    by_cases hk : signal_way_kept cfg sw = true
    · simp [List.foldl_cons, signal_way_step, hk, ih, List.filter_cons]
    · have hk2 : signal_way_kept cfg sw = false := by simpa using hk
      simp only [List.foldl_cons, signal_way_step, hk2, ih, List.filter_cons, List.length_cons]
      have : l.length + 1 - (l.filter (signal_way_kept cfg)).length =
          (l.length - (l.filter (signal_way_kept cfg)).length) + 1 := by omega
      simp [this, Function.iterate_succ_apply]

/-- Incrementing a 64-bit counter `k` times adds `k` modulo `2^64`. -/
theorem iterate_incr64 (k c : Nat) (hc : c < 2 ^ 64) : incr64^[k] c = (c + k) % 2 ^ 64 := by
  induction k with
  | zero => simpa using (Nat.mod_eq_of_lt hc).symm
  | succ k ih =>
    rw [Function.iterate_succ_apply', ih]
    unfold incr64
    omega

/-- The kept signal-ways are the filter of the input, whatever the counter. -/
theorem filter_signal_ways_fst (cfg : ProcessorConfig) (l : List SignalWay) (c : Nat) :
    (filter_signal_ways cfg l c).1 = l.filter (signal_way_kept cfg) := by
  unfold filter_signal_ways
  rw [foldl_signal_way_step]
  simp

/-- The counter after the signal-way loop. -/
theorem filter_signal_ways_snd (cfg : ProcessorConfig) (l : List SignalWay) (c : Nat)
    (hc : c < 2 ^ 64) :
    (filter_signal_ways cfg l c).2 =
      (c + (l.length - (filter_signal_ways cfg l c).1.length)) % 2 ^ 64 := by
  rw [filter_signal_ways_fst]
  unfold filter_signal_ways
  rw [foldl_signal_way_step]
  exact iterate_incr64 _ c hc

/-! ## Independence from the diagnostics -/

/-- The status and what `process_frame` publishes do not read the diagnostics. -/
theorem process_frame_diag_irrelevant (pp : PostProcess) (clock : StageTimingUs)
    (p : UltrasoundProcessor) (d : Diagnostics) (input : FrameInput) :
    (process_frame pp clock { p with diagnostics_ := d } input).2 = (process_frame pp clock p input).2 ∧
    (process_frame pp clock { p with diagnostics_ := d } input).1.last_output_ =
      (process_frame pp clock p input).1.last_output_ ∧
    (process_frame pp clock { p with diagnostics_ := d } input).1.last_timestamp_us_ =
      (process_frame pp clock p input).1.last_timestamp_us_ ∧
    (process_frame pp clock { p with diagnostics_ := d } input).1.state_queue_ =
      (process_frame pp clock p input).1.state_queue_ := by
  by_cases h1 : p.config_.strict_monotonic_timestamps = true ∧ input.timestamp_us ≤ p.last_timestamp_us_
  · rw [process_frame_out_of_order pp clock { p with diagnostics_ := d } input h1,
      process_frame_out_of_order pp clock p input h1]
    exact ⟨rfl, rfl, rfl, rfl⟩
  · by_cases h2 : input.signal_ways = [] ∧ input.static_features = []
    · rw [process_frame_invalid_input pp clock { p with diagnostics_ := d } input h1 h2,
        process_frame_invalid_input pp clock p input h1 h2]
      exact ⟨rfl, rfl, rfl, rfl⟩
    · cases h3 : interpolate_pose p.state_queue_ input.timestamp_us with
      | none =>
        rw [process_frame_missing_state pp clock { p with diagnostics_ := d } input h1 h2 h3,
          process_frame_missing_state pp clock p input h1 h2 h3]
        exact ⟨rfl, rfl, rfl, rfl⟩
      | some pose =>
        rw [process_frame_success pp clock { p with diagnostics_ := d } input pose h1 h2 h3,
          process_frame_success pp clock p input pose h1 h2 h3]
        simp [filter_signal_ways_fst]

/-- The buffer and the status of `push_vehicle_state` do not read the diagnostics. -/
theorem push_vehicle_state_diag_irrelevant (p : UltrasoundProcessor) (d : Diagnostics)
    (s : VehicleState) :
    (push_vehicle_state { p with diagnostics_ := d } s).2 = (push_vehicle_state p s).2 ∧
    (push_vehicle_state { p with diagnostics_ := d } s).1.state_queue_ =
      (push_vehicle_state p s).1.state_queue_ := by
  unfold push_vehicle_state
  cases hq : p.state_queue_.getLast? with
  | none => simp [hq]
  | some back =>
    by_cases hle : s.timestamp_us ≤ back.timestamp_us <;> simp [hq, hle]

/-! ## `push_vehicle_state` and the buffer invariant -/

/-- The eviction loop keeps the newest `kMaxQueue` entries. -/
theorem trim_queue_eq_drop (q : List VehicleState) :
    trim_queue q = q.drop (q.length - kMaxQueue) := by
  induction q with
  | nil => rfl
  | cons x xs ih =>
    unfold trim_queue
    by_cases h : (x :: xs).length > kMaxQueue
    · rw [if_pos h, ih]
      have hlen : (x :: xs).length - kMaxQueue = (xs.length - kMaxQueue) + 1 := by
        simp only [List.length_cons] at h ⊢; omega
      rw [hlen, List.drop_succ_cons]
    · rw [if_neg h]
      have hlen : (x :: xs).length - kMaxQueue = 0 := by omega
      rw [hlen, List.drop_zero]

/-- The buffer after a successful push. -/
theorem push_vehicle_state_ok_queue (p : UltrasoundProcessor) (s : VehicleState)
    (h : (push_vehicle_state p s).2.code = ErrorCode.Ok) :
    (push_vehicle_state p s).1.state_queue_ = trim_queue (p.state_queue_ ++ [s]) := by
  revert h
  unfold push_vehicle_state
  cases hq : p.state_queue_.getLast? with
  | none => simp
  | some back =>
    by_cases hle : s.timestamp_us ≤ back.timestamp_us
    · simp [hle, Status.fail]
    · simp [hle]

/-- The status code of `push_vehicle_state`. -/
theorem push_vehicle_state_code (p : UltrasoundProcessor) (s : VehicleState) :
    (push_vehicle_state p s).2.code =
      if ∃ back, p.state_queue_.getLast? = some back ∧ s.timestamp_us ≤ back.timestamp_us then
        ErrorCode.InvalidInput
      else ErrorCode.Ok := by
  unfold push_vehicle_state
  cases hq : p.state_queue_.getLast? with
  | none => simp [Status.ok]
  | some back =>
    by_cases hle : s.timestamp_us ≤ back.timestamp_us
    · simp [hle, Status.fail]
    · simp [hle, Status.ok]

/-- A rejected push returns the processor as it was. -/
theorem push_vehicle_state_fail_state (p : UltrasoundProcessor) (s : VehicleState)
    (h : (push_vehicle_state p s).2.code ≠ ErrorCode.Ok) : (push_vehicle_state p s).1 = p := by
  revert h
  unfold push_vehicle_state
  cases hq : p.state_queue_.getLast? with
  | none => simp [Status.ok]
  | some back =>
    by_cases hle : s.timestamp_us ≤ back.timestamp_us
    · simp [hle]
    · simp [hle, Status.ok]

/-- Only the buffer is written by `push_vehicle_state`. -/
theorem push_vehicle_state_frame (p : UltrasoundProcessor) (s : VehicleState) :
    (push_vehicle_state p s).1.config_ = p.config_ ∧
    (push_vehicle_state p s).1.last_timestamp_us_ = p.last_timestamp_us_ ∧
    (push_vehicle_state p s).1.last_output_ = p.last_output_ ∧
    (push_vehicle_state p s).1.diagnostics_ = p.diagnostics_ := by
  unfold push_vehicle_state
  cases hq : p.state_queue_.getLast? with
  | none => simp
  | some back =>
    by_cases hle : s.timestamp_us ≤ back.timestamp_us <;> simp [hle]

/-- In a monotonic buffer every entry is the newest one or older than it. -/
theorem buffer_monotonic_le_back (q : List VehicleState) (back : VehicleState)
    (hm : buffer_monotonic q) (hb : q.getLast? = some back) :
    ∀ a ∈ q, a = back ∨ a.timestamp_us < back.timestamp_us := by
  obtain ⟨ys, rfl⟩ := List.getLast?_eq_some_iff.mp hb
  intro a ha
  rcases List.mem_append.mp ha with h | h
  · right
    exact (List.pairwise_append.mp hm).2.2 a h back (List.mem_singleton.mpr rfl)
  · left
    exact List.mem_singleton.mp h

/-- A successful push keeps the buffer monotonic and within `kMaxQueue` entries. -/
theorem push_vehicle_state_invariant (p : UltrasoundProcessor) (s : VehicleState)
    (hm : buffer_monotonic p.state_queue_) (hl : p.state_queue_.length ≤ kMaxQueue) :
    buffer_monotonic (push_vehicle_state p s).1.state_queue_ ∧
    (push_vehicle_state p s).1.state_queue_.length ≤ kMaxQueue := by
  by_cases hok : (push_vehicle_state p s).2.code = ErrorCode.Ok
  · rw [push_vehicle_state_ok_queue p s hok, trim_queue_eq_drop]
    constructor
    · have happ : buffer_monotonic (p.state_queue_ ++ [s]) := by
        unfold buffer_monotonic
        rw [List.pairwise_append]
        refine ⟨hm, List.pairwise_singleton _ _, ?_⟩
        intro a ha b hb
        rw [List.mem_singleton.mp hb]
        cases hq : p.state_queue_.getLast? with
        | none =>
          rw [List.getLast?_eq_none_iff] at hq
          rw [hq] at ha
          cases ha
        | some back =>
          have hlt : back.timestamp_us < s.timestamp_us := by
            rw [push_vehicle_state_code] at hok
            by_cases hex : ∃ back, p.state_queue_.getLast? = some back ∧
                s.timestamp_us ≤ back.timestamp_us
            · rw [if_pos hex] at hok; exact absurd hok (by decide)
            · exact Nat.lt_of_not_le (fun hle => hex ⟨back, hq, hle⟩)
          rcases buffer_monotonic_le_back _ back hm hq a ha with rfl | h
          · exact hlt
          · omega
      exact List.Pairwise.sublist (List.drop_sublist _ _) happ
    · simp only [List.length_drop, List.length_append, List.length_singleton]
      omega
  · rw [push_vehicle_state_fail_state p s hok]
    exact ⟨hm, hl⟩

/-- The buffer invariant holds along every call sequence. -/
theorem run_invariant (pp : PostProcess) (calls : List Call) (p : UltrasoundProcessor)
    (hm : buffer_monotonic p.state_queue_) (hl : p.state_queue_.length ≤ kMaxQueue) :
    buffer_monotonic (run pp p calls).state_queue_ ∧
    (run pp p calls).state_queue_.length ≤ kMaxQueue := by
  induction calls generalizing p with
  | nil => exact ⟨hm, hl⟩
  | cons c cs ih =>
    cases c with
    | push s =>
      have h := push_vehicle_state_invariant p s hm hl
      exact ih _ h.1 h.2
    | frame clock input =>
      apply ih
      · show buffer_monotonic (process_frame pp clock p input).1.state_queue_
        rw [process_frame_state_queue]; exact hm
      · show (process_frame pp clock p input).1.state_queue_.length ≤ kMaxQueue
        rw [process_frame_state_queue]; exact hl

/-! ## `interpolate_pose` -/

/-- When the search loop of `interpolate_pose` runs off the end, every entry it
visited is older than the query. -/
theorem interpolate_loop_none (ts : Nat) (prev : VehicleState) (rest : List VehicleState)
    (h : interpolate_loop ts prev rest = none) : ∀ x ∈ rest, x.timestamp_us < ts := by
  induction rest generalizing prev with
  | nil => intro x hx; cases hx
  | cons next rest ih =>
    unfold interpolate_loop at h
    by_cases hle : ts ≤ next.timestamp_us
    · rw [if_pos hle] at h; cases h
    · rw [if_neg hle] at h
      intro x hx
      rcases List.mem_cons.mp hx with rfl | hx
      · omega
      · exact ih next h x hx

/-- The three-way decision of `interpolate_pose` on a non-empty buffer. -/
theorem interpolate_pose_cons (front : VehicleState) (rest : List VehicleState) (ts : Nat) :
    interpolate_pose (front :: rest) ts =
      if ts ≤ front.timestamp_us then some front.pose
      else if ts ≥ ((front :: rest).getLast (List.cons_ne_nil front rest)).timestamp_us then
        some ((front :: rest).getLast (List.cons_ne_nil front rest)).pose
      else interpolate_loop ts front rest := rfl

/-- The function `interpolate_pose` returns no pose exactly on the empty buffer. -/
theorem interpolate_pose_eq_none_iff (q : List VehicleState) (ts : Nat) :
    interpolate_pose q ts = none ↔ q = [] := by
  constructor
  · intro h
    cases q with
    | nil => rfl
    | cons front rest =>
      exfalso
      unfold interpolate_pose at h
      by_cases h1 : ts ≤ front.timestamp_us
      · simp [h1] at h
      · by_cases h2 : ts ≥ ((front :: rest).getLast (List.cons_ne_nil front rest)).timestamp_us
        · simp [h1, h2] at h
        · simp only [h1, h2, if_false] at h
          have hall := interpolate_loop_none ts front rest h
          cases rest with
          | nil => simp at h2; omega
          | cons r rs =>
            have hmem : (front :: r :: rs).getLast (List.cons_ne_nil front (r :: rs)) ∈ r :: rs := by
              rw [List.getLast_cons (List.cons_ne_nil r rs)]
              exact List.getLast_mem _
            have := hall _ hmem
            omega
  · rintro rfl; rfl

/-- What the search loop of `interpolate_pose` selects: the first index `i` such that the
query is at most the timestamp of entry `i + 1`; all entries up to `i` are older than
the query. -/
theorem interpolate_loop_select (ts : Nat) (rest : List VehicleState) (prev : VehicleState)
    (hprev : prev.timestamp_us < ts) (hex : ∃ x ∈ rest, ts ≤ x.timestamp_us) :
    ∃ (i : Nat) (a b : VehicleState),
      (prev :: rest)[i]? = some a ∧ (prev :: rest)[i + 1]? = some b ∧
      ts ≤ b.timestamp_us ∧
      (∀ (j : Nat) (x : VehicleState), j ≤ i → (prev :: rest)[j]? = some x → x.timestamp_us < ts) ∧
      interpolate_loop ts prev rest = some
        { x_m := lerp (((sub64 ts a.timestamp_us : Nat) : ℚ) /
              ((sub64 b.timestamp_us a.timestamp_us : Nat) : ℚ)) a.pose.x_m b.pose.x_m
          y_m := lerp (((sub64 ts a.timestamp_us : Nat) : ℚ) /
              ((sub64 b.timestamp_us a.timestamp_us : Nat) : ℚ)) a.pose.y_m b.pose.y_m
          yaw_rad := lerp (((sub64 ts a.timestamp_us : Nat) : ℚ) /
              ((sub64 b.timestamp_us a.timestamp_us : Nat) : ℚ)) a.pose.yaw_rad b.pose.yaw_rad } := by
  induction rest generalizing prev with
  | nil =>
    obtain ⟨x, hx, _⟩ := hex
    exact absurd hx (List.not_mem_nil x)
  | cons next rest ih =>
    by_cases hle : ts ≤ next.timestamp_us
    · refine ⟨0, prev, next, rfl, by simp, hle, ?_, ?_⟩
      · intro j x hj hx
        have hj0 : j = 0 := by omega
        subst hj0
        simp only [List.getElem?_cons_zero, Option.some.injEq] at hx
        rw [← hx]; exact hprev
      · unfold interpolate_loop
        rw [if_pos hle]
    · have hnext : next.timestamp_us < ts := Nat.lt_of_not_le hle
      have hex2 : ∃ x ∈ rest, ts ≤ x.timestamp_us := by
        obtain ⟨x, hx, hxle⟩ := hex
        rcases List.mem_cons.mp hx with rfl | hx
        · exact absurd hxle hle
        · exact ⟨x, hx, hxle⟩
      obtain ⟨i, a, b, ha, hb, hble, hall, hres⟩ := ih next hnext hex2
      refine ⟨i + 1, a, b, ?_, ?_, hble, ?_, ?_⟩
      · rw [List.getElem?_cons_succ]; exact ha
      · rw [List.getElem?_cons_succ]; exact hb
      · intro j x hj hx
        cases j with
        | zero =>
          simp only [List.getElem?_cons_zero, Option.some.injEq] at hx
          rw [← hx]; exact hprev
        | succ j =>
          rw [List.getElem?_cons_succ] at hx
          exact hall j x (by omega) hx
      · unfold interpolate_loop
        rw [if_neg hle]
        exact hres

/-- Clamping of `interpolate_pose` on any buffer whose timestamps strictly increase. -/
theorem interpolate_pose_clamps_of_monotonic (q : List VehicleState) (ts : Nat)
    (front back : VehicleState) (hmono : buffer_monotonic q)
    (hf : q.head? = some front) (hb : q.getLast? = some back) :
    (ts ≤ front.timestamp_us → interpolate_pose q ts = some front.pose) ∧
    (ts ≥ back.timestamp_us → interpolate_pose q ts = some back.pose) := by
  obtain ⟨rest, rfl⟩ := List.head?_eq_some_iff.mp hf
  have hlast : (front :: rest).getLast (List.cons_ne_nil front rest) = back := by
    rw [List.getLast?_eq_getLast _ (List.cons_ne_nil front rest)] at hb
    exact Option.some.inj hb
  constructor
  · intro hle
    rw [interpolate_pose_cons, if_pos hle]
  · intro hge
    rw [interpolate_pose_cons]
    by_cases hle : ts ≤ front.timestamp_us
    · rw [if_pos hle]
      rcases buffer_monotonic_le_back _ back hmono hb front (List.mem_cons_self _ _) with h | h
      · rw [h]
      · omega
    · rw [if_neg hle, hlast, if_pos hge]

/-! ## Call sequences -/

/-- The configuration is immutable along every call sequence. -/
theorem run_config (pp : PostProcess) (calls : List Call) (p : UltrasoundProcessor) :
    (run pp p calls).config_ = p.config_ := by
  induction calls generalizing p with
  | nil => rfl
  | cons c cs ih =>
    cases c with
    | push s =>
      show (run pp (push_vehicle_state p s).1 cs).config_ = p.config_
      rw [ih, (push_vehicle_state_frame p s).1]
    | frame clock input =>
      show (run pp (process_frame pp clock p input).1 cs).config_ = p.config_
      rw [ih, process_frame_config]

/-- The comparison timestamp along a call sequence, under strict mode. -/
theorem ok_timestamps_strict (pp : PostProcess) (calls : List Call) (p : UltrasoundProcessor)
    (hs : p.config_.strict_monotonic_timestamps = true) :
    (ok_timestamps pp p calls).Pairwise (fun a b => a < b) ∧
    (∀ t ∈ ok_timestamps pp p calls, p.last_timestamp_us_ < t) ∧
    (run pp p calls).last_timestamp_us_ =
      (ok_timestamps pp p calls).getLast?.getD p.last_timestamp_us_ := by
  induction calls generalizing p with
  | nil => exact ⟨List.Pairwise.nil, fun t ht => absurd ht (List.not_mem_nil t), rfl⟩
  | cons c cs ih =>
    cases c with
    | push s =>
      have hf := push_vehicle_state_frame p s
      have h := ih (push_vehicle_state p s).1 (by rw [hf.1]; exact hs)
      rw [hf.2.1] at h
      exact h
    | frame clock input =>
      have hcfg : (process_frame pp clock p input).1.config_.strict_monotonic_timestamps = true := by
        rw [process_frame_config]; exact hs
      have h := ih (process_frame pp clock p input).1 hcfg
      by_cases hok : (process_frame pp clock p input).2.code = ErrorCode.Ok
      · have hisok : (process_frame pp clock p input).2.is_ok = true := by
          simp [Status.is_ok, hok]
        obtain ⟨h1, h2, pose, h3⟩ := process_frame_ok_guards pp clock p input hok
        have hlast : (process_frame pp clock p input).1.last_timestamp_us_ = input.timestamp_us := by
          rw [process_frame_success pp clock p input pose h1 h2 h3]
        have hgt : p.last_timestamp_us_ < input.timestamp_us :=
          Nat.lt_of_not_le (fun hle => h1 ⟨hs, hle⟩)
        rw [hlast] at h
        have hrun : run pp p (Call.frame clock input :: cs) =
            run pp (process_frame pp clock p input).1 cs := rfl
        have hts : ok_timestamps pp p (Call.frame clock input :: cs) =
            input.timestamp_us :: ok_timestamps pp (process_frame pp clock p input).1 cs := by
          simp [ok_timestamps, hisok]
        rw [hrun, hts]
        refine ⟨List.Pairwise.cons h.2.1 h.1, ?_, ?_⟩
        · intro t ht
          rcases List.mem_cons.mp ht with rfl | ht
          · exact hgt
          · exact Nat.lt_trans hgt (h.2.1 t ht)
        · rw [h.2.2]
          cases ok_timestamps pp (process_frame pp clock p input).1 cs with
          | nil => rfl
          | cons a l => simp [List.getLast?_cons_cons, List.getLast?_eq_getLast]
      · have hisok : (process_frame pp clock p input).2.is_ok = false := by
          simp [Status.is_ok, hok]
        have hlast : (process_frame pp clock p input).1.last_timestamp_us_ = p.last_timestamp_us_ := by
          rw [process_frame_failure_state pp clock p input hok]
        rw [hlast] at h
        have hrun : run pp p (Call.frame clock input :: cs) =
            run pp (process_frame pp clock p input).1 cs := rfl
        have hts : ok_timestamps pp p (Call.frame clock input :: cs) =
            ok_timestamps pp (process_frame pp clock p input).1 cs := by
          simp [ok_timestamps, hisok]
        rw [hrun, hts]
        exact h

/-! ## The filters of `process_frame` -/

/-- The group test of the code, case by case. -/
theorem group_matches_eq (filter : GroupFilter) (group_id : Nat) :
    group_matches filter group_id = code_group_accepts filter group_id := by
  unfold group_matches code_group_accepts
  by_cases h : group_id > 1
  · rw [if_pos h]
    cases filter <;> simp <;> omega
  · rw [if_neg h]
    cases filter <;> simp
    omega

/-- The copy loops of `process_frame` are order-preserving filters. -/
theorem copy_valid_eq_filter {α : Type} (valid : α → Bool) (l : List α) :
    copy_valid valid l = l.filter valid := by
  unfold copy_valid
  have h : ∀ (acc : List α), l.foldl (fun out x => if valid x then out ++ [x] else out) acc =
      acc ++ l.filter valid := by
    induction l with
    | nil => intro acc; simp
    | cons x xs ih =>
      intro acc
      by_cases hx : valid x = true
      · simp [List.foldl_cons, hx, ih, List.filter_cons]
      · simp [List.foldl_cons, hx, ih, List.filter_cons]
  simpa using h []

/-- The output stored by an accepted frame. -/
theorem process_frame_ok_output (pp : PostProcess) (clock : StageTimingUs)
    (p : UltrasoundProcessor) (input : FrameInput)
    (h : (process_frame pp clock p input).2.code = ErrorCode.Ok) :
    ∃ pose, interpolate_pose p.state_queue_ input.timestamp_us = some pose ∧
      (process_frame pp clock p input).1.last_output_ = some
        { timestamp_us := input.timestamp_us
          observation_pose := pose
          signal_ways := input.signal_ways.filter (signal_way_kept p.config_)
          static_features := input.static_features.filter StaticFeature.valid
          dynamic_features := input.dynamic_features.filter DynamicFeature.valid
          line_marks := input.line_marks.filter LineMark.valid
          grid_map := input.grid_map
          processed := pp p.config_ (input.signal_ways.filter (signal_way_kept p.config_)) } := by
  obtain ⟨h1, h2, pose, h3⟩ := process_frame_ok_guards pp clock p input h
  refine ⟨pose, h3, ?_⟩
  rw [process_frame_success pp clock p input pose h1 h2 h3]
  simp only [filter_signal_ways_fst, copy_valid_eq_filter]

/-! ## The signal-way loop of `post_process` -/

/-- The tracing stage of an iteration writes the tracing list only. -/
theorem post_tracing_fields (m : Libm) (cfg : ProcessorConfig) (st : PostState) (sw : SignalWay) :
    (post_tracing m cfg st sw).out.tracing =
      (if runs_tracing cfg.processing_method then
        st.out.tracing ++ [tracing_detection_from_signal_way m sw]
      else st.out.tracing) ∧
    (post_tracing m cfg st sw).out.fov_intersections = st.out.fov_intersections ∧
    (post_tracing m cfg st sw).out.ellipse_intersections = st.out.ellipse_intersections ∧
    (post_tracing m cfg st sw).ellipses = st.ellipses ∧
    (post_tracing m cfg st sw).fov_models = st.fov_models := by
  unfold post_tracing
  by_cases h : runs_tracing cfg.processing_method = true
  · rw [if_pos h, if_pos h]; exact ⟨rfl, rfl, rfl, rfl, rfl⟩
  · rw [if_neg h, if_neg h]; exact ⟨rfl, rfl, rfl, rfl, rfl⟩

/-- The FOV stage of an iteration writes the FOV list and the FOV models only, and
nothing when the FOV method is not selected. -/
theorem post_fov_fields (m : Libm) (cfg : ProcessorConfig) (st : PostState) (sw : SignalWay) :
    (post_fov m cfg st sw).out.tracing = st.out.tracing ∧
    (post_fov m cfg st sw).out.ellipse_intersections = st.out.ellipse_intersections ∧
    (post_fov m cfg st sw).ellipses = st.ellipses ∧
    (runs_fov cfg.processing_method = false → post_fov m cfg st sw = st) := by
  unfold post_fov
  by_cases h : runs_fov cfg.processing_method = true
  · rw [if_pos h]
    cases fov_pie_detection m sw <;> cases build_fov_model_from_signal_way m sw <;>
      exact ⟨rfl, rfl, rfl, fun hf => absurd (h.symm.trans hf) (by decide)⟩
  · rw [if_neg h]
    exact ⟨rfl, rfl, rfl, fun _ => rfl⟩

/-- The ellipse stage of an iteration writes the ellipse list and the ellipses only, and
nothing when the ellipse method is not selected. -/
theorem post_ellipse_fields (m : Libm) (cfg : ProcessorConfig) (st : PostState) (sw : SignalWay) :
    (post_ellipse m cfg st sw).out.tracing = st.out.tracing ∧
    (post_ellipse m cfg st sw).out.fov_intersections = st.out.fov_intersections ∧
    (post_ellipse m cfg st sw).fov_models = st.fov_models ∧
    (runs_ellipse cfg.processing_method = false → post_ellipse m cfg st sw = st) := by
  unfold post_ellipse
  by_cases h : runs_ellipse cfg.processing_method = true
  · rw [if_pos h]
    cases build_ellipse_from_signal_way m sw with
    | none => exact ⟨rfl, rfl, rfl, fun hf => absurd (h.symm.trans hf) (by decide)⟩
    | some e =>
      by_cases hin : (!is_inside_vehicle_contour (ellipse_point m e (3 / 10 * pi_d)).1
          (ellipse_point m e (3 / 10 * pi_d)).2) = true
      · refine ⟨?_, ?_, ?_, fun hf => absurd (h.symm.trans hf) (by decide)⟩ <;>
          simp only [if_pos hin]
      · refine ⟨?_, ?_, ?_, fun hf => absurd (h.symm.trans hf) (by decide)⟩ <;>
          simp only [if_neg hin]
  · rw [if_neg h]
    exact ⟨rfl, rfl, rfl, fun _ => rfl⟩

/-- The tracing list after one iteration of the signal-way loop. -/
theorem post_step_tracing (m : Libm) (cfg : ProcessorConfig) (st : PostState) (sw : SignalWay) :
    (post_step m cfg st sw).out.tracing =
      if runs_tracing cfg.processing_method then
        st.out.tracing ++ [tracing_detection_from_signal_way m sw]
      else st.out.tracing := by
  unfold post_step
  rw [(post_ellipse_fields m cfg _ sw).1, (post_fov_fields m cfg _ sw).1,
    (post_tracing_fields m cfg st sw).1]

/-- The FOV list and the FOV models are untouched when the FOV method is not selected. -/
theorem post_step_fov_off (m : Libm) (cfg : ProcessorConfig) (st : PostState) (sw : SignalWay)
    (h : runs_fov cfg.processing_method = false) :
    (post_step m cfg st sw).out.fov_intersections = st.out.fov_intersections ∧
    (post_step m cfg st sw).fov_models = st.fov_models := by
  unfold post_step
  rw [(post_ellipse_fields m cfg _ sw).2.1, (post_ellipse_fields m cfg _ sw).2.2.1,
    (post_fov_fields m cfg _ sw).2.2.2 h]
  exact ⟨(post_tracing_fields m cfg st sw).2.1, (post_tracing_fields m cfg st sw).2.2.2.2⟩

/-- The ellipse list and the ellipses are untouched when the ellipse method is not
selected. -/
theorem post_step_ellipse_off (m : Libm) (cfg : ProcessorConfig) (st : PostState)
    (sw : SignalWay) (h : runs_ellipse cfg.processing_method = false) :
    (post_step m cfg st sw).out.ellipse_intersections = st.out.ellipse_intersections ∧
    (post_step m cfg st sw).ellipses = st.ellipses := by
  unfold post_step
  rw [(post_ellipse_fields m cfg _ sw).2.2.2 h, (post_fov_fields m cfg _ sw).2.1,
    (post_fov_fields m cfg _ sw).2.2.1]
  exact ⟨(post_tracing_fields m cfg st sw).2.2.1, (post_tracing_fields m cfg st sw).2.2.2.1⟩

/-- The tracing list after the signal-way loop. -/
theorem foldl_post_step_tracing (m : Libm) (cfg : ProcessorConfig) (sws : List SignalWay)
    (st : PostState) :
    (sws.foldl (post_step m cfg) st).out.tracing =
      st.out.tracing ++
        (if runs_tracing cfg.processing_method then
          sws.map (tracing_detection_from_signal_way m)
        else []) := by
  induction sws generalizing st with
  | nil => simp
  | cons sw sws ih =>
    rw [List.foldl_cons, ih, post_step_tracing]
    by_cases h1 : runs_tracing cfg.processing_method = true
    · simp [h1]
    · simp [h1]

/-- The FOV state after the signal-way loop when the FOV method is not selected. -/
theorem foldl_post_step_fov_off (m : Libm) (cfg : ProcessorConfig) (sws : List SignalWay)
    (st : PostState) (h : runs_fov cfg.processing_method = false) :
    (sws.foldl (post_step m cfg) st).out.fov_intersections = st.out.fov_intersections ∧
    (sws.foldl (post_step m cfg) st).fov_models = st.fov_models := by
  induction sws generalizing st with
  | nil => exact ⟨rfl, rfl⟩
  | cons sw sws ih =>
    rw [List.foldl_cons]
    have h1 := ih (post_step m cfg st sw)
    have h2 := post_step_fov_off m cfg st sw h
    exact ⟨h1.1.trans h2.1, h1.2.trans h2.2⟩

/-- The ellipse state after the signal-way loop when the ellipse method is not selected. -/
theorem foldl_post_step_ellipse_off (m : Libm) (cfg : ProcessorConfig) (sws : List SignalWay)
    (st : PostState) (h : runs_ellipse cfg.processing_method = false) :
    (sws.foldl (post_step m cfg) st).out.ellipse_intersections = st.out.ellipse_intersections ∧
    (sws.foldl (post_step m cfg) st).ellipses = st.ellipses := by
  induction sws generalizing st with
  | nil => exact ⟨rfl, rfl⟩
  | cons sw sws ih =>
    rw [List.foldl_cons]
    have h1 := ih (post_step m cfg st sw)
    have h2 := post_step_ellipse_off m cfg st sw h
    exact ⟨h1.1.trans h2.1, h1.2.trans h2.2⟩

/-- The three per-method lists returned by `post_process`, in terms of the loop state. -/
theorem post_process_lists (m : Libm) (h : HashOrder) (cfg : ProcessorConfig)
    (sws : List SignalWay) :
    (post_process m h cfg sws).tracing =
      (sws.foldl (post_step m cfg)
        { out := ProcessedDetections.zero, ellipses := [], fov_models := [] }).out.tracing ∧
    (runs_fov cfg.processing_method = false →
      (post_process m h cfg sws).fov_intersections =
        (sws.foldl (post_step m cfg)
          { out := ProcessedDetections.zero, ellipses := [],
            fov_models := [] }).out.fov_intersections) ∧
    (runs_ellipse cfg.processing_method = false →
      (post_process m h cfg sws).ellipse_intersections =
        (sws.foldl (post_step m cfg)
          { out := ProcessedDetections.zero, ellipses := [],
            fov_models := [] }).out.ellipse_intersections) := by
  refine ⟨?_, ?_, ?_⟩
  · unfold post_process
    by_cases h2 : runs_fov cfg.processing_method = true <;>
    by_cases h3 : runs_ellipse cfg.processing_method = true <;>
    simp only [h2, h3] <;> (repeat' split) <;> rfl
  · intro h2
    unfold post_process
    by_cases h3 : runs_ellipse cfg.processing_method = true <;>
    simp only [h2, h3] <;> (repeat' split) <;> simp_all
  · intro h3
    unfold post_process
    by_cases h2 : runs_fov cfg.processing_method = true <;>
    simp only [h2, h3] <;> (repeat' split) <;> simp_all

/-- The tracing list of `post_process`: one detection per signal-way when the tracing
method runs, nothing otherwise. -/
theorem post_process_tracing_eq (m : Libm) (h : HashOrder) (cfg : ProcessorConfig)
    (sws : List SignalWay) :
    (post_process m h cfg sws).tracing =
      if runs_tracing cfg.processing_method then sws.map (tracing_detection_from_signal_way m)
      else [] := by
  rw [(post_process_lists m h cfg sws).1, foldl_post_step_tracing]
  rfl

/-! ## `push_unique_detection` -/

/-- The closeness test is symmetric. -/
theorem too_close_comm (a b : Detection) : too_close a b = too_close b a := by
  unfold too_close
  have h : (b.1 - a.1) * (b.1 - a.1) + (b.2 - a.2) * (b.2 - a.2) =
      (a.1 - b.1) * (a.1 - b.1) + (a.2 - b.2) * (a.2 - b.2) := by ring
  simp only [h]

/-- A candidate far from every stored point is appended. -/
theorem push_unique_of_far (dets : List Detection) (c : Detection)
    (h : ∀ p ∈ dets, too_close c p = false) : push_unique_detection dets c = dets ++ [c] := by
  unfold push_unique_detection
  have : dets.any (too_close c) = false := by
    rw [List.any_eq_false]
    intro p hp
    rw [h p hp]
    simp
  rw [this]
  simp

/-- The result of a push is the vector itself or the vector with the candidate appended,
and the candidate is appended only when it is far from every stored point. -/
theorem push_unique_cases (dets : List Detection) (c : Detection) :
    push_unique_detection dets c = dets ∨
    (push_unique_detection dets c = dets ++ [c] ∧ ∀ p ∈ dets, too_close c p = false) := by
  unfold push_unique_detection
  by_cases h : dets.any (too_close c) = true
  · left; rw [if_pos h]
  · right
    rw [if_neg h]
    refine ⟨rfl, ?_⟩
    intro p hp
    have h2 : dets.any (too_close c) = false := by simpa using h
    rw [List.any_eq_false] at h2
    simpa using h2 p hp

/-- Pushing onto the empty vector always stores the candidate. -/
theorem push_unique_nil (c : Detection) : push_unique_detection [] c = [c] := rfl

/-- A push keeps the stored points pairwise apart. -/
theorem push_unique_pairwise (dets : List Detection) (c : Detection)
    (h : dets.Pairwise apart) : (push_unique_detection dets c).Pairwise apart := by
  rcases push_unique_cases dets c with h1 | ⟨h1, h2⟩
  · rw [h1]; exact h
  · rw [h1, List.pairwise_append]
    refine ⟨h, List.pairwise_singleton _ _, ?_⟩
    intro a ha b hb
    rw [List.mem_singleton.mp hb]
    exact h2 a ha

/-- A sequence of pushes keeps the stored points pairwise apart. -/
theorem foldl_push_unique_pairwise (l acc : List Detection) (h : acc.Pairwise apart) :
    (l.foldl push_unique_detection acc).Pairwise apart := by
  induction l generalizing acc with
  | nil => exact h
  | cons c l ih => exact ih _ (push_unique_pairwise acc c h)

/-- A sequence of pushes stores only points of the vector or of the pushed list. -/
theorem foldl_push_unique_mem (l acc : List Detection) (x : Detection)
    (h : x ∈ l.foldl push_unique_detection acc) : x ∈ acc ∨ x ∈ l := by
  induction l generalizing acc with
  | nil => exact Or.inl h
  | cons c l ih =>
    rcases ih _ h with h1 | h1
    · rcases push_unique_cases acc c with h2 | ⟨h2, _⟩
      · rw [h2] at h1; exact Or.inl h1
      · rw [h2] at h1
        rcases List.mem_append.mp h1 with h3 | h3
        · exact Or.inl h3
        · exact Or.inr (by rw [List.mem_singleton.mp h3]; exact List.mem_cons_self _ _)
    · exact Or.inr (List.mem_cons_of_mem _ h1)

/-- A sequence of pushes never removes a stored point: the vector stays a prefix. -/
theorem foldl_push_unique_prefix (l acc : List Detection) :
    acc <+: l.foldl push_unique_detection acc := by
  induction l generalizing acc with
  | nil => exact List.prefix_refl _
  | cons c l ih =>
    refine List.IsPrefix.trans ?_ (ih _)
    rcases push_unique_cases acc c with h2 | ⟨h2, _⟩
    · rw [h2]
    · rw [h2]; exact List.prefix_append _ _

/-- Pushing a non-empty list onto the empty vector leaves a non-empty vector. -/
theorem foldl_push_unique_ne_nil (l acc : List Detection) (h : acc ≠ [] ∨ l ≠ []) :
    l.foldl push_unique_detection acc ≠ [] := by
  have key : ∀ (l acc : List Detection), acc ≠ [] → l.foldl push_unique_detection acc ≠ [] := by
    intro l acc hacc hnil
    have hp := foldl_push_unique_prefix l acc
    rw [hnil] at hp
    exact hacc (List.prefix_nil.mp hp)
  rcases h with h | h
  · exact key l acc h
  · cases l with
    | nil => exact absurd rfl h
    | cons c l =>
      rw [List.foldl_cons]
      apply key
      rcases push_unique_cases acc c with h2 | ⟨h2, _⟩
      · rw [h2]
        intro hacc
        rw [hacc] at h2
        cases h2
      · rw [h2]; simp

/-- Pushing a list whose points are pairwise apart, and apart from the stored ones, appends
the whole list. -/
theorem foldl_push_unique_of_pairwise (l acc : List Detection)
    (h : (acc ++ l).Pairwise apart) : l.foldl push_unique_detection acc = acc ++ l := by
  induction l generalizing acc with
  | nil => simp
  | cons c l ih =>
    rw [List.foldl_cons]
    have hfar : ∀ p ∈ acc, too_close c p = false := by
      intro p hp
      exact (List.pairwise_append.mp h).2.2 p hp c (List.mem_cons_self _ _)
    rw [push_unique_of_far acc c hfar, ih]
    · simp
    · simpa using h

/-! ## `fuse_method_detections` -/

/-- The candidates of the code are the spec's pool. -/
theorem fuse_candidates_eq_pool (inp : ProcessedDetections) :
    fuse_candidates inp = spec_pool inp := by
  unfold fuse_candidates spec_pool
  rw [List.foldl_append, List.foldl_append]

/-- The count of available methods of the code is the spec's `M`. -/
theorem available_methods_eq (inp : ProcessedDetections) :
    available_methods inp = spec_method_count inp := by
  unfold available_methods spec_method_count
  cases inp.tracing <;> cases inp.fov_intersections <;> cases inp.ellipse_intersections <;> rfl

/-- The support test of the code is the spec's distance test. -/
theorem has_support_near_eq (l : List Detection) (c : Detection) :
    has_support_near l c kSupportRadiusM =
      l.any (fun p => decide ((p.1 - c.1) ^ 2 + (p.2 - c.2) ^ 2 ≤ (55 / 100 : ℚ) ^ 2)) := by
  unfold has_support_near point_distance_sq sqr kSupportRadiusM
  show l.any _ = l.any _
  congr 1
  funext p
  congr 1
  rw [eq_iff_iff]
  constructor <;> intro hp <;> nlinarith [hp]

/-- The support count of the code is the spec's `S(c)`. -/
theorem support_count_eq (inp : ProcessedDetections) (c : Detection) :
    support_count inp c = spec_support inp c := by
  unfold support_count spec_support
  simp only [has_support_near_eq]
  simp only [List.filter_cons, List.filter_nil]
  split_ifs <;> rfl

/-- The support loop pushes exactly the candidates that pass the test. -/
theorem foldl_fuse_step (inp : ProcessedDetections) (l acc : List Detection) :
    l.foldl (fuse_step inp) acc = (l.filter (fuse_passes inp)).foldl push_unique_detection acc := by
  induction l generalizing acc with
  | nil => rfl
  | cons c l ih =>
    rw [List.foldl_cons, ih, List.filter_cons]
    unfold fuse_step fuse_passes
    by_cases h1 : available_methods inp ≤ 1
    · simp [h1]
    · by_cases h2 : support_count inp c ≥ 2
      · simp [h1, h2]
      · simp [h1, h2]

/-- The pool is pairwise apart. -/
theorem spec_pool_pairwise (inp : ProcessedDetections) : (spec_pool inp).Pairwise apart :=
  foldl_push_unique_pairwise _ [] List.Pairwise.nil

/-- The result of the support loop: the candidates of the pool that pass the test, in pool
order. -/
theorem fuse_main_eq (inp : ProcessedDetections) :
    (fuse_candidates inp).foldl (fuse_step inp) [] = (spec_pool inp).filter (fuse_passes inp) := by
  rw [foldl_fuse_step, fuse_candidates_eq_pool, foldl_push_unique_of_pairwise]
  · simp
  · simpa using List.Pairwise.sublist (List.filter_sublist _) (spec_pool_pairwise inp)

/-- The pool is empty exactly when the three method lists are. -/
theorem spec_pool_eq_nil_iff (inp : ProcessedDetections) :
    spec_pool inp = [] ↔
      (inp.tracing = [] ∧ inp.fov_intersections = [] ∧ inp.ellipse_intersections = []) := by
  constructor
  · intro h
    by_contra hne
    have hl : inp.tracing ++ inp.fov_intersections ++ inp.ellipse_intersections ≠ [] := by
      intro hnil
      simp only [List.append_eq_nil] at hnil
      exact hne ⟨hnil.1.1, hnil.1.2, hnil.2⟩
    exact foldl_push_unique_ne_nil _ [] (Or.inr hl) h
  · rintro ⟨h1, h2, h3⟩
    unfold spec_pool
    rw [h1, h2, h3]
    rfl

/-- Emptiness test of a non-empty vector. -/
theorem isEmpty_of_ne_nil {α : Type} (l : List α) (h : l ≠ []) : l.isEmpty = false := by
  cases l with
  | nil => exact absurd rfl h
  | cons a t => rfl

/-- The first non-empty list of a priority order of three. -/
theorem spec_first_nonempty_three (a b c : List Detection) :
    spec_first_nonempty [a, b, c] = if a ≠ [] then a else if b ≠ [] then b else c := by
  unfold spec_first_nonempty
  cases a with
  | cons x t => rfl
  | nil =>
    cases b with
    | cons x t => rfl
    | nil =>
      cases c with
      | cons x t => rfl
      | nil => rfl

/-- The function `fuse_method_detections` by cases on the result of the support loop. -/
theorem fuse_method_detections_eq (inp : ProcessedDetections) :
    fuse_method_detections inp =
      if (spec_pool inp).filter (fuse_passes inp) = [] then
        (spec_first_nonempty
          [inp.fov_intersections, inp.ellipse_intersections, inp.tracing]).foldl
          push_unique_detection []
      else (spec_pool inp).filter (fuse_passes inp) := by
  unfold fuse_method_detections
  simp only [fuse_main_eq]
  rw [spec_first_nonempty_three]
  by_cases hmain : (spec_pool inp).filter (fuse_passes inp) = []
  · rw [if_pos hmain, hmain]
    simp only [List.isEmpty_nil, if_true]
    by_cases hf : inp.fov_intersections = []
    · rw [if_neg (not_not.mpr hf)]
      simp only [hf, List.isEmpty_nil, Bool.not_true, Bool.false_eq_true, if_false,
        Bool.true_and]
      by_cases he : inp.ellipse_intersections = []
      · rw [if_neg (not_not.mpr he)]
        simp only [he, List.isEmpty_nil, Bool.not_true, Bool.false_eq_true, if_false,
          Bool.true_and]
        by_cases ht : inp.tracing = []
        · simp only [ht, List.isEmpty_nil, Bool.not_true, Bool.false_eq_true, if_false]
          rfl
        · simp only [isEmpty_of_ne_nil _ ht, Bool.not_false, if_true]
      · rw [if_pos he]
        have hne := isEmpty_of_ne_nil _ (foldl_push_unique_ne_nil inp.ellipse_intersections []
          (Or.inr he))
        simp only [isEmpty_of_ne_nil _ he, Bool.not_false, if_true, hne, Bool.false_and,
          Bool.false_eq_true, if_false]
    · rw [if_pos hf]
      have hne := isEmpty_of_ne_nil _ (foldl_push_unique_ne_nil inp.fov_intersections []
        (Or.inr hf))
      simp only [isEmpty_of_ne_nil _ hf, Bool.not_false, if_true, hne, Bool.false_and,
        Bool.false_eq_true, if_false]
  · rw [if_neg hmain]
    simp only [isEmpty_of_ne_nil _ hmain, Bool.false_eq_true, if_false]

/-- The push test of the code in the spec's terms. -/
theorem fuse_passes_eq (inp : ProcessedDetections) (c : Detection) :
    fuse_passes inp c =
      (decide (spec_method_count inp ≤ 1) || decide (spec_support inp c ≥ 2)) := by
  unfold fuse_passes
  rw [available_methods_eq, support_count_eq]

/-! ## The labelling loops of `cluster_with_table_melt` -/

/-- Reading a label vector after one assignment. -/
theorem getD_set_label (ids : List Nat) (i j v : Nat) :
    (ids.set i v).getD j 0 = if j = i ∧ i < ids.length then v else ids.getD j 0 := by
  simp only [List.getD_eq_getElem?_getD, List.getElem?_set]
  by_cases hij : i = j
  · subst hij
    by_cases hi : i < ids.length
    · simp [hi]
    · have hnone : ids[i]? = none := List.getElem?_eq_none (Nat.le_of_not_lt hi)
      simp [hi, hnone]
  · have hji : ¬ j = i := fun h => hij h.symm
    simp [hij, hji]

/-- Leaving the labels alone is allowed. -/
theorem labels_ext_refl (next_id : Nat) (ids : List Nat) : labels_ext next_id ids ids :=
  ⟨rfl, fun _ => Or.inl rfl⟩

/-- Two allowed changes of the labels, one after the other, are allowed. -/
theorem labels_ext_trans (next_id : Nat) (a b c : List Nat)
    (h1 : labels_ext next_id a b) (h2 : labels_ext next_id b c) : labels_ext next_id a c := by
  refine ⟨h2.1.trans h1.1, fun j => ?_⟩
  rcases h1.2 j with e1 | ⟨e1, e1b⟩ <;> rcases h2.2 j with e2 | ⟨e2, e2b⟩
  · left; rw [e2, e1]
  · right; exact ⟨by rw [← e1]; exact e2, e2b⟩
  · right; exact ⟨e1, by rw [e2]; exact e1b⟩
  · right; exact ⟨e1, e2b⟩

/-- The innermost step of the flood fill changes the labels as allowed. -/
theorem melt_neighbour_ext (inp : List Detection) (radius_sq : ℚ) (next_id a : Nat)
    (st : List Nat × Bool) (b : Nat) :
    labels_ext next_id st.1 (melt_neighbour inp radius_sq next_id a st b).1 := by
  unfold melt_neighbour
  by_cases h : (adjacency inp radius_sq a b && decide (st.1.getD b 0 = 0)) = true
  · rw [if_pos h]
    have h0 : st.1.getD b 0 = 0 := by
      simp only [Bool.and_eq_true, decide_eq_true_eq] at h
      exact h.2
    refine ⟨List.length_set _ _ _, fun j => ?_⟩
    show (st.1.set b next_id).getD j 0 = _ ∨ _
    rw [getD_set_label]
    by_cases hj : j = b ∧ b < st.1.length
    · rw [if_pos hj]
      right
      exact ⟨by rw [hj.1]; exact h0, rfl⟩
    · rw [if_neg hj]; left; rfl
  · rw [if_neg h]; exact labels_ext_refl _ _

/-- A fold of steps that each extend the labels extends the labels. -/
theorem foldl_labels_ext {β : Type} (next_id : Nat) (f : List Nat × Bool → β → List Nat × Bool)
    (hf : ∀ st x, labels_ext next_id st.1 (f st x).1) (l : List β) (st : List Nat × Bool) :
    labels_ext next_id st.1 (l.foldl f st).1 := by
  induction l generalizing st with
  | nil => exact labels_ext_refl _ _
  | cons x l ih => exact labels_ext_trans _ _ _ _ (hf st x) (ih (f st x))

/-- The middle step of the flood fill changes the labels as allowed. -/
theorem melt_member_ext (inp : List Detection) (radius_sq : ℚ) (next_id : Nat)
    (st : List Nat × Bool) (a : Nat) :
    labels_ext next_id st.1 (melt_member inp radius_sq next_id st a).1 := by
  unfold melt_member
  by_cases h : st.1.getD a 0 ≠ next_id
  · rw [if_pos h]; exact labels_ext_refl _ _
  · rw [if_neg h]
    exact foldl_labels_ext next_id _ (melt_neighbour_ext inp radius_sq next_id a) _ st

/-- One pass of the flood fill changes the labels as allowed. -/
theorem melt_pass_ext (inp : List Detection) (radius_sq : ℚ) (next_id : Nat) (ids : List Nat) :
    labels_ext next_id ids (melt_pass inp radius_sq next_id ids).1 :=
  foldl_labels_ext next_id _ (melt_member_ext inp radius_sq next_id) _ (ids, false)

/-- The whole flood fill changes the labels as allowed, for every fuel. -/
theorem melt_loop_ext (inp : List Detection) (radius_sq : ℚ) (next_id fuel : Nat)
    (ids : List Nat) : labels_ext next_id ids (melt_loop inp radius_sq next_id fuel ids) := by
  induction fuel generalizing ids with
  | zero => exact labels_ext_refl _ _
  | succ fuel ih =>
    unfold melt_loop
    by_cases h : (melt_pass inp radius_sq next_id ids).2 = true
    · simp only [h, if_true]
      exact labels_ext_trans _ _ _ _ (melt_pass_ext inp radius_sq next_id ids) (ih _)
    · simp only [h, if_false]
      exact melt_pass_ext inp radius_sq next_id ids

/-- The labelling loop starts in its invariant. -/
theorem labels_inv_init (n : Nat) : labels_inv n 0 (List.replicate n 0, 1) := by
  refine ⟨List.length_replicate _ _, Nat.le_refl _, Nat.le_refl _, ?_, ?_, ?_⟩
  · intro j
    simp only [List.getD_eq_getElem?_getD, List.getElem?_replicate]
    by_cases h : j < n <;> simp [h]
  · intro j hj; omega
  · intro c h1 h2; omega

/-- One iteration of the labelling loop keeps its invariant. -/
theorem labels_inv_step (inp : List Detection) (radius_sq : ℚ) (k : Nat)
    (st : List Nat × Nat) (hk : k < inp.length) (h : labels_inv inp.length k st) :
    labels_inv inp.length (k + 1) (melt_seed inp radius_sq st k) := by
  obtain ⟨hlen, h1, hle, hlt, hlab, huse⟩ := h
  unfold melt_seed
  by_cases h0 : st.1.getD k 0 ≠ 0
  · rw [if_pos h0]
    refine ⟨hlen, h1, by omega, hlt, ?_, huse⟩
    intro j hj
    by_cases hjk : j = k
    · rw [hjk]; exact h0
    · exact hlab j (by omega)
  · rw [if_neg h0]
    have hz : st.1.getD k 0 = 0 := by omega
    have hext := melt_loop_ext inp radius_sq st.2 (inp.length + 1) (st.1.set k st.2)
    have hset : ∀ j, (st.1.set k st.2).getD j 0 = if j = k then st.2 else st.1.getD j 0 := by
      intro j
      rw [getD_set_label]
      by_cases hjk : j = k
      · rw [if_pos ⟨hjk, by omega⟩, if_pos hjk]
      · rw [if_neg (fun hh => hjk hh.1), if_neg hjk]
    have hfinal : ∀ j, (melt_loop inp radius_sq st.2 (inp.length + 1) (st.1.set k st.2)).getD j 0 =
        (if j = k then st.2 else st.1.getD j 0) ∨
        ((if j = k then st.2 else st.1.getD j 0) = 0 ∧
          (melt_loop inp radius_sq st.2 (inp.length + 1) (st.1.set k st.2)).getD j 0 = st.2) := by
      intro j
      have := hext.2 j
      rw [hset j] at this
      exact this
    refine ⟨?_, by omega, by omega, ?_, ?_, ?_⟩
    · show (melt_loop inp radius_sq st.2 (inp.length + 1) (st.1.set k st.2)).length = inp.length
      rw [hext.1, List.length_set, hlen]
    · intro j
      show (melt_loop inp radius_sq st.2 (inp.length + 1) (st.1.set k st.2)).getD j 0 < st.2 + 1
      rcases hfinal j with e | ⟨_, e⟩
      · rw [e]
        by_cases hjk : j = k
        · rw [if_pos hjk]; omega
        · rw [if_neg hjk]; have := hlt j; omega
      · rw [e]; omega
    · intro j hj
      show (melt_loop inp radius_sq st.2 (inp.length + 1) (st.1.set k st.2)).getD j 0 ≠ 0
      rcases hfinal j with e | ⟨_, e⟩
      · rw [e]
        by_cases hjk : j = k
        · rw [if_pos hjk]; omega
        · rw [if_neg hjk]; exact hlab j (by omega)
      · rw [e]; omega
    · intro c hc1 hc2
      show ∃ j, j < inp.length ∧
        (melt_loop inp radius_sq st.2 (inp.length + 1) (st.1.set k st.2)).getD j 0 = c
      by_cases hc : c = st.2
      · refine ⟨k, hk, ?_⟩
        rcases hfinal k with e | ⟨_, e⟩
        · rw [e, if_pos rfl, hc]
        · rw [e, hc]
      · obtain ⟨j, hjn, hj⟩ := huse c hc1 (by omega)
        refine ⟨j, hjn, ?_⟩
        have hjk : j ≠ k := by
          intro hjk
          rw [hjk, hz] at hj
          omega
        rcases hfinal j with e | ⟨e0, _⟩
        · rw [e, if_neg hjk, hj]
        · rw [if_neg hjk, hj] at e0
          omega

/-- The labels returned by the labelling part of `cluster_with_table_melt`. -/
theorem melt_labels_inv (inp : List Detection) (radius_sq : ℚ) :
    labels_inv inp.length inp.length (melt_labels inp radius_sq) := by
  unfold melt_labels
  have key : ∀ k, k ≤ inp.length →
      labels_inv inp.length k
        ((List.range k).foldl (melt_seed inp radius_sq) (List.replicate inp.length 0, 1)) := by
    intro k
    induction k with
    | zero => intro _; exact labels_inv_init _
    | succ k ih =>
      intro hk
      rw [List.range_succ, List.foldl_append]
      exact labels_inv_step inp radius_sq k _ (by omega) (ih (by omega))
  exact key inp.length (Nat.le_refl _)

/-! ## The accumulation loop of `cluster_with_table_melt` -/

/-- An entry found under a key is in the table and carries that key. -/
theorem accum_find_some (accum : List AccumEntry) (cid : Nat) (e : AccumEntry)
    (h : accum_find accum cid = some e) : e ∈ accum ∧ e.1 = cid := by
  unfold accum_find at h
  refine ⟨List.mem_of_find?_eq_some h, ?_⟩
  have := List.find?_some h
  simpa using this

/-- A key is not found exactly when no entry carries it. -/
theorem accum_find_none (accum : List AccumEntry) (cid : Nat) :
    accum_find accum cid = none ↔ ∀ e ∈ accum, e.1 ≠ cid := by
  unfold accum_find
  rw [List.find?_eq_none]
  constructor
  · intro h e he hc
    exact h e he (by simpa using hc)
  · intro h e he hc
    exact h e he (by simpa using hc)

/-- In a table without repeated keys, the lookup finds the entry of the key wherever it
is stored. -/
theorem accum_find_of_mem (accum : List AccumEntry) (cid : Nat) (e : AccumEntry)
    (hnd : (accum.map Prod.fst).Nodup) (he : e ∈ accum) (hc : e.1 = cid) :
    accum_find accum cid = some e := by
  induction accum with
  | nil => exact absurd he (List.not_mem_nil e)
  | cons x xs ih =>
    rw [List.map_cons, List.nodup_cons] at hnd
    unfold accum_find
    by_cases hx : x.1 = cid
    · rw [List.find?_cons_of_pos _ (by simpa using hx)]
      rcases List.mem_cons.mp he with h1 | h1
      · rw [h1]
      · exfalso
        apply hnd.1
        rw [hx, ← hc]
        exact List.mem_map_of_mem Prod.fst h1
    · rw [List.find?_cons_of_neg _ (by simpa using hx)]
      rcases List.mem_cons.mp he with h1 | h1
      · rw [h1] at hc; exact absurd hc hx
      · exact ih hnd.2 h1

/-- One accumulation: the table keeps distinct keys, the sums of `cid` grow by the point,
and the entries of the other clusters are found as before, whatever the element order. -/
theorem accum_add_spec (h : HashOrder) (accum : List AccumEntry) (cid : Nat) (p : Detection)
    (hnd : (accum.map Prod.fst).Nodup) :
    ((accum_add h accum cid p).map Prod.fst).Nodup ∧
    accum_find (accum_add h accum cid p) cid =
      some (cid, (accum_totals accum cid).1 + p.1, (accum_totals accum cid).2.1 + p.2,
        (accum_totals accum cid).2.2 + 1) ∧
    (∀ c, c ≠ cid → accum_find (accum_add h accum cid p) c = accum_find accum c) := by
  have hkey : ∀ table : List AccumEntry,
      ((table.map (fun e : AccumEntry =>
        if e.1 = cid then (e.1, e.2.1 + p.1, e.2.2.1 + p.2, e.2.2.2 + 1) else e)).map Prod.fst) =
      table.map Prod.fst := by
    intro table
    rw [List.map_map]
    apply List.map_congr_left
    intro e _
    show (if e.1 = cid then (e.1, e.2.1 + p.1, e.2.2.1 + p.2, e.2.2.2 + 1) else e).1 = e.1
    by_cases hc : e.1 = cid
    · rw [if_pos hc]
    · rw [if_neg hc]
  -- the table after `accum[cid]`
  obtain ⟨table, htable, hnd2, hmem, e0, he0, he0k, he0v⟩ :
      ∃ table : List AccumEntry,
        accum_add h accum cid p = table.map (fun e : AccumEntry =>
          if e.1 = cid then (e.1, e.2.1 + p.1, e.2.2.1 + p.2, e.2.2.2 + 1) else e) ∧
        (table.map Prod.fst).Nodup ∧
        (∀ e, e ∈ table → e ∈ accum ∨ e = (cid, 0, 0, 0)) ∧
        ∃ e0, e0 ∈ table ∧ e0.1 = cid ∧ e0.2 = accum_totals accum cid ∧
          ∀ e, e ∈ accum → e ∈ table := by
    cases hf : accum_find accum cid with
    | some e =>
      obtain ⟨hemem, hek⟩ := accum_find_some accum cid e hf
      refine ⟨accum, ?_, hnd, fun e he => Or.inl he, e, hemem, hek, ?_, fun e he => he⟩
      · unfold accum_add
        rw [hf]
        rfl
      · unfold accum_totals
        rw [hf]
    | none =>
      have habs := (accum_find_none accum cid).mp hf
      have hperm := h.perm (accum ++ [(cid, 0, 0, 0)])
      refine ⟨h.reorder (accum ++ [(cid, 0, 0, 0)]), ?_, ?_, ?_, (cid, 0, 0, 0), ?_, rfl, ?_, ?_⟩
      · unfold accum_add
        rw [hf]
        rfl
      · rw [(hperm.map Prod.fst).nodup_iff, List.map_append, List.nodup_append]
        refine ⟨hnd, List.nodup_singleton _, ?_⟩
        intro k hk1 hk2
        simp only [List.map_cons, List.map_nil, List.mem_singleton] at hk2
        obtain ⟨e, he, hek⟩ := List.mem_map.mp hk1
        exact habs e he (hek.trans hk2)
      · intro e he
        have := hperm.mem_iff.mp he
        rcases List.mem_append.mp this with h1 | h1
        · exact Or.inl h1
        · exact Or.inr (List.mem_singleton.mp h1)
      · exact hperm.mem_iff.mpr (List.mem_append_right _ (List.mem_singleton.mpr rfl))
      · unfold accum_totals
        rw [hf]
      · intro e he
        exact hperm.mem_iff.mpr (List.mem_append_left _ he)
  have hnd3 : ((accum_add h accum cid p).map Prod.fst).Nodup := by
    rw [htable, hkey]; exact hnd2
  refine ⟨hnd3, ?_, ?_⟩
  · apply accum_find_of_mem _ _ _ hnd3
    · rw [htable]
      refine List.mem_map.mpr ⟨e0, he0, ?_⟩
      rw [if_pos he0k, he0k, he0v.1]
    · rfl
  · intro c hc
    cases hf : accum_find accum c with
    | some e =>
      obtain ⟨hemem, hek⟩ := accum_find_some accum c e hf
      apply accum_find_of_mem _ _ _ hnd3 _ hek
      rw [htable]
      refine List.mem_map.mpr ⟨e, he0v.2 e hemem, ?_⟩
      rw [if_neg (by rw [hek]; exact hc)]
    | none =>
      rw [accum_find_none]
      intro e' he' hk
      rw [htable] at he'
      obtain ⟨e, he, hee⟩ := List.mem_map.mp he'
      have hk1 : e.1 = c := by
        rw [← hk, ← hee]
        by_cases hce : e.1 = cid
        · rw [if_pos hce]
        · rw [if_neg hce]
      rcases hmem e he with h1 | h1
      · exact (accum_find_none accum c).mp hf e h1 hk1
      · rw [h1] at hk1
        exact hc hk1.symm

/-- The members of a cluster among the first `k + 1` points. -/
theorem members_succ (cluster_id : List Nat) (k cid : Nat) :
    members cluster_id (k + 1) cid =
      members cluster_id k cid ++ (if cluster_id.getD k 0 = cid then [k] else []) := by
  unfold members
  rw [List.range_succ, List.filter_append]
  by_cases h : cluster_id.getD k 0 = cid
  · simp [List.filter, h, -List.getD_eq_getElem?_getD]
  · simp [List.filter, h, -List.getD_eq_getElem?_getD]

/-- The table after the first `k` accumulations: distinct keys, and for every label the
sums over its members below `k`, whatever the element order. -/
theorem accum_foldl_spec (h : HashOrder) (inp : List Detection) (cluster_id : List Nat)
    (k : Nat) :
    (((List.range k).foldl (accum_step h inp cluster_id) []).map Prod.fst).Nodup ∧
    ∀ c, accum_find ((List.range k).foldl (accum_step h inp cluster_id) []) c =
      if members cluster_id k c = [] then none
      else some (c, ((members cluster_id k c).map (fun j => (inp.getD j (0, 0)).1)).sum,
        ((members cluster_id k c).map (fun j => (inp.getD j (0, 0)).2)).sum,
        ((members cluster_id k c).length : ℚ)) := by
  induction k with
  | zero =>
    refine ⟨List.nodup_nil, fun c => ?_⟩
    rfl
  | succ k ih =>
    rw [List.range_succ, List.foldl_append]
    simp only [List.foldl_cons, List.foldl_nil]
    obtain ⟨hnd, hfind⟩ := ih
    have hspec := accum_add_spec h ((List.range k).foldl (accum_step h inp cluster_id) [])
      (cluster_id.getD k 0) (inp.getD k (0, 0)) hnd
    have hstep : accum_step h inp cluster_id
        ((List.range k).foldl (accum_step h inp cluster_id) []) k =
        accum_add h ((List.range k).foldl (accum_step h inp cluster_id) [])
          (cluster_id.getD k 0) (inp.getD k (0, 0)) := rfl
    rw [hstep]
    refine ⟨hspec.1, fun c => ?_⟩
    rw [members_succ]
    by_cases hc : cluster_id.getD k 0 = c
    · subst hc
      rw [hspec.2.1, if_pos rfl, if_neg (by simp)]
      unfold accum_totals
      rw [hfind]
      by_cases hm : members cluster_id k (cluster_id.getD k 0) = []
      · rw [if_pos hm, hm]
        simp
      · rw [if_neg hm]
        simp
    · rw [hspec.2.2 c (fun hh => hc hh.symm), if_neg hc, List.append_nil]
      exact hfind c

/-- The output loop emits the centroid of every label that has a member. -/
theorem emit_foldl_spec (h : HashOrder) (inp : List Detection) (cluster_id : List Nat)
    (l : List Nat) (out : List Detection)
    (hl : ∀ c ∈ l, members cluster_id inp.length c ≠ []) :
    l.foldl (emit_step ((List.range inp.length).foldl (accum_step h inp cluster_id) [])) out =
      out ++ l.map (centroid inp cluster_id) := by
  induction l generalizing out with
  | nil => simp
  | cons c l ih =>
    rw [List.foldl_cons, ih _ (fun c' hc' => hl c' (List.mem_cons_of_mem _ hc'))]
    have hm := hl c (List.mem_cons_self _ _)
    unfold emit_step
    rw [(accum_foldl_spec h inp cluster_id inp.length).2 c, if_neg hm]
    have hpos : ¬ (((members cluster_id inp.length c).length : ℚ) ≤ 0) := by
      have : 0 < (members cluster_id inp.length c).length := List.length_pos.mpr hm
      have : (0 : ℚ) < ((members cluster_id inp.length c).length : ℚ) := by exact_mod_cast this
      linarith
    simp only [hpos, if_false]
    simp [centroid]

/-! ## The centroids of `cluster_with_table_melt` -/

/-- Every label that is in use has a member. -/
theorem members_ne_nil_of_label (cluster_id : List Nat) (n c j : Nat) (hj : j < n)
    (hc : cluster_id.getD j 0 = c) : members cluster_id n c ≠ [] := by
  intro hnil
  have hmem : j ∈ members cluster_id n c := by
    unfold members
    rw [List.mem_filter]
    exact ⟨List.mem_range.mpr hj, by simpa using hc⟩
  rw [hnil] at hmem
  exact absurd hmem (List.not_mem_nil j)

/-- A list is the list of its entries read by index. -/
theorem map_getD_range (inp : List Detection) :
    (List.range inp.length).map (fun j => inp.getD j (0, 0)) = inp := by
  induction inp with
  | nil => rfl
  | cons x xs ih =>
    rw [List.length_cons, List.range_succ_eq_map, List.map_cons, List.map_map]
    have : ((fun j => (x :: xs).getD j (0, 0)) ∘ Nat.succ) = fun j => xs.getD j (0, 0) := by
      funext j
      rfl
    rw [this, ih]
    rfl

/-- The function `cluster_with_table_melt` emits the centroids of the labels
`1, ..., next_id - 1` in this order, whatever the element order of the hash map. -/
theorem cluster_with_table_melt_eq (h : HashOrder) (inp : List Detection) (radius_m : ℚ) :
    cluster_with_table_melt h inp radius_m =
      if inp = [] then []
      else (List.range' 1 ((melt_labels inp (radius_m * radius_m)).2 - 1)).map
        (centroid inp (melt_labels inp (radius_m * radius_m)).1) := by
  unfold cluster_with_table_melt
  by_cases hnil : inp = []
  · rw [if_pos hnil, hnil]
    rfl
  · rw [if_neg hnil, isEmpty_of_ne_nil inp hnil]
    simp only [Bool.false_eq_true, if_false]
    rw [emit_foldl_spec, List.nil_append]
    intro c hc
    rw [List.mem_range'_1] at hc
    obtain ⟨_, h1, _, _, _, huse⟩ := melt_labels_inv inp (radius_m * radius_m)
    obtain ⟨j, hj, hjc⟩ := huse c hc.1 (by omega)
    exact members_ne_nil_of_label _ _ c j hj hjc

/-- The members of a label are points of the input, in input order. -/
theorem members_points_sublist (inp : List Detection) (cluster_id : List Nat) (c : Nat) :
    ((members cluster_id inp.length c).map (fun j => inp.getD j (0, 0))).Sublist inp := by
  have h1 : (members cluster_id inp.length c).Sublist (List.range inp.length) :=
    List.filter_sublist _
  have h2 := h1.map (fun j => inp.getD j (0, 0))
  rw [map_getD_range] at h2
  exact h2

/-! ## Independence from the clock and the hash order -/

/-- The result of `post_process` does not depend on the element order of the hash map. -/
theorem post_process_hash_irrelevant (m : Libm) (h1 h2 : HashOrder) :
    post_process m h1 = post_process m h2 := by
  funext cfg sws
  simp only [post_process, cluster_with_table_melt_eq]

/-- The status and what `process_frame` stores, apart from the diagnostics, do not depend
on the clock readings. -/
theorem process_frame_clock_irrelevant (pp : PostProcess) (clock1 clock2 : StageTimingUs)
    (p : UltrasoundProcessor) (input : FrameInput) :
    (process_frame pp clock1 p input).2 = (process_frame pp clock2 p input).2 ∧
    (process_frame pp clock1 p input).1.last_output_ =
      (process_frame pp clock2 p input).1.last_output_ ∧
    (process_frame pp clock1 p input).1.last_timestamp_us_ =
      (process_frame pp clock2 p input).1.last_timestamp_us_ ∧
    (process_frame pp clock1 p input).1.state_queue_ =
      (process_frame pp clock2 p input).1.state_queue_ := by
  by_cases h1 : p.config_.strict_monotonic_timestamps = true ∧ input.timestamp_us ≤ p.last_timestamp_us_
  · rw [process_frame_out_of_order pp clock1 p input h1,
      process_frame_out_of_order pp clock2 p input h1]
    exact ⟨rfl, rfl, rfl, rfl⟩
  · by_cases h2 : input.signal_ways = [] ∧ input.static_features = []
    · rw [process_frame_invalid_input pp clock1 p input h1 h2,
        process_frame_invalid_input pp clock2 p input h1 h2]
      exact ⟨rfl, rfl, rfl, rfl⟩
    · cases h3 : interpolate_pose p.state_queue_ input.timestamp_us with
      | none =>
        rw [process_frame_missing_state pp clock1 p input h1 h2 h3,
          process_frame_missing_state pp clock2 p input h1 h2 h3]
        exact ⟨rfl, rfl, rfl, rfl⟩
      | some pose =>
        rw [process_frame_success pp clock1 p input pose h1 h2 h3,
          process_frame_success pp clock2 p input pose h1 h2 h3]
        exact ⟨rfl, rfl, rfl, rfl⟩

/-- A sequence of `push_vehicle_state` calls does not read the post-processing. -/
theorem run_pushes_pp_irrelevant (pp1 pp2 : PostProcess) (states : List VehicleState)
    (p : UltrasoundProcessor) :
    run pp1 p (states.map Call.push) = run pp2 p (states.map Call.push) := by
  induction states generalizing p with
  | nil => rfl
  | cons s states ih => exact ih (push_vehicle_state p s).1

/-! ## The contour test in the intersection collectors -/

/-- A push stores the stored points and possibly the candidate. -/
theorem push_unique_mem (dets : List Detection) (c x : Detection)
    (h : x ∈ push_unique_detection dets c) : x ∈ dets ∨ x = c := by
  rcases push_unique_cases dets c with h1 | ⟨h1, _⟩
  · rw [h1] at h; exact Or.inl h
  · rw [h1] at h
    rcases List.mem_append.mp h with h2 | h2
    · exact Or.inl h2
    · exact Or.inr (List.mem_singleton.mp h2)

/-- A fold whose steps keep a property of all stored points keeps it. -/
theorem foldl_forall_mem {σ β : Type} (proj : σ → List Detection) (P : Detection → Prop)
    (f : σ → β → σ) (hf : ∀ st b, (∀ x ∈ proj st, P x) → ∀ x ∈ proj (f st b), P x)
    (l : List β) (st : σ) (h : ∀ x ∈ proj st, P x) : ∀ x ∈ proj (l.foldl f st), P x := by
  induction l generalizing st with
  | nil => exact h
  | cons b l ih => exact ih (f st b) (hf st b h)

/-- One sample of `collect_ellipse_intersections` adds only points classified as outside. -/
theorem collect_sample_step_forall (m : Libm) (mi mj : EllipseModel) (tolerance : ℚ)
    (P : Detection → Prop) (hP : ∀ x : Detection, is_inside_vehicle_contour x.1 x.2 = false → P x)
    (st : List Detection × ℚ × Detection) (s : Nat) (h : ∀ x ∈ st.1, P x) :
    ∀ x ∈ (collect_sample_step m mi mj tolerance st s).1, P x := by
  intro x hx
  unfold collect_sample_step at hx
  simp only at hx
  by_cases hc : (decide (ellipse_implicit_error m mj (ellipse_point m mi (sample_param s)).1
      (ellipse_point m mi (sample_param s)).2 ≤ tolerance) &&
      !is_inside_vehicle_contour (ellipse_point m mi (sample_param s)).1
        (ellipse_point m mi (sample_param s)).2) = true
  · rw [if_pos hc] at hx
    rcases push_unique_mem _ _ _ hx with h1 | h1
    · exact h x h1
    · rw [h1]
      apply hP
      simp only [Bool.and_eq_true, Bool.not_eq_true'] at hc
      exact hc.2
  · rw [if_neg hc] at hx
    exact h x hx

/-- One pair of models in `collect_ellipse_intersections` adds only points classified as
outside. -/
theorem collect_pair_forall (m : Libm) (tolerance best_limit : ℚ) (mi : EllipseModel)
    (P : Detection → Prop) (hP : ∀ x : Detection, is_inside_vehicle_contour x.1 x.2 = false → P x)
    (out : List Detection) (mj : EllipseModel) (h : ∀ x ∈ out, P x) :
    ∀ x ∈ collect_pair m tolerance best_limit mi out mj, P x := by
  have hst := foldl_forall_mem (fun st : List Detection × ℚ × Detection => st.1) P
    (collect_sample_step m mi mj tolerance)
    (fun st s hs => collect_sample_step_forall m mi mj tolerance P hP st s hs)
    (List.range kSamples) (out, max_d, (0, 0)) h
  intro x hx
  unfold collect_pair at hx
  simp only at hx
  split at hx
  · rename_i hc
    rcases push_unique_mem _ _ _ hx with h1 | h1
    · exact hst x h1
    · rw [h1]
      apply hP
      simp only [Bool.and_eq_true, Bool.not_eq_true'] at hc
      exact hc.2
  · exact hst x hx

/-- All pairs of models in `collect_ellipse_intersections` add only points classified as
outside. -/
theorem collect_pairs_forall (m : Libm) (tolerance best_limit : ℚ)
    (P : Detection → Prop) (hP : ∀ x : Detection, is_inside_vehicle_contour x.1 x.2 = false → P x)
    (models : List EllipseModel) (out : List Detection) (h : ∀ x ∈ out, P x) :
    ∀ x ∈ collect_pairs m tolerance best_limit models out, P x := by
  induction models generalizing out with
  | nil => exact h
  | cons mi rest ih =>
    unfold collect_pairs
    apply ih
    exact foldl_forall_mem (fun o : List Detection => o) P (collect_pair m tolerance best_limit mi)
      (fun o mj ho => collect_pair_forall m tolerance best_limit mi P hP o mj ho) rest out h

/-- Every point that `collect_ellipse_intersections` adds is classified as outside the
vehicle contour. -/
theorem collect_ellipse_intersections_forall (m : Libm) (models : List EllipseModel)
    (out : List Detection) (tolerance best_limit : ℚ)
    (P : Detection → Prop) (hP : ∀ x : Detection, is_inside_vehicle_contour x.1 x.2 = false → P x)
    (h : ∀ x ∈ out, P x) :
    ∀ x ∈ collect_ellipse_intersections m models out tolerance best_limit, P x := by
  unfold collect_ellipse_intersections
  split
  · exact h
  · exact collect_pairs_forall m tolerance best_limit P hP models out h

/-- One sample of the traverse collector adds only points classified as outside. -/
theorem traverse_sample_step_forall (m : Libm) (mi mj : EllipseModel)
    (P : Detection → Prop) (hP : ∀ x : Detection, is_inside_vehicle_contour x.1 x.2 = false → P x)
    (st : List Detection × ℚ × ℚ) (s : Nat) (h : ∀ x ∈ st.1, P x) :
    ∀ x ∈ (traverse_sample_step m mi mj st s).1, P x := by
  intro x hx
  unfold traverse_sample_step at hx
  simp only at hx
  split at hx
  · split at hx
    · rename_i hc
      rcases push_unique_mem _ _ _ hx with h1 | h1
      · exact h x h1
      · rw [h1]
        apply hP
        simpa using hc
    · exact h x hx
  · exact h x hx

/-- One pair of models in the traverse collector adds only points classified as outside. -/
theorem traverse_pair_forall (m : Libm) (mi : EllipseModel)
    (P : Detection → Prop) (hP : ∀ x : Detection, is_inside_vehicle_contour x.1 x.2 = false → P x)
    (out : List Detection) (mj : EllipseModel) (h : ∀ x ∈ out, P x) :
    ∀ x ∈ traverse_pair m mi out mj, P x := by
  unfold traverse_pair
  exact foldl_forall_mem (fun st : List Detection × ℚ × ℚ => st.1) P
    (traverse_sample_step m mi mj)
    (fun st s hs => traverse_sample_step_forall m mi mj P hP st s hs) _ _ h

/-- All pairs of models in the traverse collector add only points classified as outside. -/
theorem traverse_pairs_forall (m : Libm)
    (P : Detection → Prop) (hP : ∀ x : Detection, is_inside_vehicle_contour x.1 x.2 = false → P x)
    (models : List EllipseModel) (out : List Detection) (h : ∀ x ∈ out, P x) :
    ∀ x ∈ traverse_pairs m models out, P x := by
  induction models generalizing out with
  | nil => exact h
  | cons mi rest ih =>
    unfold traverse_pairs
    apply ih
    exact foldl_forall_mem (fun o : List Detection => o) P (traverse_pair m mi)
      (fun o mj ho => traverse_pair_forall m mi P hP o mj ho) rest out h

/-- Every point that `collect_ellipse_intersections_traverse` adds is classified as outside
the vehicle contour. -/
theorem collect_ellipse_intersections_traverse_forall (m : Libm) (models : List EllipseModel)
    (out : List Detection)
    (P : Detection → Prop) (hP : ∀ x : Detection, is_inside_vehicle_contour x.1 x.2 = false → P x)
    (h : ∀ x ∈ out, P x) :
    ∀ x ∈ collect_ellipse_intersections_traverse m models out, P x := by
  unfold collect_ellipse_intersections_traverse
  split
  · exact h
  · exact traverse_pairs_forall m P hP models out h

/-- The FOV list after the FOV stage of an iteration. -/
theorem post_fov_list (m : Libm) (cfg : ProcessorConfig) (st : PostState) (sw : SignalWay) :
    (post_fov m cfg st sw).out.fov_intersections =
      st.out.fov_intersections ++
        (if runs_fov cfg.processing_method then (fov_pie_detection m sw).toList else []) := by
  unfold post_fov
  by_cases h : runs_fov cfg.processing_method = true
  · rw [if_pos h, if_pos h]
    cases fov_pie_detection m sw <;> cases build_fov_model_from_signal_way m sw <;> simp
  · rw [if_neg h, if_neg h, List.append_nil]

/-- The FOV list after the signal-way loop: the per-signal-way FOV-pie detections. -/
theorem foldl_post_step_fov (m : Libm) (cfg : ProcessorConfig) (sws : List SignalWay)
    (st : PostState) :
    (sws.foldl (post_step m cfg) st).out.fov_intersections =
      st.out.fov_intersections ++
        (if runs_fov cfg.processing_method then sws.filterMap (fov_pie_detection m) else []) := by
  induction sws generalizing st with
  | nil => simp
  | cons sw sws ih =>
    rw [List.foldl_cons, ih]
    have hstep : (post_step m cfg st sw).out.fov_intersections =
        st.out.fov_intersections ++
          (if runs_fov cfg.processing_method then (fov_pie_detection m sw).toList else []) := by
      unfold post_step
      rw [(post_ellipse_fields m cfg _ sw).2.1, post_fov_list, (post_tracing_fields m cfg st sw).2.1]
    rw [hstep]
    by_cases h : runs_fov cfg.processing_method = true
    · simp only [h, if_true, List.append_assoc]
      cases hf : fov_pie_detection m sw with
      | none => simp [List.filterMap_cons, hf]
      | some d => simp [List.filterMap_cons, hf]
    · simp [h]

/-- The ellipse stage of an iteration adds at most the seed point, and only when it is
classified as outside the vehicle contour. -/
theorem post_ellipse_list (m : Libm) (cfg : ProcessorConfig) (st : PostState) (sw : SignalWay)
    (x : Detection) (hx : x ∈ (post_ellipse m cfg st sw).out.ellipse_intersections) :
    x ∈ st.out.ellipse_intersections ∨ is_inside_vehicle_contour x.1 x.2 = false := by
  unfold post_ellipse at hx
  by_cases h : runs_ellipse cfg.processing_method = true
  · rw [if_pos h] at hx
    cases he : build_ellipse_from_signal_way m sw with
    | none => rw [he] at hx; exact Or.inl hx
    | some e =>
      rw [he] at hx
      simp only at hx
      by_cases hin : (!is_inside_vehicle_contour (ellipse_point m e (3 / 10 * pi_d)).1
          (ellipse_point m e (3 / 10 * pi_d)).2) = true
      · rw [if_pos hin] at hx
        rcases List.mem_append.mp hx with h1 | h1
        · exact Or.inl h1
        · right
          rw [List.mem_singleton.mp h1]
          simpa using hin
      · rw [if_neg hin] at hx
        exact Or.inl hx
  · rw [if_neg h] at hx
    exact Or.inl hx

/-- The ellipse list after the signal-way loop holds only points classified as outside. -/
theorem foldl_post_step_ellipse_outside (m : Libm) (cfg : ProcessorConfig) (sws : List SignalWay)
    (st : PostState)
    (h : ∀ x ∈ st.out.ellipse_intersections, is_inside_vehicle_contour x.1 x.2 = false) :
    ∀ x ∈ (sws.foldl (post_step m cfg) st).out.ellipse_intersections,
      is_inside_vehicle_contour x.1 x.2 = false := by
  apply foldl_forall_mem (fun st : PostState => st.out.ellipse_intersections)
    (fun x => is_inside_vehicle_contour x.1 x.2 = false) (post_step m cfg) _ sws st h
  intro st sw hst x hx
  unfold post_step at hx
  rcases post_ellipse_list m cfg _ sw x hx with h1 | h1
  · rw [(post_fov_fields m cfg _ sw).2.1, (post_tracing_fields m cfg st sw).2.2.1] at h1
    exact hst x h1
  · exact h1

/-- The record returned by `post_process`, field by field. -/
theorem post_process_fields (m : Libm) (h : HashOrder) (cfg : ProcessorConfig)
    (sws : List SignalWay) :
    (post_process m h cfg sws).ellipse_intersections =
      (if runs_ellipse cfg.processing_method &&
          decide ((sws.foldl (post_step m cfg)
            { out := ProcessedDetections.zero, ellipses := [], fov_models := [] }).ellipses.length
              > 1) then
        collect_ellipse_intersections m
          (sws.foldl (post_step m cfg)
            { out := ProcessedDetections.zero, ellipses := [], fov_models := [] }).ellipses
          (collect_ellipse_intersections_traverse m
            (sws.foldl (post_step m cfg)
              { out := ProcessedDetections.zero, ellipses := [], fov_models := [] }).ellipses
            (sws.foldl (post_step m cfg)
              { out := ProcessedDetections.zero, ellipses := [],
                fov_models := [] }).out.ellipse_intersections)
          (8 / 100) (2 / 10)
      else
        (sws.foldl (post_step m cfg)
          { out := ProcessedDetections.zero, ellipses := [],
            fov_models := [] }).out.ellipse_intersections) ∧
    (post_process m h cfg sws).fov_intersections =
      (if runs_fov cfg.processing_method &&
          decide ((sws.foldl (post_step m cfg)
            { out := ProcessedDetections.zero, ellipses := [], fov_models := [] }).fov_models.length
              > 1) then
        collect_ellipse_intersections m
          (sws.foldl (post_step m cfg)
            { out := ProcessedDetections.zero, ellipses := [], fov_models := [] }).fov_models
          (sws.foldl (post_step m cfg)
            { out := ProcessedDetections.zero, ellipses := [],
              fov_models := [] }).out.fov_intersections
          (10 / 100) (25 / 100)
      else
        (sws.foldl (post_step m cfg)
          { out := ProcessedDetections.zero, ellipses := [],
            fov_models := [] }).out.fov_intersections) ∧
    (post_process m h cfg sws).fused = fuse_method_detections
      { tracing := (post_process m h cfg sws).tracing
        fov_intersections := (post_process m h cfg sws).fov_intersections
        ellipse_intersections := (post_process m h cfg sws).ellipse_intersections
        fused := (sws.foldl (post_step m cfg)
          { out := ProcessedDetections.zero, ellipses := [], fov_models := [] }).out.fused
        clustered := (sws.foldl (post_step m cfg)
          { out := ProcessedDetections.zero, ellipses := [], fov_models := [] }).out.clustered } ∧
    (post_process m h cfg sws).clustered =
      cluster_with_table_melt h (post_process m h cfg sws).fused cfg.cluster_radius_m := by
  unfold post_process
  by_cases h2 : (runs_fov cfg.processing_method &&
      decide ((sws.foldl (post_step m cfg)
        { out := ProcessedDetections.zero, ellipses := [], fov_models := [] }).fov_models.length
          > 1)) = true <;>
  by_cases h3 : (runs_ellipse cfg.processing_method &&
      decide ((sws.foldl (post_step m cfg)
        { out := ProcessedDetections.zero, ellipses := [], fov_models := [] }).ellipses.length
          > 1)) = true <;>
  simp only [h2, h3, if_true, if_false, and_self, Bool.false_eq_true]

/-- The FOV list of `post_process` is empty when the FOV method is not selected. -/
theorem post_process_fov_off (m : Libm) (h : HashOrder) (cfg : ProcessorConfig)
    (sws : List SignalWay) (hf : runs_fov cfg.processing_method = false) :
    (post_process m h cfg sws).fov_intersections = [] := by
  rw [(post_process_lists m h cfg sws).2.1 hf, (foldl_post_step_fov_off m cfg sws _ hf).1]
  rfl

/-- The ellipse list of `post_process` is empty when the ellipse method is not selected. -/
theorem post_process_ellipse_off (m : Libm) (h : HashOrder) (cfg : ProcessorConfig)
    (sws : List SignalWay) (hf : runs_ellipse cfg.processing_method = false) :
    (post_process m h cfg sws).ellipse_intersections = [] := by
  rw [(post_process_lists m h cfg sws).2.2 hf, (foldl_post_step_ellipse_off m cfg sws _ hf).1]
  rfl

/-- Every ellipse detection of `post_process` is classified as outside the vehicle
contour. -/
theorem post_process_ellipse_outside (m : Libm) (h : HashOrder) (cfg : ProcessorConfig)
    (sws : List SignalWay) :
    ∀ x ∈ (post_process m h cfg sws).ellipse_intersections,
      is_inside_vehicle_contour x.1 x.2 = false := by
  have hloop := foldl_post_step_ellipse_outside m cfg sws
    { out := ProcessedDetections.zero, ellipses := [], fov_models := [] }
    (fun x hx => absurd hx (List.not_mem_nil x))
  rw [(post_process_fields m h cfg sws).1]
  split
  · apply collect_ellipse_intersections_forall m _ _ _ _ _ (fun x hx => hx)
    exact collect_ellipse_intersections_traverse_forall m _ _ _ (fun x hx => hx) hloop
  · exact hloop

/-- Every FOV detection of `post_process` is the FOV-pie detection of a signal-way or is
classified as outside the vehicle contour. -/
theorem post_process_fov_outside (m : Libm) (h : HashOrder) (cfg : ProcessorConfig)
    (sws : List SignalWay) :
    ∀ x ∈ (post_process m h cfg sws).fov_intersections,
      x ∈ sws.filterMap (fov_pie_detection m) ∨ is_inside_vehicle_contour x.1 x.2 = false := by
  have hloop : ∀ x ∈ (sws.foldl (post_step m cfg)
      { out := ProcessedDetections.zero, ellipses := [], fov_models := [] }).out.fov_intersections,
      x ∈ sws.filterMap (fov_pie_detection m) ∨ is_inside_vehicle_contour x.1 x.2 = false := by
    intro x hx
    rw [foldl_post_step_fov] at hx
    left
    by_cases hf : runs_fov cfg.processing_method = true
    · rw [if_pos hf] at hx
      simpa [ProcessedDetections.zero] using hx
    · rw [if_neg hf] at hx
      simp [ProcessedDetections.zero] at hx
  rw [(post_process_fields m h cfg sws).2.1]
  split
  · exact collect_ellipse_intersections_forall m _ _ _ _ _ (fun x hx => Or.inr hx) hloop
  · exact hloop

/-- The centroid of `(2, 1)` and `(2, -1)` under radius 2. -/
theorem cluster_two_points (h : HashOrder) :
    cluster_with_table_melt h [(2, 1), (2, -1)] 2 = [(2, 0)] := by
  rw [cluster_with_table_melt_eq, if_neg (List.cons_ne_nil _ _)]
  have hl : melt_labels [(2, 1), (2, -1)] (2 * 2) = ([1, 1], 2) := by
    norm_num [melt_labels, melt_seed, melt_loop, melt_pass, melt_member, melt_neighbour,
      adjacency, List.range, List.range.loop, List.replicate, List.set]
  rw [hl]
  norm_num [centroid, members, List.range, List.range.loop, List.range', List.filter]

/-- What `post_process` returns on the two undecodable signal-ways under `cfg_wide`. -/
theorem post_process_undecodable (m : Libm) (h : HashOrder) :
    (post_process m h cfg_wide sws_undecodable).tracing = [(2, 1), (2, -1)] ∧
    (post_process m h cfg_wide sws_undecodable).fused = [(2, 1), (2, -1)] ∧
    (post_process m h cfg_wide sws_undecodable).clustered = [(2, 0)] := by
  have htr : (post_process m h cfg_wide sws_undecodable).tracing = [(2, 1), (2, -1)] := by
    rw [post_process_tracing_eq]
    norm_num [runs_tracing, cfg_wide, ProcessorConfig.defaults, sws_undecodable,
      tracing_detection_from_signal_way, map_signal_way_to_sensor_pair, tracing_fallback]
  have hfov : (post_process m h cfg_wide sws_undecodable).fov_intersections = [] :=
    post_process_fov_off m h cfg_wide sws_undecodable rfl
  have hell : (post_process m h cfg_wide sws_undecodable).ellipse_intersections = [] :=
    post_process_ellipse_off m h cfg_wide sws_undecodable rfl
  have hfused : (post_process m h cfg_wide sws_undecodable).fused = [(2, 1), (2, -1)] := by
    rw [(post_process_fields m h cfg_wide sws_undecodable).2.2.1, htr, hfov, hell]
    norm_num [fuse_method_detections, fuse_candidates, fuse_step, available_methods,
      push_unique_detection, too_close, kMinSepSq]
  refine ⟨htr, hfused, ?_⟩
  rw [(post_process_fields m h cfg_wide sws_undecodable).2.2.2, hfused]
  exact cluster_two_points h

/-! ## Fuel of the loops -/

/-- The constant `pi_d` is positive. -/
theorem pi_d_pos : 0 < pi_d := by norm_num [pi_d]

/-- More fuel does not change `wrap_down` once the fuel covers the distance to `pi`. -/
theorem wrap_down_stable (fuel : Nat) :
    ∀ angle : ℚ, angle ≤ pi_d + 2 * pi_d * fuel →
      ∀ k : Nat, wrap_down (fuel + k) angle = wrap_down fuel angle := by
  induction fuel with
  | zero =>
    intro angle hle k
    have hle' : ¬ angle > pi_d := by simpa using hle
    cases k with
    | zero => rfl
    | succ k =>
      show wrap_down (0 + k + 1) angle = angle
      unfold wrap_down
      rw [if_neg hle']
  | succ fuel ih =>
    intro angle hle k
    have hk : fuel + 1 + k = (fuel + k) + 1 := by omega
    rw [hk]
    unfold wrap_down
    by_cases hgt : angle > pi_d
    · rw [if_pos hgt, if_pos hgt]
      apply ih
      push_cast at hle
      linarith
    · rw [if_neg hgt, if_neg hgt]

/-- More fuel does not change `wrap_up` once the fuel covers the distance to `-pi`. -/
theorem wrap_up_stable (fuel : Nat) :
    ∀ angle : ℚ, -(pi_d + 2 * pi_d * fuel) ≤ angle →
      ∀ k : Nat, wrap_up (fuel + k) angle = wrap_up fuel angle := by
  induction fuel with
  | zero =>
    intro angle hle k
    have hle' : ¬ angle < -pi_d := by
      simp only [Nat.cast_zero, mul_zero, add_zero] at hle
      exact not_lt.mpr hle
    cases k with
    | zero => rfl
    | succ k =>
      show wrap_up (0 + k + 1) angle = angle
      unfold wrap_up
      rw [if_neg hle']
  | succ fuel ih =>
    intro angle hle k
    have hk : fuel + 1 + k = (fuel + k) + 1 := by omega
    rw [hk]
    unfold wrap_up
    by_cases hlt : angle < -pi_d
    · rw [if_pos hlt, if_pos hlt]
      apply ih
      push_cast at hle
      linarith
    · rw [if_neg hlt, if_neg hlt]

/-- The fuel `wrap_fuel angle` covers the distance of `angle` to zero. -/
theorem wrap_fuel_covers (angle : ℚ) : |angle| ≤ 2 * pi_d * wrap_fuel angle := by
  have hpos : (0 : ℚ) < 2 * pi_d := by have := pi_d_pos; linarith
  have h := Nat.le_ceil (|angle| / (2 * pi_d))
  have h2 := (div_le_iff₀ hpos).mp h
  unfold wrap_fuel
  linarith

/-- The fuel of `wrap_to_pi` is enough: with any larger fuel both loops return the same
angle, so the loops of the source have stopped. -/
theorem wrap_to_pi_fuel (angle : ℚ) (k1 k2 : Nat) :
    wrap_up (wrap_fuel (wrap_down (wrap_fuel angle + k1) angle) + k2)
      (wrap_down (wrap_fuel angle + k1) angle) = wrap_to_pi angle := by
  have hpi := pi_d_pos
  have h1 : wrap_down (wrap_fuel angle + k1) angle = wrap_down (wrap_fuel angle) angle := by
    apply wrap_down_stable
    have := wrap_fuel_covers angle
    have := le_abs_self angle
    linarith
  rw [h1]
  unfold wrap_to_pi
  apply wrap_up_stable
  have := wrap_fuel_covers (wrap_down (wrap_fuel angle) angle)
  have := neg_abs_le (wrap_down (wrap_fuel angle) angle)
  linarith

/-- Setting a zero label to a non-zero one removes one zero. -/
theorem count_zero_set (l : List Nat) (b v : Nat) (hb : b < l.length) (h0 : l.getD b 0 = 0)
    (hv : v ≠ 0) : (l.set b v).count 0 + 1 = l.count 0 := by
  have hget : l[b] = 0 := by
    rw [List.getD_eq_getElem l 0 hb] at h0
    exact h0
  have hpos : 0 < l.count 0 := by
    apply List.count_pos_iff.mpr
    rw [← hget]
    exact List.getElem_mem hb
  rw [List.count_set v 0 l b hb]
  simp [hget, hv]
  omega

/-- The innermost step of the flood fill keeps `pass_inv`. -/
theorem melt_neighbour_inv (inp : List Detection) (radius_sq : ℚ) (next_id a n K : Nat)
    (hid : next_id ≠ 0) (st : List Nat × Bool) (b : Nat) (hb : b < n)
    (h : pass_inv n K st) : pass_inv n K (melt_neighbour inp radius_sq next_id a st b) := by
  obtain ⟨hlen, hle, hlt⟩ := h
  unfold melt_neighbour
  by_cases hc : (adjacency inp radius_sq a b && decide (st.1.getD b 0 = 0)) = true
  · rw [if_pos hc]
    have h0 : st.1.getD b 0 = 0 := by
      simp only [Bool.and_eq_true, decide_eq_true_eq] at hc
      exact hc.2
    have hcount := count_zero_set st.1 b next_id (hlen ▸ hb) h0 hid
    refine ⟨by simp [hlen], by simp only; omega, fun _ => by simp only; omega⟩
  · rw [if_neg hc]
    exact ⟨hlen, hle, hlt⟩

/-- A fold over indices below `n` keeps an invariant that each step keeps. -/
theorem foldl_range_inv {σ : Type} (P : σ → Prop) (f : σ → Nat → σ) (n : Nat)
    (hf : ∀ st b, b < n → P st → P (f st b)) (st : σ) (h : P st) :
    P ((List.range n).foldl f st) := by
  have key : ∀ (l : List Nat), (∀ b ∈ l, b < n) → ∀ st, P st → P (l.foldl f st) := by
    intro l
    induction l with
    | nil => intro _ st h; exact h
    | cons b l ih =>
      intro hl st h
      exact ih (fun c hc => hl c (List.mem_cons_of_mem _ hc)) _
        (hf st b (hl b (List.mem_cons_self _ _)) h)
  exact key _ (fun b hb => List.mem_range.mp hb) st h

/-- One pass of the flood fill keeps the length, never adds a zero label, and removes
one when it reports a change. -/
theorem melt_pass_inv (inp : List Detection) (radius_sq : ℚ) (next_id : Nat) (hid : next_id ≠ 0)
    (c : List Nat) (hc : c.length = inp.length) :
    pass_inv inp.length (c.count 0) (melt_pass inp radius_sq next_id c) := by
  unfold melt_pass
  apply foldl_range_inv (pass_inv inp.length (c.count 0))
  · intro st a _ hst
    unfold melt_member
    by_cases hne : st.1.getD a 0 ≠ next_id
    · rw [if_pos hne]; exact hst
    · rw [if_neg hne]
      apply foldl_range_inv (pass_inv inp.length (c.count 0))
      · intro st2 b hb hst2
        exact melt_neighbour_inv inp radius_sq next_id a _ _ hid st2 b hb hst2
      · exact hst
  · exact ⟨hc, le_refl _, fun h => by simp at h⟩

/-- More fuel does not change `melt_loop` once the fuel exceeds the number of zero
labels: the `while (changed)` loop has stopped. -/
theorem melt_loop_stable (inp : List Detection) (radius_sq : ℚ) (next_id : Nat)
    (hid : next_id ≠ 0) (fuel : Nat) :
    ∀ c : List Nat, c.length = inp.length → c.count 0 < fuel →
      ∀ k : Nat, melt_loop inp radius_sq next_id (fuel + k) c =
        melt_loop inp radius_sq next_id fuel c := by
  induction fuel with
  | zero => intro c _ h; omega
  | succ fuel ih =>
    intro c hc hlt k
    have hk : fuel + 1 + k = (fuel + k) + 1 := by omega
    rw [hk]
    obtain ⟨hlen, _, hdec⟩ := melt_pass_inv inp radius_sq next_id hid c hc
    unfold melt_loop
    simp only
    by_cases hch : (melt_pass inp radius_sq next_id c).2 = true
    · rw [if_pos hch, if_pos hch]
      exact ih _ hlen (by have := hdec hch; omega) k
    · rw [if_neg hch, if_neg hch]

/-- The fuel `n + 1` given to the flood fill by `melt_seed` is enough. -/
theorem melt_loop_fuel (inp : List Detection) (radius_sq : ℚ) (next_id : Nat)
    (hid : next_id ≠ 0) (c : List Nat) (hc : c.length = inp.length) (k : Nat) :
    melt_loop inp radius_sq next_id (inp.length + 1 + k) c =
      melt_loop inp radius_sq next_id (inp.length + 1) c := by
  apply melt_loop_stable inp radius_sq next_id hid _ c hc
  have := List.count_le_length 0 c
  omega

/-! ## The circle example -/

/-- The loop `wrap_down` leaves an angle that is at most `pi` alone. -/
theorem wrap_down_of_le (fuel : Nat) (a : ℚ) (h : a ≤ pi_d) : wrap_down fuel a = a := by
  cases fuel with
  | zero => rfl
  | succ fuel =>
    unfold wrap_down
    rw [if_neg (not_lt.mpr h)]

/-- The loop `wrap_up` leaves an angle that is at least `-pi` alone. -/
theorem wrap_up_of_le (fuel : Nat) (a : ℚ) (h : -pi_d ≤ a) : wrap_up fuel a = a := by
  cases fuel with
  | zero => rfl
  | succ fuel =>
    unfold wrap_up
    rw [if_neg (not_lt.mpr h)]

/-- An angle already in `[-pi, pi]` is returned unchanged by `wrap_to_pi`. -/
theorem wrap_to_pi_of_mem (a : ℚ) (h1 : -pi_d ≤ a) (h2 : a ≤ pi_d) : wrap_to_pi a = a := by
  unfold wrap_to_pi
  simp only
  rw [wrap_down_of_le _ a h2, wrap_up_of_le _ a h1]

/-- The ellipse of `sw_circle` is the unit circle around sensor 0. -/
theorem build_ellipse_circle :
    build_ellipse_from_signal_way libm_sample sw_circle =
      some { cx := 3238 / 1000, cy := 913 / 1000, axis_a := 1, axis_b := 1, theta := 0 } := by
  norm_num [build_ellipse_from_signal_way, sw_circle, map_signal_way_to_sensor_pair,
    sensor_index_invalid, sensor_at, kDefaultSensors, libm_sample, sqrt_newton, List.range,
    List.range.loop, List.getD]

/-- The sample cosine and sine at 0 and at `0.3 * pi`. -/
theorem libm_sample_values :
    libm_sample.cos 0 = 1 ∧ libm_sample.sin 0 = 0 ∧
    libm_sample.cos ((3 / 10) * pi_d) = cos_series ((3 / 10) * pi_d) ∧
    libm_sample.sin ((3 / 10) * pi_d) = sin_series ((3 / 10) * pi_d) := by
  have hpi := pi_d_pos
  have h0 : wrap_to_pi 0 = 0 := wrap_to_pi_of_mem 0 (by linarith) (by linarith)
  have h3 : wrap_to_pi ((3 / 10) * pi_d) = (3 / 10) * pi_d :=
    wrap_to_pi_of_mem _ (by linarith) (by linarith)
  refine ⟨?_, ?_, ?_, ?_⟩
  · show cos_series (wrap_to_pi 0) = 1
    rw [h0]; norm_num [cos_series]
  · show sin_series (wrap_to_pi 0) = 0
    rw [h0]; norm_num [sin_series]
  · show cos_series (wrap_to_pi _) = _
    rw [h3]
  · show sin_series (wrap_to_pi _) = _
    rw [h3]

/-- The seed point of the circle of `sw_circle` is classified as outside the contour. -/
theorem seed_circle_outside :
    is_inside_vehicle_contour
      (ellipse_point libm_sample
        { cx := 3238 / 1000, cy := 913 / 1000, axis_a := 1, axis_b := 1, theta := 0 }
        ((3 / 10) * pi_d)).1
      (ellipse_point libm_sample
        { cx := 3238 / 1000, cy := 913 / 1000, axis_a := 1, axis_b := 1, theta := 0 }
        ((3 / 10) * pi_d)).2 = false := by
  obtain ⟨hc0, hs0, hc3, hs3⟩ := libm_sample_values
  unfold ellipse_point
  simp only [hc0, hs0, hc3, hs3]
  norm_num [is_inside_vehicle_contour, contour_step, contour_edge_intersect, kDefaultContour,
    epsilon_d, List.range, List.range.loop, cos_series, sin_series, pi_d]

/-- The signal-way loop of `post_process` on `sw_circle` under the ellipse method: one
ellipse, and its seed point in the ellipse list. -/
theorem post_step_circle :
    post_step libm_sample cfg_ellipse
      { out := ProcessedDetections.zero, ellipses := [], fov_models := [] } sw_circle =
      { out := { ProcessedDetections.zero with
          ellipse_intersections := [ellipse_point libm_sample
            { cx := 3238 / 1000, cy := 913 / 1000, axis_a := 1, axis_b := 1, theta := 0 }
            ((3 / 10) * pi_d)] }
        ellipses := [{ cx := 3238 / 1000, cy := 913 / 1000, axis_a := 1, axis_b := 1, theta := 0 }]
        fov_models := [] } := by
  have ht : post_tracing libm_sample cfg_ellipse
      { out := ProcessedDetections.zero, ellipses := [], fov_models := [] } sw_circle =
      { out := ProcessedDetections.zero, ellipses := [], fov_models := [] } := by
    unfold post_tracing
    rw [if_neg (by decide)]
  unfold post_step
  rw [ht, (post_fov_fields libm_sample cfg_ellipse _ sw_circle).2.2.2 rfl]
  unfold post_ellipse
  rw [if_pos (by decide), build_ellipse_circle]
  simp only
  rw [if_pos (by rw [seed_circle_outside]; rfl)]
  rfl

/-- What `post_process` returns for `sw_circle` under the ellipse method: the ellipse list
holds the seed point of the circle. -/
theorem post_process_circle (h : HashOrder) :
    (post_process libm_sample h cfg_ellipse [sw_circle]).ellipse_intersections =
      [ellipse_point libm_sample
        { cx := 3238 / 1000, cy := 913 / 1000, axis_a := 1, axis_b := 1, theta := 0 }
        ((3 / 10) * pi_d)] := by
  rw [(post_process_fields libm_sample h cfg_ellipse [sw_circle]).1]
  simp only [List.foldl_cons, List.foldl_nil, post_step_circle]
  rw [if_neg (by decide)]

/-! ## The timestamp guard switched off -/

/-- With the guard switched off, `process_frame` leaves `out_of_order_frames` alone. -/
theorem process_frame_relaxed_counter (pp : PostProcess) (clock : StageTimingUs)
    (p : UltrasoundProcessor) (input : FrameInput)
    (hc : p.config_.strict_monotonic_timestamps = false) :
    (process_frame pp clock p input).1.diagnostics_.out_of_order_frames =
      p.diagnostics_.out_of_order_frames := by
  have h1 : ¬ (p.config_.strict_monotonic_timestamps = true ∧
      input.timestamp_us ≤ p.last_timestamp_us_) := by
    rw [hc]; exact fun h => absurd h.1 (by decide)
  by_cases h2 : input.signal_ways = [] ∧ input.static_features = []
  · rw [process_frame_invalid_input pp clock p input h1 h2]
  · cases h3 : interpolate_pose p.state_queue_ input.timestamp_us with
    | none => rw [process_frame_missing_state pp clock p input h1 h2 h3]
    | some pose => rw [process_frame_success pp clock p input pose h1 h2 h3]

/-- With the guard switched off, no sequence of calls changes `out_of_order_frames`. -/
theorem run_relaxed_counter (pp : PostProcess) (calls : List Call) (p : UltrasoundProcessor)
    (hc : p.config_.strict_monotonic_timestamps = false) :
    (run pp p calls).diagnostics_.out_of_order_frames = p.diagnostics_.out_of_order_frames := by
  induction calls generalizing p with
  | nil => rfl
  | cons c cs ih =>
    cases c with
    | push s =>
      show (run pp (push_vehicle_state p s).1 cs).diagnostics_.out_of_order_frames = _
      rw [ih _ (by rw [(push_vehicle_state_frame p s).1]; exact hc),
        (push_vehicle_state_frame p s).2.2.2]
    | frame clock input =>
      show (run pp (process_frame pp clock p input).1 cs).diagnostics_.out_of_order_frames = _
      rw [ih _ (by rw [process_frame_config]; exact hc),
        process_frame_relaxed_counter pp clock p input hc]

/-! ## Invariants of the intersection collectors -/

/-- A generic fold invariant on a projection of the state. -/
theorem foldl_inv {σ β : Type} (Q : σ → Prop) (f : σ → β → σ)
    (hf : ∀ st b, Q st → Q (f st b)) (l : List β) (st : σ) (h : Q st) : Q (l.foldl f st) := by
  induction l generalizing st with
  | nil => exact h
  | cons b l ih => exact ih (f st b) (hf st b h)

/-- One sample of `collect_ellipse_intersections` keeps every property of the vector that
the de-duplicating push keeps. -/
theorem collect_sample_step_inv (m : Libm) (mi mj : EllipseModel) (tolerance : ℚ)
    (Q : List Detection → Prop) (hQ : ∀ l c, Q l → Q (push_unique_detection l c))
    (st : List Detection × ℚ × Detection) (s : Nat) (h : Q st.1) :
    Q (collect_sample_step m mi mj tolerance st s).1 := by
  unfold collect_sample_step
  simp only
  split
  · exact hQ _ _ h
  · exact h

/-- One pair of models in `collect_ellipse_intersections` keeps every property of the
vector that the de-duplicating push keeps. -/
theorem collect_pair_inv (m : Libm) (tolerance best_limit : ℚ) (mi : EllipseModel)
    (Q : List Detection → Prop) (hQ : ∀ l c, Q l → Q (push_unique_detection l c))
    (out : List Detection) (mj : EllipseModel) (h : Q out) :
    Q (collect_pair m tolerance best_limit mi out mj) := by
  have hst := foldl_inv (fun st : List Detection × ℚ × Detection => Q st.1)
    (collect_sample_step m mi mj tolerance)
    (fun st s hs => collect_sample_step_inv m mi mj tolerance Q hQ st s hs)
    (List.range kSamples) (out, max_d, (0, 0)) h
  unfold collect_pair
  simp only
  split
  · exact hQ _ _ hst
  · exact hst

/-- All pairs of models in `collect_ellipse_intersections` keep every property of the
vector that the de-duplicating push keeps. -/
theorem collect_pairs_inv (m : Libm) (tolerance best_limit : ℚ)
    (Q : List Detection → Prop) (hQ : ∀ l c, Q l → Q (push_unique_detection l c))
    (models : List EllipseModel) (out : List Detection) (h : Q out) :
    Q (collect_pairs m tolerance best_limit models out) := by
  induction models generalizing out with
  | nil => exact h
  | cons mi rest ih =>
    unfold collect_pairs
    apply ih
    exact foldl_inv Q (collect_pair m tolerance best_limit mi)
      (fun o mj ho => collect_pair_inv m tolerance best_limit mi Q hQ o mj ho) rest out h

/-- The function `collect_ellipse_intersections` keeps every property of the vector that
the de-duplicating push keeps. -/
theorem collect_ellipse_intersections_inv (m : Libm) (models : List EllipseModel)
    (out : List Detection) (tolerance best_limit : ℚ)
    (Q : List Detection → Prop) (hQ : ∀ l c, Q l → Q (push_unique_detection l c)) (h : Q out) :
    Q (collect_ellipse_intersections m models out tolerance best_limit) := by
  unfold collect_ellipse_intersections
  split
  · exact h
  · exact collect_pairs_inv m tolerance best_limit Q hQ models out h

/-- One sample of the traverse collector keeps every property of the vector that the
de-duplicating push keeps. -/
theorem traverse_sample_step_inv (m : Libm) (mi mj : EllipseModel)
    (Q : List Detection → Prop) (hQ : ∀ l c, Q l → Q (push_unique_detection l c))
    (st : List Detection × ℚ × ℚ) (s : Nat) (h : Q st.1) :
    Q (traverse_sample_step m mi mj st s).1 := by
  unfold traverse_sample_step
  simp only
  split
  · split
    · exact hQ _ _ h
    · exact h
  · exact h

/-- One pair of models in the traverse collector keeps every property of the vector that
the de-duplicating push keeps. -/
theorem traverse_pair_inv (m : Libm) (mi : EllipseModel)
    (Q : List Detection → Prop) (hQ : ∀ l c, Q l → Q (push_unique_detection l c))
    (out : List Detection) (mj : EllipseModel) (h : Q out) :
    Q (traverse_pair m mi out mj) := by
  unfold traverse_pair
  exact foldl_inv (fun st : List Detection × ℚ × ℚ => Q st.1)
    (traverse_sample_step m mi mj)
    (fun st s hs => traverse_sample_step_inv m mi mj Q hQ st s hs) _ _ h

/-- All pairs of models in the traverse collector keep every property of the vector that
the de-duplicating push keeps. -/
theorem traverse_pairs_inv (m : Libm)
    (Q : List Detection → Prop) (hQ : ∀ l c, Q l → Q (push_unique_detection l c))
    (models : List EllipseModel) (out : List Detection) (h : Q out) :
    Q (traverse_pairs m models out) := by
  induction models generalizing out with
  | nil => exact h
  | cons mi rest ih =>
    unfold traverse_pairs
    apply ih
    exact foldl_inv Q (traverse_pair m mi)
      (fun o mj ho => traverse_pair_inv m mi Q hQ o mj ho) rest out h

/-- The function `collect_ellipse_intersections_traverse` keeps every property of the
vector that the de-duplicating push keeps. -/
theorem collect_ellipse_intersections_traverse_inv (m : Libm) (models : List EllipseModel)
    (out : List Detection)
    (Q : List Detection → Prop) (hQ : ∀ l c, Q l → Q (push_unique_detection l c)) (h : Q out) :
    Q (collect_ellipse_intersections_traverse m models out) := by
  unfold collect_ellipse_intersections_traverse
  split
  · exact h
  · exact traverse_pairs_inv m Q hQ models out h

/-! ## `build_ellipse_from_signal_way` -/

/-- A decoded pair indexes the sensor table. -/
theorem map_pair_index_valid (group_id signal_way_id : Nat) (tx rx : Int)
    (h : map_signal_way_to_sensor_pair group_id signal_way_id = some (tx, rx)) :
    sensor_index_invalid tx rx = false := by
  by_cases hc : group_id > 1 ∨ signal_way_id > 15
  · unfold map_signal_way_to_sensor_pair at h
    simp [hc] at h
  · have hg : group_id ≤ 1 := by omega
    have hk : signal_way_id ≤ 15 := by omega
    interval_cases group_id <;> interval_cases signal_way_id <;>
      (simp [map_signal_way_to_sensor_pair] at h; obtain ⟨rfl, rfl⟩ := h; decide)

/-- The function `build_ellipse_from_signal_way` on a decoded pair. -/
theorem build_ellipse_of_pair (m : Libm) (sw : SignalWay) (tx rx : Int)
    (h : map_signal_way_to_sensor_pair sw.group_id sw.signal_way_id = some (tx, rx)) :
    build_ellipse_from_signal_way m sw =
      if sw.distance_m ≤ 0 then none
      else if sw.distance_m ≤ (1 / 2) * sensor_baseline m tx rx then none
      else some
        { cx := (1 / 2) * ((sensor_at tx).x_m + (sensor_at rx).x_m)
          cy := (1 / 2) * ((sensor_at tx).y_m + (sensor_at rx).y_m)
          axis_a := sw.distance_m
          axis_b := m.sqrt (max 0 (sw.distance_m * sw.distance_m -
            (1 / 2) * sensor_baseline m tx rx * ((1 / 2) * sensor_baseline m tx rx)))
          theta := m.atan2 ((sensor_at rx).y_m - (sensor_at tx).y_m)
            ((sensor_at rx).x_m - (sensor_at tx).x_m) } := by
  unfold build_ellipse_from_signal_way
  rw [h]
  simp only [map_pair_index_valid _ _ _ _ h, Bool.false_eq_true, if_false, sensor_baseline]

/-- The entries 2 and 3 of the sensor table. -/
theorem sensor_at_pair23 :
    sensor_at 2 =
      { x_m := 3804 / 1000, y_m := 276 / 1000, mounting_rad := deg 7, fov_rad := deg 100 } ∧
    sensor_at 3 =
      { x_m := 3804 / 1000, y_m := -276 / 1000, mounting_rad := deg (-4), fov_rad := deg 75 } :=
  ⟨rfl, rfl⟩

/-- Over `ℚ` the field-generic builder is `build_ellipse_from_signal_way`. -/
theorem build_ellipse_over_rat (m : Libm) (sw : SignalWay) :
    build_ellipse_from_signal_way_over m.over sw =
      (build_ellipse_from_signal_way m sw).map EllipseModel.over := by
  unfold build_ellipse_from_signal_way_over build_ellipse_from_signal_way
  cases map_signal_way_to_sensor_pair sw.group_id sw.signal_way_id with
  | none => rfl
  | some pair =>
    obtain ⟨tx, rx⟩ := pair
    simp only [Rat.cast_id, Libm.over]
    split
    · rfl
    · split
      · rfl
      · split
        · rfl
        · rfl

/-- The function `build_ellipse_from_signal_way_over` on a decoded pair. -/
theorem build_ellipse_over_of_pair {K : Type} [LinearOrderedField K] (m : LibmOver K)
    (sw : SignalWay) (tx rx : Int)
    (h : map_signal_way_to_sensor_pair sw.group_id sw.signal_way_id = some (tx, rx)) :
    build_ellipse_from_signal_way_over m sw =
      if (sw.distance_m : K) ≤ 0 then none
      else if (sw.distance_m : K) ≤ (1 / 2) * sensor_baseline_over m tx rx then none
      else some
        { cx := (1 / 2) * (((sensor_at tx).x_m : K) + ((sensor_at rx).x_m : K))
          cy := (1 / 2) * (((sensor_at tx).y_m : K) + ((sensor_at rx).y_m : K))
          axis_a := (sw.distance_m : K)
          axis_b := m.sqrt (max 0 ((sw.distance_m : K) * (sw.distance_m : K) -
            (1 / 2) * sensor_baseline_over m tx rx * ((1 / 2) * sensor_baseline_over m tx rx)))
          theta := m.atan2 (((sensor_at rx).y_m : K) - ((sensor_at tx).y_m : K))
            (((sensor_at rx).x_m : K) - ((sensor_at tx).x_m : K)) } := by
  unfold build_ellipse_from_signal_way_over
  rw [h]
  simp only [map_pair_index_valid _ _ _ _ h, Bool.false_eq_true, if_false, sensor_baseline_over]

/-- With the real library the computed sensor distance is the Euclidean distance of the
two sensors, and the cosine and the sine of the axis direction are its direction
cosines. -/
theorem real_library_baseline (mr : LibmOver ℝ) (hreal : real_library mr) (x y : ℝ) :
    0 ≤ mr.sqrt (x * x + y * y) ∧
    mr.sqrt (x * x + y * y) * mr.sqrt (x * x + y * y) = x * x + y * y ∧
    mr.cos (mr.atan2 y x) * mr.sqrt (x * x + y * y) = x ∧
    mr.sin (mr.atan2 y x) * mr.sqrt (x * x + y * y) = y := by
  obtain ⟨hs, hc, hsn, ha⟩ := hreal
  have h0 : 0 ≤ x * x + y * y := add_nonneg (mul_self_nonneg x) (mul_self_nonneg y)
  have habs : Complex.abs ⟨x, y⟩ = Real.sqrt (x * x + y * y) := by
    rw [Complex.abs_apply, Complex.normSq_mk]
  rw [hs, hc, hsn, ha]
  refine ⟨Real.sqrt_nonneg _, Real.mul_self_sqrt h0, ?_, ?_⟩
  · rw [← habs, mul_comm, Complex.abs_mul_cos_arg]
  · rw [← habs, mul_comm, Complex.abs_mul_sin_arg]

/-- With the real library, a positive distance is at most half the computed sensor
distance exactly when four times its square is at most the squared distance of the
sensors. -/
theorem real_half_baseline_iff (mr : LibmOver ℝ) (hreal : real_library mr) (d : ℚ)
    (tx rx : Int) (hd : 0 < d) :
    (d : ℝ) ≤ sensor_baseline_over mr tx rx / 2 ↔
      4 * d * d ≤
        ((sensor_at rx).x_m - (sensor_at tx).x_m) * ((sensor_at rx).x_m - (sensor_at tx).x_m) +
        ((sensor_at rx).y_m - (sensor_at tx).y_m) * ((sensor_at rx).y_m - (sensor_at tx).y_m) := by
  obtain ⟨hb0, hbsq, -, -⟩ := real_library_baseline mr hreal
    (((sensor_at rx).x_m : ℝ) - ((sensor_at tx).x_m : ℝ))
    (((sensor_at rx).y_m : ℝ) - ((sensor_at tx).y_m : ℝ))
  have hdr : (0 : ℝ) < (d : ℝ) := by exact_mod_cast hd
  have hcast : (((4 * d * d : ℚ) : ℝ) ≤
      ((((sensor_at rx).x_m - (sensor_at tx).x_m) * ((sensor_at rx).x_m - (sensor_at tx).x_m) +
        ((sensor_at rx).y_m - (sensor_at tx).y_m) * ((sensor_at rx).y_m - (sensor_at tx).y_m) : ℚ)
        : ℝ)) ↔ 4 * d * d ≤
        ((sensor_at rx).x_m - (sensor_at tx).x_m) * ((sensor_at rx).x_m - (sensor_at tx).x_m) +
        ((sensor_at rx).y_m - (sensor_at tx).y_m) * ((sensor_at rx).y_m - (sensor_at tx).y_m) :=
    Rat.cast_le
  have hB0 : 0 ≤ sensor_baseline_over mr tx rx := hb0
  have hBsq : sensor_baseline_over mr tx rx * sensor_baseline_over mr tx rx =
      (((sensor_at rx).x_m : ℝ) - ((sensor_at tx).x_m : ℝ)) *
        (((sensor_at rx).x_m : ℝ) - ((sensor_at tx).x_m : ℝ)) +
      (((sensor_at rx).y_m : ℝ) - ((sensor_at tx).y_m : ℝ)) *
        (((sensor_at rx).y_m : ℝ) - ((sensor_at tx).y_m : ℝ)) := hbsq
  rw [← hcast]
  push_cast
  rw [← hBsq]
  constructor
  · intro h
    have h2 : 2 * (d : ℝ) ≤ sensor_baseline_over mr tx rx := by linarith
    have := mul_self_le_mul_self (by linarith) h2
    linarith
  · intro h
    by_contra hlt
    have hlt2 : sensor_baseline_over mr tx rx < 2 * (d : ℝ) := by
      linarith [not_le.mp hlt]
    have := mul_self_lt_mul_self hB0 hlt2
    linarith

/-- The ellipse built with the real library: centre, semi-axes, axis direction and
foci. -/
theorem build_ellipse_real_some (mr : LibmOver ℝ) (hreal : real_library mr) (sw : SignalWay)
    (tx rx : Int) (e : EllipseModelOver ℝ)
    (hmap : map_signal_way_to_sensor_pair sw.group_id sw.signal_way_id = some (tx, rx))
    (hbuild : build_ellipse_from_signal_way_over mr sw = some e) :
    (e.cx = (((1 / 2) * ((sensor_at tx).x_m + (sensor_at rx).x_m) : ℚ) : ℝ) ∧
      e.cy = (((1 / 2) * ((sensor_at tx).y_m + (sensor_at rx).y_m) : ℚ) : ℝ) ∧
      e.axis_a = (sw.distance_m : ℝ)) ∧
    (0 ≤ e.axis_b ∧
      e.axis_b * e.axis_b = (sw.distance_m : ℝ) * (sw.distance_m : ℝ) -
        (sensor_baseline_over mr tx rx / 2) * (sensor_baseline_over mr tx rx / 2)) ∧
    (mr.cos e.theta * sensor_baseline_over mr tx rx =
        (((sensor_at rx).x_m - (sensor_at tx).x_m : ℚ) : ℝ) ∧
      mr.sin e.theta * sensor_baseline_over mr tx rx =
        (((sensor_at rx).y_m - (sensor_at tx).y_m : ℚ) : ℝ)) ∧
    (e.cx - focal_distance_over mr e * mr.cos e.theta = ((sensor_at tx).x_m : ℝ) ∧
      e.cy - focal_distance_over mr e * mr.sin e.theta = ((sensor_at tx).y_m : ℝ)) ∧
    (e.cx + focal_distance_over mr e * mr.cos e.theta = ((sensor_at rx).x_m : ℝ) ∧
      e.cy + focal_distance_over mr e * mr.sin e.theta = ((sensor_at rx).y_m : ℝ)) ∧
    (tx = rx → e.axis_b = (sw.distance_m : ℝ) ∧ e.axis_a = (sw.distance_m : ℝ) ∧
      e.cx = ((sensor_at tx).x_m : ℝ) ∧ e.cy = ((sensor_at tx).y_m : ℝ)) := by
  obtain ⟨hb0, hbsq, hcos, hsin⟩ := real_library_baseline mr hreal
    (((sensor_at rx).x_m : ℝ) - ((sensor_at tx).x_m : ℝ))
    (((sensor_at rx).y_m : ℝ) - ((sensor_at tx).y_m : ℝ))
  have hsqrt := hreal.1
  rw [build_ellipse_over_of_pair mr sw tx rx hmap] at hbuild
  by_cases h1 : (sw.distance_m : ℝ) ≤ 0
  · rw [if_pos h1] at hbuild; exact absurd hbuild (by simp)
  · rw [if_neg h1] at hbuild
    by_cases h2 : (sw.distance_m : ℝ) ≤ (1 / 2) * sensor_baseline_over mr tx rx
    · rw [if_pos h2] at hbuild; exact absurd hbuild (by simp)
    · rw [if_neg h2] at hbuild
      have he := (Option.some.inj hbuild).symm
      have hd : (0 : ℝ) < (sw.distance_m : ℝ) := not_le.mp h1
      have hhalf : (1 / 2) * sensor_baseline_over mr tx rx < (sw.distance_m : ℝ) := not_le.mp h2
      have hB0 : 0 ≤ sensor_baseline_over mr tx rx := hb0
      have hBsq : sensor_baseline_over mr tx rx * sensor_baseline_over mr tx rx =
          (((sensor_at rx).x_m : ℝ) - ((sensor_at tx).x_m : ℝ)) *
            (((sensor_at rx).x_m : ℝ) - ((sensor_at tx).x_m : ℝ)) +
          (((sensor_at rx).y_m : ℝ) - ((sensor_at tx).y_m : ℝ)) *
            (((sensor_at rx).y_m : ℝ) - ((sensor_at tx).y_m : ℝ)) := hbsq
      have hdiff : 0 ≤ (sw.distance_m : ℝ) * (sw.distance_m : ℝ) -
          (1 / 2) * sensor_baseline_over mr tx rx * ((1 / 2) * sensor_baseline_over mr tx rx) := by
        have hh0 : 0 ≤ (1 / 2) * sensor_baseline_over mr tx rx := by linarith
        have := mul_self_le_mul_self hh0 hhalf.le
        linarith
      have haxb : e.axis_b = Real.sqrt ((sw.distance_m : ℝ) * (sw.distance_m : ℝ) -
          (1 / 2) * sensor_baseline_over mr tx rx * ((1 / 2) * sensor_baseline_over mr tx rx)) := by
        rw [he]
        simp only
        rw [hsqrt, max_eq_right hdiff]
      have hax0 : 0 ≤ e.axis_b := by rw [haxb]; exact Real.sqrt_nonneg _
      have haxsq : e.axis_b * e.axis_b = (sw.distance_m : ℝ) * (sw.distance_m : ℝ) -
          (sensor_baseline_over mr tx rx / 2) * (sensor_baseline_over mr tx rx / 2) := by
        rw [haxb, Real.mul_self_sqrt hdiff]
        ring
      have haxa : e.axis_a = (sw.distance_m : ℝ) := by rw [he]
      have hcx : e.cx = (1 / 2) * (((sensor_at tx).x_m : ℝ) + ((sensor_at rx).x_m : ℝ)) := by
        rw [he]
      have hcy : e.cy = (1 / 2) * (((sensor_at tx).y_m : ℝ) + ((sensor_at rx).y_m : ℝ)) := by
        rw [he]
      have hth : e.theta = mr.atan2 (((sensor_at rx).y_m : ℝ) - ((sensor_at tx).y_m : ℝ))
          (((sensor_at rx).x_m : ℝ) - ((sensor_at tx).x_m : ℝ)) := by rw [he]
      have hc : mr.cos e.theta * sensor_baseline_over mr tx rx =
          ((sensor_at rx).x_m : ℝ) - ((sensor_at tx).x_m : ℝ) := by
        rw [hth]; exact hcos
      have hs : mr.sin e.theta * sensor_baseline_over mr tx rx =
          ((sensor_at rx).y_m : ℝ) - ((sensor_at tx).y_m : ℝ) := by
        rw [hth]; exact hsin
      have hf : focal_distance_over mr e = sensor_baseline_over mr tx rx / 2 := by
        unfold focal_distance_over
        rw [hsqrt, haxa, haxsq]
        have : (sw.distance_m : ℝ) * (sw.distance_m : ℝ) -
            ((sw.distance_m : ℝ) * (sw.distance_m : ℝ) -
              sensor_baseline_over mr tx rx / 2 * (sensor_baseline_over mr tx rx / 2)) =
            sensor_baseline_over mr tx rx / 2 * (sensor_baseline_over mr tx rx / 2) := by ring
        rw [this, Real.sqrt_mul_self (by linarith)]
      have hx : sensor_baseline_over mr tx rx / 2 * mr.cos e.theta =
          (((sensor_at rx).x_m : ℝ) - ((sensor_at tx).x_m : ℝ)) / 2 := by
        rw [← hc]; ring
      have hy : sensor_baseline_over mr tx rx / 2 * mr.sin e.theta =
          (((sensor_at rx).y_m : ℝ) - ((sensor_at tx).y_m : ℝ)) / 2 := by
        rw [← hs]; ring
      refine ⟨⟨?_, ?_, haxa⟩, ⟨hax0, haxsq⟩, ⟨?_, ?_⟩, ⟨?_, ?_⟩, ⟨?_, ?_⟩, ?_⟩
      · rw [hcx]; push_cast; ring
      · rw [hcy]; push_cast; ring
      · rw [hc]; push_cast; ring
      · rw [hs]; push_cast; ring
      · rw [hf, hx, hcx]; ring
      · rw [hf, hy, hcy]; ring
      · rw [hf, hx, hcx]; ring
      · rw [hf, hy, hcy]; ring
      · intro htr
        have hbz : sensor_baseline_over mr tx rx = 0 := by
          have : sensor_baseline_over mr tx rx * sensor_baseline_over mr tx rx = 0 := by
            rw [hBsq, htr]; ring
          exact mul_self_eq_zero.mp this
        rw [hbz] at haxsq
        have hsq : e.axis_b * e.axis_b = (sw.distance_m : ℝ) * (sw.distance_m : ℝ) := by
          rw [haxsq]; ring
        have hab : e.axis_b = (sw.distance_m : ℝ) := (mul_self_inj hax0 hd.le).mp hsq
        refine ⟨hab, haxa, ?_, ?_⟩
        · rw [hcx, ← htr]; ring
        · rw [hcy, ← htr]; ring

/-- The builder with the real library yields no ellipse exactly for an undecodable pair, a
distance that is not positive, or a distance of at most half the sensor distance. -/
theorem build_ellipse_real_none (mr : LibmOver ℝ) (sw : SignalWay) :
    build_ellipse_from_signal_way_over mr sw = none ↔
      (map_signal_way_to_sensor_pair sw.group_id sw.signal_way_id = none ∨
        sw.distance_m ≤ 0 ∨
        ∃ tx rx, map_signal_way_to_sensor_pair sw.group_id sw.signal_way_id = some (tx, rx) ∧
          (sw.distance_m : ℝ) ≤ sensor_baseline_over mr tx rx / 2) := by
  have hcast : (sw.distance_m : ℝ) ≤ 0 ↔ sw.distance_m ≤ 0 := by
    rw [← Rat.cast_zero, Rat.cast_le]
  have hhalf : ∀ tx rx : Int, (1 / 2) * sensor_baseline_over mr tx rx =
      sensor_baseline_over mr tx rx / 2 := fun tx rx => by ring
  cases hmap : map_signal_way_to_sensor_pair sw.group_id sw.signal_way_id with
  | none =>
    constructor
    · intro _; exact Or.inl rfl
    · intro _
      unfold build_ellipse_from_signal_way_over
      rw [hmap]
  | some pair =>
    obtain ⟨tx, rx⟩ := pair
    rw [build_ellipse_over_of_pair mr sw tx rx hmap, hhalf]
    constructor
    · intro h
      by_cases h1 : (sw.distance_m : ℝ) ≤ 0
      · exact Or.inr (Or.inl (hcast.mp h1))
      · rw [if_neg h1] at h
        by_cases h2 : (sw.distance_m : ℝ) ≤ sensor_baseline_over mr tx rx / 2
        · exact Or.inr (Or.inr ⟨tx, rx, rfl, h2⟩)
        · rw [if_neg h2] at h
          exact absurd h (by simp)
    · intro h
      rcases h with h | h | ⟨tx2, rx2, h, h2⟩
      · exact absurd h (by simp)
      · rw [if_pos (hcast.mpr h)]
      · have hp := Option.some.inj h
        have h3 : tx = tx2 := congrArg Prod.fst hp
        have h4 : rx = rx2 := congrArg Prod.snd hp
        rw [h3, h4]
        by_cases h1 : (sw.distance_m : ℝ) ≤ 0
        · rw [if_pos h1]
        · rw [if_neg h1, if_pos h2]

/-- The builder with the real library yields no ellipse exactly for an undecodable pair, a
distance that is not positive, or a distance whose square, taken four times, is at most the
squared distance of the sensors. -/
theorem build_ellipse_real_none_rat (mr : LibmOver ℝ) (hreal : real_library mr)
    (sw : SignalWay) :
    build_ellipse_from_signal_way_over mr sw = none ↔
      (map_signal_way_to_sensor_pair sw.group_id sw.signal_way_id = none ∨
        sw.distance_m ≤ 0 ∨
        ∃ tx rx, map_signal_way_to_sensor_pair sw.group_id sw.signal_way_id = some (tx, rx) ∧
          4 * sw.distance_m * sw.distance_m ≤
            ((sensor_at rx).x_m - (sensor_at tx).x_m) * ((sensor_at rx).x_m - (sensor_at tx).x_m) +
            ((sensor_at rx).y_m - (sensor_at tx).y_m) *
              ((sensor_at rx).y_m - (sensor_at tx).y_m)) := by
  rw [build_ellipse_real_none]
  by_cases hd : sw.distance_m ≤ 0
  · exact ⟨fun _ => Or.inr (Or.inl hd), fun _ => Or.inr (Or.inl hd)⟩
  · have hpos : 0 < sw.distance_m := not_le.mp hd
    constructor
    · intro h
      rcases h with h | h | ⟨tx, rx, h, h2⟩
      · exact Or.inl h
      · exact Or.inr (Or.inl h)
      · exact Or.inr (Or.inr ⟨tx, rx, h,
          (real_half_baseline_iff mr hreal sw.distance_m tx rx hpos).mp h2⟩)
    · intro h
      rcases h with h | h | ⟨tx, rx, h, h2⟩
      · exact Or.inl h
      · exact Or.inr (Or.inl h)
      · exact Or.inr (Or.inr ⟨tx, rx, h,
          (real_half_baseline_iff mr hreal sw.distance_m tx rx hpos).mpr h2⟩)

/-- The entries 0 and 1 of the sensor table. -/
theorem sensor_at_pair01 :
    sensor_at 0 =
      { x_m := 3238 / 1000, y_m := 913 / 1000, mounting_rad := deg 87, fov_rad := deg 60 } ∧
    sensor_at 1 =
      { x_m := 36 / 10, y_m := 715 / 1000, mounting_rad := deg 38, fov_rad := deg 100 } :=
  ⟨rfl, rfl⟩

/-! ## The seed points and the separation of the ellipse list -/

/-- The relation `apart` is the distance test `far_apart`. -/
theorem apart_iff_far_apart (a b : Detection) : apart a b ↔ far_apart a b := by
  unfold apart too_close far_apart kMinSepSq
  simp only [decide_eq_false_iff_not, not_le]
  norm_num

/-- The de-duplicating push keeps `separated_from k`. -/
theorem push_unique_separated (k : Nat) (l : List Detection) (c : Detection)
    (h : separated_from k l) : separated_from k (push_unique_detection l c) := by
  rcases push_unique_cases l c with h1 | ⟨h1, h2⟩
  · rw [h1]; exact h
  · rw [h1]
    intro i j a b hij hkj hi hj
    by_cases hjl : j < l.length
    · have hil : i < l.length := by omega
      rw [List.getElem?_append_left hil] at hi
      rw [List.getElem?_append_left hjl] at hj
      exact h i j a b hij hkj hi hj
    · have hj2 := hj
      rw [List.getElem?_append_right (by omega)] at hj2
      have hjeq : j = l.length := by
        by_contra hne
        have : j - l.length ≥ 1 := by omega
        rw [List.getElem?_eq_none (by simp; omega)] at hj2
        exact absurd hj2 (by simp)
      have hb : b = c := by
        rw [hjeq] at hj2
        simpa using hj2.symm
      have hil : i < l.length := by omega
      rw [List.getElem?_append_left hil] at hi
      have ha : a ∈ l := by
        obtain ⟨hi1, hi2⟩ := List.getElem?_eq_some_iff.mp hi
        rw [← hi2]; exact List.getElem_mem hi1
      rw [hb]
      exact (apart_iff_far_apart a c).mp (h2 a ha)

/-- The de-duplicating push keeps what is already stored in front. -/
theorem push_unique_keeps_front (pre l : List Detection) (c : Detection) (h : pre <+: l) :
    pre <+: push_unique_detection l c := by
  rcases push_unique_cases l c with h1 | ⟨h1, _⟩
  · rw [h1]; exact h
  · rw [h1]; exact h.trans (List.prefix_append _ _)

/-- The ellipse stage of one iteration of the signal-way loop, when the ellipse method is
selected: the ellipse, if built, is stored, and the seed point, if any, is appended. -/
theorem post_step_ellipse (m : Libm) (cfg : ProcessorConfig) (st : PostState) (sw : SignalWay)
    (hr : runs_ellipse cfg.processing_method = true) :
    (post_step m cfg st sw).out.ellipse_intersections =
      st.out.ellipse_intersections ++ (seed_of m sw).toList ∧
    (post_step m cfg st sw).ellipses =
      st.ellipses ++ (build_ellipse_from_signal_way m sw).toList := by
  have h1 : (post_fov m cfg (post_tracing m cfg st sw) sw).out.ellipse_intersections =
      st.out.ellipse_intersections := by
    rw [(post_fov_fields m cfg _ sw).2.1, (post_tracing_fields m cfg st sw).2.2.1]
  have h2 : (post_fov m cfg (post_tracing m cfg st sw) sw).ellipses = st.ellipses := by
    rw [(post_fov_fields m cfg _ sw).2.2.1, (post_tracing_fields m cfg st sw).2.2.2.1]
  unfold post_step post_ellipse seed_of
  rw [if_pos hr]
  cases build_ellipse_from_signal_way m sw with
  | none => simp only [Option.toList, List.append_nil]; exact ⟨h1, h2⟩
  | some e =>
    simp only [Option.toList]
    by_cases hin : is_inside_vehicle_contour (ellipse_point m e ((3 / 10) * pi_d)).1
        (ellipse_point m e ((3 / 10) * pi_d)).2 = true
    · simp only [hin, Bool.not_true, Bool.false_eq_true, if_false, if_true, List.append_nil]
      exact ⟨h1, by rw [h2]⟩
    · simp only [hin, Bool.not_eq_true, Bool.not_false, if_true, if_false]
      simp only [Bool.not_eq_true] at hin
      simp only [hin, Bool.not_false, if_true, Bool.false_eq_true, if_false]
      exact ⟨by rw [h1], by rw [h2]⟩

/-- The ellipse list and the ellipses after the signal-way loop, when the ellipse method is
selected: the seed points and the built ellipses, in signal-way order. -/
theorem foldl_post_step_ellipse (m : Libm) (cfg : ProcessorConfig) (sws : List SignalWay)
    (st : PostState) (hr : runs_ellipse cfg.processing_method = true) :
    (sws.foldl (post_step m cfg) st).out.ellipse_intersections =
      st.out.ellipse_intersections ++ seed_points m sws ∧
    (sws.foldl (post_step m cfg) st).ellipses =
      st.ellipses ++ sws.filterMap (build_ellipse_from_signal_way m) := by
  induction sws generalizing st with
  | nil => simp [seed_points]
  | cons sw sws ih =>
    rw [List.foldl_cons, (ih _).1, (ih _).2, (post_step_ellipse m cfg st sw hr).1,
      (post_step_ellipse m cfg st sw hr).2]
    unfold seed_points
    constructor
    · cases hs : seed_of m sw <;> simp [List.filterMap_cons, hs]
    · cases hb : build_ellipse_from_signal_way m sw <;> simp [List.filterMap_cons, hb]

/-- The seed points are classified as outside the vehicle contour. -/
theorem seed_points_outside (m : Libm) (sws : List SignalWay) :
    ∀ x ∈ seed_points m sws, is_inside_vehicle_contour x.1 x.2 = false := by
  intro x hx
  unfold seed_points at hx
  obtain ⟨sw, _, hsw⟩ := List.mem_filterMap.mp hx
  unfold seed_of at hsw
  cases hb : build_ellipse_from_signal_way m sw with
  | none => rw [hb] at hsw; exact absurd hsw (by simp)
  | some e =>
    rw [hb] at hsw
    simp only at hsw
    by_cases hin : is_inside_vehicle_contour (ellipse_point m e ((3 / 10) * pi_d)).1
        (ellipse_point m e ((3 / 10) * pi_d)).2 = true
    · rw [if_pos hin] at hsw; exact absurd hsw (by simp)
    · rw [if_neg hin] at hsw
      rw [← Option.some.inj hsw]
      simpa using hin

/-- The ellipse list of `post_process` when the ellipse method is selected: the seed points,
run through both intersection collectors when more than one ellipse was built. -/
theorem post_process_ellipse_eq (m : Libm) (h : HashOrder) (cfg : ProcessorConfig)
    (sws : List SignalWay) (hr : runs_ellipse cfg.processing_method = true) :
    (post_process m h cfg sws).ellipse_intersections =
      if (sws.filterMap (build_ellipse_from_signal_way m)).length > 1 then
        collect_ellipse_intersections m (sws.filterMap (build_ellipse_from_signal_way m))
          (collect_ellipse_intersections_traverse m
            (sws.filterMap (build_ellipse_from_signal_way m)) (seed_points m sws))
          (8 / 100) (2 / 10)
      else seed_points m sws := by
  rw [(post_process_fields m h cfg sws).1, (foldl_post_step_ellipse m cfg sws _ hr).1,
    (foldl_post_step_ellipse m cfg sws _ hr).2, hr]
  simp only [List.nil_append, ProcessedDetections.zero, Bool.true_and, decide_eq_true_eq]

/-- The ellipse list of `post_process` starts with the seed points when the ellipse method
is selected. -/
theorem post_process_starts_with_seeds (m : Libm) (h : HashOrder) (cfg : ProcessorConfig)
    (sws : List SignalWay) (hr : runs_ellipse cfg.processing_method = true) :
    seed_points m sws <+: (post_process m h cfg sws).ellipse_intersections := by
  rw [post_process_ellipse_eq m h cfg sws hr]
  split
  · apply collect_ellipse_intersections_inv m _ _ _ _ (fun l => seed_points m sws <+: l)
      (fun l c hl => push_unique_keeps_front _ l c hl)
    exact collect_ellipse_intersections_traverse_inv m _ _ (fun l => seed_points m sws <+: l)
      (fun l c hl => push_unique_keeps_front _ l c hl) (List.prefix_refl _)
  · exact List.prefix_refl _

/-- The seed points of two copies of `sw_circle`: the same point twice. -/
theorem seed_points_circle_twice :
    seed_points libm_sample [sw_circle, sw_circle] =
      [ellipse_point libm_sample
          { cx := 3238 / 1000, cy := 913 / 1000, axis_a := 1, axis_b := 1, theta := 0 }
          ((3 / 10) * pi_d),
       ellipse_point libm_sample
          { cx := 3238 / 1000, cy := 913 / 1000, axis_a := 1, axis_b := 1, theta := 0 }
          ((3 / 10) * pi_d)] := by
  have hs : seed_of libm_sample sw_circle = some (ellipse_point libm_sample
      { cx := 3238 / 1000, cy := 913 / 1000, axis_a := 1, axis_b := 1, theta := 0 }
      ((3 / 10) * pi_d)) := by
    unfold seed_of
    rw [build_ellipse_circle]
    simp only [seed_circle_outside, Bool.false_eq_true, if_false]
  simp only [seed_points, List.filterMap_cons, hs, List.filterMap_nil]

/-! ## The example with the step library -/

/-- The ellipses of `sw_circle` and `sw_circle1` under `libm_step`. -/
theorem build_ellipse_step :
    build_ellipse_from_signal_way libm_step sw_circle =
      some { cx := 3238 / 1000, cy := 913 / 1000, axis_a := 1, axis_b := 1, theta := 0 } ∧
    build_ellipse_from_signal_way libm_step sw_circle1 =
      some { cx := 36 / 10, cy := 715 / 1000, axis_a := 1, axis_b := 1, theta := 0 } := by
  have h0 : map_signal_way_to_sensor_pair sw_circle.group_id sw_circle.signal_way_id =
      some (0, 0) := by decide
  have h1 : map_signal_way_to_sensor_pair sw_circle1.group_id sw_circle1.signal_way_id =
      some (1, 1) := by decide
  have hs0 : sensor_at 0 =
      { x_m := 3238 / 1000, y_m := 913 / 1000, mounting_rad := deg 87, fov_rad := deg 60 } := rfl
  have hs1 : sensor_at 1 =
      { x_m := 36 / 10, y_m := 715 / 1000, mounting_rad := deg 38, fov_rad := deg 100 } := rfl
  constructor
  · rw [build_ellipse_of_pair _ _ 0 0 h0]
    norm_num [sensor_baseline, hs0, libm_step, libm_sample, sqrt_newton, sw_circle, List.range,
      List.range.loop]
  · rw [build_ellipse_of_pair _ _ 1 1 h1]
    norm_num [sensor_baseline, hs1, libm_step, libm_sample, sqrt_newton, sw_circle1, List.range,
      List.range.loop]

/-- The seed points of `sw_circle` and `sw_circle1` under `libm_step`. -/
theorem seed_points_step :
    seed_points libm_step [sw_circle, sw_circle1] =
      [(3238 / 1000, 1913 / 1000), (36 / 10, 1715 / 1000)] := by
  have hpi : ¬ (3 / 10 * pi_d < pi_d / 180) := by norm_num [pi_d]
  have hz : (0 : ℚ) < pi_d / 180 := by norm_num [pi_d]
  have hs0 : seed_of libm_step sw_circle = some (3238 / 1000, 1913 / 1000) := by
    unfold seed_of
    rw [build_ellipse_step.1]
    norm_num [ellipse_point, libm_step, hpi, hz, is_inside_vehicle_contour, contour_step,
      contour_edge_intersect, kDefaultContour, epsilon_d, List.range, List.range.loop]
  have hs1 : seed_of libm_step sw_circle1 = some (36 / 10, 1715 / 1000) := by
    unfold seed_of
    rw [build_ellipse_step.2]
    norm_num [ellipse_point, libm_step, hpi, hz, is_inside_vehicle_contour, contour_step,
      contour_edge_intersect, kDefaultContour, epsilon_d, List.range, List.range.loop]
  simp only [seed_points, List.filterMap_cons, hs0, hs1, List.filterMap_nil]

/-- The points of `circle0` under `libm_step`: one below the first sample parameter,
another from there on. -/
theorem ellipse_point_step (t : ℚ) :
    ellipse_point libm_step circle0 t =
      if t < pi_d / 180 then (4238 / 1000, 913 / 1000) else (3238 / 1000, 1913 / 1000) := by
  have hz : (0 : ℚ) < pi_d / 180 := by norm_num [pi_d]
  unfold ellipse_point
  by_cases h : t < pi_d / 180
  · simp only [libm_step, circle0, h, hz, if_true]
    norm_num
  · simp only [libm_step, circle0, h, hz, if_true, if_false]
    norm_num

/-- The implicit value of `circle1` at the two points of `circle0` under `libm_step`. -/
theorem implicit_value_step :
    ellipse_implicit_value libm_step circle1 (4238 / 1000) (913 / 1000) = -553752 / 1000000 ∧
    ellipse_implicit_value libm_step circle1 (3238 / 1000) (1913 / 1000) = 566248 / 1000000 := by
  have hz : (0 : ℚ) < pi_d / 180 := by norm_num [pi_d]
  constructor
  · simp only [ellipse_implicit_value, libm_step, circle1, hz, if_true, sqr]
    norm_num
  · simp only [ellipse_implicit_value, libm_step, circle1, hz, if_true, sqr]
    norm_num

/-- A bisection step below the first sample parameter moves the lower end to the middle. -/
theorem bisect_step_low (lo : ℚ) (it : Nat) (h : lo < pi_d / 180) :
    bisect_step libm_step circle0 circle1 (lo, pi_d / 180, -553752 / 1000000) it =
      ((1 / 2) * (lo + pi_d / 180), pi_d / 180, -553752 / 1000000) := by
  have hmid : (1 / 2) * (lo + pi_d / 180) < pi_d / 180 := by linarith
  unfold bisect_step
  simp only [ellipse_point_step, if_pos hmid, implicit_value_step.1]
  have hs : sign_change (-553752 / 1000000) (-553752 / 1000000) = false := by
    norm_num [sign_change]
  rw [hs]
  rfl

/-- The bisection loop started below the first sample parameter ends below it. -/
theorem bisect_fold_low (l : List Nat) :
    ∀ lo : ℚ, lo < pi_d / 180 →
      ∃ lo2 : ℚ, lo2 < pi_d / 180 ∧
        l.foldl (bisect_step libm_step circle0 circle1) (lo, pi_d / 180, -553752 / 1000000) =
          (lo2, pi_d / 180, -553752 / 1000000) := by
  induction l with
  | nil => intro lo h; exact ⟨lo, h, rfl⟩
  | cons it rest ih =>
    intro lo h
    rw [List.foldl_cons, bisect_step_low lo it h]
    exact ih _ (by linarith)

set_option maxRecDepth 100000 in
/-- The first sample of the traverse collector on the two circles under `libm_step`: the
sign of the implicit value changes, the bisection ends on the point `(4.238, 0.913)`, and
the point is appended behind the two seed points. -/
theorem traverse_first_sample_step :
    (traverse_sample_step libm_step circle0 circle1
      ([(3238 / 1000, 1913 / 1000), (36 / 10, 1715 / 1000)], 0,
        ellipse_implicit_value libm_step circle1 (ellipse_point libm_step circle0 0).1
          (ellipse_point libm_step circle0 0).2) 1).1 =
    [(3238 / 1000, 1913 / 1000), (36 / 10, 1715 / 1000), (4238 / 1000, 913 / 1000)] := by
  have hz : (0 : ℚ) < pi_d / 180 := by norm_num [pi_d]
  have ht : sample_param 1 = pi_d / 180 := by
    unfold sample_param kSamples
    norm_num
    ring
  have hp0 : ellipse_point libm_step circle0 0 = (4238 / 1000, 913 / 1000) := by
    rw [ellipse_point_step, if_pos hz]
  have hp1 : ellipse_point libm_step circle0 (pi_d / 180) = (3238 / 1000, 1913 / 1000) := by
    rw [ellipse_point_step, if_neg (lt_irrefl _)]
  obtain ⟨lo2, hlo2, hfold⟩ := bisect_fold_low (List.range 20) 0 hz
  have hroot : ellipse_point libm_step circle0 ((1 / 2) * (lo2 + pi_d / 180)) =
      (4238 / 1000, 913 / 1000) := by
    rw [ellipse_point_step, if_pos (by linarith)]
  have hs : sign_change (-553752 / 1000000) (566248 / 1000000) = true := by
    norm_num [sign_change]
  have hin : is_inside_vehicle_contour (4238 / 1000) (913 / 1000) = false := by
    norm_num [is_inside_vehicle_contour, contour_step, contour_edge_intersect, kDefaultContour,
      epsilon_d, List.range, List.range.loop]
  unfold traverse_sample_step
  simp only []
  rw [ht, hp0, hp1]
  simp only [implicit_value_step.1, implicit_value_step.2]
  rw [hs]
  simp only [if_true]
  rw [hfold]
  simp only []
  rw [hroot]
  simp only [hin, Bool.not_false, if_true]
  norm_num [push_unique_detection, too_close, kMinSepSq]

/-- The ellipse list of `post_process` on the two circles under `libm_step` starts with
the two seed points followed by the crossing found at the first sample. -/
theorem post_process_step_front (h : HashOrder) :
    [(3238 / 1000, 1913 / 1000), (36 / 10, 1715 / 1000), (4238 / 1000, 913 / 1000)] <+:
      (post_process libm_step h cfg_ellipse [sw_circle, sw_circle1]).ellipse_intersections := by
  have hmodels : [sw_circle, sw_circle1].filterMap (build_ellipse_from_signal_way libm_step) =
      [circle0, circle1] := by
    simp only [List.filterMap_cons, build_ellipse_step.1, build_ellipse_step.2,
      List.filterMap_nil, circle0, circle1]
  rw [post_process_ellipse_eq libm_step h cfg_ellipse _ rfl, hmodels, seed_points_step,
    if_pos (by decide)]
  apply collect_ellipse_intersections_inv libm_step _ _ _ _
    (fun l => [(3238 / 1000, 1913 / 1000), (36 / 10, 1715 / 1000),
      ((4238 / 1000 : ℚ), (913 / 1000 : ℚ))] <+: l)
    (fun l c hl => push_unique_keeps_front _ l c hl)
  have htrav : collect_ellipse_intersections_traverse libm_step [circle0, circle1]
      [(3238 / 1000, 1913 / 1000), (36 / 10, 1715 / 1000)] =
      ((List.range' 2 359).foldl (traverse_sample_step libm_step circle0 circle1)
        (traverse_sample_step libm_step circle0 circle1
          ([(3238 / 1000, 1913 / 1000), (36 / 10, 1715 / 1000)], 0,
            ellipse_implicit_value libm_step circle1 (ellipse_point libm_step circle0 0).1
              (ellipse_point libm_step circle0 0).2) 1)).1 := by
    have hr : List.range' 1 kSamples = 1 :: List.range' 2 359 := by
      show List.range' 1 (359 + 1) = 1 :: List.range' 2 359
      exact List.range'_succ 1 359 1
    unfold collect_ellipse_intersections_traverse
    rw [if_neg (by decide)]
    simp only [traverse_pairs, List.foldl_cons, List.foldl_nil]
    unfold traverse_pair
    simp only [hr, List.foldl_cons]
  rw [htrav]
  apply foldl_inv (fun st : List Detection × ℚ × ℚ =>
      [(3238 / 1000, 1913 / 1000), (36 / 10, 1715 / 1000),
        ((4238 / 1000 : ℚ), (913 / 1000 : ℚ))] <+: st.1)
    (traverse_sample_step libm_step circle0 circle1)
    (fun st s hs => traverse_sample_step_inv libm_step circle0 circle1 _
      (fun l c hl => push_unique_keeps_front _ l c hl) st s hs)
  rw [traverse_first_sample_step]

/-! ## The fused list -/

/-- The invocations made by `dispatch_runtime_frame` are the expected ones. -/
theorem dispatch_calls_eq (st : RuntimeSinks) (frame : FrameOutput) :
    (dispatch_runtime_frame st frame).2 = expected_calls st frame := by
  unfold dispatch_runtime_frame expected_calls dispatch_slot
  cases st.g_signal_ways_cb <;> cases st.g_static_features_cb <;>
    cases st.g_dynamic_features_cb <;> cases st.g_line_marks_cb <;>
    cases st.g_grid_map_cb <;> cases st.g_processed_cb <;> rfl

/-- The invocations of a dispatch, channel by channel: one call of the registered sink with
the matching field and the frame's timestamp, none for an empty slot. -/
theorem calls_on_eq (st : RuntimeSinks) (frame : FrameOutput) :
    calls_on 0 st frame = (st.g_signal_ways_cb.map
      (fun cb => SinkCall.signal_ways cb frame.signal_ways frame.timestamp_us)).toList ∧
    calls_on 1 st frame = (st.g_static_features_cb.map
      (fun cb => SinkCall.static_features cb frame.static_features frame.timestamp_us)).toList ∧
    calls_on 2 st frame = (st.g_dynamic_features_cb.map
      (fun cb => SinkCall.dynamic_features cb frame.dynamic_features frame.timestamp_us)).toList ∧
    calls_on 3 st frame = (st.g_line_marks_cb.map
      (fun cb => SinkCall.line_marks cb frame.line_marks frame.timestamp_us)).toList ∧
    calls_on 4 st frame = (st.g_grid_map_cb.map
      (fun cb => SinkCall.grid_map cb frame.grid_map frame.timestamp_us)).toList ∧
    calls_on 5 st frame = (st.g_processed_cb.map
      (fun cb => SinkCall.processed cb frame.processed frame.timestamp_us)).toList ∧
    (∀ k, 6 ≤ k → calls_on k st frame = []) := by
  unfold calls_on
  rw [dispatch_calls_eq]
  refine ⟨?_, ?_, ?_, ?_, ?_, ?_, ?_⟩
  case refine_7 =>
    intro k hk
    rw [List.filter_eq_nil_iff]
    intro c _
    have hc : c.channel < 6 := by cases c <;> simp [SinkCall.channel]
    simp only [decide_eq_true_eq]
    omega
  all_goals
    unfold expected_calls
    cases st.g_signal_ways_cb <;> cases st.g_static_features_cb <;>
    cases st.g_dynamic_features_cb <;> cases st.g_line_marks_cb <;>
    cases st.g_grid_map_cb <;> cases st.g_processed_cb <;> rfl

/-- Registering on one channel changes the invocations of that channel only. -/
theorem register_calls_on (st : RuntimeSinks) (frame : FrameOutput) (cb : Option Nat) (k : Nat) :
    calls_on k (register_signal_ways_callback st cb) frame =
      (if k = 0 then
        (cb.map (fun s => SinkCall.signal_ways s frame.signal_ways frame.timestamp_us)).toList
      else calls_on k st frame) ∧
    calls_on k (register_static_features_callback st cb) frame =
      (if k = 1 then
        (cb.map (fun s => SinkCall.static_features s frame.static_features frame.timestamp_us)).toList
      else calls_on k st frame) ∧
    calls_on k (register_dynamic_features_callback st cb) frame =
      (if k = 2 then
        (cb.map (fun s => SinkCall.dynamic_features s frame.dynamic_features frame.timestamp_us)).toList
      else calls_on k st frame) ∧
    calls_on k (register_line_marks_callback st cb) frame =
      (if k = 3 then
        (cb.map (fun s => SinkCall.line_marks s frame.line_marks frame.timestamp_us)).toList
      else calls_on k st frame) ∧
    calls_on k (register_grid_map_callback st cb) frame =
      (if k = 4 then
        (cb.map (fun s => SinkCall.grid_map s frame.grid_map frame.timestamp_us)).toList
      else calls_on k st frame) ∧
    calls_on k (register_processed_detections_callback st cb) frame =
      (if k = 5 then
        (cb.map (fun s => SinkCall.processed s frame.processed frame.timestamp_us)).toList
      else calls_on k st frame) := by
  have h0 := calls_on_eq st frame
  have h1 := calls_on_eq (register_signal_ways_callback st cb) frame
  have h2 := calls_on_eq (register_static_features_callback st cb) frame
  have h3 := calls_on_eq (register_dynamic_features_callback st cb) frame
  have h4 := calls_on_eq (register_line_marks_callback st cb) frame
  have h5 := calls_on_eq (register_grid_map_callback st cb) frame
  have h6 := calls_on_eq (register_processed_detections_callback st cb) frame
  rcases Nat.lt_or_ge k 6 with hk | hk
  · interval_cases k
    · exact ⟨by rw [if_pos rfl]; exact h1.1, by rw [if_neg (by decide), h2.1, h0.1]; rfl,
        by rw [if_neg (by decide), h3.1, h0.1]; rfl, by rw [if_neg (by decide), h4.1, h0.1]; rfl,
        by rw [if_neg (by decide), h5.1, h0.1]; rfl, by rw [if_neg (by decide), h6.1, h0.1]; rfl⟩
    · exact ⟨by rw [if_neg (by decide), h1.2.1, h0.2.1]; rfl, by rw [if_pos rfl]; exact h2.2.1,
        by rw [if_neg (by decide), h3.2.1, h0.2.1]; rfl,
        by rw [if_neg (by decide), h4.2.1, h0.2.1]; rfl,
        by rw [if_neg (by decide), h5.2.1, h0.2.1]; rfl,
        by rw [if_neg (by decide), h6.2.1, h0.2.1]; rfl⟩
    · exact ⟨by rw [if_neg (by decide), h1.2.2.1, h0.2.2.1]; rfl,
        by rw [if_neg (by decide), h2.2.2.1, h0.2.2.1]; rfl,
        by rw [if_pos rfl]; exact h3.2.2.1,
        by rw [if_neg (by decide), h4.2.2.1, h0.2.2.1]; rfl,
        by rw [if_neg (by decide), h5.2.2.1, h0.2.2.1]; rfl,
        by rw [if_neg (by decide), h6.2.2.1, h0.2.2.1]; rfl⟩
    · exact ⟨by rw [if_neg (by decide), h1.2.2.2.1, h0.2.2.2.1]; rfl,
        by rw [if_neg (by decide), h2.2.2.2.1, h0.2.2.2.1]; rfl,
        by rw [if_neg (by decide), h3.2.2.2.1, h0.2.2.2.1]; rfl,
        by rw [if_pos rfl]; exact h4.2.2.2.1,
        by rw [if_neg (by decide), h5.2.2.2.1, h0.2.2.2.1]; rfl,
        by rw [if_neg (by decide), h6.2.2.2.1, h0.2.2.2.1]; rfl⟩
    · exact ⟨by rw [if_neg (by decide), h1.2.2.2.2.1, h0.2.2.2.2.1]; rfl,
        by rw [if_neg (by decide), h2.2.2.2.2.1, h0.2.2.2.2.1]; rfl,
        by rw [if_neg (by decide), h3.2.2.2.2.1, h0.2.2.2.2.1]; rfl,
        by rw [if_neg (by decide), h4.2.2.2.2.1, h0.2.2.2.2.1]; rfl,
        by rw [if_pos rfl]; exact h5.2.2.2.2.1,
        by rw [if_neg (by decide), h6.2.2.2.2.1, h0.2.2.2.2.1]; rfl⟩
    · exact ⟨by rw [if_neg (by decide), h1.2.2.2.2.2.1, h0.2.2.2.2.2.1]; rfl,
        by rw [if_neg (by decide), h2.2.2.2.2.2.1, h0.2.2.2.2.2.1]; rfl,
        by rw [if_neg (by decide), h3.2.2.2.2.2.1, h0.2.2.2.2.2.1]; rfl,
        by rw [if_neg (by decide), h4.2.2.2.2.2.1, h0.2.2.2.2.2.1]; rfl,
        by rw [if_neg (by decide), h5.2.2.2.2.2.1, h0.2.2.2.2.2.1]; rfl,
        by rw [if_pos rfl]; exact h6.2.2.2.2.2.1⟩
  · have hne : ∀ i, i < 6 → ¬ k = i := fun i hi => by omega
    rw [h0.2.2.2.2.2.2 k hk, h1.2.2.2.2.2.2 k hk, h2.2.2.2.2.2.2 k hk, h3.2.2.2.2.2.2 k hk,
      h4.2.2.2.2.2.2 k hk, h5.2.2.2.2.2.2 k hk, h6.2.2.2.2.2.2 k hk,
      if_neg (hne 0 (by decide)), if_neg (hne 1 (by decide)), if_neg (hne 2 (by decide)),
      if_neg (hne 3 (by decide)), if_neg (hne 4 (by decide)), if_neg (hne 5 (by decide))]
    exact ⟨rfl, rfl, rfl, rfl, rfl, rfl⟩

/-! ## The configuration loader -/

/-- Every comparison with NaN is false. -/
theorem FloatValue.nan_unordered (a : FloatValue) :
    FloatValue.lt FloatValue.nan a = false ∧ FloatValue.lt a FloatValue.nan = false ∧
    FloatValue.le FloatValue.nan a = false ∧ FloatValue.le a FloatValue.nan = false := by
  cases a <;> exact ⟨rfl, rfl, rfl, rfl⟩

/-- Pushing vehicle states leaves the comparison timestamp of a processor alone. -/
theorem run_pushes_last_timestamp (pp : PostProcess) (states : List VehicleState)
    (p : UltrasoundProcessor) :
    (run pp p (states.map Call.push)).last_timestamp_us_ = p.last_timestamp_us_ := by
  induction states generalizing p with
  | nil => rfl
  | cons s states ih =>
    show (run pp (push_vehicle_state p s).1 (states.map Call.push)).last_timestamp_us_ = _
    rw [ih, (push_vehicle_state_frame p s).2.1]

/-- Every call of `process_frame` counts once. -/
theorem process_frame_counts_one (pp : PostProcess) (clock : StageTimingUs)
    (p : UltrasoundProcessor) (input : FrameInput) :
    counts_one (process_frame pp clock p input).2.code p.diagnostics_
      (process_frame pp clock p input).1.diagnostics_ := by
  by_cases h1 : p.config_.strict_monotonic_timestamps = true ∧ input.timestamp_us ≤ p.last_timestamp_us_
  · rw [process_frame_out_of_order pp clock p input h1]
    exact Or.inr (Or.inl ⟨rfl, rfl, rfl, rfl, rfl, rfl⟩)
  · by_cases h2 : input.signal_ways = [] ∧ input.static_features = []
    · rw [process_frame_invalid_input pp clock p input h1 h2]
      exact Or.inr (Or.inr (Or.inr ⟨rfl, rfl, rfl, rfl, rfl, rfl⟩))
    · cases h3 : interpolate_pose p.state_queue_ input.timestamp_us with
      | none =>
        rw [process_frame_missing_state pp clock p input h1 h2 h3]
        exact Or.inr (Or.inr (Or.inl ⟨rfl, rfl, rfl, rfl, rfl, rfl⟩))
      | some pose =>
        rw [process_frame_success pp clock p input pose h1 h2 h3]
        exact Or.inl ⟨rfl, rfl, rfl, rfl, rfl, rfl⟩

/-- A call that counts once takes the counter identities from `k` to `k + 1` calls. -/
theorem counters_inv_step (k : Nat) (code : ErrorCode) (d d2 : Diagnostics)
    (h : counters_inv k d) (hc : counts_one code d d2) : counters_inv (k + 1) d2 := by
  unfold counters_inv at h ⊢
  unfold counts_one at hc
  norm_num at h hc ⊢
  obtain ⟨b1, b2, b3, b4, b5, e1, e2⟩ := h
  rcases hc with ⟨_, c1, c2, c3, c4, c5⟩ | ⟨_, c1, c2, c3, c4, c5⟩ | ⟨_, c1, c2, c3, c4, c5⟩ |
    ⟨_, c1, c2, c3, c4, c5⟩ <;>
  · rw [c1, c2, c3, c4, c5]
    omega

/-- The counter identities hold along every call sequence. -/
theorem run_counters_inv (pp : PostProcess) (calls : List Call) (p : UltrasoundProcessor)
    (k : Nat) (h : counters_inv k p.diagnostics_) :
    counters_inv (k + frame_calls calls) (run pp p calls).diagnostics_ := by
  induction calls generalizing p k with
  | nil => exact h
  | cons c cs ih =>
    cases c with
    | push s =>
      show counters_inv (k + frame_calls cs) (run pp (push_vehicle_state p s).1 cs).diagnostics_
      exact ih _ k (by rw [(push_vehicle_state_frame p s).2.2.2]; exact h)
    | frame clock input =>
      show counters_inv (k + (frame_calls cs + 1))
        (run pp (process_frame pp clock p input).1 cs).diagnostics_
      have hstep := counters_inv_step k _ _ _ h (process_frame_counts_one pp clock p input)
      have := ih _ (k + 1) hstep
      rw [show k + (frame_calls cs + 1) = k + 1 + frame_calls cs by omega]
      exact this

/-! ## The tracing and the FOV-pie detector -/

/-- The function `tracing_detection_from_signal_way` on a decoded pair. -/
theorem tracing_detection_of_pair (m : Libm) (sw : SignalWay) (tx rx : Int)
    (h : map_signal_way_to_sensor_pair sw.group_id sw.signal_way_id = some (tx, rx)) :
    tracing_detection_from_signal_way m sw =
      if heading_norm m sw tx rx > 1 / 10 ^ 9 then
        ((pair_midpoint tx rx).1 +
            sw.distance_m * ((heading_sum m sw tx rx).1 / heading_norm m sw tx rx),
         (pair_midpoint tx rx).2 +
            sw.distance_m * ((heading_sum m sw tx rx).2 / heading_norm m sw tx rx))
      else
        ((pair_midpoint tx rx).1 + (heading_sum m sw tx rx).1,
         (pair_midpoint tx rx).2 + (heading_sum m sw tx rx).2) := by
  unfold tracing_detection_from_signal_way
  rw [h]
  simp only [map_pair_index_valid _ _ _ _ h, Bool.false_eq_true, if_false, heading_norm,
    heading_sum, pair_midpoint]
  split <;> rfl

/-- The function `fov_pie_detection` on a decoded monostatic pair with a positive range. -/
theorem fov_pie_monostatic (m : Libm) (sw : SignalWay) (tx : Int)
    (h : map_signal_way_to_sensor_pair sw.group_id sw.signal_way_id = some (tx, tx))
    (hd : 0 < sw.distance_m) :
    fov_pie_detection m sw =
      some ((sensor_at tx).x_m + sw.distance_m * m.cos (sensor_at tx).mounting_rad,
        (sensor_at tx).y_m + sw.distance_m * m.sin (sensor_at tx).mounting_rad) := by
  unfold fov_pie_detection
  rw [h]
  simp only [map_pair_index_valid _ _ _ _ h, Bool.false_eq_true, if_false]
  rw [if_neg (not_le.mpr hd), if_pos trivial]

/-- The entry 0 of the sensor table. -/
theorem sensor_at_zero :
    sensor_at 0 =
      { x_m := 3238 / 1000, y_m := 913 / 1000, mounting_rad := deg 87, fov_rad := deg 60 } :=
  rfl

/-! ## The contour ring -/

/-- The contour table is the list of the sensor positions, last sensor first. -/
theorem contour_eq_sensors_reversed :
    kDefaultContour = kDefaultSensors.reverse.map SensorPose.position := by
  norm_num [kDefaultContour, kDefaultSensors, SensorPose.position]

/-- The contour table is its millimetre table scaled down. -/
theorem contour_eq_of_mm : kDefaultContour = contour_mm.map of_mm := by
  norm_num [kDefaultContour, contour_mm, of_mm]

/-- A vertex of the ring as a point in millimetres. -/
theorem contour_vertex_eq (i : Nat) :
    contour_vertex i = of_mm (contour_mm.getD (i % 12) (0, 0)) := by
  unfold contour_vertex
  have hlen : kDefaultContour.length = 12 := rfl
  have hz : ((0 : ℚ), (0 : ℚ)) = of_mm (0, 0) := by norm_num [of_mm]
  rw [hlen, contour_eq_of_mm, hz, List.getD_map]

/-- Scaling a triangle from millimetres to metres scales `left_turn` by `10 ^ 6`. -/
theorem left_turn_of_mm (a b c : Int × Int) :
    left_turn (of_mm a) (of_mm b) (of_mm c) = (left_turn_mm a b c : ℚ) / 1000000 := by
  unfold left_turn left_turn_mm of_mm
  push_cast
  ring

set_option maxRecDepth 100000 in
/-- The strict convexity of the ring in millimetres, edge by edge. -/
theorem contour_mm_left_turns :
    ∀ i < 12, ∀ k < 12, k ≠ i → k ≠ (i + 1) % 12 →
      0 < left_turn_mm (contour_mm.getD i (0, 0)) (contour_mm.getD ((i + 1) % 12) (0, 0))
        (contour_mm.getD k (0, 0)) := by
  decide

/-- The strict convexity of the contour ring, edge by edge. -/
theorem contour_left_turns (i k : Nat) (hi : i < 12) (hk : k < 12) (h1 : k ≠ i)
    (h2 : k ≠ (i + 1) % 12) :
    0 < left_turn (contour_vertex i) (contour_vertex (i + 1)) (contour_vertex k) := by
  rw [contour_vertex_eq, contour_vertex_eq, contour_vertex_eq, left_turn_of_mm,
    Nat.mod_eq_of_lt hi, Nat.mod_eq_of_lt hk]
  have h := contour_mm_left_turns i hi k hk h1 h2
  have hq : (0 : ℚ) < (left_turn_mm (contour_mm.getD i (0, 0))
      (contour_mm.getD ((i + 1) % 12) (0, 0)) (contour_mm.getD k (0, 0)) : ℚ) := by
    exact_mod_cast h
  exact div_pos hq (by norm_num)

/-- The function `left_turn` is affine in its third point. -/
theorem left_turn_affine (p q x y : ℚ × ℚ) (a b : ℚ) (hab : a + b = 1) :
    left_turn p q (a • x + b • y) = a * left_turn p q x + b * left_turn p q y := by
  have hb : b = 1 - a := by linarith
  subst hb
  unfold left_turn
  simp only [Prod.fst_add, Prod.snd_add, Prod.smul_fst, Prod.smul_snd, smul_eq_mul]
  ring

/-- The points on the strictly positive side of the sum of two `left_turn` functionals
form a convex set. -/
theorem left_turn_side_convex (p q r s : ℚ × ℚ) :
    Convex ℚ {x : ℚ × ℚ | 0 < left_turn p q x + left_turn r s x} := by
  intro x hx y hy a b ha hb hab
  show 0 < left_turn p q (a • x + b • y) + left_turn r s (a • x + b • y)
  rw [left_turn_affine p q x y a b hab, left_turn_affine r s x y a b hab]
  have hx2 : 0 < left_turn p q x + left_turn r s x := hx
  have hy2 : 0 < left_turn p q y + left_turn r s y := hy
  rcases eq_or_lt_of_le ha with h0 | hpos
  · have hb1 : b = 1 := by linarith
    rw [← h0, hb1]
    linarith
  · have h1 : 0 < a * (left_turn p q x + left_turn r s x) := mul_pos hpos hx2
    have h2 : 0 ≤ b * (left_turn p q y + left_turn r s y) := mul_nonneg hb (le_of_lt hy2)
    linarith

/-- The function `left_turn` vanishes when the third point is one of the first two. -/
theorem left_turn_self (a b : ℚ × ℚ) : left_turn a b a = 0 ∧ left_turn a b b = 0 := by
  unfold left_turn
  constructor <;> ring

/-- A vertex index only counts modulo 12. -/
theorem contour_vertex_mod (i : Nat) : contour_vertex (i % 12) = contour_vertex i := by
  unfold contour_vertex
  have hlen : kDefaultContour.length = 12 := rfl
  rw [hlen, Nat.mod_mod]

/-- No vertex of the ring is a convex combination of the other vertices. -/
theorem contour_vertex_extreme (i : Nat) (hi : i < 12) :
    contour_vertex i ∉
      convexHull ℚ {p : ℚ × ℚ | ∃ k, k < 12 ∧ k ≠ i ∧ p = contour_vertex k} := by
  intro hmem
  have hsub : {p : ℚ × ℚ | ∃ k, k < 12 ∧ k ≠ i ∧ p = contour_vertex k} ⊆
      {x : ℚ × ℚ | 0 < left_turn (contour_vertex (i + 11)) (contour_vertex i) x +
        left_turn (contour_vertex i) (contour_vertex (i + 1)) x} := by
    rintro p ⟨k, hk, hki, rfl⟩
    show 0 < left_turn (contour_vertex (i + 11)) (contour_vertex i) (contour_vertex k) +
      left_turn (contour_vertex i) (contour_vertex (i + 1)) (contour_vertex k)
    have hprev : contour_vertex ((i + 11) % 12 + 1) = contour_vertex i := by
      rw [← contour_vertex_mod ((i + 11) % 12 + 1), ← contour_vertex_mod i]
      congr 1
      omega
    have hpm : contour_vertex ((i + 11) % 12) = contour_vertex (i + 11) := contour_vertex_mod _
    have hnm : contour_vertex ((i + 1) % 12) = contour_vertex (i + 1) := contour_vertex_mod _
    by_cases hkp : k = (i + 11) % 12
    · have h2 := contour_left_turns i k hi hk hki (by omega)
      have h1 : left_turn (contour_vertex (i + 11)) (contour_vertex i) (contour_vertex k) = 0 := by
        rw [hkp, hpm]
        exact (left_turn_self _ _).1
      rw [h1]
      linarith
    · by_cases hkn : k = (i + 1) % 12
      · have h1 := contour_left_turns ((i + 11) % 12) k (Nat.mod_lt _ (by norm_num)) hk hkp
          (by omega)
        rw [hprev, hpm] at h1
        have h2 : left_turn (contour_vertex i) (contour_vertex (i + 1)) (contour_vertex k) = 0 := by
          rw [hkn, hnm]
          exact (left_turn_self _ _).2
        rw [h2]
        linarith
      · have h1 := contour_left_turns ((i + 11) % 12) k (Nat.mod_lt _ (by norm_num)) hk hkp
          (by omega)
        rw [hprev, hpm] at h1
        have h2 := contour_left_turns i k hi hk hki hkn
        linarith
  have hin := convexHull_min hsub (left_turn_side_convex _ _ _ _) hmem
  have h0 : left_turn (contour_vertex (i + 11)) (contour_vertex i) (contour_vertex i) +
      left_turn (contour_vertex i) (contour_vertex (i + 1)) (contour_vertex i) = 0 := by
    rw [(left_turn_self _ _).2, (left_turn_self _ _).1, add_zero]
  have hin2 : 0 < left_turn (contour_vertex (i + 11)) (contour_vertex i) (contour_vertex i) +
      left_turn (contour_vertex i) (contour_vertex (i + 1)) (contour_vertex i) := hin
  rw [h0] at hin2
  exact lt_irrefl _ hin2

/-- The map from millimetres to metres is injective. -/
theorem of_mm_injective : Function.Injective of_mm := by
  intro a b h
  unfold of_mm at h
  have h1 := (Prod.mk.injEq _ _ _ _).mp h
  have e1 : a.1 = b.1 := by
    have := h1.1
    field_simp at this
    exact this
  have e2 : a.2 = b.2 := by
    have := h1.2
    field_simp at this
    exact this
  exact Prod.ext e1 e2

/-- The loop of `is_inside_vehicle_contour` pairs every vertex with its predecessor on the
ring, the first vertex with the last one. -/
theorem is_inside_vehicle_contour_ring (x_m y_m : ℚ) :
    is_inside_vehicle_contour x_m y_m =
      (List.range 12).foldl (fun inside i =>
        if contour_edge_intersect x_m y_m (contour_vertex i) (contour_vertex (i + 11))
        then !inside else inside) false := by
  unfold is_inside_vehicle_contour
  have hlen : kDefaultContour.length = 12 := rfl
  rw [hlen]
  apply List.foldl_ext
  intro inside i hi
  have hi12 : i < 12 := List.mem_range.mp hi
  unfold contour_step contour_vertex
  rw [hlen, Nat.mod_eq_of_lt hi12]
  have hj : (if i = 0 then 12 - 1 else i - 1) = (i + 11) % 12 := by
    by_cases h0 : i = 0
    · rw [if_pos h0, h0]
    · rw [if_neg h0]; omega
  rw [hj]

/-! ## Fallback points in the fusion -/

/-- The function `fuse_method_detections` reads the three method lists only. -/
theorem fuse_method_detections_congr (a b : ProcessedDetections) (h1 : a.tracing = b.tracing)
    (h2 : a.fov_intersections = b.fov_intersections)
    (h3 : a.ellipse_intersections = b.ellipse_intersections) :
    fuse_method_detections a = fuse_method_detections b := by
  have hs : fuse_step a = fuse_step b := by
    funext fused c
    unfold fuse_step available_methods support_count
    rw [h1, h2, h3]
  unfold fuse_method_detections fuse_candidates
  rw [h1, h2, h3, hs]

/-- The fused list of `post_process` is `fuse_method_detections` of its three method
lists. -/
theorem post_process_fused_eq (m : Libm) (h : HashOrder) (cfg : ProcessorConfig)
    (sws : List SignalWay) :
    (post_process m h cfg sws).fused = fuse_method_detections (post_process m h cfg sws) := by
  rw [(post_process_fields m h cfg sws).2.2.1]
  exact fuse_method_detections_congr _ _ rfl rfl rfl

/-- With the tracing list the only non-empty method list, the fused list is the tracing list
run through the de-duplicating push. -/
theorem fuse_tracing_only (inp : ProcessedDetections) (hf : inp.fov_intersections = [])
    (he : inp.ellipse_intersections = []) :
    fuse_method_detections inp = inp.tracing.foldl push_unique_detection [] := by
  have hpool : spec_pool inp = inp.tracing.foldl push_unique_detection [] := by
    unfold spec_pool
    rw [hf, he, List.append_nil, List.append_nil]
  have hpass : ∀ c, fuse_passes inp c = true := by
    intro c
    unfold fuse_passes available_methods
    rw [hf, he]
    cases inp.tracing <;> rfl
  have hfilter : (spec_pool inp).filter (fuse_passes inp) = spec_pool inp :=
    List.filter_eq_self.mpr (fun c _ => hpass c)
  rw [fuse_method_detections_eq, hfilter, spec_first_nonempty_three]
  by_cases hnil : spec_pool inp = []
  · rw [if_pos hnil, hf, he]
    simp only [ne_eq, not_true_eq_false, if_false]
  · rw [if_neg hnil, hpool]

/-- With at least two non-empty method lists, a fused point passed the support test or
comes from the FOV or the ellipse list. -/
theorem fuse_supported_of_two (inp : ProcessedDetections) (h2 : 2 ≤ available_methods inp)
    (c : Detection) (hc : c ∈ fuse_method_detections inp) :
    c ∈ inp.fov_intersections ∨ c ∈ inp.ellipse_intersections ∨ 2 ≤ support_count inp c := by
  rw [fuse_method_detections_eq] at hc
  by_cases hmain : (spec_pool inp).filter (fuse_passes inp) = []
  · rw [if_pos hmain, spec_first_nonempty_three] at hc
    by_cases hf : inp.fov_intersections = []
    · rw [if_neg (not_not.mpr hf)] at hc
      by_cases he : inp.ellipse_intersections = []
      · exfalso
        unfold available_methods at h2
        rw [hf, he] at h2
        cases hl : inp.tracing <;> simp [hl] at h2
      · rw [if_pos he] at hc
        rcases foldl_push_unique_mem _ _ c hc with h | h
        · exact absurd h (List.not_mem_nil c)
        · exact Or.inr (Or.inl h)
    · rw [if_pos hf] at hc
      rcases foldl_push_unique_mem _ _ c hc with h | h
      · exact absurd h (List.not_mem_nil c)
      · exact Or.inl h
  · rw [if_neg hmain] at hc
    have hp := (List.mem_filter.mp hc).2
    unfold fuse_passes at hp
    simp only [Bool.or_eq_true, decide_eq_true_eq] at hp
    rcases hp with hp | hp
    · omega
    · exact Or.inr (Or.inr hp)

/-- Every point pushed through the de-duplicating push is stored or within the minimum
separation of a stored point. -/
theorem foldl_push_unique_covers (l acc : List Detection) (x : Detection)
    (hx : x ∈ acc ∨ x ∈ l) :
    ∃ y ∈ l.foldl push_unique_detection acc, too_close x y = true := by
  induction l generalizing acc with
  | nil =>
    rcases hx with h | h
    · exact ⟨x, h, by norm_num [too_close, kMinSepSq]⟩
    · exact absurd h (List.not_mem_nil x)
  | cons c l ih =>
    rw [List.foldl_cons]
    rcases hx with h | h
    · apply ih
      left
      unfold push_unique_detection
      split
      · exact h
      · exact List.mem_append_left _ h
    · rcases List.mem_cons.mp h with h1 | h1
      · subst h1
        by_cases hany : acc.any (too_close x) = true
        · obtain ⟨y, hy, hclose⟩ := List.any_eq_true.mp hany
          have hsub : y ∈ l.foldl push_unique_detection (push_unique_detection acc x) := by
            have hpre := foldl_push_unique_prefix l (push_unique_detection acc x)
            apply hpre.subset
            unfold push_unique_detection
            rw [if_pos hany]
            exact hy
          exact ⟨y, hsub, hclose⟩
        · have hpre := foldl_push_unique_prefix l (push_unique_detection acc x)
          refine ⟨x, hpre.subset ?_, ?_⟩
          · unfold push_unique_detection
            rw [if_neg hany]
            exact List.mem_append_right _ (List.mem_singleton.mpr rfl)
          · norm_num [too_close, kMinSepSq]
      · exact ih _ (Or.inr h1)

/-- A signal-way that encodes no sensor pair only goes through the tracing stage of an
iteration of the signal-way loop, where the fallback point is computed for it. -/
theorem post_step_undecodable (m : Libm) (cfg : ProcessorConfig) (st : PostState)
    (sw : SignalWay) (h : map_signal_way_to_sensor_pair sw.group_id sw.signal_way_id = none) :
    post_step m cfg st sw = post_tracing m cfg st sw ∧
    tracing_detection_from_signal_way m sw = tracing_fallback sw := by
  have hfov : fov_pie_detection m sw = none := by
    unfold fov_pie_detection; rw [h]
  have hmodel : build_fov_model_from_signal_way m sw = none := by
    unfold build_fov_model_from_signal_way; rw [h]
  have hell : build_ellipse_from_signal_way m sw = none := by
    unfold build_ellipse_from_signal_way; rw [h]
  have htr : tracing_detection_from_signal_way m sw = tracing_fallback sw := by
    unfold tracing_detection_from_signal_way; rw [h]
  have h1 : ∀ s : PostState, post_fov m cfg s sw = s := by
    intro s
    unfold post_fov
    rw [hfov, hmodel]
    split <;> rfl
  have h2 : ∀ s : PostState, post_ellipse m cfg s sw = s := by
    intro s
    unfold post_ellipse
    rw [hell]
    split <;> rfl
  refine ⟨?_, htr⟩
  unfold post_step
  rw [h2, h1]

/-- When no signal-way of a frame encodes a sensor pair, the FOV and the ellipse list of
`post_process` are empty. -/
theorem post_process_all_undecodable (m : Libm) (h : HashOrder) (cfg : ProcessorConfig)
    (sws : List SignalWay)
    (hall : ∀ sw ∈ sws, map_signal_way_to_sensor_pair sw.group_id sw.signal_way_id = none) :
    (post_process m h cfg sws).fov_intersections = [] ∧
    (post_process m h cfg sws).ellipse_intersections = [] := by
  have key : ∀ (l : List SignalWay) (st : PostState),
      (∀ sw ∈ l, map_signal_way_to_sensor_pair sw.group_id sw.signal_way_id = none) →
      (l.foldl (post_step m cfg) st).out.fov_intersections = st.out.fov_intersections ∧
      (l.foldl (post_step m cfg) st).out.ellipse_intersections = st.out.ellipse_intersections ∧
      (l.foldl (post_step m cfg) st).ellipses = st.ellipses ∧
      (l.foldl (post_step m cfg) st).fov_models = st.fov_models := by
    intro l
    induction l with
    | nil => intro st _; exact ⟨rfl, rfl, rfl, rfl⟩
    | cons sw l ih =>
      intro st hl
      rw [List.foldl_cons]
      obtain ⟨a, b, c, d⟩ := ih (post_step m cfg st sw)
        (fun x hx => hl x (List.mem_cons_of_mem _ hx))
      have hstep := (post_step_undecodable m cfg st sw (hl sw (List.mem_cons_self _ _))).1
      have hf := post_tracing_fields m cfg st sw
      rw [a, b, c, d, hstep]
      exact ⟨hf.2.1, hf.2.2.1, hf.2.2.2.1, hf.2.2.2.2⟩
  obtain ⟨a, b, c, d⟩ := key sws
    { out := ProcessedDetections.zero, ellipses := [], fov_models := [] } hall
  have hf := post_process_fields m h cfg sws
  constructor
  · rw [hf.2.1, d, a]
    simp [ProcessedDetections.zero]
  · rw [hf.1, c, b]
    simp [ProcessedDetections.zero]

/-- What `post_process` returns for the one undecodable signal-way under the default
configuration: the fallback point in the tracing, the fused and the clustered list. -/
theorem post_process_fallback_default (m : Libm) (h : HashOrder) :
    (post_process m h ProcessorConfig.defaults [sw_undecodable]).tracing = [(2, 1)] ∧
    (post_process m h ProcessorConfig.defaults [sw_undecodable]).fused = [(2, 1)] := by
  have hmap : ∀ sw ∈ [sw_undecodable],
      map_signal_way_to_sensor_pair sw.group_id sw.signal_way_id = none := by
    intro sw hsw
    rw [List.mem_singleton.mp hsw]
    rfl
  have htr : (post_process m h ProcessorConfig.defaults [sw_undecodable]).tracing = [(2, 1)] := by
    rw [post_process_tracing_eq]
    norm_num [runs_tracing, ProcessorConfig.defaults, sw_undecodable,
      tracing_detection_from_signal_way, map_signal_way_to_sensor_pair, tracing_fallback]
  obtain ⟨hf, he⟩ := post_process_all_undecodable m h ProcessorConfig.defaults _ hmap
  refine ⟨htr, ?_⟩
  rw [post_process_fused_eq, fuse_tracing_only _ hf he, htr]
  rfl

/-! ## The bisection of the traverse collector -/

/-- The spacing of two consecutive samples. -/
theorem sample_param_succ (n : Nat) : sample_param (n + 1) - sample_param n = 2 * pi_d / 360 := by
  unfold sample_param kSamples
  push_cast
  ring

/-- The sample parameter 0. -/
theorem sample_param_zero : sample_param 0 = 0 := by
  unfold sample_param
  simp

/-- The sample loop of the traverse collector carries the last sample parameter and the
value of `F` there. -/
theorem traverse_fold_state (m : Libm) (mi mj : EllipseModel) (out : List Detection) (n : Nat) :
    ((List.range' 1 n).foldl (traverse_sample_step m mi mj)
      (out, 0, crossing_value m mi mj 0)).2 =
      (sample_param n, crossing_value m mi mj (sample_param n)) := by
  cases n with
  | zero => rw [sample_param_zero]; rfl
  | succ n =>
    rw [List.range'_concat, List.foldl_append, Nat.one_mul, Nat.add_comm 1 n]
    rfl

/-- If the sign test fails for `(a, b)` and succeeds for `(a, c)`, it succeeds for `(b, c)`. -/
theorem sign_change_shift (a b c : ℚ) (h1 : sign_change a b = false)
    (h2 : sign_change a c = true) : sign_change b c = true := by
  unfold sign_change at h1 h2 ⊢
  simp only [Bool.or_eq_false_iff, Bool.and_eq_false_iff, decide_eq_false_iff_not,
    Bool.or_eq_true, Bool.and_eq_true, decide_eq_true_eq, not_le] at h1 h2 ⊢
  rcases h2 with ⟨ha, hc⟩ | ⟨ha, hc⟩
  · rcases h1.1 with h | h
    · linarith
    · left; exact ⟨by linarith, hc⟩
  · rcases h1.2 with h | h
    · linarith
    · right; exact ⟨by linarith, hc⟩

/-- One iteration of the bisection loop keeps the bracket and halves its width. -/
theorem bisect_step_bracket (m : Libm) (mi mj : EllipseModel) (s k it : Nat) (b : ℚ × ℚ × ℚ)
    (h : bracket m mi mj s k b) : bracket m mi mj s (k + 1) (bisect_step m mi mj b it) := by
  obtain ⟨hle, hlo, hhi, hv, hs, hw⟩ := h
  have hw2 : (2 * pi_d / 360) / 2 ^ (k + 1) = (1 / 2) * ((2 * pi_d / 360) / 2 ^ k) := by
    rw [pow_succ]
    field_simp
    ring
  have hmid : ellipse_implicit_value m mj (ellipse_point m mi ((1 / 2) * (b.1 + b.2.1))).1
      (ellipse_point m mi ((1 / 2) * (b.1 + b.2.1))).2 =
      crossing_value m mi mj ((1 / 2) * (b.1 + b.2.1)) := rfl
  unfold bisect_step
  simp only [hmid]
  by_cases hc : sign_change b.2.2 (crossing_value m mi mj ((1 / 2) * (b.1 + b.2.1))) = true
  · rw [if_pos hc]
    refine ⟨?_, hlo, ?_, hv, ?_, ?_⟩
    · show b.1 ≤ (1 / 2) * (b.1 + b.2.1)
      linarith
    · show (1 / 2) * (b.1 + b.2.1) ≤ sample_param s
      linarith
    · show sign_change (crossing_value m mi mj b.1)
        (crossing_value m mi mj ((1 / 2) * (b.1 + b.2.1))) = true
      rw [← hv]; exact hc
    · show (1 / 2) * (b.1 + b.2.1) - b.1 = _
      rw [hw2, ← hw]
      ring
  · rw [if_neg hc]
    have hc2 : sign_change b.2.2 (crossing_value m mi mj ((1 / 2) * (b.1 + b.2.1))) = false := by
      simpa using hc
    refine ⟨?_, ?_, hhi, rfl, ?_, ?_⟩
    · show (1 / 2) * (b.1 + b.2.1) ≤ b.2.1
      linarith
    · show sample_param (s - 1) ≤ (1 / 2) * (b.1 + b.2.1)
      linarith
    · show sign_change (crossing_value m mi mj ((1 / 2) * (b.1 + b.2.1)))
        (crossing_value m mi mj b.2.1) = true
      rw [hv] at hc2
      exact sign_change_shift _ _ _ hc2 hs
    · show b.2.1 - (1 / 2) * (b.1 + b.2.1) = _
      rw [hw2, ← hw]
      ring

/-- The bisection loop keeps the bracket through all its iterations. -/
theorem bisect_state_bracket (m : Libm) (mi mj : EllipseModel) (s : Nat) (h1 : 1 ≤ s)
    (hs : sign_change (crossing_value m mi mj (sample_param (s - 1)))
      (crossing_value m mi mj (sample_param s)) = true) (k : Nat) :
    bracket m mi mj s k (bisect_state m mi mj s k) := by
  have hsp : sample_param s - sample_param (s - 1) = 2 * pi_d / 360 := by
    have := sample_param_succ (s - 1)
    rw [Nat.sub_add_cancel h1] at this
    exact this
  have hpos : (0 : ℚ) < 2 * pi_d / 360 := by
    have := pi_d_pos
    linarith
  induction k with
  | zero =>
    refine ⟨?_, le_refl _, le_refl _, rfl, hs, ?_⟩
    · show sample_param (s - 1) ≤ sample_param s
      linarith
    · show sample_param s - sample_param (s - 1) = _
      rw [hsp]; norm_num
  | succ k ih =>
    unfold bisect_state
    rw [List.range_succ, List.foldl_append]
    exact bisect_step_bracket m mi mj s k k _ ih

/-! ## The flood fill and the threshold graph -/

/-- The adjacency matrix is symmetric. -/
theorem adjacency_symm (inp : List Detection) (radius_sq : ℚ) (a b : Nat) :
    adjacency inp radius_sq a b = adjacency inp radius_sq b a := by
  unfold adjacency
  by_cases h : a = b
  · rw [if_pos h, if_pos h.symm]
  · rw [if_neg h, if_neg (fun hh => h hh.symm), Nat.min_comm a b, Nat.max_comm a b]

/-- The adjacency matrix is the threshold test on the squared distance. -/
theorem adjacency_iff (inp : List Detection) (r : ℚ) (a b : Nat) :
    adjacency inp (r * r) a b = true ↔
      dist_le (inp.getD a (0, 0)) (inp.getD b (0, 0)) |r| := by
  unfold dist_le
  rw [abs_mul_abs_self]
  have h0 : 0 ≤ |r| := abs_nonneg r
  unfold adjacency
  by_cases h : a = b
  · rw [if_pos h, h]
    simp only [sub_self, mul_zero, add_zero, true_iff]
    exact ⟨h0, mul_self_nonneg r⟩
  · rw [if_neg h]
    simp only [decide_eq_true_eq]
    rcases Nat.lt_or_gt_of_ne h with hlt | hgt
    · rw [Nat.min_eq_left (le_of_lt hlt), Nat.max_eq_right (le_of_lt hlt)]
      constructor
      · intro hd
        refine ⟨h0, ?_⟩
        have e : ((inp.getD a (0, 0)).1 - (inp.getD b (0, 0)).1) *
              ((inp.getD a (0, 0)).1 - (inp.getD b (0, 0)).1) +
            ((inp.getD a (0, 0)).2 - (inp.getD b (0, 0)).2) *
              ((inp.getD a (0, 0)).2 - (inp.getD b (0, 0)).2) =
            ((inp.getD b (0, 0)).1 - (inp.getD a (0, 0)).1) *
              ((inp.getD b (0, 0)).1 - (inp.getD a (0, 0)).1) +
            ((inp.getD b (0, 0)).2 - (inp.getD a (0, 0)).2) *
              ((inp.getD b (0, 0)).2 - (inp.getD a (0, 0)).2) := by ring
        rw [e]; exact hd
      · intro hd
        have e : ((inp.getD b (0, 0)).1 - (inp.getD a (0, 0)).1) *
              ((inp.getD b (0, 0)).1 - (inp.getD a (0, 0)).1) +
            ((inp.getD b (0, 0)).2 - (inp.getD a (0, 0)).2) *
              ((inp.getD b (0, 0)).2 - (inp.getD a (0, 0)).2) =
            ((inp.getD a (0, 0)).1 - (inp.getD b (0, 0)).1) *
              ((inp.getD a (0, 0)).1 - (inp.getD b (0, 0)).1) +
            ((inp.getD a (0, 0)).2 - (inp.getD b (0, 0)).2) *
              ((inp.getD a (0, 0)).2 - (inp.getD b (0, 0)).2) := by ring
        rw [e]; exact hd.2
    · rw [Nat.min_eq_right (le_of_lt hgt), Nat.max_eq_left (le_of_lt hgt)]
      exact ⟨fun hd => ⟨h0, hd⟩, fun hd => hd.2⟩

/-- The set entries of the adjacency matrix are the edges of the threshold graph for the
absolute value of the radius. -/
theorem near_iff_linked (inp : List Detection) (r : ℚ) (a b : Nat) :
    near inp (r * r) a b ↔ linked inp |r| a b := by
  unfold near linked
  rw [adjacency_iff]

/-- Chains of set entries of the adjacency matrix are the chains of the threshold graph. -/
theorem joined_iff_near (inp : List Detection) (r : ℚ) (a b : Nat) :
    joined inp |r| a b ↔ Relation.ReflTransGen (near inp (r * r)) a b := by
  unfold joined
  constructor
  · exact Relation.ReflTransGen.mono (fun x y hxy => (near_iff_linked inp r x y).mpr hxy)
  · exact Relation.ReflTransGen.mono (fun x y hxy => (near_iff_linked inp r x y).mp hxy)

/-- The relation `near` is symmetric. -/
theorem near_symm (inp : List Detection) (radius_sq : ℚ) (a b : Nat)
    (h : near inp radius_sq a b) : near inp radius_sq b a :=
  ⟨h.2.1, h.1, by rw [adjacency_symm]; exact h.2.2⟩

/-- Chains can be walked backwards. -/
theorem near_chain_symm (inp : List Detection) (radius_sq : ℚ) (a b : Nat)
    (h : Relation.ReflTransGen (near inp radius_sq) a b) :
    Relation.ReflTransGen (near inp radius_sq) b a := by
  induction h with
  | refl => exact Relation.ReflTransGen.refl
  | tail _ hbc ih => exact Relation.ReflTransGen.head (near_symm inp radius_sq _ _ hbc) ih

/-- The innermost step of the flood fill only labels points joined to the seed. -/
theorem melt_neighbour_grown (inp : List Detection) (radius_sq : ℚ) (c seed a b : Nat)
    (st : List Nat × Bool) (ha : a < inp.length) (hb : b < inp.length)
    (h : grown_from inp radius_sq c seed st.1 ∧ st.1.getD a 0 = c) :
    grown_from inp radius_sq c seed (melt_neighbour inp radius_sq c a st b).1 ∧
      (melt_neighbour inp radius_sq c a st b).1.getD a 0 = c := by
  unfold melt_neighbour
  by_cases hc : (adjacency inp radius_sq a b && decide (st.1.getD b 0 = 0)) = true
  · rw [if_pos hc]
    have hadj : adjacency inp radius_sq a b = true := by
      simp only [Bool.and_eq_true, decide_eq_true_eq] at hc
      exact hc.1
    constructor
    · intro j hj
      have hj2 : (st.1.set b c).getD j 0 = c := hj
      rw [getD_set_label] at hj2
      by_cases hjb : j = b ∧ b < st.1.length
      · rw [hjb.1]
        exact Relation.ReflTransGen.tail (h.1 a h.2) ⟨ha, hb, hadj⟩
      · rw [if_neg hjb] at hj2
        exact h.1 j hj2
    · show (st.1.set b c).getD a 0 = c
      rw [getD_set_label]
      split
      · rfl
      · exact h.2
  · rw [if_neg hc]
    exact h

/-- The middle step of the flood fill only labels points joined to the seed. -/
theorem melt_member_grown (inp : List Detection) (radius_sq : ℚ) (c seed a : Nat)
    (st : List Nat × Bool) (ha : a < inp.length) (h : grown_from inp radius_sq c seed st.1) :
    grown_from inp radius_sq c seed (melt_member inp radius_sq c st a).1 := by
  unfold melt_member
  by_cases hne : st.1.getD a 0 ≠ c
  · rw [if_pos hne]; exact h
  · rw [if_neg hne]
    have hac : st.1.getD a 0 = c := not_not.mp hne
    exact (foldl_range_inv
      (fun s : List Nat × Bool => grown_from inp radius_sq c seed s.1 ∧ s.1.getD a 0 = c) _
      inp.length (fun s b hb hs => melt_neighbour_grown inp radius_sq c seed a b s ha hb hs) st
      ⟨h, hac⟩).1

/-- The flood fill only labels points joined to the seed, for every fuel. -/
theorem melt_loop_grown (inp : List Detection) (radius_sq : ℚ) (c seed fuel : Nat)
    (ids : List Nat) (h : grown_from inp radius_sq c seed ids) :
    grown_from inp radius_sq c seed (melt_loop inp radius_sq c fuel ids) := by
  have hpass : ∀ l : List Nat, grown_from inp radius_sq c seed l →
      grown_from inp radius_sq c seed (melt_pass inp radius_sq c l).1 := by
    intro l hl
    unfold melt_pass
    exact foldl_range_inv (fun s : List Nat × Bool => grown_from inp radius_sq c seed s.1) _
      inp.length (fun s a ha hs => melt_member_grown inp radius_sq c seed a s ha hs) (l, false) hl
  induction fuel generalizing ids with
  | zero => exact h
  | succ fuel ih =>
    unfold melt_loop
    by_cases hch : (melt_pass inp radius_sq c ids).2 = true
    · simp only [hch, if_true]
      exact ih _ (hpass ids h)
    · simp only [hch, if_false]
      exact hpass ids h

/-- An innermost step that leaves `changed` unset found it unset, changed no label and met
no unlabelled neighbour. -/
theorem melt_neighbour_quiet (inp : List Detection) (radius_sq : ℚ) (c a : Nat)
    (st : List Nat × Bool) (b : Nat)
    (h : (melt_neighbour inp radius_sq c a st b).2 = false) :
    st.2 = false ∧ (melt_neighbour inp radius_sq c a st b).1 = st.1 ∧
      ¬ (adjacency inp radius_sq a b = true ∧ st.1.getD b 0 = 0) := by
  unfold melt_neighbour at h ⊢
  by_cases hc : (adjacency inp radius_sq a b && decide (st.1.getD b 0 = 0)) = true
  · rw [if_pos hc] at h
    exact absurd h (by simp)
  · rw [if_neg hc] at h
    rw [if_neg hc]
    refine ⟨h, rfl, fun hh => hc ?_⟩
    rw [hh.1, hh.2]
    rfl

/-- The innermost loop, when it leaves `changed` unset. -/
theorem foldl_melt_neighbour_quiet (inp : List Detection) (radius_sq : ℚ) (c a : Nat)
    (l : List Nat) (st : List Nat × Bool)
    (h : (l.foldl (melt_neighbour inp radius_sq c a) st).2 = false) :
    st.2 = false ∧ (l.foldl (melt_neighbour inp radius_sq c a) st).1 = st.1 ∧
      ∀ b ∈ l, ¬ (adjacency inp radius_sq a b = true ∧ st.1.getD b 0 = 0) := by
  induction l generalizing st with
  | nil => exact ⟨h, rfl, fun b hb => absurd hb (List.not_mem_nil b)⟩
  | cons b l ih =>
    rw [List.foldl_cons] at h ⊢
    obtain ⟨h1, h2, h3⟩ := ih _ h
    obtain ⟨g1, g2, g3⟩ := melt_neighbour_quiet inp radius_sq c a st b h1
    refine ⟨g1, h2.trans g2, ?_⟩
    intro b2 hb2
    rcases List.mem_cons.mp hb2 with e | e
    · rw [e]; exact g3
    · have := h3 b2 e
      rw [g2] at this
      exact this

/-- The middle step, when it leaves `changed` unset. -/
theorem melt_member_quiet (inp : List Detection) (radius_sq : ℚ) (c : Nat)
    (st : List Nat × Bool) (a : Nat) (h : (melt_member inp radius_sq c st a).2 = false) :
    st.2 = false ∧ (melt_member inp radius_sq c st a).1 = st.1 ∧
      (st.1.getD a 0 = c → ∀ b, b < inp.length →
        ¬ (adjacency inp radius_sq a b = true ∧ st.1.getD b 0 = 0)) := by
  unfold melt_member at h ⊢
  by_cases hne : st.1.getD a 0 ≠ c
  · rw [if_pos hne] at h
    rw [if_pos hne]
    exact ⟨h, rfl, fun hh => absurd hh hne⟩
  · rw [if_neg hne] at h
    rw [if_neg hne]
    obtain ⟨h1, h2, h3⟩ := foldl_melt_neighbour_quiet inp radius_sq c a _ st h
    exact ⟨h1, h2, fun _ b hb => h3 b (List.mem_range.mpr hb)⟩

/-- The middle loop, when it leaves `changed` unset. -/
theorem foldl_melt_member_quiet (inp : List Detection) (radius_sq : ℚ) (c : Nat)
    (l : List Nat) (st : List Nat × Bool)
    (h : (l.foldl (melt_member inp radius_sq c) st).2 = false) :
    st.2 = false ∧ (l.foldl (melt_member inp radius_sq c) st).1 = st.1 ∧
      ∀ a ∈ l, st.1.getD a 0 = c → ∀ b, b < inp.length →
        ¬ (adjacency inp radius_sq a b = true ∧ st.1.getD b 0 = 0) := by
  induction l generalizing st with
  | nil => exact ⟨h, rfl, fun a ha => absurd ha (List.not_mem_nil a)⟩
  | cons a l ih =>
    rw [List.foldl_cons] at h ⊢
    obtain ⟨h1, h2, h3⟩ := ih _ h
    obtain ⟨g1, g2, g3⟩ := melt_member_quiet inp radius_sq c st a h1
    refine ⟨g1, h2.trans g2, ?_⟩
    intro a2 ha2
    rcases List.mem_cons.mp ha2 with e | e
    · rw [e]; exact g3
    · have := h3 a2 e
      rw [g2] at this
      exact this

/-- A pass of the flood fill that reports no change changed no label, and no point of the
cluster has an unlabelled neighbour. -/
theorem melt_pass_quiet (inp : List Detection) (radius_sq : ℚ) (c : Nat) (ids : List Nat)
    (h : (melt_pass inp radius_sq c ids).2 = false) :
    (melt_pass inp radius_sq c ids).1 = ids ∧ settled inp radius_sq c ids := by
  unfold melt_pass at h ⊢
  obtain ⟨_, h2, h3⟩ := foldl_melt_member_quiet inp radius_sq c _ (ids, false) h
  refine ⟨h2, ?_⟩
  intro a ha hac b hb hadj h0
  exact h3 a (List.mem_range.mpr ha) hac b hb ⟨hadj, h0⟩

/-- With fuel above the number of unlabelled points the flood fill ends settled: its last
pass reported no change. -/
theorem melt_loop_settled (inp : List Detection) (radius_sq : ℚ) (c : Nat) (hc : c ≠ 0)
    (fuel : Nat) :
    ∀ ids : List Nat, ids.length = inp.length → ids.count 0 < fuel →
      settled inp radius_sq c (melt_loop inp radius_sq c fuel ids) := by
  induction fuel with
  | zero => intro ids _ h; omega
  | succ fuel ih =>
    intro ids hlen hlt
    obtain ⟨hlen2, _, hdec⟩ := melt_pass_inv inp radius_sq c hc ids hlen
    unfold melt_loop
    simp only
    by_cases hch : (melt_pass inp radius_sq c ids).2 = true
    · rw [if_pos hch]
      exact ih _ hlen2 (by have := hdec hch; omega)
    · rw [if_neg hch]
      have hq := melt_pass_quiet inp radius_sq c ids (by simpa using hch)
      rw [hq.1]
      exact hq.2

/-- One iteration of the labelling loop keeps `comp_inv`. -/
theorem comp_inv_step (inp : List Detection) (radius_sq : ℚ) (k : Nat) (st : List Nat × Nat)
    (hk : k < inp.length) (hl : labels_inv inp.length k st) (h : comp_inv inp radius_sq st) :
    comp_inv inp radius_sq (melt_seed inp radius_sq st k) := by
  obtain ⟨hlen, h1, _, hlt, hlab, _⟩ := hl
  obtain ⟨hclosed, hconn, hord⟩ := h
  unfold melt_seed
  by_cases h0 : st.1.getD k 0 ≠ 0
  · rw [if_pos h0]
    exact ⟨hclosed, hconn, hord⟩
  · rw [if_neg h0]
    have hz : st.1.getD k 0 = 0 := by omega
    have hc0 : st.2 ≠ 0 := by omega
    have hset : ∀ j, (st.1.set k st.2).getD j 0 = if j = k then st.2 else st.1.getD j 0 := by
      intro j
      rw [getD_set_label]
      by_cases hjk : j = k
      · rw [if_pos ⟨hjk, by omega⟩, if_pos hjk]
      · rw [if_neg (fun hh => hjk hh.1), if_neg hjk]
    have hblen : (st.1.set k st.2).length = inp.length := by rw [List.length_set, hlen]
    have hext := melt_loop_ext inp radius_sq st.2 (inp.length + 1) (st.1.set k st.2)
    have hgrown : grown_from inp radius_sq st.2 k
        (melt_loop inp radius_sq st.2 (inp.length + 1) (st.1.set k st.2)) := by
      apply melt_loop_grown
      intro j hj
      rw [hset j] at hj
      by_cases hjk : j = k
      · rw [hjk]
      · rw [if_neg hjk] at hj
        have := hlt j
        omega
    have hsettled : settled inp radius_sq st.2
        (melt_loop inp radius_sq st.2 (inp.length + 1) (st.1.set k st.2)) := by
      apply melt_loop_settled inp radius_sq st.2 hc0 _ _ hblen
      have := List.count_le_length 0 (st.1.set k st.2)
      omega
    generalize hnew : melt_loop inp radius_sq st.2 (inp.length + 1) (st.1.set k st.2) = new
      at hext hgrown hsettled
    have hF : ∀ j, new.getD j 0 = (if j = k then st.2 else st.1.getD j 0) ∨
        ((if j = k then st.2 else st.1.getD j 0) = 0 ∧ new.getD j 0 = st.2) := by
      intro j
      have := hext.2 j
      rw [hset j] at this
      exact this
    have hFk : new.getD k 0 = st.2 := by
      rcases hF k with e | ⟨_, e⟩
      · rw [e, if_pos rfl]
      · exact e
    have hF1 : ∀ j, st.1.getD j 0 ≠ 0 → new.getD j 0 = st.1.getD j 0 := by
      intro j hj
      have hjk : j ≠ k := fun e => hj (by rw [e]; exact hz)
      rcases hF j with e | ⟨e, _⟩
      · rw [e, if_neg hjk]
      · rw [if_neg hjk] at e
        exact absurd e hj
    have hF3 : ∀ j, new.getD j 0 ≠ st.2 → new.getD j 0 = st.1.getD j 0 := by
      intro j hj
      have hjk : j ≠ k := fun e => hj (by rw [e]; exact hFk)
      rcases hF j with e | ⟨_, e⟩
      · rw [e, if_neg hjk]
      · exact absurd e hj
    have hF4 : ∀ j, new.getD j 0 = st.2 → st.1.getD j 0 = 0 := by
      intro j hj
      by_contra hne
      have := hF1 j hne
      have := hlt j
      omega
    refine ⟨?_, ?_, ?_⟩
    · intro a b ha hb hna hadj
      show new.getD b 0 = new.getD a 0
      have hna2 : new.getD a 0 ≠ 0 := hna
      by_cases hac : new.getD a 0 = st.2
      · have hb0 := hsettled a ha hac b hb hadj
        by_cases hbc : new.getD b 0 = st.2
        · rw [hac, hbc]
        · exfalso
          have hb1 := hF3 b hbc
          have hb2 : st.1.getD b 0 ≠ 0 := by rw [← hb1]; exact hb0
          have := hclosed b a hb ha hb2 (by rw [adjacency_symm]; exact hadj)
          have := hF4 a hac
          omega
      · have ha1 := hF3 a hac
        have ha2 : st.1.getD a 0 ≠ 0 := by rw [← ha1]; exact hna2
        have hb1 := hclosed a b ha hb ha2 hadj
        rw [ha1, hF1 b (by rw [hb1]; exact ha2), hb1]
    · intro a b ha hb hna hab
      have hna2 : new.getD a 0 ≠ 0 := hna
      have hab2 : new.getD a 0 = new.getD b 0 := hab
      by_cases hac : new.getD a 0 = st.2
      · have hga := hgrown a hac
        have hgb := hgrown b (by rw [← hab2]; exact hac)
        exact Relation.ReflTransGen.trans (near_chain_symm inp radius_sq _ _ hga) hgb
      · have ha1 := hF3 a hac
        have hb1 := hF3 b (by rw [← hab2]; exact hac)
        exact hconn a b ha hb (by rw [← ha1]; exact hna2) (by rw [← ha1, ← hb1]; exact hab2)
    · intro c hc1 hc2
      have hc3 : c < st.2 + 1 := hc2
      show ∃ s, s < inp.length ∧ new.getD s 0 = c ∧
        ∀ j, j < s → 1 ≤ new.getD j 0 ∧ new.getD j 0 < c
      by_cases hcc : c = st.2
      · refine ⟨k, hk, by rw [hFk, hcc], ?_⟩
        intro j hj
        have hj0 := hlab j hj
        rw [hF1 j hj0, hcc]
        have := hlt j
        omega
      · obtain ⟨s, hs, hsc, hbefore⟩ := hord c hc1 (by omega)
        refine ⟨s, hs, by rw [hF1 s (by omega), hsc], ?_⟩
        intro j hj
        have := hbefore j hj
        rw [hF1 j (by omega)]
        exact this

/-- The labels returned by the labelling part of `cluster_with_table_melt` satisfy
`comp_inv`. -/
theorem melt_labels_comp (inp : List Detection) (radius_sq : ℚ) :
    comp_inv inp radius_sq (melt_labels inp radius_sq) := by
  unfold melt_labels
  have key : ∀ k, k ≤ inp.length →
      labels_inv inp.length k
        ((List.range k).foldl (melt_seed inp radius_sq) (List.replicate inp.length 0, 1)) ∧
      comp_inv inp radius_sq
        ((List.range k).foldl (melt_seed inp radius_sq) (List.replicate inp.length 0, 1)) := by
    intro k
    induction k with
    | zero =>
      intro _
      refine ⟨labels_inv_init _, ?_, ?_, ?_⟩
      · intro a b _ _ hna
        exfalso
        apply hna
        show (List.replicate inp.length 0).getD a 0 = 0
        simp only [List.getD_eq_getElem?_getD, List.getElem?_replicate]
        by_cases h : a < inp.length <;> simp [h]
      · intro a b _ _ hna
        exfalso
        apply hna
        show (List.replicate inp.length 0).getD a 0 = 0
        simp only [List.getD_eq_getElem?_getD, List.getElem?_replicate]
        by_cases h : a < inp.length <;> simp [h]
      · intro c hc1 hc2
        have : c < 1 := hc2
        omega
    | succ k ih =>
      intro hk
      rw [List.range_succ, List.foldl_append]
      obtain ⟨hl, hc⟩ := ih (by omega)
      exact ⟨labels_inv_step inp radius_sq k _ (by omega) hl,
        comp_inv_step inp radius_sq k _ (by omega) hl hc⟩
  exact (key inp.length (Nat.le_refl _)).2

/-- The labels of `cluster_with_table_melt` are the connected components of the threshold
graph for the absolute value of the radius: every input point has a label from 1 below
`next_id`, and two input points have the same label exactly when they are joined by a
chain. -/
theorem melt_labels_components (inp : List Detection) (r : ℚ) :
    (melt_labels inp (r * r)).1.length = inp.length ∧
    (∀ i, i < inp.length → 1 ≤ (melt_labels inp (r * r)).1.getD i 0 ∧
      (melt_labels inp (r * r)).1.getD i 0 < (melt_labels inp (r * r)).2) ∧
    (∀ i j, i < inp.length → j < inp.length →
      ((melt_labels inp (r * r)).1.getD i 0 = (melt_labels inp (r * r)).1.getD j 0 ↔
        joined inp |r| i j)) := by
  obtain ⟨hlen, _, _, hlt, hlab, _⟩ := melt_labels_inv inp (r * r)
  obtain ⟨hclosed, hconn, _⟩ := melt_labels_comp inp (r * r)
  refine ⟨hlen, ?_, ?_⟩
  · intro i hi
    have := hlab i hi
    have := hlt i
    omega
  · intro i j hi hj
    rw [joined_iff_near]
    constructor
    · intro hij
      exact hconn i j hi hj (hlab i hi) hij
    · intro hchain
      induction hchain with
      | refl => rfl
      | @tail x y _ hxy ih =>
        rw [ih hxy.1]
        exact (hclosed x y hxy.1 hxy.2.1 (hlab x hxy.1) hxy.2.2).symm

/-- The labels of `points_three` under radius 0.35. -/
theorem melt_labels_three :
    melt_labels points_three (35 / 100 * (35 / 100)) = ([1, 2, 1], 3) := by
  norm_num [points_three, melt_labels, melt_seed, melt_loop, melt_pass, melt_member,
    melt_neighbour, adjacency, List.range, List.range.loop, List.replicate, List.set]

/-- The labels of `points_half` under radius -1. -/
theorem melt_labels_half :
    melt_labels points_half (-1 * -1) = ([1, 1], 2) := by
  norm_num [points_half, melt_labels, melt_seed, melt_loop, melt_pass, melt_member,
    melt_neighbour, adjacency, List.range, List.range.loop, List.replicate, List.set]

/-- No chain joins two different points when the radius is negative. -/
theorem joined_negative (inp : List Detection) (r : ℚ) (hr : r < 0) (a b : Nat)
    (h : joined inp r a b) : b = a := by
  have hnone : ∀ x, ¬ linked inp r a x := by
    intro x hx
    have := hx.2.2.1
    linarith
  exact (Relation.reflTransGen_iff_eq hnone).mp h

/-- Every label in use has a first point; the points before it carry smaller labels, and the
points with that label are the points joined to it. -/
theorem melt_labels_first (inp : List Detection) (r : ℚ) (c : Nat) (hc1 : 1 ≤ c)
    (hc2 : c < (melt_labels inp (r * r)).2) :
    ∃ s, s < inp.length ∧ first_member (melt_labels inp (r * r)).1 c s ∧
      (∀ j, j < s → 1 ≤ (melt_labels inp (r * r)).1.getD j 0 ∧
        (melt_labels inp (r * r)).1.getD j 0 < c) ∧
      (∀ j, j < inp.length →
        ((melt_labels inp (r * r)).1.getD j 0 = c ↔ joined inp |r| s j)) := by
  obtain ⟨_, _, hord⟩ := melt_labels_comp inp (r * r)
  obtain ⟨s, hs, hsc, hbefore⟩ := hord c hc1 hc2
  refine ⟨s, hs, ⟨hsc, fun j hj => ?_⟩, hbefore, fun j hj => ?_⟩
  · have := (hbefore j hj).2
    omega
  · rw [← (melt_labels_components inp r).2.2 s j hs hj, hsc]
    exact ⟨fun e => e.symm, fun e => e.symm⟩

/-- The first point of a label is unique. -/
theorem first_member_unique (ids : List Nat) (c s t : Nat) (hs : first_member ids c s)
    (ht : first_member ids c t) : s = t := by
  rcases Nat.lt_trichotomy s t with h | h | h
  · exact absurd hs.1 (ht.2 s h)
  · exact h
  · exact absurd ht.1 (hs.2 t h)

/-- The first points of the labels come in the order of the labels. -/
theorem melt_labels_first_order (inp : List Detection) (r : ℚ) (c d s t : Nat) (hc1 : 1 ≤ c)
    (hcd : c < d) (hd : d < (melt_labels inp (r * r)).2)
    (hs : first_member (melt_labels inp (r * r)).1 c s)
    (ht : first_member (melt_labels inp (r * r)).1 d t) : s < t := by
  obtain ⟨s2, _, hs2, hbs, _⟩ := melt_labels_first inp r c hc1 (by omega)
  obtain ⟨t2, _, ht2, hbt, _⟩ := melt_labels_first inp r d (by omega) hd
  have es := first_member_unique _ _ _ _ hs hs2
  have et := first_member_unique _ _ _ _ ht ht2
  subst es
  subst et
  rcases Nat.lt_trichotomy s t with h | h | h
  · exact h
  · exfalso
    have h1 := hs.1
    have h2 := ht.1
    rw [h] at h1
    omega
  · exfalso
    have h1 := (hbs t h).2
    have h2 := ht.1
    omega

/-! ## Clustering of separated points -/

/-- In a list of points pairwise farther apart than the radius, the adjacency matrix is
set on the diagonal only. -/
theorem near_eq_of_separated (inp : List Detection) (r : ℚ)
    (hsep : inp.Pairwise (farther_sq (r * r))) (a b : Nat) (h : near inp (r * r) a b) :
    a = b := by
  by_contra hne
  obtain ⟨ha, hb, hadj⟩ := h
  have key : ∀ i j, i < j → j < inp.length →
      ¬ ((inp.getD j (0, 0)).1 - (inp.getD i (0, 0)).1) *
          ((inp.getD j (0, 0)).1 - (inp.getD i (0, 0)).1) +
        ((inp.getD j (0, 0)).2 - (inp.getD i (0, 0)).2) *
          ((inp.getD j (0, 0)).2 - (inp.getD i (0, 0)).2) ≤ r * r := by
    intro i j hij hj hle
    have hi : i < inp.length := by omega
    have hp := List.pairwise_iff_getElem.mp hsep i j hi hj hij
    unfold farther_sq at hp
    rw [List.getD_eq_getElem inp (0, 0) hi, List.getD_eq_getElem inp (0, 0) hj] at hle
    have e : (inp[i].1 - inp[j].1) * (inp[i].1 - inp[j].1) +
        (inp[i].2 - inp[j].2) * (inp[i].2 - inp[j].2) =
        (inp[j].1 - inp[i].1) * (inp[j].1 - inp[i].1) +
        (inp[j].2 - inp[i].2) * (inp[j].2 - inp[i].2) := by ring
    rw [e] at hp
    linarith
  unfold adjacency at hadj
  rw [if_neg hne] at hadj
  simp only [decide_eq_true_eq] at hadj
  rcases Nat.lt_or_gt_of_ne hne with hlt | hgt
  · rw [Nat.min_eq_left (le_of_lt hlt), Nat.max_eq_right (le_of_lt hlt)] at hadj
    exact key a b hlt hb hadj
  · rw [Nat.min_eq_right (le_of_lt hgt), Nat.max_eq_left (le_of_lt hgt)] at hadj
    exact key b a hgt ha hadj

/-- In a list of points pairwise farther apart than the radius, point `j` gets the label
`j + 1`. -/
theorem melt_labels_separated (inp : List Detection) (r : ℚ)
    (hsep : inp.Pairwise (farther_sq (r * r))) :
    (∀ j, j < inp.length → (melt_labels inp (r * r)).1.getD j 0 = j + 1) ∧
    (melt_labels inp (r * r)).2 = inp.length + 1 := by
  obtain ⟨_, h1, hle, hlt, hlab, _⟩ := melt_labels_inv inp (r * r)
  obtain ⟨_, hconn, hord⟩ := melt_labels_comp inp (r * r)
  have hinj : ∀ a b, a < inp.length → b < inp.length →
      (melt_labels inp (r * r)).1.getD a 0 = (melt_labels inp (r * r)).1.getD b 0 → a = b := by
    intro a b ha hb hab
    have hchain := hconn a b ha hb (hlab a ha) hab
    clear hab
    induction hchain with
    | refl => rfl
    | @tail x y _ hxy ih =>
      rw [ih hxy.1]
      exact near_eq_of_separated inp r hsep x y hxy
  have hall : ∀ j, j < inp.length → (melt_labels inp (r * r)).1.getD j 0 = j + 1 := by
    intro j
    induction j using Nat.strong_induction_on with
    | _ j ih =>
      intro hj
      have hc1 : 1 ≤ (melt_labels inp (r * r)).1.getD j 0 := by
        have := hlab j hj
        omega
      have hc2 := hlt j
      obtain ⟨s, hs, hsc, hbefore⟩ := hord _ hc1 hc2
      have hsj : s = j := hinj s j hs hj hsc
      rw [hsj] at hbefore
      have hge : j + 1 ≤ (melt_labels inp (r * r)).1.getD j 0 := by
        rcases Nat.eq_zero_or_pos j with h0 | hpos
        · omega
        · have hb := (hbefore (j - 1) (by omega)).2
          rw [ih (j - 1) (by omega) (by omega)] at hb
          omega
      by_contra hne
      have hgt : j + 1 < (melt_labels inp (r * r)).1.getD j 0 := by omega
      obtain ⟨t, ht, htc, htbefore⟩ := hord (j + 1) (by omega) (by omega)
      rcases Nat.lt_trichotomy t j with h | h | h
      · rw [ih t h ht] at htc
        omega
      · rw [h] at htc
        omega
      · have := (htbefore j h).2
        omega
  refine ⟨hall, ?_⟩
  rcases Nat.eq_zero_or_pos inp.length with h0 | hpos
  · omega
  · have := hall (inp.length - 1) (by omega)
    have := hlt (inp.length - 1)
    omega

/-- When point `j` has the label `j + 1`, the only member of the label `i + 1` is point
`i`. -/
theorem members_separated (l : List Nat) (n i : Nat)
    (hall : ∀ j, j < n → l.getD j 0 = j + 1) :
    ∀ k, k ≤ n → members l k (i + 1) = if i < k then [i] else [] := by
  intro k
  induction k with
  | zero => intro _; rfl
  | succ k ih =>
    intro hk
    rw [members_succ, ih (by omega), hall k (by omega)]
    by_cases hik : i < k
    · rw [if_pos hik, if_pos (by omega : i < k + 1), if_neg (by omega : ¬ k + 1 = i + 1)]
      rfl
    · rw [if_neg hik]
      by_cases hik2 : i = k
      · rw [if_pos (by omega : i < k + 1), if_pos (by omega : k + 1 = i + 1), hik2]
        rfl
      · rw [if_neg (by omega : ¬ i < k + 1), if_neg (by omega : ¬ k + 1 = i + 1)]
        rfl

/-- A list of points pairwise farther apart than the radius is returned unchanged. -/
theorem cluster_separated (h : HashOrder) (inp : List Detection) (r : ℚ)
    (hsep : inp.Pairwise (farther_sq (r * r))) : cluster_with_table_melt h inp r = inp := by
  rw [cluster_with_table_melt_eq]
  by_cases hnil : inp = []
  · rw [if_pos hnil, hnil]
  · rw [if_neg hnil]
    obtain ⟨hall, hN⟩ := melt_labels_separated inp r hsep
    rw [hN, Nat.add_sub_cancel]
    apply List.ext_getElem
    · rw [List.length_map, List.length_range']
    · intro i h1 h2
      rw [List.getElem_map, List.getElem_range']
      have hi : i < inp.length := h2
      have hm := members_separated _ inp.length i hall inp.length (le_refl _)
      rw [if_pos hi] at hm
      unfold centroid
      rw [show 1 + 1 * i = i + 1 by omega, hm]
      simp only [List.map_cons, List.map_nil, List.sum_cons, List.sum_nil, add_zero,
        List.length_cons, List.length_nil, Nat.cast_one, Nat.zero_add, div_one]
      rw [List.getD_eq_getElem inp (0, 0) hi]

/-- The fused list is pairwise apart. -/
theorem fuse_method_detections_pairwise (inp : ProcessedDetections) :
    (fuse_method_detections inp).Pairwise apart := by
  rw [fuse_method_detections_eq]
  split
  · exact foldl_push_unique_pairwise _ [] List.Pairwise.nil
  · exact List.Pairwise.sublist (List.filter_sublist _) (spec_pool_pairwise inp)

/-- With a cluster radius of at most 0.08 m in absolute value, `post_process` returns its
fused list as clustered list. -/
theorem post_process_clustered_eq_fused (m : Libm) (h : HashOrder) (cfg : ProcessorConfig)
    (sws : List SignalWay) (hr : cfg.cluster_radius_m * cfg.cluster_radius_m ≤ 64 / 10000) :
    (post_process m h cfg sws).clustered = (post_process m h cfg sws).fused := by
  rw [(post_process_fields m h cfg sws).2.2.2]
  apply cluster_separated
  rw [post_process_fused_eq]
  apply List.Pairwise.imp _ (fuse_method_detections_pairwise _)
  intro a b hab
  have := (apart_iff_far_apart a b).mp hab
  unfold far_apart at this
  unfold farther_sq
  linarith

/-- Being farther apart than `|r|` is the test on the squared distance. -/
theorem not_dist_le_abs (a b : Detection) (r : ℚ) :
    ¬ dist_le a b |r| ↔ farther_sq (r * r) a b := by
  unfold dist_le farther_sq
  rw [abs_mul_abs_self]
  constructor
  · intro hn
    by_contra hle
    exact hn ⟨abs_nonneg r, not_lt.mp hle⟩
  · intro hgt hd
    exact absurd hd.2 (not_le.mpr hgt)

/-! # The claims -/

/-! ## Failure semantics of `process_frame` -/

/-- C1: whenever `process_frame` does not return ok, the status is one of
OutOfOrderTimestamp, InvalidInput, MissingVehicleState; the stored last output, the
last processed timestamp, the ego-pose buffer and the configuration are exactly what
they were; `processed_frames`, `filtered_signal_ways` and `clustered_detections` are
unchanged; and the processor stays usable: every later `process_frame` or
`push_vehicle_state` call returns the same status and leaves the same output,
timestamp and buffer as if the failed call had not been made. -/
theorem process_frame_failure_preserves (pp : PostProcess) (clock : StageTimingUs)
    (p : UltrasoundProcessor) (input : FrameInput)
    (h : (process_frame pp clock p input).2.code ≠ ErrorCode.Ok) :
    ((process_frame pp clock p input).2.code = ErrorCode.OutOfOrderTimestamp ∨
      (process_frame pp clock p input).2.code = ErrorCode.InvalidInput ∨
      (process_frame pp clock p input).2.code = ErrorCode.MissingVehicleState) ∧
    (process_frame pp clock p input).1.last_output_ = p.last_output_ ∧
    (process_frame pp clock p input).1.last_timestamp_us_ = p.last_timestamp_us_ ∧
    (process_frame pp clock p input).1.state_queue_ = p.state_queue_ ∧
    (process_frame pp clock p input).1.config_ = p.config_ ∧
    (process_frame pp clock p input).1.diagnostics_.processed_frames =
      p.diagnostics_.processed_frames ∧
    (process_frame pp clock p input).1.diagnostics_.filtered_signal_ways =
      p.diagnostics_.filtered_signal_ways ∧
    (process_frame pp clock p input).1.diagnostics_.clustered_detections =
      p.diagnostics_.clustered_detections ∧
    (∀ (clock2 : StageTimingUs) (input2 : FrameInput),
      (process_frame pp clock2 (process_frame pp clock p input).1 input2).2 =
        (process_frame pp clock2 p input2).2 ∧
      (process_frame pp clock2 (process_frame pp clock p input).1 input2).1.last_output_ =
        (process_frame pp clock2 p input2).1.last_output_ ∧
      (process_frame pp clock2 (process_frame pp clock p input).1 input2).1.last_timestamp_us_ =
        (process_frame pp clock2 p input2).1.last_timestamp_us_ ∧
      (process_frame pp clock2 (process_frame pp clock p input).1 input2).1.state_queue_ =
        (process_frame pp clock2 p input2).1.state_queue_) ∧
    (∀ s : VehicleState,
      (push_vehicle_state (process_frame pp clock p input).1 s).2 = (push_vehicle_state p s).2 ∧
      (push_vehicle_state (process_frame pp clock p input).1 s).1.state_queue_ =
        (push_vehicle_state p s).1.state_queue_) := by
  have hstate := process_frame_failure_state pp clock p input h
  refine ⟨?_, ?_, ?_, ?_, ?_, ?_, ?_, ?_, ?_, ?_⟩
  · rw [process_frame_code] at h ⊢
    by_cases h1 : p.config_.strict_monotonic_timestamps = true ∧
        input.timestamp_us ≤ p.last_timestamp_us_
    · simp [h1]
    · by_cases h2 : input.signal_ways = [] ∧ input.static_features = []
      · simp [h1, h2]
      · by_cases h3 : interpolate_pose p.state_queue_ input.timestamp_us = none
        · simp [h1, h2, h3]
        · simp [h1, h2, h3] at h
  · rw [hstate]
  · rw [hstate]
  · rw [hstate]
  · rw [hstate]
  · by_cases h1 : p.config_.strict_monotonic_timestamps = true ∧
        input.timestamp_us ≤ p.last_timestamp_us_
    · rw [process_frame_out_of_order pp clock p input h1]
    · by_cases h2 : input.signal_ways = [] ∧ input.static_features = []
      · rw [process_frame_invalid_input pp clock p input h1 h2]
      · cases h3 : interpolate_pose p.state_queue_ input.timestamp_us with
        | none => rw [process_frame_missing_state pp clock p input h1 h2 h3]
        | some pose =>
          exact absurd (by rw [process_frame_success pp clock p input pose h1 h2 h3]; rfl) h
  · by_cases h1 : p.config_.strict_monotonic_timestamps = true ∧
        input.timestamp_us ≤ p.last_timestamp_us_
    · rw [process_frame_out_of_order pp clock p input h1]
    · by_cases h2 : input.signal_ways = [] ∧ input.static_features = []
      · rw [process_frame_invalid_input pp clock p input h1 h2]
      · cases h3 : interpolate_pose p.state_queue_ input.timestamp_us with
        | none => rw [process_frame_missing_state pp clock p input h1 h2 h3]
        | some pose =>
          exact absurd (by rw [process_frame_success pp clock p input pose h1 h2 h3]; rfl) h
  · by_cases h1 : p.config_.strict_monotonic_timestamps = true ∧
        input.timestamp_us ≤ p.last_timestamp_us_
    · rw [process_frame_out_of_order pp clock p input h1]
    · by_cases h2 : input.signal_ways = [] ∧ input.static_features = []
      · rw [process_frame_invalid_input pp clock p input h1 h2]
      · cases h3 : interpolate_pose p.state_queue_ input.timestamp_us with
        | none => rw [process_frame_missing_state pp clock p input h1 h2 h3]
        | some pose =>
          exact absurd (by rw [process_frame_success pp clock p input pose h1 h2 h3]; rfl) h
  · intro clock2 input2
    rw [hstate]
    exact process_frame_diag_irrelevant pp clock2 p _ input2
  · intro s
    rw [hstate]
    exact push_vehicle_state_diag_irrelevant p _ s

/-- C1, on scenario S1: the frame stamped 1400 after a frame stamped 1500 was
processed is rejected and the stored output is still the one of the frame at 1500. -/
theorem process_frame_failure_preserves_witness :
    (process_frame pp_sample StageTimingUs.zero
        (process_frame pp_sample StageTimingUs.zero seeded (frame_of 1500 [sw_sample 1500])).1
        (frame_of 1400 [sw_sample 1400])).2.code ≠ ErrorCode.Ok ∧
    (process_frame pp_sample StageTimingUs.zero
        (process_frame pp_sample StageTimingUs.zero seeded (frame_of 1500 [sw_sample 1500])).1
        (frame_of 1400 [sw_sample 1400])).1.last_output_ =
      (process_frame pp_sample StageTimingUs.zero seeded (frame_of 1500 [sw_sample 1500])).1.last_output_ :=
  have hne : (process_frame pp_sample StageTimingUs.zero
        (process_frame pp_sample StageTimingUs.zero seeded (frame_of 1500 [sw_sample 1500])).1
        (frame_of 1400 [sw_sample 1400])).2.code ≠ ErrorCode.Ok := by
    rw [process_frame_code, process_frame_config]
    simp [seeded, UltrasoundProcessor.init, ProcessorConfig.defaults, frame_of, process_frame,
      seed_queue, state_at, interpolate_pose, interpolate_loop]
  ⟨hne, (process_frame_failure_preserves pp_sample StageTimingUs.zero _ _ hne).2.1⟩

/-- C2: with `strict_monotonic_timestamps` enabled, `process_frame` returns
OutOfOrderTimestamp if and only if the frame timestamp is at most `last_timestamp_us_`,
for every frame content and every buffer; in that case `dropped_frames` and
`out_of_order_frames` are each incremented by one (as 64-bit counters) and each of the
other five counters keeps its value. In a state reached from a fresh processor,
`last_timestamp_us_` is the timestamp of the last accepted frame (0 when none was). -/
theorem process_frame_out_of_order_iff (pp : PostProcess) (clock : StageTimingUs)
    (p : UltrasoundProcessor) (input : FrameInput)
    (hs : p.config_.strict_monotonic_timestamps = true) :
    ((process_frame pp clock p input).2.code = ErrorCode.OutOfOrderTimestamp ↔
      input.timestamp_us ≤ p.last_timestamp_us_) ∧
    (input.timestamp_us ≤ p.last_timestamp_us_ →
      (process_frame pp clock p input).1.diagnostics_.dropped_frames =
        (p.diagnostics_.dropped_frames + 1) % 2 ^ 64 ∧
      (process_frame pp clock p input).1.diagnostics_.out_of_order_frames =
        (p.diagnostics_.out_of_order_frames + 1) % 2 ^ 64 ∧
      (process_frame pp clock p input).1.diagnostics_.processed_frames =
        p.diagnostics_.processed_frames ∧
      (process_frame pp clock p input).1.diagnostics_.missing_state_frames =
        p.diagnostics_.missing_state_frames ∧
      (process_frame pp clock p input).1.diagnostics_.invalid_input_frames =
        p.diagnostics_.invalid_input_frames ∧
      (process_frame pp clock p input).1.diagnostics_.filtered_signal_ways =
        p.diagnostics_.filtered_signal_ways ∧
      (process_frame pp clock p input).1.diagnostics_.clustered_detections =
        p.diagnostics_.clustered_detections) ∧
    (∀ (config : ProcessorConfig) (calls : List Call),
      run pp (UltrasoundProcessor.init config) calls = p →
      p.last_timestamp_us_ =
        (ok_timestamps pp (UltrasoundProcessor.init config) calls).getLast?.getD 0) := by
  refine ⟨?_, ?_, ?_⟩
  · rw [process_frame_code]
    by_cases ht : input.timestamp_us ≤ p.last_timestamp_us_
    · simp [hs, ht]
    · by_cases h2 : input.signal_ways = [] ∧ input.static_features = []
      · simp [ht, h2]
      · by_cases h3 : interpolate_pose p.state_queue_ input.timestamp_us = none
        · simp [ht, h2, h3]
        · simp [ht, h2, h3]
  · intro ht
    rw [process_frame_out_of_order pp clock p input ⟨hs, ht⟩]
    exact ⟨rfl, rfl, rfl, rfl, rfl, rfl, rfl⟩
  · intro config calls hrun
    have hcfg : (UltrasoundProcessor.init config).config_.strict_monotonic_timestamps = true := by
      rw [← run_config pp calls (UltrasoundProcessor.init config), hrun]
      exact hs
    rw [← hrun]
    exact (ok_timestamps_strict pp calls (UltrasoundProcessor.init config) hcfg).2.2

/-- C2, on scenario S1: after the frame stamped 1500, the frame stamped 1400 returns
OutOfOrderTimestamp and `out_of_order_frames` is 1. -/
theorem process_frame_out_of_order_iff_witness :
    (process_frame pp_sample StageTimingUs.zero seeded
        (frame_of 1500 [sw_sample 1500])).1.config_.strict_monotonic_timestamps = true ∧
    (process_frame pp_sample StageTimingUs.zero
        (process_frame pp_sample StageTimingUs.zero seeded (frame_of 1500 [sw_sample 1500])).1
        (frame_of 1400 [sw_sample 1400])).2.code = ErrorCode.OutOfOrderTimestamp ∧
    (process_frame pp_sample StageTimingUs.zero
        (process_frame pp_sample StageTimingUs.zero seeded (frame_of 1500 [sw_sample 1500])).1
        (frame_of 1400 [sw_sample 1400])).1.diagnostics_.out_of_order_frames = 1 :=
  have hs : (process_frame pp_sample StageTimingUs.zero seeded
      (frame_of 1500 [sw_sample 1500])).1.config_.strict_monotonic_timestamps = true := by
    rw [process_frame_config]; rfl
  have ht : (frame_of 1400 [sw_sample 1400]).timestamp_us ≤
      (process_frame pp_sample StageTimingUs.zero seeded
        (frame_of 1500 [sw_sample 1500])).1.last_timestamp_us_ := by
    simp [seeded, UltrasoundProcessor.init, ProcessorConfig.defaults, frame_of, process_frame,
      seed_queue, state_at, interpolate_pose, interpolate_loop]
  ⟨hs,
   (process_frame_out_of_order_iff pp_sample StageTimingUs.zero _ _ hs).1.mpr ht,
   ((process_frame_out_of_order_iff pp_sample StageTimingUs.zero _ _ hs).2.1 ht).2.1.trans (by
      simp [seeded, UltrasoundProcessor.init, ProcessorConfig.defaults, frame_of, process_frame,
        seed_queue, state_at, interpolate_pose, interpolate_loop, Diagnostics.zero, incr64])⟩

/-- C3: with `strict_monotonic_timestamps` enabled, along every sequence of
`push_vehicle_state` and `process_frame` calls the timestamps of the accepted frames
are strictly increasing (and all above the comparison timestamp the sequence started
from); a rejected frame leaves the comparison timestamp as it was, so after the
sequence the comparison timestamp is the timestamp of the last accepted frame, or the
initial one when no frame was accepted. -/
theorem strict_ok_timestamps_increasing (pp : PostProcess) (p : UltrasoundProcessor)
    (calls : List Call) (hs : p.config_.strict_monotonic_timestamps = true) :
    (ok_timestamps pp p calls).Pairwise (fun a b => a < b) ∧
    (∀ t ∈ ok_timestamps pp p calls, p.last_timestamp_us_ < t) ∧
    (run pp p calls).last_timestamp_us_ =
      (ok_timestamps pp p calls).getLast?.getD p.last_timestamp_us_ ∧
    (∀ (clock : StageTimingUs) (input : FrameInput),
      (process_frame pp clock p input).2.code ≠ ErrorCode.Ok →
      (process_frame pp clock p input).1.last_timestamp_us_ = p.last_timestamp_us_) := by
  obtain ⟨h1, h2, h3⟩ := ok_timestamps_strict pp calls p hs
  refine ⟨h1, h2, h3, ?_⟩
  intro clock input hne
  rw [process_frame_failure_state pp clock p input hne]

/-- C3, on scenario S1 extended by a frame stamped 1600: the accepted timestamps are
1500 and 1600 (the frame stamped 1400 is rejected in between). -/
theorem strict_ok_timestamps_increasing_witness :
    (UltrasoundProcessor.init ProcessorConfig.defaults).config_.strict_monotonic_timestamps = true ∧
    ok_timestamps pp_sample (UltrasoundProcessor.init ProcessorConfig.defaults) calls_s1 =
      [1500, 1600] ∧
    (ok_timestamps pp_sample (UltrasoundProcessor.init ProcessorConfig.defaults) calls_s1).Pairwise
      (fun a b => a < b) :=
  ⟨rfl,
   by
    simp [ok_timestamps, calls_s1, push_vehicle_state, process_frame, UltrasoundProcessor.init,
      ProcessorConfig.defaults, trim_queue, kMaxQueue, state_at, frame_of, sw_sample,
      interpolate_pose, interpolate_loop, Status.is_ok, Status.ok, Status.fail],
   (strict_ok_timestamps_increasing pp_sample (UltrasoundProcessor.init ProcessorConfig.defaults)
      calls_s1 rfl).1⟩

/-- C4: for a frame that passes the timestamp check, `process_frame` returns
InvalidInput if and only if the frame has no signal-ways and no static features,
whatever its dynamic features, line marks and grid map are and whatever the buffer
holds (so the verdict comes before the pose lookup); in that case `dropped_frames`
and `invalid_input_frames` are each incremented by one (as 64-bit counters) and no
other counter changes. -/
theorem process_frame_invalid_input_iff (pp : PostProcess) (clock : StageTimingUs)
    (p : UltrasoundProcessor) (input : FrameInput)
    (h1 : ¬ (p.config_.strict_monotonic_timestamps = true ∧
      input.timestamp_us ≤ p.last_timestamp_us_)) :
    ((process_frame pp clock p input).2.code = ErrorCode.InvalidInput ↔
      (input.signal_ways = [] ∧ input.static_features = [])) ∧
    ((input.signal_ways = [] ∧ input.static_features = []) →
      (process_frame pp clock p input).1.diagnostics_.dropped_frames =
        (p.diagnostics_.dropped_frames + 1) % 2 ^ 64 ∧
      (process_frame pp clock p input).1.diagnostics_.invalid_input_frames =
        (p.diagnostics_.invalid_input_frames + 1) % 2 ^ 64 ∧
      (process_frame pp clock p input).1.diagnostics_.processed_frames =
        p.diagnostics_.processed_frames ∧
      (process_frame pp clock p input).1.diagnostics_.out_of_order_frames =
        p.diagnostics_.out_of_order_frames ∧
      (process_frame pp clock p input).1.diagnostics_.missing_state_frames =
        p.diagnostics_.missing_state_frames ∧
      (process_frame pp clock p input).1.diagnostics_.filtered_signal_ways =
        p.diagnostics_.filtered_signal_ways ∧
      (process_frame pp clock p input).1.diagnostics_.clustered_detections =
        p.diagnostics_.clustered_detections) := by
  constructor
  · rw [process_frame_code, if_neg h1]
    by_cases h2 : input.signal_ways = [] ∧ input.static_features = []
    · simp [h2]
    · by_cases h3 : interpolate_pose p.state_queue_ input.timestamp_us = none
      · simp [h2, h3]
      · simp [h2, h3]
  · intro h2
    rw [process_frame_invalid_input pp clock p input h1 h2]
    exact ⟨rfl, rfl, rfl, rfl, rfl, rfl, rfl⟩

/-- C4, on a fresh processor (empty buffer): a frame holding only a dynamic feature is
rejected as InvalidInput, not as MissingVehicleState. -/
theorem process_frame_invalid_input_iff_witness :
    ¬ ((UltrasoundProcessor.init ProcessorConfig.defaults).config_.strict_monotonic_timestamps = true ∧
      frame_dynamic_only.timestamp_us ≤
        (UltrasoundProcessor.init ProcessorConfig.defaults).last_timestamp_us_) ∧
    (process_frame pp_sample StageTimingUs.zero (UltrasoundProcessor.init ProcessorConfig.defaults)
      frame_dynamic_only).2.code = ErrorCode.InvalidInput :=
  have h1 : ¬ ((UltrasoundProcessor.init ProcessorConfig.defaults).config_.strict_monotonic_timestamps
        = true ∧
      frame_dynamic_only.timestamp_us ≤
        (UltrasoundProcessor.init ProcessorConfig.defaults).last_timestamp_us_) := by
    simp [UltrasoundProcessor.init, frame_dynamic_only]
  ⟨h1, (process_frame_invalid_input_iff pp_sample StageTimingUs.zero _ _ h1).1.mpr ⟨rfl, rfl⟩⟩

/-- C5: `interpolate_pose` returns no pose exactly when the buffer is empty, and returns
a pose for every timestamp when it is non-empty (also when the search loop is entered:
the return after the loop is never taken). So a frame that passes the timestamp and
input checks gets MissingVehicleState if and only if the buffer is empty; then
`dropped_frames` and `missing_state_frames` are each incremented by one (as 64-bit
counters) and `processed_frames` keeps its value. -/
theorem process_frame_missing_state_iff (pp : PostProcess) (clock : StageTimingUs)
    (p : UltrasoundProcessor) (input : FrameInput)
    (h1 : ¬ (p.config_.strict_monotonic_timestamps = true ∧
      input.timestamp_us ≤ p.last_timestamp_us_))
    (h2 : ¬ (input.signal_ways = [] ∧ input.static_features = [])) :
    (∀ ts : Nat, interpolate_pose p.state_queue_ ts = none ↔ p.state_queue_ = []) ∧
    (∀ ts : Nat, p.state_queue_ ≠ [] → ∃ pose, interpolate_pose p.state_queue_ ts = some pose) ∧
    (∀ (ts : Nat) (front : VehicleState) (rest : List VehicleState),
      p.state_queue_ = front :: rest → front.timestamp_us < ts →
      ts < ((front :: rest).getLast (List.cons_ne_nil front rest)).timestamp_us →
      ∃ pose, interpolate_loop ts front rest = some pose) ∧
    ((process_frame pp clock p input).2.code = ErrorCode.MissingVehicleState ↔
      p.state_queue_ = []) ∧
    ((process_frame pp clock p input).2.code = ErrorCode.MissingVehicleState →
      (process_frame pp clock p input).1.diagnostics_.dropped_frames =
        (p.diagnostics_.dropped_frames + 1) % 2 ^ 64 ∧
      (process_frame pp clock p input).1.diagnostics_.missing_state_frames =
        (p.diagnostics_.missing_state_frames + 1) % 2 ^ 64 ∧
      (process_frame pp clock p input).1.diagnostics_.processed_frames =
        p.diagnostics_.processed_frames) := by
  have hsome : ∀ (q : List VehicleState) (ts : Nat), q ≠ [] →
      ∃ pose, interpolate_pose q ts = some pose := by
    intro q ts hq
    cases hp : interpolate_pose q ts with
    | none => exact absurd ((interpolate_pose_eq_none_iff q ts).mp hp) hq
    | some pose => exact ⟨pose, rfl⟩
  have hcode : (process_frame pp clock p input).2.code = ErrorCode.MissingVehicleState ↔
      interpolate_pose p.state_queue_ input.timestamp_us = none := by
    rw [process_frame_code, if_neg h1, if_neg h2]
    by_cases h3 : interpolate_pose p.state_queue_ input.timestamp_us = none
    · simp [h3]
    · simp [h3]
  refine ⟨fun ts => interpolate_pose_eq_none_iff _ ts, fun ts hq => hsome _ ts hq, ?_, ?_, ?_⟩
  · intro ts front rest hq hlo hhi
    obtain ⟨pose, hpose⟩ := hsome (front :: rest) ts (List.cons_ne_nil front rest)
    refine ⟨pose, ?_⟩
    rw [interpolate_pose_cons, if_neg (Nat.not_le.mpr hlo), if_neg (Nat.not_le.mpr hhi)] at hpose
    exact hpose
  · rw [hcode]
    exact interpolate_pose_eq_none_iff _ _
  · intro hc
    rw [process_frame_missing_state pp clock p input h1 h2 (hcode.mp hc)]
    exact ⟨rfl, rfl, rfl⟩

/-- C5, on scenario S2: a fresh processor given a frame stamped 1500 with one signal-way
returns MissingVehicleState and `processed_frames` stays 0. -/
theorem process_frame_missing_state_iff_witness :
    ¬ ((UltrasoundProcessor.init ProcessorConfig.defaults).config_.strict_monotonic_timestamps = true ∧
      (frame_of 1500 [sw_sample 1500]).timestamp_us ≤
        (UltrasoundProcessor.init ProcessorConfig.defaults).last_timestamp_us_) ∧
    ¬ ((frame_of 1500 [sw_sample 1500]).signal_ways = [] ∧
      (frame_of 1500 [sw_sample 1500]).static_features = []) ∧
    (process_frame pp_sample StageTimingUs.zero (UltrasoundProcessor.init ProcessorConfig.defaults)
      (frame_of 1500 [sw_sample 1500])).2.code = ErrorCode.MissingVehicleState ∧
    (process_frame pp_sample StageTimingUs.zero (UltrasoundProcessor.init ProcessorConfig.defaults)
      (frame_of 1500 [sw_sample 1500])).1.diagnostics_.processed_frames = 0 :=
  have h1 : ¬ ((UltrasoundProcessor.init ProcessorConfig.defaults).config_.strict_monotonic_timestamps
        = true ∧
      (frame_of 1500 [sw_sample 1500]).timestamp_us ≤
        (UltrasoundProcessor.init ProcessorConfig.defaults).last_timestamp_us_) := by
    simp [UltrasoundProcessor.init, frame_of]
  have h2 : ¬ ((frame_of 1500 [sw_sample 1500]).signal_ways = [] ∧
      (frame_of 1500 [sw_sample 1500]).static_features = []) := by
    simp [frame_of]
  have hm := (process_frame_missing_state_iff pp_sample StageTimingUs.zero _ _ h1 h2).2.2.2.1.mpr rfl
  ⟨h1, h2, hm,
    ((process_frame_missing_state_iff pp_sample StageTimingUs.zero _ _ h1 h2).2.2.2.2 hm).2.2⟩

/-! ## Effect of a successful `process_frame` -/

/-- C6: for every successful `process_frame` call the stored last output carries the
input timestamp, the last processed timestamp is the input timestamp,
`processed_frames` is incremented by one, `clustered_detections` grows by the length of
the output's clustered list, `filtered_signal_ways` is incremented once for each input
signal-way missing from the output (so it grows by the input count minus the output
count, as a 64-bit counter), and `dropped_frames` and the three drop-cause counters keep
their values. -/
theorem process_frame_success_effect (pp : PostProcess) (clock : StageTimingUs)
    (p : UltrasoundProcessor) (input : FrameInput)
    (h : (process_frame pp clock p input).2.code = ErrorCode.Ok) :
    ∃ out : FrameOutput,
      (process_frame pp clock p input).1.last_output_ = some out ∧
      out.timestamp_us = input.timestamp_us ∧
      (process_frame pp clock p input).1.last_timestamp_us_ = input.timestamp_us ∧
      (process_frame pp clock p input).1.diagnostics_.processed_frames =
        (p.diagnostics_.processed_frames + 1) % 2 ^ 64 ∧
      (process_frame pp clock p input).1.diagnostics_.clustered_detections =
        (p.diagnostics_.clustered_detections + out.processed.clustered.length) % 2 ^ 64 ∧
      out.signal_ways.length ≤ input.signal_ways.length ∧
      (process_frame pp clock p input).1.diagnostics_.filtered_signal_ways =
        incr64^[input.signal_ways.length - out.signal_ways.length]
          p.diagnostics_.filtered_signal_ways ∧
      (p.diagnostics_.filtered_signal_ways < 2 ^ 64 →
        (process_frame pp clock p input).1.diagnostics_.filtered_signal_ways =
          (p.diagnostics_.filtered_signal_ways +
            (input.signal_ways.length - out.signal_ways.length)) % 2 ^ 64) ∧
      (process_frame pp clock p input).1.diagnostics_.dropped_frames =
        p.diagnostics_.dropped_frames ∧
      (process_frame pp clock p input).1.diagnostics_.out_of_order_frames =
        p.diagnostics_.out_of_order_frames ∧
      (process_frame pp clock p input).1.diagnostics_.missing_state_frames =
        p.diagnostics_.missing_state_frames ∧
      (process_frame pp clock p input).1.diagnostics_.invalid_input_frames =
        p.diagnostics_.invalid_input_frames := by
  obtain ⟨h1, h2, pose, h3⟩ := process_frame_ok_guards pp clock p input h
  rw [process_frame_success pp clock p input pose h1 h2 h3]
  refine ⟨_, rfl, rfl, rfl, rfl, rfl, ?_, ?_, ?_, rfl, rfl, rfl, rfl⟩
  · simp only [filter_signal_ways_fst]
    exact List.length_filter_le _ _
  · simp only [filter_signal_ways_fst]
    unfold filter_signal_ways
    rw [foldl_signal_way_step]
  · intro hc
    exact filter_signal_ways_snd _ _ _ hc

/-- C6, on scenario S5 (three signal-ways, one kept): the frame is accepted, the stored
output carries the timestamp 1500 and one signal-way, `filtered_signal_ways` is 2 and
`processed_frames` is 1. -/
theorem process_frame_success_effect_witness :
    (process_frame pp_sample StageTimingUs.zero { seeded with config_ := cfg_s5 } frame_s5).2.code =
      ErrorCode.Ok ∧
    (∃ out : FrameOutput,
      (process_frame pp_sample StageTimingUs.zero { seeded with config_ := cfg_s5 }
        frame_s5).1.last_output_ = some out ∧
      out.timestamp_us = frame_s5.timestamp_us ∧
      (process_frame pp_sample StageTimingUs.zero { seeded with config_ := cfg_s5 }
        frame_s5).1.diagnostics_.filtered_signal_ways =
          incr64^[frame_s5.signal_ways.length - out.signal_ways.length] 0) ∧
    (process_frame pp_sample StageTimingUs.zero { seeded with config_ := cfg_s5 }
      frame_s5).1.diagnostics_.filtered_signal_ways = 2 ∧
    (process_frame pp_sample StageTimingUs.zero { seeded with config_ := cfg_s5 }
      frame_s5).1.diagnostics_.processed_frames = 1 :=
  have hok : (process_frame pp_sample StageTimingUs.zero { seeded with config_ := cfg_s5 }
      frame_s5).2.code = ErrorCode.Ok := by
    simp [seeded, UltrasoundProcessor.init, cfg_s5, ProcessorConfig.defaults, frame_s5, frame_of,
      process_frame, seed_queue, state_at, interpolate_pose, interpolate_loop, Status.ok]
  ⟨hok,
   (process_frame_success_effect pp_sample StageTimingUs.zero { seeded with config_ := cfg_s5 }
      frame_s5 hok).imp (fun _ ho => ⟨ho.1, ho.2.1, ho.2.2.2.2.2.2.1⟩),
   by
    simp [seeded, UltrasoundProcessor.init, cfg_s5, ProcessorConfig.defaults, frame_s5, frame_of,
      process_frame, seed_queue, state_at, interpolate_pose, interpolate_loop, Status.ok,
      filter_signal_ways, signal_way_step, signal_way_kept, group_matches, Diagnostics.zero,
      incr64]
    norm_num,
   by
    simp [seeded, UltrasoundProcessor.init, cfg_s5, ProcessorConfig.defaults, frame_s5, frame_of,
      process_frame, seed_queue, state_at, interpolate_pose, interpolate_loop, Status.ok,
      Diagnostics.zero, incr64]⟩

/-! ## The ego-pose buffer -/

/-- C7: `push_vehicle_state` fails with InvalidInput if and only if the buffer is
non-empty and the pushed timestamp is at most the newest buffered timestamp; it never
returns another failure; on failure the processor (so the buffer) is unchanged; on
success, which includes every push into an empty buffer, the pushed state is the
newest entry of the buffer. -/
theorem push_vehicle_state_spec (p : UltrasoundProcessor) (s : VehicleState) :
    ((push_vehicle_state p s).2.code = ErrorCode.InvalidInput ↔
      (p.state_queue_ ≠ [] ∧
        ∃ back, p.state_queue_.getLast? = some back ∧ s.timestamp_us ≤ back.timestamp_us)) ∧
    ((push_vehicle_state p s).2.code = ErrorCode.InvalidInput ∨
      (push_vehicle_state p s).2.code = ErrorCode.Ok) ∧
    ((push_vehicle_state p s).2.code = ErrorCode.InvalidInput → (push_vehicle_state p s).1 = p) ∧
    ((push_vehicle_state p s).2.code = ErrorCode.Ok →
      (push_vehicle_state p s).1.state_queue_.getLast? = some s) ∧
    (p.state_queue_ = [] → (push_vehicle_state p s).2.code = ErrorCode.Ok) := by
  have hcode := push_vehicle_state_code p s
  refine ⟨?_, ?_, ?_, ?_, ?_⟩
  · rw [hcode]
    constructor
    · intro h
      by_cases hex : ∃ back, p.state_queue_.getLast? = some back ∧
          s.timestamp_us ≤ back.timestamp_us
      · refine ⟨?_, hex⟩
        obtain ⟨back, hb, _⟩ := hex
        intro hnil
        rw [hnil] at hb
        cases hb
      · rw [if_neg hex] at h; exact absurd h (by decide)
    · intro h
      rw [if_pos h.2]
  · rw [hcode]
    by_cases hex : ∃ back, p.state_queue_.getLast? = some back ∧
        s.timestamp_us ≤ back.timestamp_us
    · left; rw [if_pos hex]
    · right; rw [if_neg hex]
  · intro h
    apply push_vehicle_state_fail_state
    rw [h]; decide
  · intro h
    rw [push_vehicle_state_ok_queue p s h, trim_queue_eq_drop, List.getLast?_drop,
      if_neg, List.getLast?_concat]
    simp only [List.length_append, List.length_singleton, kMaxQueue]
    omega
  · intro hnil
    rw [hcode, if_neg]
    rintro ⟨back, hb, _⟩
    rw [hnil] at hb
    cases hb

/-- C7, on the test `PushVehicleStateRejectsNonMonotonicTimestamps`: after a state
stamped 5000, a second state stamped 5000 is rejected with InvalidInput. -/
theorem push_vehicle_state_spec_witness :
    (push_vehicle_state
      (push_vehicle_state (UltrasoundProcessor.init ProcessorConfig.defaults)
        (state_at 5000 0 0 0)).1 (state_at 5000 0 0 0)).2.code = ErrorCode.InvalidInput :=
  (push_vehicle_state_spec
      (push_vehicle_state (UltrasoundProcessor.init ProcessorConfig.defaults)
        (state_at 5000 0 0 0)).1 (state_at 5000 0 0 0)).1.mpr
    ⟨by simp [push_vehicle_state, UltrasoundProcessor.init, trim_queue, kMaxQueue],
     state_at 5000 0 0 0,
     by simp [push_vehicle_state, UltrasoundProcessor.init, trim_queue, kMaxQueue],
     Nat.le_refl _⟩

/-- C8: in every state reachable from a fresh processor by `push_vehicle_state` and
`process_frame` calls, the ego-pose buffer has strictly increasing timestamps from
oldest to newest and at most 64 entries; and a successful push onto a buffer of 64
entries yields the 63 newer entries in their order followed by the pushed state (the
oldest entry alone is removed). -/
theorem reachable_buffer_invariant (pp : PostProcess) (p : UltrasoundProcessor)
    (h : Reachable pp p) :
    p.state_queue_.Pairwise (fun a b => a.timestamp_us < b.timestamp_us) ∧
    p.state_queue_.length ≤ 64 ∧
    (∀ (s oldest : VehicleState) (rest : List VehicleState),
      p.state_queue_ = oldest :: rest → p.state_queue_.length = 64 →
      (push_vehicle_state p s).2.code = ErrorCode.Ok →
      (push_vehicle_state p s).1.state_queue_ = rest ++ [s] ∧
      (push_vehicle_state p s).1.state_queue_.length = 64) := by
  obtain ⟨config, calls, rfl⟩ := h
  have hinv := run_invariant pp calls (UltrasoundProcessor.init config) List.Pairwise.nil
    (Nat.zero_le _)
  refine ⟨hinv.1, hinv.2, ?_⟩
  intro s oldest rest hq hlen hok
  rw [push_vehicle_state_ok_queue _ s hok, trim_queue_eq_drop, hq]
  rw [hq] at hlen
  simp only [List.length_cons] at hlen
  have hdrop : (oldest :: rest ++ [s]).length - kMaxQueue = 1 := by
    simp only [List.cons_append, List.length_append, List.length_cons, List.length_nil,
      kMaxQueue]
    omega
  rw [hdrop, List.cons_append, List.drop_succ_cons, List.drop_zero]
  refine ⟨rfl, ?_⟩
  simp only [List.length_append, List.length_cons, List.length_nil]
  omega

set_option maxRecDepth 100000 in
/-- C8, on the processor reached by pushing the states stamped 1 to 64: its buffer holds
64 entries, and pushing the state stamped 65 leaves the states stamped 2 to 64 followed
by the state stamped 65. -/
theorem reachable_buffer_invariant_witness :
    Reachable pp_sample
      (run pp_sample (UltrasoundProcessor.init ProcessorConfig.defaults) (pushes 0 64)) ∧
    (run pp_sample (UltrasoundProcessor.init ProcessorConfig.defaults)
      (pushes 0 64)).state_queue_ = states 0 64 ∧
    (push_vehicle_state
      (run pp_sample (UltrasoundProcessor.init ProcessorConfig.defaults) (pushes 0 64))
      (state_at 65 0 0 0)).1.state_queue_ = states 1 63 ++ [state_at 65 0 0 0] :=
  have hr : Reachable pp_sample
      (run pp_sample (UltrasoundProcessor.init ProcessorConfig.defaults) (pushes 0 64)) :=
    ⟨ProcessorConfig.defaults, pushes 0 64, rfl⟩
  ⟨hr, rfl,
   ((reachable_buffer_invariant pp_sample _ hr).2.2 (state_at 65 0 0 0) (state_at 1 0 0 0)
      (states 1 63) rfl rfl rfl).1⟩

/-! ## Pose interpolation -/

/-- C9: for the ego-pose buffer of every reachable processor state, when it is non-empty
(oldest entry `front`, newest entry `back`), and for every query timestamp: a query at
or before the oldest timestamp returns exactly the oldest pose, and a query at or after
the newest timestamp returns exactly the newest pose. -/
theorem interpolate_pose_clamps (pp : PostProcess) (p : UltrasoundProcessor) (ts : Nat)
    (front back : VehicleState) (hr : Reachable pp p)
    (hf : p.state_queue_.head? = some front) (hb : p.state_queue_.getLast? = some back) :
    (ts ≤ front.timestamp_us → interpolate_pose p.state_queue_ ts = some front.pose) ∧
    (ts ≥ back.timestamp_us → interpolate_pose p.state_queue_ ts = some back.pose) := by
  obtain ⟨config, calls, rfl⟩ := hr
  have hinv := run_invariant pp calls (UltrasoundProcessor.init config) List.Pairwise.nil
    (Nat.zero_le _)
  exact interpolate_pose_clamps_of_monotonic _ ts front back hinv.1 hf hb

/-- C9, on the processor reached by the calls of scenario S1 (states stamped 1000 and
2000): queries at 500 and at 2500 return the poses stamped 1000 and 2000. -/
theorem interpolate_pose_clamps_witness :
    Reachable pp_sample (run pp_sample (UltrasoundProcessor.init ProcessorConfig.defaults) calls_s1) ∧
    interpolate_pose
      (run pp_sample (UltrasoundProcessor.init ProcessorConfig.defaults) calls_s1).state_queue_ 500 =
        some { x_m := 1, y_m := 0, yaw_rad := 0 } ∧
    interpolate_pose
      (run pp_sample (UltrasoundProcessor.init ProcessorConfig.defaults) calls_s1).state_queue_ 2500 =
        some { x_m := 3, y_m := 2, yaw_rad := 2 / 5 } :=
  have hr : Reachable pp_sample
      (run pp_sample (UltrasoundProcessor.init ProcessorConfig.defaults) calls_s1) :=
    ⟨ProcessorConfig.defaults, calls_s1, rfl⟩
  have h := fun ts => interpolate_pose_clamps pp_sample _ ts (state_at 1000 1 0 0)
    (state_at 2000 3 2 (2 / 5)) hr rfl rfl
  ⟨hr, (h 500).1 (by simp [state_at]), (h 2500).2 (by simp [state_at])⟩

/-- C10: for every ego-pose buffer of 64-bit timestamps and every query `ts` strictly
between the oldest and the newest timestamp, `interpolate_pose` selects the first
adjacent pair `(prev, next)` (at indices `i`, `i + 1`) with `prev.ts < ts ≤ next.ts`;
the divisor `next.ts - prev.ts` it computes is non-zero; `alpha = (ts - prev.ts) /
(next.ts - prev.ts)` lies in `(0, 1]`; and each of x, y, yaw of the returned pose is
`(1 - alpha) * prev + alpha * next`. On the states `(1000, (1, 0, 0))` and
`(2000, (3, 2, 0.4))` the query 1500 gives `(2, 1, 0.2)`. -/
theorem interpolate_pose_between (q : List VehicleState) (ts : Nat) (front back : VehicleState)
    (hq : ∀ s ∈ q, s.timestamp_us < 2 ^ 64)
    (hf : q.head? = some front) (hb : q.getLast? = some back)
    (hlo : front.timestamp_us < ts) (hhi : ts < back.timestamp_us) :
    (∃ (i : Nat) (prev next : VehicleState) (alpha : ℚ),
      q[i]? = some prev ∧ q[i + 1]? = some next ∧
      prev.timestamp_us < ts ∧ ts ≤ next.timestamp_us ∧
      (∀ (j : Nat) (a b : VehicleState), j < i → q[j]? = some a → q[j + 1]? = some b →
        ¬ (a.timestamp_us < ts ∧ ts ≤ b.timestamp_us)) ∧
      sub64 next.timestamp_us prev.timestamp_us ≠ 0 ∧
      sub64 next.timestamp_us prev.timestamp_us = next.timestamp_us - prev.timestamp_us ∧
      sub64 ts prev.timestamp_us = ts - prev.timestamp_us ∧
      alpha = ((ts : ℚ) - (prev.timestamp_us : ℚ)) /
        ((next.timestamp_us : ℚ) - (prev.timestamp_us : ℚ)) ∧
      0 < alpha ∧ alpha ≤ 1 ∧
      interpolate_pose q ts = some
        { x_m := (1 - alpha) * prev.pose.x_m + alpha * next.pose.x_m
          y_m := (1 - alpha) * prev.pose.y_m + alpha * next.pose.y_m
          yaw_rad := (1 - alpha) * prev.pose.yaw_rad + alpha * next.pose.yaw_rad }) ∧
    interpolate_pose [state_at 1000 1 0 0, state_at 2000 3 2 (2 / 5)] 1500 =
      some { x_m := 2, y_m := 1, yaw_rad := 1 / 5 } := by
  constructor
  · obtain ⟨rest, rfl⟩ := List.head?_eq_some_iff.mp hf
    have hlast : (front :: rest).getLast (List.cons_ne_nil front rest) = back := by
      rw [List.getLast?_eq_getLast _ (List.cons_ne_nil front rest)] at hb
      exact Option.some.inj hb
    have hback : back ∈ rest := by
      have hmem : back ∈ front :: rest := List.mem_of_getLast?_eq_some hb
      rcases List.mem_cons.mp hmem with h | h
      · rw [h] at hhi; omega
      · exact h
    obtain ⟨i, a, b, ha, hbb, hble, hall, hres⟩ :=
      interpolate_loop_select ts rest front hlo ⟨back, hback, Nat.le_of_lt hhi⟩
    have halt : a.timestamp_us < ts := hall i a (Nat.le_refl i) ha
    have hb64 : b.timestamp_us < 2 ^ 64 := hq b (List.getElem?_mem hbb)
    have hsub1 : sub64 b.timestamp_us a.timestamp_us = b.timestamp_us - a.timestamp_us :=
      sub64_of_le _ _ (by omega) hb64
    have hsub2 : sub64 ts a.timestamp_us = ts - a.timestamp_us :=
      sub64_of_le _ _ (by omega) (by omega)
    have hcast1 : ((sub64 b.timestamp_us a.timestamp_us : Nat) : ℚ) =
        (b.timestamp_us : ℚ) - (a.timestamp_us : ℚ) := by
      rw [hsub1, Nat.cast_sub (by omega)]
    have hcast2 : ((sub64 ts a.timestamp_us : Nat) : ℚ) = (ts : ℚ) - (a.timestamp_us : ℚ) := by
      rw [hsub2, Nat.cast_sub (by omega)]
    have hnum : (0 : ℚ) < (ts : ℚ) - (a.timestamp_us : ℚ) := by
      have : (a.timestamp_us : ℚ) < (ts : ℚ) := by exact_mod_cast halt
      linarith
    have hden : (ts : ℚ) - (a.timestamp_us : ℚ) ≤ (b.timestamp_us : ℚ) - (a.timestamp_us : ℚ) := by
      have : (ts : ℚ) ≤ (b.timestamp_us : ℚ) := by exact_mod_cast hble
      linarith
    refine ⟨i, a, b, ((ts : ℚ) - (a.timestamp_us : ℚ)) /
      ((b.timestamp_us : ℚ) - (a.timestamp_us : ℚ)), ha, hbb, halt, hble, ?_, ?_, hsub1, hsub2,
      rfl, ?_, ?_, ?_⟩
    · intro j x y hj _ hy hxy
      have := hall (j + 1) y (by omega) hy
      omega
    · rw [hsub1]; omega
    · exact div_pos hnum (lt_of_lt_of_le hnum hden)
    · exact (div_le_one (lt_of_lt_of_le hnum hden)).mpr hden
    · rw [interpolate_pose_cons, if_neg (Nat.not_le.mpr hlo), hlast, if_neg (Nat.not_le.mpr hhi),
        hres, hcast1, hcast2]
      rfl
  · simp [interpolate_pose, state_at, interpolate_loop, sub64, lerp]
    norm_num

/-- C10, on scenario S4: the theorem applied to the two seed states and the query 1500. -/
theorem interpolate_pose_between_witness :
    (∀ s ∈ seed_queue, s.timestamp_us < 2 ^ 64) ∧
    (state_at 1000 1 0 0).timestamp_us < 1500 ∧
    1500 < (state_at 2000 3 2 (2 / 5)).timestamp_us ∧
    ∃ (i : Nat) (prev next : VehicleState) (alpha : ℚ),
      seed_queue[i]? = some prev ∧ seed_queue[i + 1]? = some next ∧ 0 < alpha ∧ alpha ≤ 1 ∧
      interpolate_pose seed_queue 1500 = some
        { x_m := (1 - alpha) * prev.pose.x_m + alpha * next.pose.x_m
          y_m := (1 - alpha) * prev.pose.y_m + alpha * next.pose.y_m
          yaw_rad := (1 - alpha) * prev.pose.yaw_rad + alpha * next.pose.yaw_rad } :=
  have hq : ∀ s ∈ seed_queue, s.timestamp_us < 2 ^ 64 := by
    simp [seed_queue, state_at]
  have hlo : (state_at 1000 1 0 0).timestamp_us < 1500 := by simp [state_at]
  have hhi : 1500 < (state_at 2000 3 2 (2 / 5)).timestamp_us := by simp [state_at]
  ⟨hq, hlo, hhi,
   match (interpolate_pose_between seed_queue 1500 (state_at 1000 1 0 0)
      (state_at 2000 3 2 (2 / 5)) hq rfl rfl hlo hhi).1 with
   | ⟨i, prev, next, alpha, h⟩ =>
     ⟨i, prev, next, alpha, h.1, h.2.1, h.2.2.2.2.2.2.2.2.2.1, h.2.2.2.2.2.2.2.2.2.2.1,
      h.2.2.2.2.2.2.2.2.2.2.2⟩⟩

/-! ## Filtering, detection, fusion and clustering -/

/-- C11 (as amended): for every configuration and every accepted frame, the output's
signal-way list is exactly the order-preserving sublist of the input signal-ways with
`distance_m > min_range_m`, `distance_m <= max_range_m` and an accepted group, where
`Front` accepts group 0, `Rear` accepts group 1 and `Surround` accepts groups 0 and 1; a
signal-way whose group id is above 1 is dropped under every group filter. -/
theorem process_frame_signal_way_filter (pp : PostProcess) (clock : StageTimingUs)
    (p : UltrasoundProcessor) (input : FrameInput)
    (h : (process_frame pp clock p input).2.code = ErrorCode.Ok) :
    ∃ out : FrameOutput,
      (process_frame pp clock p input).1.last_output_ = some out ∧
      out.signal_ways = input.signal_ways.filter (fun sw =>
        decide (sw.distance_m > p.config_.min_range_m) &&
        decide (sw.distance_m ≤ p.config_.max_range_m) &&
        code_group_accepts p.config_.group_filter sw.group_id) ∧
      (∀ sw ∈ out.signal_ways, sw.group_id ≤ 1) := by
  obtain ⟨pose, _, hout⟩ := process_frame_ok_output pp clock p input h
  have hk : signal_way_kept p.config_ = (fun sw =>
      decide (sw.distance_m > p.config_.min_range_m) &&
      decide (sw.distance_m ≤ p.config_.max_range_m) &&
      code_group_accepts p.config_.group_filter sw.group_id) := by
    funext sw
    simp only [signal_way_kept, group_matches_eq]
  refine ⟨_, hout, ?_, ?_⟩
  · simp only [hk]
  · intro sw hsw
    have hkept := (List.mem_filter.mp hsw).2
    simp only [signal_way_kept, group_matches, Bool.and_eq_true] at hkept
    by_contra hgt
    have : sw.group_id > 1 := by omega
    simp [this] at hkept

/-- C11, the claim as stated fails: under `Surround`, a signal-way in the range band with
group id 2 is kept by the spec's filter but the accepted frame's output holds no
signal-way. -/
theorem process_frame_signal_way_filter_counterexample :
    (process_frame (post_process libm_sample hash_sample) StageTimingUs.zero seeded
      frame_group2).2.code = ErrorCode.Ok ∧
    (process_frame (post_process libm_sample hash_sample) StageTimingUs.zero seeded
      frame_group2).1.last_output_.map FrameOutput.signal_ways = some [] ∧
    frame_group2.signal_ways.filter (spec_signal_way_kept seeded.config_) =
      frame_group2.signal_ways ∧
    frame_group2.signal_ways ≠ [] := by
  refine ⟨?_, ?_, ?_, ?_⟩
  · simp [seeded, UltrasoundProcessor.init, ProcessorConfig.defaults, frame_group2, frame_of,
      process_frame, seed_queue, state_at, interpolate_pose, interpolate_loop, Status.ok]
  · simp [seeded, UltrasoundProcessor.init, ProcessorConfig.defaults, frame_group2, frame_of,
      process_frame, seed_queue, state_at, interpolate_pose, interpolate_loop, Status.ok,
      filter_signal_ways, signal_way_step, signal_way_kept, group_matches]
  · simp [seeded, UltrasoundProcessor.init, ProcessorConfig.defaults, frame_group2, frame_of,
      spec_signal_way_kept, spec_group_accepts]
    norm_num
  · simp [frame_group2, frame_of]

/-- C11, on scenario S5: the accepted frame keeps the one signal-way `(2.0, 0, 1)`. -/
theorem process_frame_signal_way_filter_witness :
    (process_frame pp_sample StageTimingUs.zero { seeded with config_ := cfg_s5 } frame_s5).2.code =
      ErrorCode.Ok ∧
    ∃ out : FrameOutput,
      (process_frame pp_sample StageTimingUs.zero { seeded with config_ := cfg_s5 }
        frame_s5).1.last_output_ = some out ∧
      (∀ sw ∈ out.signal_ways, sw.group_id ≤ 1) :=
  have hok : (process_frame pp_sample StageTimingUs.zero { seeded with config_ := cfg_s5 }
      frame_s5).2.code = ErrorCode.Ok := by
    simp [seeded, UltrasoundProcessor.init, cfg_s5, ProcessorConfig.defaults, frame_s5, frame_of,
      process_frame, seed_queue, state_at, interpolate_pose, interpolate_loop, Status.ok]
  ⟨hok,
   (process_frame_signal_way_filter pp_sample StageTimingUs.zero { seeded with config_ := cfg_s5 }
      frame_s5 hok).imp (fun _ ho => ⟨ho.1, ho.2.2⟩)⟩

/-- C12: for every accepted frame, the output's static features, dynamic features and line
marks are exactly the order-preserving sublists of the corresponding input lists whose
`valid` flag is set, and the output grid map is the input grid map, whatever its `valid`
flag. -/
theorem process_frame_auxiliary_features (pp : PostProcess) (clock : StageTimingUs)
    (p : UltrasoundProcessor) (input : FrameInput)
    (h : (process_frame pp clock p input).2.code = ErrorCode.Ok) :
    ∃ out : FrameOutput,
      (process_frame pp clock p input).1.last_output_ = some out ∧
      out.static_features = input.static_features.filter (fun f => f.valid) ∧
      out.dynamic_features = input.dynamic_features.filter (fun f => f.valid) ∧
      out.line_marks = input.line_marks.filter (fun f => f.valid) ∧
      out.grid_map = input.grid_map := by
  obtain ⟨pose, _, hout⟩ := process_frame_ok_output pp clock p input h
  exact ⟨_, hout, rfl, rfl, rfl, rfl⟩

/-- C12, on the frame of the test `ProcessFrameInterpolatesPoseAndFiltersSignalWays`: one
static feature, one dynamic feature and one line mark survive and the grid map is the
input grid map. -/
theorem process_frame_auxiliary_features_witness :
    (process_frame pp_sample StageTimingUs.zero { seeded with config_ := cfg_s5 }
      frame_test_aux).2.code = ErrorCode.Ok ∧
    ∃ out : FrameOutput,
      (process_frame pp_sample StageTimingUs.zero { seeded with config_ := cfg_s5 }
        frame_test_aux).1.last_output_ = some out ∧
      out.static_features.length = 1 ∧ out.dynamic_features.length = 1 ∧
      out.line_marks.length = 1 ∧ out.grid_map = frame_test_aux.grid_map :=
  have hok : (process_frame pp_sample StageTimingUs.zero { seeded with config_ := cfg_s5 }
      frame_test_aux).2.code = ErrorCode.Ok := by
    simp [seeded, UltrasoundProcessor.init, cfg_s5, ProcessorConfig.defaults, frame_test_aux,
      frame_s5, frame_of, process_frame, seed_queue, state_at, interpolate_pose, interpolate_loop,
      Status.ok]
  ⟨hok,
   (process_frame_auxiliary_features pp_sample StageTimingUs.zero
      { seeded with config_ := cfg_s5 } frame_test_aux hok).imp (fun _ ho =>
        ⟨ho.1, by rw [ho.2.1]; rfl, by rw [ho.2.2.1]; rfl, by rw [ho.2.2.2.1]; rfl, ho.2.2.2.2⟩)⟩

/-- C13: `map_signal_way_to_sensor_pair` fails if and only if `group_id > 1` or
`signal_way_id > 15`; otherwise it returns `(base + tx_off, base + rx_off)` with `base`
0 for group 0 and 6 for group 1 and `(tx_off, rx_off)` the entry of the spec's table at
index `signal_way_id`; so both indices lie in `0..11`, in the half of their group
(`0..5` for group 0, `6..11` for group 1), and differ by at most 1. -/
theorem map_signal_way_to_sensor_pair_spec (group_id signal_way_id : Nat) :
    (map_signal_way_to_sensor_pair group_id signal_way_id = none ↔
      (group_id > 1 ∨ signal_way_id > 15)) ∧
    (group_id ≤ 1 → signal_way_id ≤ 15 →
      (spec_offset_table[signal_way_id]?).isSome = true ∧
      map_signal_way_to_sensor_pair group_id signal_way_id =
        (spec_offset_table[signal_way_id]?).map (fun o =>
          ((if group_id = 0 then 0 else 6) + o.1, (if group_id = 0 then 0 else 6) + o.2))) ∧
    (∀ tx rx : Int, map_signal_way_to_sensor_pair group_id signal_way_id = some (tx, rx) →
      0 ≤ tx ∧ tx ≤ 11 ∧ 0 ≤ rx ∧ rx ≤ 11 ∧
      (group_id = 0 → tx ≤ 5 ∧ rx ≤ 5) ∧ (group_id = 1 → 6 ≤ tx ∧ 6 ≤ rx) ∧
      tx - rx ≤ 1 ∧ rx - tx ≤ 1) := by
  have hnone : group_id > 1 ∨ signal_way_id > 15 →
      map_signal_way_to_sensor_pair group_id signal_way_id = none := by
    intro h
    unfold map_signal_way_to_sensor_pair
    simp [h]
  refine ⟨⟨?_, hnone⟩, ?_, ?_⟩
  · intro h
    by_contra hc
    have hg : group_id ≤ 1 := by omega
    have hk : signal_way_id ≤ 15 := by omega
    interval_cases group_id <;> interval_cases signal_way_id <;> exact absurd h (by decide)
  · intro hg hk
    interval_cases group_id <;> interval_cases signal_way_id <;> exact ⟨by decide, by decide⟩
  · intro tx rx h
    by_cases hc : group_id > 1 ∨ signal_way_id > 15
    · rw [hnone hc] at h; cases h
    · have hg : group_id ≤ 1 := by omega
      have hk : signal_way_id ≤ 15 := by omega
      interval_cases group_id <;> interval_cases signal_way_id <;>
        (simp [map_signal_way_to_sensor_pair] at h; obtain ⟨rfl, rfl⟩ := h; decide)

/-- C13, on the rear group and signal-way id 13: the pair is `(6 + 4, 6 + 5)`. -/
theorem map_signal_way_to_sensor_pair_spec_witness :
    map_signal_way_to_sensor_pair 1 13 = some (10, 11) ∧
    map_signal_way_to_sensor_pair 0 16 = none ∧
    map_signal_way_to_sensor_pair 2 0 = none :=
  ⟨((map_signal_way_to_sensor_pair_spec 1 13).2.1 (by decide) (by decide)).2.trans (by decide),
   (map_signal_way_to_sensor_pair_spec 0 16).1.mpr (Or.inr (by decide)),
   (map_signal_way_to_sensor_pair_spec 2 0).1.mpr (Or.inl (by decide))⟩

/-- C14: with `processing_method` SignalTracing or All, for every accepted frame the
tracing list is the list of the tracing detections of the kept signal-ways, one per kept
signal-way and in the same order; so its length is the number of kept signal-ways, and a
frame with a single kept signal-way yields exactly one tracing detection. -/
theorem process_frame_tracing_per_signal_way (m : Libm) (h : HashOrder) (clock : StageTimingUs)
    (p : UltrasoundProcessor) (input : FrameInput)
    (hm : p.config_.processing_method = ProcessingMethod.SignalTracing ∨
      p.config_.processing_method = ProcessingMethod.All)
    (hok : (process_frame (post_process m h) clock p input).2.code = ErrorCode.Ok) :
    ∃ out : FrameOutput,
      (process_frame (post_process m h) clock p input).1.last_output_ = some out ∧
      out.signal_ways = input.signal_ways.filter (signal_way_kept p.config_) ∧
      out.processed.tracing = out.signal_ways.map (tracing_detection_from_signal_way m) ∧
      out.processed.tracing.length = out.signal_ways.length ∧
      (out.signal_ways.length = 1 → out.processed.tracing.length = 1) := by
  obtain ⟨pose, _, hout⟩ := process_frame_ok_output (post_process m h) clock p input hok
  have hrun : runs_tracing p.config_.processing_method = true := by
    rcases hm with hm | hm <;> rw [hm] <;> rfl
  have htr : (post_process m h p.config_
      (input.signal_ways.filter (signal_way_kept p.config_))).tracing =
      (input.signal_ways.filter (signal_way_kept p.config_)).map
        (tracing_detection_from_signal_way m) := by
    rw [post_process_tracing_eq, if_pos hrun]
  refine ⟨_, hout, rfl, htr, ?_, ?_⟩
  · show (post_process m h p.config_ _).tracing.length = _
    rw [htr, List.length_map]
  · intro h1
    show (post_process m h p.config_ _).tracing.length = 1
    rw [htr, List.length_map]
    exact h1

/-- C14, on scenario S5 (front group, signal tracing, range band (0.5, 3.0], signal-ways
`(2.0, 0, 1)`, `(0.1, 0, 2)`, `(2.5, 1, 3)`): the accepted frame has one tracing detection
and `filtered_signal_ways` is 2. -/
theorem process_frame_tracing_per_signal_way_witness :
    (cfg_s5.processing_method = ProcessingMethod.SignalTracing ∨
      cfg_s5.processing_method = ProcessingMethod.All) ∧
    (process_frame (post_process libm_sample hash_sample) StageTimingUs.zero
      { seeded with config_ := cfg_s5 } frame_s5).2.code = ErrorCode.Ok ∧
    (process_frame (post_process libm_sample hash_sample) StageTimingUs.zero
      { seeded with config_ := cfg_s5 } frame_s5).1.last_output_.map
        (fun out => out.processed.tracing.length) = some 1 ∧
    (process_frame (post_process libm_sample hash_sample) StageTimingUs.zero
      { seeded with config_ := cfg_s5 } frame_s5).1.diagnostics_.filtered_signal_ways = 2 := by
  have hm : cfg_s5.processing_method = ProcessingMethod.SignalTracing ∨
      cfg_s5.processing_method = ProcessingMethod.All := Or.inl rfl
  have hok : (process_frame (post_process libm_sample hash_sample) StageTimingUs.zero
      { seeded with config_ := cfg_s5 } frame_s5).2.code = ErrorCode.Ok := by
    simp [seeded, UltrasoundProcessor.init, cfg_s5, ProcessorConfig.defaults, frame_s5, frame_of,
      process_frame, seed_queue, state_at, interpolate_pose, interpolate_loop, Status.ok]
  refine ⟨hm, hok, ?_, ?_⟩
  · obtain ⟨out, hout, hsw, _, hlen, _⟩ :=
      process_frame_tracing_per_signal_way libm_sample hash_sample StageTimingUs.zero
        { seeded with config_ := cfg_s5 } frame_s5 hm hok
    rw [hout, Option.map_some', hlen, hsw]
    simp [frame_s5, frame_of, cfg_s5, ProcessorConfig.defaults, signal_way_kept, group_matches,
      List.filter]
    norm_num
  · simp [seeded, UltrasoundProcessor.init, cfg_s5, ProcessorConfig.defaults, frame_s5, frame_of,
      process_frame, seed_queue, state_at, interpolate_pose, interpolate_loop, Status.ok,
      filter_signal_ways, signal_way_step, signal_way_kept, group_matches, Diagnostics.zero,
      incr64]
    norm_num

/-- C15: for every list of kept signal-ways, a per-method list of `post_process` is empty
unless its method is selected: under SignalTracing the FOV and ellipse lists are empty,
under FovIntersection the tracing and ellipse lists are empty, under EllipseIntersection
the tracing and FOV lists are empty. -/
theorem post_process_unselected_empty (m : Libm) (h : HashOrder) (cfg : ProcessorConfig)
    (sws : List SignalWay) :
    (cfg.processing_method = ProcessingMethod.SignalTracing →
      (post_process m h cfg sws).fov_intersections = [] ∧
      (post_process m h cfg sws).ellipse_intersections = []) ∧
    (cfg.processing_method = ProcessingMethod.FovIntersection →
      (post_process m h cfg sws).tracing = [] ∧
      (post_process m h cfg sws).ellipse_intersections = []) ∧
    (cfg.processing_method = ProcessingMethod.EllipseIntersection →
      (post_process m h cfg sws).tracing = [] ∧
      (post_process m h cfg sws).fov_intersections = []) := by
  have hfov : runs_fov cfg.processing_method = false →
      (post_process m h cfg sws).fov_intersections = [] := by
    intro hf
    rw [(post_process_lists m h cfg sws).2.1 hf, (foldl_post_step_fov_off m cfg sws _ hf).1]
    rfl
  have hell : runs_ellipse cfg.processing_method = false →
      (post_process m h cfg sws).ellipse_intersections = [] := by
    intro hf
    rw [(post_process_lists m h cfg sws).2.2 hf, (foldl_post_step_ellipse_off m cfg sws _ hf).1]
    rfl
  have htr : runs_tracing cfg.processing_method = false →
      (post_process m h cfg sws).tracing = [] := by
    intro hf
    rw [post_process_tracing_eq, hf]
    rfl
  refine ⟨fun hm => ?_, fun hm => ?_, fun hm => ?_⟩
  · exact ⟨hfov (by rw [hm]; rfl), hell (by rw [hm]; rfl)⟩
  · exact ⟨htr (by rw [hm]; rfl), hell (by rw [hm]; rfl)⟩
  · exact ⟨htr (by rw [hm]; rfl), hfov (by rw [hm]; rfl)⟩

/-- C15, on the kept signal-way of scenario S5 under SignalTracing: the FOV and ellipse
lists are empty. -/
theorem post_process_unselected_empty_witness :
    cfg_s5.processing_method = ProcessingMethod.SignalTracing ∧
    (post_process libm_sample hash_sample cfg_s5 [sw_sample 1500]).fov_intersections = [] ∧
    (post_process libm_sample hash_sample cfg_s5 [sw_sample 1500]).ellipse_intersections = [] :=
  ⟨rfl, (post_process_unselected_empty libm_sample hash_sample cfg_s5 [sw_sample 1500]).1 rfl⟩

/-- C16 (as amended): for every configuration and every accepted frame, every detection of
`ellipse_intersections` is classified as outside the vehicle contour by
`is_inside_vehicle_contour`, and every detection of `fov_intersections` is either the
FOV-pie detection of a kept signal-way or classified as outside; the points of `tracing`,
the per-signal-way FOV-pie points, `fused` and `clustered` are not tested against the
contour. -/
theorem process_frame_contour_checked (m : Libm) (h : HashOrder) (clock : StageTimingUs)
    (p : UltrasoundProcessor) (input : FrameInput)
    (hok : (process_frame (post_process m h) clock p input).2.code = ErrorCode.Ok) :
    ∃ out : FrameOutput,
      (process_frame (post_process m h) clock p input).1.last_output_ = some out ∧
      (∀ x ∈ out.processed.ellipse_intersections,
        is_inside_vehicle_contour x.1 x.2 = false) ∧
      (∀ x ∈ out.processed.fov_intersections,
        x ∈ out.signal_ways.filterMap (fov_pie_detection m) ∨
        is_inside_vehicle_contour x.1 x.2 = false) := by
  obtain ⟨pose, _, hout⟩ := process_frame_ok_output (post_process m h) clock p input hok
  exact ⟨_, hout, post_process_ellipse_outside m h p.config_ _,
    post_process_fov_outside m h p.config_ _⟩

/-- C16, the claim as stated fails: under signal tracing with cluster radius 2 m, the
accepted frame with two undecodable signal-ways at 2 m has the single clustered point
`(2, 0)`, which `is_inside_vehicle_contour` classifies as inside. -/
theorem process_frame_contour_checked_counterexample :
    (process_frame (post_process libm_sample hash_sample) StageTimingUs.zero wide_processor
      (frame_of 1500 sws_undecodable)).2.code = ErrorCode.Ok ∧
    (process_frame (post_process libm_sample hash_sample) StageTimingUs.zero wide_processor
      (frame_of 1500 sws_undecodable)).1.last_output_.map
        (fun out => out.processed.clustered) = some [(2, 0)] ∧
    is_inside_vehicle_contour 2 0 = true := by
  have hok : (process_frame (post_process libm_sample hash_sample) StageTimingUs.zero
      wide_processor (frame_of 1500 sws_undecodable)).2.code = ErrorCode.Ok := by
    simp [wide_processor, seeded, UltrasoundProcessor.init, frame_of, sws_undecodable,
      process_frame, seed_queue, state_at, interpolate_pose, interpolate_loop, Status.ok]
  refine ⟨hok, ?_, ?_⟩
  · obtain ⟨pose, _, hout⟩ := process_frame_ok_output _ _ _ _ hok
    have hkeep : (frame_of 1500 sws_undecodable).signal_ways.filter
        (signal_way_kept wide_processor.config_) = sws_undecodable := by
      norm_num [frame_of, sws_undecodable, wide_processor, cfg_wide, ProcessorConfig.defaults,
        signal_way_kept, group_matches, List.filter]
    rw [hout, hkeep]
    exact congrArg some (post_process_undecodable libm_sample hash_sample).2.2
  · norm_num [is_inside_vehicle_contour, contour_step, contour_edge_intersect, kDefaultContour,
      epsilon_d, List.range, List.range.loop]

/-- C16, on the seeded processor under the ellipse method and a frame with the one
signal-way `sw_circle`: the frame is accepted, its ellipse list is not empty, and the
points of its ellipse and FOV lists are as stated. -/
theorem process_frame_contour_checked_witness :
    (process_frame (post_process libm_sample hash_sample) StageTimingUs.zero
      { seeded with config_ := cfg_ellipse } (frame_of 1500 [sw_circle])).2.code = ErrorCode.Ok ∧
    ∃ out : FrameOutput,
      (process_frame (post_process libm_sample hash_sample) StageTimingUs.zero
        { seeded with config_ := cfg_ellipse } (frame_of 1500 [sw_circle])).1.last_output_ =
          some out ∧
      out.processed.ellipse_intersections ≠ [] ∧
      (∀ x ∈ out.processed.ellipse_intersections,
        is_inside_vehicle_contour x.1 x.2 = false) ∧
      (∀ x ∈ out.processed.fov_intersections,
        x ∈ out.signal_ways.filterMap (fov_pie_detection libm_sample) ∨
        is_inside_vehicle_contour x.1 x.2 = false) := by
  have hok : (process_frame (post_process libm_sample hash_sample) StageTimingUs.zero
      { seeded with config_ := cfg_ellipse } (frame_of 1500 [sw_circle])).2.code =
      ErrorCode.Ok := by
    simp [seeded, UltrasoundProcessor.init, frame_of, sw_circle,
      process_frame, seed_queue, state_at, interpolate_pose, interpolate_loop, Status.ok]
  refine ⟨hok, ?_⟩
  obtain ⟨out, hout, h1, h2⟩ := process_frame_contour_checked libm_sample hash_sample
    StageTimingUs.zero _ _ hok
  refine ⟨out, hout, ?_, h1, h2⟩
  obtain ⟨pose, _, hout2⟩ := process_frame_ok_output _ _ _ _ hok
  have hkeep : (frame_of 1500 [sw_circle]).signal_ways.filter
      (signal_way_kept cfg_ellipse) = [sw_circle] := by
    norm_num [frame_of, sw_circle, cfg_ellipse, ProcessorConfig.defaults,
      signal_way_kept, group_matches, List.filter]
  rw [hout2] at hout
  have hout3 := (Option.some.inj hout).symm
  rw [hout3]
  show (post_process libm_sample hash_sample cfg_ellipse
    ((frame_of 1500 [sw_circle]).signal_ways.filter (signal_way_kept cfg_ellipse))).ellipse_intersections ≠ []
  rw [hkeep, post_process_circle]
  exact List.cons_ne_nil _ _

/-- C17: for every input list and every cluster radius (and every element order of the hash
map), `cluster_with_table_melt` returns a list no longer than its input, empty exactly when
the input is empty, and every returned point is the arithmetic mean (coordinate-wise sum
divided by count) of a non-empty sublist of the input points. -/
theorem cluster_with_table_melt_means (h : HashOrder) (inp : List Detection) (radius_m : ℚ) :
    (cluster_with_table_melt h inp radius_m).length ≤ inp.length ∧
    (cluster_with_table_melt h inp radius_m = [] ↔ inp = []) ∧
    (∀ p ∈ cluster_with_table_melt h inp radius_m,
      ∃ s : List Detection, s ≠ [] ∧ s.Sublist inp ∧
        p = ((s.map Prod.fst).sum / (s.length : ℚ), (s.map Prod.snd).sum / (s.length : ℚ))) := by
  obtain ⟨hlen, h1, hle, hlt, hlab, huse⟩ := melt_labels_inv inp (radius_m * radius_m)
  rw [cluster_with_table_melt_eq]
  by_cases hnil : inp = []
  · rw [if_pos hnil]
    refine ⟨Nat.zero_le _, ⟨fun _ => hnil, fun _ => rfl⟩, ?_⟩
    intro p hp
    exact absurd hp (List.not_mem_nil p)
  · rw [if_neg hnil]
    have hpos : 0 < inp.length := List.length_pos.mpr hnil
    have h2 : 2 ≤ (melt_labels inp (radius_m * radius_m)).2 := by
      have a := hlab 0 hpos
      have b := hlt 0
      omega
    refine ⟨?_, ⟨?_, fun hh => absurd hh hnil⟩, ?_⟩
    · rw [List.length_map, List.length_range']
      omega
    · intro hmap
      have hl := congrArg List.length hmap
      rw [List.length_map, List.length_range', List.length_nil] at hl
      omega
    · intro p hp
      obtain ⟨c, hc, hpc⟩ := List.mem_map.mp hp
      rw [List.mem_range'_1] at hc
      obtain ⟨j, hj, hjc⟩ := huse c hc.1 (by omega)
      have hne := members_ne_nil_of_label (melt_labels inp (radius_m * radius_m)).1 inp.length c j
        hj hjc
      refine ⟨(members (melt_labels inp (radius_m * radius_m)).1 inp.length c).map
        (fun j => inp.getD j (0, 0)), ?_, members_points_sublist inp _ c, ?_⟩
      · intro hmapnil
        exact hne (List.map_eq_nil_iff.mp hmapnil)
      · rw [← hpc]
        unfold centroid
        simp only [List.map_map, List.length_map]
        rfl

/-- C17, on the points `(2, 1)` and `(2, -1)` with radius 2: one centroid, `(2, 0)`, the mean
of both points. -/
theorem cluster_with_table_melt_means_witness :
    cluster_with_table_melt hash_sample [(2, 1), (2, -1)] 2 = [(2, 0)] ∧
    (cluster_with_table_melt hash_sample [(2, 1), (2, -1)] 2).length ≤ 2 ∧
    cluster_with_table_melt hash_sample [(2, 1), (2, -1)] 2 ≠ [] :=
  ⟨by
    rw [cluster_with_table_melt_eq, if_neg (List.cons_ne_nil _ _)]
    have hl : melt_labels [(2, 1), (2, -1)] (2 * 2) = ([1, 1], 2) := by
      norm_num [melt_labels, melt_seed, melt_loop, melt_pass, melt_member, melt_neighbour,
        adjacency, List.range, List.range.loop, List.replicate, List.set]
    rw [hl]
    norm_num [centroid, members, List.range, List.range.loop, List.range', List.filter],
   (cluster_with_table_melt_means hash_sample [(2, 1), (2, -1)] 2).1,
   fun hnil => List.cons_ne_nil _ _
    ((cluster_with_table_melt_means hash_sample [(2, 1), (2, -1)] 2).2.1.mp hnil)⟩

/-- C18: with the pool the de-duplicating push of the tracing, FOV and ellipse lists, `M`
the number of non-empty method lists and `S(c)` the number of method lists holding a point
within 0.55 m of `c`: if `M <= 1`, the fused list is the whole pool in pool order; if
`M >= 2` and some candidate has `S(c) >= 2`, the fused list is exactly the candidates with
`S(c) >= 2`, in pool order. -/
theorem fuse_method_detections_support_rule (inp : ProcessedDetections) :
    (spec_method_count inp ≤ 1 → fuse_method_detections inp = spec_pool inp) ∧
    (spec_method_count inp ≥ 2 → (∃ c ∈ spec_pool inp, spec_support inp c ≥ 2) →
      fuse_method_detections inp =
        (spec_pool inp).filter (fun c => decide (spec_support inp c ≥ 2))) := by
  constructor
  · intro hM
    have hall : (spec_pool inp).filter (fuse_passes inp) = spec_pool inp := by
      rw [List.filter_eq_self]
      intro c _
      rw [fuse_passes_eq]
      simp [hM]
    rw [fuse_method_detections_eq, hall]
    by_cases hp : spec_pool inp = []
    · rw [if_pos hp, hp]
      obtain ⟨h1, h2, h3⟩ := (spec_pool_eq_nil_iff inp).mp hp
      rw [h1, h2, h3]
      rfl
    · rw [if_neg hp]
  · intro hM hex
    have hfun : fuse_passes inp = fun c => decide (spec_support inp c ≥ 2) := by
      funext c
      rw [fuse_passes_eq]
      have : ¬ spec_method_count inp ≤ 1 := by omega
      simp [this]
    rw [fuse_method_detections_eq, hfun, if_neg]
    obtain ⟨c, hc, hs⟩ := hex
    intro hnil
    have hmem : c ∈ (spec_pool inp).filter (fun c => decide (spec_support inp c ≥ 2)) := by
      rw [List.mem_filter]
      exact ⟨hc, by simpa using hs⟩
    rw [hnil] at hmem
    exact absurd hmem (List.not_mem_nil c)

/-- C18, on tracing `[(1, 1), (5, 5)]` and FOV `[(1.1, 1)]`: two methods are non-empty, the
candidate `(1, 1)` has support 2, and the fused list is `[(1, 1), (1.1, 1)]`. -/
theorem fuse_method_detections_support_rule_witness :
    spec_method_count detections_agree ≥ 2 ∧
    (∃ c ∈ spec_pool detections_agree, spec_support detections_agree c ≥ 2) ∧
    fuse_method_detections detections_agree = [(1, 1), (11 / 10, 1)] := by
  have hM : spec_method_count detections_agree ≥ 2 := by decide
  have hpool : spec_pool detections_agree = [(1, 1), (5, 5), (11 / 10, 1)] := by
    norm_num [spec_pool, detections_agree, push_unique_detection, too_close, kMinSepSq]
  have hex : ∃ c ∈ spec_pool detections_agree, spec_support detections_agree c ≥ 2 := by
    refine ⟨(1, 1), by rw [hpool]; simp, ?_⟩
    norm_num [spec_support, detections_agree, List.filter]
  refine ⟨hM, hex, ?_⟩
  rw [(fuse_method_detections_support_rule detections_agree).2 hM hex, hpool]
  norm_num [spec_support, detections_agree, List.filter]

/-- C19: when the support rule keeps no candidate of the pool, the fused list is the
de-duplicated copy of the first non-empty list in the order FOV, ellipse, tracing (the
empty list when all three are empty); hence the fused list is empty if and only if the
three method lists are empty. -/
theorem fuse_method_detections_fallback (inp : ProcessedDetections) :
    ((spec_pool inp).filter (fun c =>
        decide (spec_method_count inp ≤ 1) || decide (spec_support inp c ≥ 2)) = [] →
      fuse_method_detections inp =
        (spec_first_nonempty
          [inp.fov_intersections, inp.ellipse_intersections, inp.tracing]).foldl
          push_unique_detection []) ∧
    (fuse_method_detections inp = [] ↔
      (inp.tracing = [] ∧ inp.fov_intersections = [] ∧ inp.ellipse_intersections = [])) := by
  have hfun : fuse_passes inp = fun c =>
      decide (spec_method_count inp ≤ 1) || decide (spec_support inp c ≥ 2) := by
    funext c
    rw [fuse_passes_eq]
  constructor
  · intro hnil
    rw [fuse_method_detections_eq, hfun, if_pos hnil]
  · constructor
    · intro hf
      by_contra hne
      rw [fuse_method_detections_eq] at hf
      by_cases hmain : (spec_pool inp).filter (fuse_passes inp) = []
      · rw [if_pos hmain, spec_first_nonempty_three] at hf
        by_cases h2 : inp.fov_intersections = []
        · by_cases h3 : inp.ellipse_intersections = []
          · rw [if_neg (not_not.mpr h2), if_neg (not_not.mpr h3)] at hf
            have h1 : inp.tracing ≠ [] := fun h1 => hne ⟨h1, h2, h3⟩
            exact foldl_push_unique_ne_nil _ [] (Or.inr h1) hf
          · rw [if_neg (not_not.mpr h2), if_pos h3] at hf
            exact foldl_push_unique_ne_nil _ [] (Or.inr h3) hf
        · rw [if_pos h2] at hf
          exact foldl_push_unique_ne_nil _ [] (Or.inr h2) hf
      · rw [if_neg hmain] at hf
        exact hmain hf
    · rintro ⟨h1, h2, h3⟩
      have hp : spec_pool inp = [] := (spec_pool_eq_nil_iff inp).mpr ⟨h1, h2, h3⟩
      rw [fuse_method_detections_eq, hp, List.filter_nil, if_pos rfl, h1, h2, h3]
      rfl

/-- C19, on tracing `[(1, 1)]` and FOV `[(5, 5), (5.01, 5)]`: no candidate has support 2,
and the fused list is the de-duplicated FOV list `[(5, 5)]`. -/
theorem fuse_method_detections_fallback_witness :
    (spec_pool detections_disagree).filter (fun c =>
        decide (spec_method_count detections_disagree ≤ 1) ||
        decide (spec_support detections_disagree c ≥ 2)) = [] ∧
    fuse_method_detections detections_disagree = [(5, 5)] := by
  have hnil : (spec_pool detections_disagree).filter (fun c =>
      decide (spec_method_count detections_disagree ≤ 1) ||
      decide (spec_support detections_disagree c ≥ 2)) = [] := by
    have hpool : spec_pool detections_disagree = [(1, 1), (5, 5)] := by
      norm_num [spec_pool, detections_disagree, push_unique_detection, too_close, kMinSepSq]
    have hM : decide (spec_method_count detections_disagree ≤ 1) = false := by decide
    rw [hpool]
    simp only [hM, Bool.false_or]
    norm_num [spec_support, detections_disagree, List.filter]
  refine ⟨hnil, ?_⟩
  rw [(fuse_method_detections_fallback detections_disagree).1 hnil]
  norm_num [spec_first_nonempty, detections_disagree, push_unique_detection, too_close,
    kMinSepSq]

/-- C20: two processors built with equal configuration and fed equal sequences of
`push_vehicle_state` calls and then the same frame return the same status and store the
same output, in particular equal fused lists and equal clustered lists (same points, same
order), whatever their clock readings and whatever the element orders of their hash maps;
`cluster_with_table_melt` itself does not depend on the element order of its hash map. -/
theorem process_frame_deterministic (m : Libm) (h1 h2 : HashOrder)
    (clock1 clock2 : StageTimingUs) (config : ProcessorConfig) (states : List VehicleState)
    (input : FrameInput) :
    (process_frame (post_process m h1) clock1
      (run (post_process m h1) (UltrasoundProcessor.init config) (states.map Call.push)) input).2 =
    (process_frame (post_process m h2) clock2
      (run (post_process m h2) (UltrasoundProcessor.init config) (states.map Call.push)) input).2 ∧
    (process_frame (post_process m h1) clock1
      (run (post_process m h1) (UltrasoundProcessor.init config) (states.map Call.push))
        input).1.last_output_ =
    (process_frame (post_process m h2) clock2
      (run (post_process m h2) (UltrasoundProcessor.init config) (states.map Call.push))
        input).1.last_output_ ∧
    (process_frame (post_process m h1) clock1
      (run (post_process m h1) (UltrasoundProcessor.init config) (states.map Call.push))
        input).1.last_output_.map (fun out => (out.processed.fused, out.processed.clustered)) =
    (process_frame (post_process m h2) clock2
      (run (post_process m h2) (UltrasoundProcessor.init config) (states.map Call.push))
        input).1.last_output_.map (fun out => (out.processed.fused, out.processed.clustered)) ∧
    (∀ (inp : List Detection) (radius_m : ℚ),
      cluster_with_table_melt h1 inp radius_m = cluster_with_table_melt h2 inp radius_m) := by
  have hpp := post_process_hash_irrelevant m h1 h2
  have hc := process_frame_clock_irrelevant (post_process m h2) clock1 clock2
    (run (post_process m h2) (UltrasoundProcessor.init config) (states.map Call.push)) input
  rw [hpp]
  refine ⟨hc.1, hc.2.1, by rw [hc.2.1], ?_⟩
  intro inp radius_m
  rw [cluster_with_table_melt_eq, cluster_with_table_melt_eq]

/-- C20, on the test `DeterministicOutputForSameInputs`: the two seed states, then the frame
with the signal-ways `(2.0, 0, 1)` and `(2.5, 1, 13)`; one processor keeps the hash map in
insertion order and reads a zero clock, the other reverses the hash map at every insertion
and reads other durations. -/
theorem process_frame_deterministic_witness :
    (process_frame (post_process libm_sample hash_sample) StageTimingUs.zero
      (run (post_process libm_sample hash_sample)
        (UltrasoundProcessor.init { ProcessorConfig.defaults with
          processing_method := ProcessingMethod.All })
        (seed_queue.map Call.push)) frame_deterministic).1.last_output_ =
    (process_frame (post_process libm_sample hash_reversed)
      { decode := 3, interpolate := 1, convert := 4, postprocess := 1, publish := 5 }
      (run (post_process libm_sample hash_reversed)
        (UltrasoundProcessor.init { ProcessorConfig.defaults with
          processing_method := ProcessingMethod.All })
        (seed_queue.map Call.push)) frame_deterministic).1.last_output_ :=
  (process_frame_deterministic libm_sample hash_sample hash_reversed StageTimingUs.zero
    { decode := 3, interpolate := 1, convert := 4, postprocess := 1, publish := 5 }
    { ProcessorConfig.defaults with processing_method := ProcessingMethod.All }
    seed_queue frame_deterministic).2.1

/-! ## The relaxed guard, the loaders, the dispatch hook and the ellipse detector -/

/-- C21: with `strict_monotonic_timestamps` disabled, on a processor reached from a fresh
one by any calls, `process_frame` never returns `OutOfOrderTimestamp` and
`out_of_order_frames` is 0 before and after the call; a frame that has a signal-way or a
static feature is accepted as soon as the ego-pose buffer is not empty, whatever its
timestamp (in particular one lower than or equal to the previously processed one), and
the last processed timestamp becomes the timestamp of that frame. -/
theorem process_frame_guard_disabled (pp : PostProcess) (config : ProcessorConfig)
    (calls : List Call) (clock : StageTimingUs) (input : FrameInput)
    (hc : config.strict_monotonic_timestamps = false) :
    (process_frame pp clock (run pp (UltrasoundProcessor.init config) calls) input).2.code ≠
      ErrorCode.OutOfOrderTimestamp ∧
    (run pp (UltrasoundProcessor.init config) calls).diagnostics_.out_of_order_frames = 0 ∧
    (process_frame pp clock (run pp (UltrasoundProcessor.init config) calls)
      input).1.diagnostics_.out_of_order_frames = 0 ∧
    ((input.signal_ways ≠ [] ∨ input.static_features ≠ []) →
      (run pp (UltrasoundProcessor.init config) calls).state_queue_ ≠ [] →
      (process_frame pp clock (run pp (UltrasoundProcessor.init config) calls) input).2.code =
        ErrorCode.Ok ∧
      (process_frame pp clock (run pp (UltrasoundProcessor.init config) calls)
        input).1.last_timestamp_us_ = input.timestamp_us) := by
  have hcfg : (run pp (UltrasoundProcessor.init config) calls).config_.strict_monotonic_timestamps
      = false := by
    rw [run_config]; exact hc
  have h1 : ¬ ((run pp (UltrasoundProcessor.init config) calls).config_.strict_monotonic_timestamps
      = true ∧ input.timestamp_us ≤
        (run pp (UltrasoundProcessor.init config) calls).last_timestamp_us_) := by
    rw [hcfg]; exact fun h => absurd h.1 (by decide)
  have h0 : (run pp (UltrasoundProcessor.init config) calls).diagnostics_.out_of_order_frames
      = 0 := by
    rw [run_relaxed_counter pp calls _ hc]; rfl
  refine ⟨?_, h0, ?_, ?_⟩
  · rw [process_frame_code, if_neg h1]
    by_cases h2 : input.signal_ways = [] ∧ input.static_features = []
    · rw [if_pos h2]; decide
    · rw [if_neg h2]
      by_cases h3 : interpolate_pose (run pp (UltrasoundProcessor.init config) calls).state_queue_
          input.timestamp_us = none
      · rw [if_pos h3]; decide
      · rw [if_neg h3]; decide
  · rw [process_frame_relaxed_counter pp clock _ input hcfg, h0]
  · intro hcontent hq
    have h2 : ¬ (input.signal_ways = [] ∧ input.static_features = []) := by
      intro h
      rcases hcontent with h' | h'
      · exact h' h.1
      · exact h' h.2
    have h3 : interpolate_pose (run pp (UltrasoundProcessor.init config) calls).state_queue_
        input.timestamp_us ≠ none := fun h => hq ((interpolate_pose_eq_none_iff _ _).mp h)
    obtain ⟨pose, hpose⟩ := Option.ne_none_iff_exists'.mp h3
    rw [process_frame_success pp clock _ input pose h1 h2 hpose]
    exact ⟨rfl, rfl⟩

/-- C21, on the test `MonotonicGuardCanBeDisabled`: after the frame stamped 1500 the frame
stamped 1400 is accepted, and the last processed timestamp moves from 1500 down to 1400. -/
theorem process_frame_guard_disabled_witness :
    cfg_relaxed.strict_monotonic_timestamps = false ∧
    (run (post_process libm_sample hash_sample) (UltrasoundProcessor.init cfg_relaxed)
      calls_relaxed).last_timestamp_us_ = 1500 ∧
    (process_frame (post_process libm_sample hash_sample) StageTimingUs.zero
      (run (post_process libm_sample hash_sample) (UltrasoundProcessor.init cfg_relaxed)
        calls_relaxed) frame_relaxed).2.code = ErrorCode.Ok ∧
    (process_frame (post_process libm_sample hash_sample) StageTimingUs.zero
      (run (post_process libm_sample hash_sample) (UltrasoundProcessor.init cfg_relaxed)
        calls_relaxed) frame_relaxed).1.last_timestamp_us_ = 1400 := by
  have hq : (run (post_process libm_sample hash_sample) (UltrasoundProcessor.init cfg_relaxed)
      calls_relaxed).state_queue_ ≠ [] := by
    simp [calls_relaxed, run, step, push_vehicle_state, UltrasoundProcessor.init, trim_queue,
      state_at, kMaxQueue, process_frame_state_queue]
  have hl : (run (post_process libm_sample hash_sample) (UltrasoundProcessor.init cfg_relaxed)
      calls_relaxed).last_timestamp_us_ = 1500 := by
    simp [calls_relaxed, run, step, push_vehicle_state, UltrasoundProcessor.init, trim_queue,
      state_at, kMaxQueue, process_frame, cfg_relaxed, ProcessorConfig.defaults, frame_of,
      sw_sample, interpolate_pose, interpolate_loop]
  exact ⟨rfl, hl,
    (process_frame_guard_disabled (post_process libm_sample hash_sample) cfg_relaxed
      calls_relaxed StageTimingUs.zero frame_relaxed rfl).2.2.2
      (Or.inl (by simp [frame_relaxed, frame_of])) hq⟩

/-- C23, the code diverges from the claim: each of the three malformed rows of
`csv_malformed` (unknown tag, field that is not a number, too few columns for its tag)
leaves an empty frame stamped with its timestamp in the returned list, whereas the file
without these rows yields the single frame stamped 1000; the frame is inserted by the
access `frames_by_timestamp[ts]` before the row is checked. -/
theorem load_replay_csv_malformed_row_frames :
    load_replay_csv strlib_sample (some csv_malformed) =
      [{ FrameInput.zero with
          timestamp_us := 1000
          signal_ways :=
            [{ timestamp_us := 1000, distance_m := 1, group_id := 0, signal_way_id := 1 }] },
       { FrameInput.zero with timestamp_us := 1200 },
       { FrameInput.zero with timestamp_us := 1300 },
       { FrameInput.zero with timestamp_us := 1400 }] ∧
    load_replay_csv strlib_sample (some csv_wellformed) =
      [{ FrameInput.zero with
          timestamp_us := 1000
          signal_ways :=
            [{ timestamp_us := 1000, distance_m := 1, group_id := 0, signal_way_id := 1 }] }] ∧
    load_replay_csv strlib_sample (some csv_malformed) ≠
      load_replay_csv strlib_sample (some csv_wellformed) := by
  have hl1 : getline_tokens (Char.ofNat 10) csv_malformed =
      ["1000,1.0,0,1".toList, "FOO,1200,1".toList, "SW,1300,abc,0,1".toList,
       "SW,1400,1.0".toList] := by decide
  have hl2 : getline_tokens (Char.ofNat 10) csv_wellformed = ["1000,1.0,0,1".toList] := by
    decide
  have h1 : load_replay_csv strlib_sample (some csv_malformed) =
      [{ FrameInput.zero with
          timestamp_us := 1000
          signal_ways :=
            [{ timestamp_us := 1000, distance_m := 1, group_id := 0, signal_way_id := 1 }] },
       { FrameInput.zero with timestamp_us := 1200 },
       { FrameInput.zero with timestamp_us := 1300 },
       { FrameInput.zero with timestamp_us := 1400 }] := by
    unfold load_replay_csv
    simp only [hl1]
    simp [load_replay_lines, process_line, split_csv_line, getline_tokens, getline_step,
      is_unsigned_number, col, map_update, legacy_row, typed_row, strlib_sample, parse_decimal,
      parse_digits, FrameInput.zero]
  have h2 : load_replay_csv strlib_sample (some csv_wellformed) =
      [{ FrameInput.zero with
          timestamp_us := 1000
          signal_ways :=
            [{ timestamp_us := 1000, distance_m := 1, group_id := 0, signal_way_id := 1 }] }] := by
    unfold load_replay_csv
    simp only [hl2]
    simp [load_replay_lines, process_line, split_csv_line, getline_tokens, getline_step,
      is_unsigned_number, col, map_update, legacy_row, strlib_sample, parse_decimal,
      parse_digits, FrameInput.zero]
  refine ⟨h1, h2, ?_⟩
  rw [h1, h2]
  intro h
  have := congrArg List.length h
  simp at this

/-- C25: with the six sink slots as explicit state, `dispatch_runtime_frame` changes no
slot and invokes each registered sink exactly once, with the matching field of the frame
and the frame's timestamp, and invokes nothing for an empty slot (so the number of
invocations is the number of registered slots); registering a sink replaces the slot of
its channel only, the latest registration winning; after `clear_runtime_callbacks` a
dispatch invokes no sink. -/
theorem dispatch_runtime_frame_spec (st : RuntimeSinks) (frame : FrameOutput)
    (cb cb2 : Option Nat) :
    (dispatch_runtime_frame st frame).1 = st ∧
    (dispatch_runtime_frame st frame).2 = expected_calls st frame ∧
    (dispatch_runtime_frame st frame).2.length = registered_count st ∧
    (calls_on 0 st frame = (st.g_signal_ways_cb.map
        (fun s => SinkCall.signal_ways s frame.signal_ways frame.timestamp_us)).toList ∧
      calls_on 1 st frame = (st.g_static_features_cb.map
        (fun s => SinkCall.static_features s frame.static_features frame.timestamp_us)).toList ∧
      calls_on 2 st frame = (st.g_dynamic_features_cb.map
        (fun s => SinkCall.dynamic_features s frame.dynamic_features frame.timestamp_us)).toList ∧
      calls_on 3 st frame = (st.g_line_marks_cb.map
        (fun s => SinkCall.line_marks s frame.line_marks frame.timestamp_us)).toList ∧
      calls_on 4 st frame = (st.g_grid_map_cb.map
        (fun s => SinkCall.grid_map s frame.grid_map frame.timestamp_us)).toList ∧
      calls_on 5 st frame = (st.g_processed_cb.map
        (fun s => SinkCall.processed s frame.processed frame.timestamp_us)).toList) ∧
    (∀ k : Nat,
      calls_on k (register_signal_ways_callback st cb) frame =
        (if k = 0 then
          (cb.map (fun s => SinkCall.signal_ways s frame.signal_ways frame.timestamp_us)).toList
        else calls_on k st frame) ∧
      calls_on k (register_static_features_callback st cb) frame =
        (if k = 1 then
          (cb.map (fun s =>
            SinkCall.static_features s frame.static_features frame.timestamp_us)).toList
        else calls_on k st frame) ∧
      calls_on k (register_dynamic_features_callback st cb) frame =
        (if k = 2 then
          (cb.map (fun s =>
            SinkCall.dynamic_features s frame.dynamic_features frame.timestamp_us)).toList
        else calls_on k st frame) ∧
      calls_on k (register_line_marks_callback st cb) frame =
        (if k = 3 then
          (cb.map (fun s => SinkCall.line_marks s frame.line_marks frame.timestamp_us)).toList
        else calls_on k st frame) ∧
      calls_on k (register_grid_map_callback st cb) frame =
        (if k = 4 then
          (cb.map (fun s => SinkCall.grid_map s frame.grid_map frame.timestamp_us)).toList
        else calls_on k st frame) ∧
      calls_on k (register_processed_detections_callback st cb) frame =
        (if k = 5 then
          (cb.map (fun s => SinkCall.processed s frame.processed frame.timestamp_us)).toList
        else calls_on k st frame)) ∧
    (register_signal_ways_callback (register_signal_ways_callback st cb) cb2 =
        register_signal_ways_callback st cb2 ∧
      register_static_features_callback (register_static_features_callback st cb) cb2 =
        register_static_features_callback st cb2 ∧
      register_dynamic_features_callback (register_dynamic_features_callback st cb) cb2 =
        register_dynamic_features_callback st cb2 ∧
      register_line_marks_callback (register_line_marks_callback st cb) cb2 =
        register_line_marks_callback st cb2 ∧
      register_grid_map_callback (register_grid_map_callback st cb) cb2 =
        register_grid_map_callback st cb2 ∧
      register_processed_detections_callback (register_processed_detections_callback st cb) cb2 =
        register_processed_detections_callback st cb2) ∧
    (dispatch_runtime_frame (clear_runtime_callbacks st) frame).2 = [] := by
  have hc := calls_on_eq st frame
  refine ⟨rfl, dispatch_calls_eq st frame, ?_, ?_, fun k => register_calls_on st frame cb k,
    ⟨rfl, rfl, rfl, rfl, rfl, rfl⟩, rfl⟩
  · rw [dispatch_calls_eq]
    unfold expected_calls registered_count
    cases st.g_signal_ways_cb <;> cases st.g_static_features_cb <;>
      cases st.g_dynamic_features_cb <;> cases st.g_line_marks_cb <;>
      cases st.g_grid_map_cb <;> cases st.g_processed_cb <;> rfl
  · exact ⟨hc.1, hc.2.1, hc.2.2.1, hc.2.2.2.1, hc.2.2.2.2.1, hc.2.2.2.2.2.1⟩

/-- C25, on the tests of `test_runtime_stub.cpp`: with six sinks registered the dispatch of
the test frame makes six invocations, each with timestamp 1000; a second registration on
the signal-way channel replaces the first; after a clear nothing is invoked. -/
theorem dispatch_runtime_frame_spec_witness :
    (dispatch_runtime_frame sinks_all frame_dispatched).2 =
      [SinkCall.signal_ways 1 frame_dispatched.signal_ways 1000,
       SinkCall.static_features 2 frame_dispatched.static_features 1000,
       SinkCall.dynamic_features 3 frame_dispatched.dynamic_features 1000,
       SinkCall.line_marks 4 frame_dispatched.line_marks 1000,
       SinkCall.grid_map 5 frame_dispatched.grid_map 1000,
       SinkCall.processed 6 frame_dispatched.processed 1000] ∧
    (dispatch_runtime_frame sinks_all frame_dispatched).2.length = 6 ∧
    calls_on 0 (register_signal_ways_callback sinks_all (some 7)) frame_dispatched =
      [SinkCall.signal_ways 7 frame_dispatched.signal_ways 1000] ∧
    (dispatch_runtime_frame (clear_runtime_callbacks sinks_all) frame_dispatched).2 = [] :=
  ⟨(dispatch_runtime_frame_spec sinks_all frame_dispatched none none).2.1,
   (dispatch_runtime_frame_spec sinks_all frame_dispatched none none).2.2.1,
   ((dispatch_runtime_frame_spec sinks_all frame_dispatched (some 7) none).2.2.2.2.1 0).1,
   (dispatch_runtime_frame_spec sinks_all frame_dispatched none none).2.2.2.2.2.2⟩

/-- C26: `build_ellipse_from_signal_way` yields no ellipse if and only if the pair is
undecodable, or `d <= 0`, or `d <= b / 2` with `b` the computed distance of the two
sensors; otherwise the centre is the midpoint of the sensors, the semi-major axis is `d`
and the major axis has the direction `atan2 (dy, dx)` of the line from TX to RX, for every
library on the modelled doubles. Carried out over the real numbers with the real
`sqrt`, `cos`, `sin` and `atan2` (the same code over an ordered field, which over `ℚ` is
the builder itself), `b` is the Euclidean distance of the sensors, so that no ellipse is
built exactly when the pair is undecodable, `d <= 0` or `4 d^2 <= dx^2 + dy^2`; the
semi-minor axis is non-negative with square `d^2 - (b/2)^2`; the axis direction times `b`
is the vector from TX to RX; the two foci, the centre minus and plus
`sqrt (a^2 - b_ax^2) * (cos theta, sin theta)`, are the TX and the RX sensor positions;
and a monostatic pair gives a circle of radius `d` around the sensor. -/
theorem build_ellipse_from_signal_way_spec (m : Libm) (mr : LibmOver ℝ) (sw : SignalWay) :
    (build_ellipse_from_signal_way m sw = none ↔
      (map_signal_way_to_sensor_pair sw.group_id sw.signal_way_id = none ∨
        sw.distance_m ≤ 0 ∨
        ∃ tx rx, map_signal_way_to_sensor_pair sw.group_id sw.signal_way_id = some (tx, rx) ∧
          sw.distance_m ≤ (1 / 2) * sensor_baseline m tx rx)) ∧
    (∀ (tx rx : Int) (e : EllipseModel),
      map_signal_way_to_sensor_pair sw.group_id sw.signal_way_id = some (tx, rx) →
      build_ellipse_from_signal_way m sw = some e →
      e.cx = (1 / 2) * ((sensor_at tx).x_m + (sensor_at rx).x_m) ∧
        e.cy = (1 / 2) * ((sensor_at tx).y_m + (sensor_at rx).y_m) ∧
        e.axis_a = sw.distance_m ∧
        e.theta = m.atan2 ((sensor_at rx).y_m - (sensor_at tx).y_m)
          ((sensor_at rx).x_m - (sensor_at tx).x_m)) ∧
    build_ellipse_from_signal_way_over m.over sw =
      (build_ellipse_from_signal_way m sw).map EllipseModel.over ∧
    (real_library mr →
      (build_ellipse_from_signal_way_over mr sw = none ↔
        (map_signal_way_to_sensor_pair sw.group_id sw.signal_way_id = none ∨
          sw.distance_m ≤ 0 ∨
          ∃ tx rx, map_signal_way_to_sensor_pair sw.group_id sw.signal_way_id = some (tx, rx) ∧
            (sw.distance_m : ℝ) ≤ sensor_baseline_over mr tx rx / 2)) ∧
      (build_ellipse_from_signal_way_over mr sw = none ↔
        (map_signal_way_to_sensor_pair sw.group_id sw.signal_way_id = none ∨
          sw.distance_m ≤ 0 ∨
          ∃ tx rx, map_signal_way_to_sensor_pair sw.group_id sw.signal_way_id = some (tx, rx) ∧
            4 * sw.distance_m * sw.distance_m ≤
              ((sensor_at rx).x_m - (sensor_at tx).x_m) *
                ((sensor_at rx).x_m - (sensor_at tx).x_m) +
              ((sensor_at rx).y_m - (sensor_at tx).y_m) *
                ((sensor_at rx).y_m - (sensor_at tx).y_m))) ∧
      (∀ tx rx : Int, 0 ≤ sensor_baseline_over mr tx rx ∧
        sensor_baseline_over mr tx rx * sensor_baseline_over mr tx rx =
          ((((sensor_at rx).x_m - (sensor_at tx).x_m) *
              ((sensor_at rx).x_m - (sensor_at tx).x_m) +
            ((sensor_at rx).y_m - (sensor_at tx).y_m) *
              ((sensor_at rx).y_m - (sensor_at tx).y_m) : ℚ) : ℝ)) ∧
      (∀ (tx rx : Int) (e : EllipseModelOver ℝ),
        map_signal_way_to_sensor_pair sw.group_id sw.signal_way_id = some (tx, rx) →
        build_ellipse_from_signal_way_over mr sw = some e →
        (e.cx = (((1 / 2) * ((sensor_at tx).x_m + (sensor_at rx).x_m) : ℚ) : ℝ) ∧
          e.cy = (((1 / 2) * ((sensor_at tx).y_m + (sensor_at rx).y_m) : ℚ) : ℝ) ∧
          e.axis_a = (sw.distance_m : ℝ)) ∧
        (0 ≤ e.axis_b ∧
          e.axis_b * e.axis_b = (sw.distance_m : ℝ) * (sw.distance_m : ℝ) -
            (sensor_baseline_over mr tx rx / 2) * (sensor_baseline_over mr tx rx / 2)) ∧
        (mr.cos e.theta * sensor_baseline_over mr tx rx =
            (((sensor_at rx).x_m - (sensor_at tx).x_m : ℚ) : ℝ) ∧
          mr.sin e.theta * sensor_baseline_over mr tx rx =
            (((sensor_at rx).y_m - (sensor_at tx).y_m : ℚ) : ℝ)) ∧
        (e.cx - focal_distance_over mr e * mr.cos e.theta = ((sensor_at tx).x_m : ℝ) ∧
          e.cy - focal_distance_over mr e * mr.sin e.theta = ((sensor_at tx).y_m : ℝ)) ∧
        (e.cx + focal_distance_over mr e * mr.cos e.theta = ((sensor_at rx).x_m : ℝ) ∧
          e.cy + focal_distance_over mr e * mr.sin e.theta = ((sensor_at rx).y_m : ℝ)) ∧
        (tx = rx → e.axis_b = (sw.distance_m : ℝ) ∧ e.axis_a = (sw.distance_m : ℝ) ∧
          e.cx = ((sensor_at tx).x_m : ℝ) ∧ e.cy = ((sensor_at tx).y_m : ℝ)))) := by
  refine ⟨?_, ?_, build_ellipse_over_rat m sw, ?_⟩
  · cases hmap : map_signal_way_to_sensor_pair sw.group_id sw.signal_way_id with
    | none =>
      constructor
      · intro _; exact Or.inl rfl
      · intro _
        unfold build_ellipse_from_signal_way
        rw [hmap]
    | some pair =>
      obtain ⟨tx, rx⟩ := pair
      rw [build_ellipse_of_pair m sw tx rx hmap]
      constructor
      · intro h
        by_cases h1 : sw.distance_m ≤ 0
        · exact Or.inr (Or.inl h1)
        · rw [if_neg h1] at h
          by_cases h2 : sw.distance_m ≤ (1 / 2) * sensor_baseline m tx rx
          · exact Or.inr (Or.inr ⟨tx, rx, rfl, h2⟩)
          · rw [if_neg h2] at h
            exact absurd h (by simp)
      · intro h
        rcases h with h | h | ⟨tx2, rx2, h, h2⟩
        · exact absurd h (by simp)
        · rw [if_pos h]
        · have hp := Option.some.inj h
          have h3 : tx = tx2 := congrArg Prod.fst hp
          have h4 : rx = rx2 := congrArg Prod.snd hp
          rw [h3, h4]
          by_cases h1 : sw.distance_m ≤ 0
          · rw [if_pos h1]
          · rw [if_neg h1, if_pos h2]
  · intro tx rx e hmap hbuild
    rw [build_ellipse_of_pair m sw tx rx hmap] at hbuild
    by_cases h1 : sw.distance_m ≤ 0
    · rw [if_pos h1] at hbuild; exact absurd hbuild (by simp)
    · rw [if_neg h1] at hbuild
      by_cases h2 : sw.distance_m ≤ (1 / 2) * sensor_baseline m tx rx
      · rw [if_pos h2] at hbuild; exact absurd hbuild (by simp)
      · rw [if_neg h2] at hbuild
        have he := (Option.some.inj hbuild).symm
        rw [he]
        exact ⟨rfl, rfl, rfl, rfl⟩
  · intro hreal
    refine ⟨build_ellipse_real_none mr sw, build_ellipse_real_none_rat mr hreal sw, ?_,
      fun tx rx e hmap hbuild => build_ellipse_real_some mr hreal sw tx rx e hmap hbuild⟩
    intro tx rx
    obtain ⟨hb0, hbsq, -, -⟩ := real_library_baseline mr hreal
      (((sensor_at rx).x_m : ℝ) - ((sensor_at tx).x_m : ℝ))
      (((sensor_at rx).y_m : ℝ) - ((sensor_at tx).y_m : ℝ))
    refine ⟨hb0, ?_⟩
    push_cast
    exact hbsq

/-- C26, with the real library, on two signal-ways of the front group. For 0.345 m on the
pair `(2, 3)` an ellipse is built with semi-major axis 0.345 and squared semi-minor axis
`0.207^2`, and its foci are the sensors at `(3.804, 0.276)` and `(3.804, -0.276)`. For
0.5 m on the pair `(0, 1)`, whose sensor distance `sqrt 0.170248` is not rational, an
ellipse is built with squared semi-minor axis 0.207438, and its foci are the sensors at
`(3.238, 0.913)` and `(3.6, 0.715)`. -/
theorem build_ellipse_from_signal_way_spec_witness :
    ∃ mr : LibmOver ℝ, real_library mr ∧
      (∃ e : EllipseModelOver ℝ, build_ellipse_from_signal_way_over mr sw_pair23 = some e ∧
        e.axis_a = 345 / 1000 ∧ 0 ≤ e.axis_b ∧ e.axis_b * e.axis_b = 207 / 1000 * (207 / 1000) ∧
        (e.cx - focal_distance_over mr e * mr.cos e.theta = 3804 / 1000 ∧
          e.cy - focal_distance_over mr e * mr.sin e.theta = 276 / 1000) ∧
        (e.cx + focal_distance_over mr e * mr.cos e.theta = 3804 / 1000 ∧
          e.cy + focal_distance_over mr e * mr.sin e.theta = -276 / 1000)) ∧
      (∃ e : EllipseModelOver ℝ, build_ellipse_from_signal_way_over mr sw_pair01 = some e ∧
        e.axis_a = 1 / 2 ∧ 0 ≤ e.axis_b ∧ e.axis_b * e.axis_b = 207438 / 1000000 ∧
        (e.cx - focal_distance_over mr e * mr.cos e.theta = 3238 / 1000 ∧
          e.cy - focal_distance_over mr e * mr.sin e.theta = 913 / 1000) ∧
        (e.cx + focal_distance_over mr e * mr.cos e.theta = 36 / 10 ∧
          e.cy + focal_distance_over mr e * mr.sin e.theta = 715 / 1000)) := by
  obtain ⟨mr, hmr⟩ : ∃ mr : LibmOver ℝ, mr =
      { cos := Real.cos, sin := Real.sin, sqrt := Real.sqrt,
        atan2 := fun y x => Complex.arg ⟨x, y⟩ } := ⟨_, rfl⟩
  have hreal : real_library mr := by
    rw [hmr]
    exact ⟨fun _ => rfl, fun _ => rfl, fun _ => rfl, fun _ _ => rfl⟩
  refine ⟨mr, hreal, ?_, ?_⟩
  · have hthm := (build_ellipse_from_signal_way_spec libm_sample mr sw_pair23).2.2.2 hreal
    have hmap : map_signal_way_to_sensor_pair sw_pair23.group_id sw_pair23.signal_way_id =
        some (2, 3) := by decide
    have hsome : build_ellipse_from_signal_way_over mr sw_pair23 ≠ none := by
      intro hnone
      rcases hthm.2.1.mp hnone with h | h | ⟨tx, rx, h, h2⟩
      · rw [hmap] at h; exact absurd h (by simp)
      · norm_num [sw_pair23] at h
      · rw [hmap] at h
        have hp := Option.some.inj h
        have h3 : tx = 2 := (congrArg Prod.fst hp).symm
        have h4 : rx = 3 := (congrArg Prod.snd hp).symm
        rw [h3, h4, sensor_at_pair23.1, sensor_at_pair23.2] at h2
        norm_num [sw_pair23] at h2
    obtain ⟨e, he⟩ := Option.ne_none_iff_exists'.mp hsome
    obtain ⟨hc, hb, -, hf1, hf2, -⟩ := hthm.2.2.2 2 3 e hmap he
    have hB := (hthm.2.2.1 2 3).2
    refine ⟨e, he, ?_, hb.1, ?_, ?_, ?_⟩
    · rw [hc.2.2]; norm_num [sw_pair23]
    · rw [hb.2]
      have : sensor_baseline_over mr 2 3 / 2 * (sensor_baseline_over mr 2 3 / 2) =
          sensor_baseline_over mr 2 3 * sensor_baseline_over mr 2 3 / 4 := by ring
      rw [this, hB, sensor_at_pair23.1, sensor_at_pair23.2]
      norm_num [sw_pair23]
    · rw [hf1.1, hf1.2, sensor_at_pair23.1]; norm_num
    · rw [hf2.1, hf2.2, sensor_at_pair23.2]; norm_num
  · have hthm := (build_ellipse_from_signal_way_spec libm_sample mr sw_pair01).2.2.2 hreal
    have hmap : map_signal_way_to_sensor_pair sw_pair01.group_id sw_pair01.signal_way_id =
        some (0, 1) := by decide
    have hsome : build_ellipse_from_signal_way_over mr sw_pair01 ≠ none := by
      intro hnone
      rcases hthm.2.1.mp hnone with h | h | ⟨tx, rx, h, h2⟩
      · rw [hmap] at h; exact absurd h (by simp)
      · norm_num [sw_pair01] at h
      · rw [hmap] at h
        have hp := Option.some.inj h
        have h3 : tx = 0 := (congrArg Prod.fst hp).symm
        have h4 : rx = 1 := (congrArg Prod.snd hp).symm
        rw [h3, h4, sensor_at_pair01.1, sensor_at_pair01.2] at h2
        norm_num [sw_pair01] at h2
    obtain ⟨e, he⟩ := Option.ne_none_iff_exists'.mp hsome
    obtain ⟨hc, hb, -, hf1, hf2, -⟩ := hthm.2.2.2 0 1 e hmap he
    have hB := (hthm.2.2.1 0 1).2
    refine ⟨e, he, ?_, hb.1, ?_, ?_, ?_⟩
    · rw [hc.2.2]; norm_num [sw_pair01]
    · rw [hb.2]
      have : sensor_baseline_over mr 0 1 / 2 * (sensor_baseline_over mr 0 1 / 2) =
          sensor_baseline_over mr 0 1 * sensor_baseline_over mr 0 1 / 4 := by ring
      rw [this, hB, sensor_at_pair01.1, sensor_at_pair01.2]
      norm_num [sw_pair01]
    · rw [hf1.1, hf1.2, sensor_at_pair01.1]; norm_num
    · rw [hf2.1, hf2.2, sensor_at_pair01.2]; norm_num

/-- C27: with `processing_method` EllipseIntersection or All and exactly one kept
signal-way, decodable to the pair `(tx, rx)` and with `d` above half the computed sensor
distance (which is not negative), an ellipse is built and `ellipse_intersections` is the
one-element list holding its point at parameter `0.30 * pi` when that point is outside the
vehicle contour, and is empty when that point is inside the contour. -/
theorem post_process_single_ellipse_seed (m : Libm) (h : HashOrder) (cfg : ProcessorConfig)
    (sw : SignalWay) (tx rx : Int)
    (hm : cfg.processing_method = ProcessingMethod.EllipseIntersection ∨
      cfg.processing_method = ProcessingMethod.All)
    (hmap : map_signal_way_to_sensor_pair sw.group_id sw.signal_way_id = some (tx, rx))
    (hb : 0 ≤ sensor_baseline m tx rx)
    (hd : sw.distance_m > (1 / 2) * sensor_baseline m tx rx) :
    ∃ e : EllipseModel, build_ellipse_from_signal_way m sw = some e ∧
      (post_process m h cfg [sw]).ellipse_intersections =
        if is_inside_vehicle_contour (ellipse_point m e ((3 / 10) * pi_d)).1
            (ellipse_point m e ((3 / 10) * pi_d)).2 then []
        else [ellipse_point m e ((3 / 10) * pi_d)] := by
  have hr : runs_ellipse cfg.processing_method = true := by
    rcases hm with hm | hm <;> rw [hm] <;> rfl
  have hbuild := build_ellipse_of_pair m sw tx rx hmap
  rw [if_neg (by linarith), if_neg (by linarith)] at hbuild
  refine ⟨_, hbuild, ?_⟩
  rw [post_process_ellipse_eq m h cfg [sw] hr]
  have hlen : ¬ ([sw].filterMap (build_ellipse_from_signal_way m)).length > 1 := by
    have := List.length_filterMap_le (build_ellipse_from_signal_way m) [sw]
    simp only [List.length_singleton] at this
    omega
  rw [if_neg hlen]
  unfold seed_points seed_of
  simp only [List.filterMap_cons, List.filterMap_nil, hbuild]
  split <;> rename_i hin
  · split at hin
    · rename_i h2; rw [if_pos h2]
    · exact absurd hin (by simp)
  · split at hin
    · exact absurd hin (by simp)
    · rename_i h2
      rw [if_neg h2]
      simp only [Option.some.injEq] at hin
      rw [hin]

/-- C27, on `sw_circle` under the ellipse method: the ellipse list is the one seed point of
the unit circle around sensor 0. -/
theorem post_process_single_ellipse_seed_witness :
    (cfg_ellipse.processing_method = ProcessingMethod.EllipseIntersection ∨
      cfg_ellipse.processing_method = ProcessingMethod.All) ∧
    map_signal_way_to_sensor_pair sw_circle.group_id sw_circle.signal_way_id = some (0, 0) ∧
    0 ≤ sensor_baseline libm_sample 0 0 ∧
    sw_circle.distance_m > (1 / 2) * sensor_baseline libm_sample 0 0 ∧
    (post_process libm_sample hash_sample cfg_ellipse [sw_circle]).ellipse_intersections =
      [ellipse_point libm_sample
        { cx := 3238 / 1000, cy := 913 / 1000, axis_a := 1, axis_b := 1, theta := 0 }
        ((3 / 10) * pi_d)] := by
  have hm : cfg_ellipse.processing_method = ProcessingMethod.EllipseIntersection ∨
      cfg_ellipse.processing_method = ProcessingMethod.All := Or.inl rfl
  have hmap : map_signal_way_to_sensor_pair sw_circle.group_id sw_circle.signal_way_id =
      some (0, 0) := by decide
  have hbase : sensor_baseline libm_sample 0 0 = 0 := by
    norm_num [sensor_baseline, libm_sample, sqrt_newton]
  have hb : 0 ≤ sensor_baseline libm_sample 0 0 := by rw [hbase]
  have hd : sw_circle.distance_m > (1 / 2) * sensor_baseline libm_sample 0 0 := by
    rw [hbase]; norm_num [sw_circle]
  obtain ⟨e, he, hl⟩ := post_process_single_ellipse_seed libm_sample hash_sample cfg_ellipse
    sw_circle 0 0 hm hmap hb hd
  refine ⟨hm, hmap, hb, hd, ?_⟩
  rw [build_ellipse_circle] at he
  rw [hl, ← Option.some.inj he, seed_circle_outside]
  rfl

/-- C28 (as amended): for every list of kept signal-ways, the detections that the two
intersection collectors add to `ellipse_intersections` go through the de-duplicating push.
When the ellipse method is selected the list starts with the seed points, which are
appended without that test and may coincide; every entry behind the seed points is more
than 0.08 m (squared distance above 0.0064) from every entry before it. When the ellipse
method is not selected the list is empty. -/
theorem post_process_ellipse_separation (m : Libm) (h : HashOrder) (cfg : ProcessorConfig)
    (sws : List SignalWay) :
    (runs_ellipse cfg.processing_method = true →
      seed_points m sws <+: (post_process m h cfg sws).ellipse_intersections) ∧
    (runs_ellipse cfg.processing_method = false →
      (post_process m h cfg sws).ellipse_intersections = []) ∧
    (∀ (i j : Nat) (a b : Detection), i < j → (seed_points m sws).length ≤ j →
      (post_process m h cfg sws).ellipse_intersections[i]? = some a →
      (post_process m h cfg sws).ellipse_intersections[j]? = some b →
      (a.1 - b.1) * (a.1 - b.1) + (a.2 - b.2) * (a.2 - b.2) > 64 / 10000) := by
  refine ⟨post_process_starts_with_seeds m h cfg sws, post_process_ellipse_off m h cfg sws, ?_⟩
  have hbase : separated_from (seed_points m sws).length (seed_points m sws) := by
    intro i j a b _ hkj _ hj
    rw [List.getElem?_eq_none hkj] at hj
    exact absurd hj (by simp)
  have hsep : separated_from (seed_points m sws).length
      (post_process m h cfg sws).ellipse_intersections := by
    by_cases hr : runs_ellipse cfg.processing_method = true
    · rw [post_process_ellipse_eq m h cfg sws hr]
      split
      · apply collect_ellipse_intersections_inv m _ _ _ _
          (separated_from (seed_points m sws).length)
          (fun l c hl => push_unique_separated _ l c hl)
        exact collect_ellipse_intersections_traverse_inv m _ _
          (separated_from (seed_points m sws).length)
          (fun l c hl => push_unique_separated _ l c hl) hbase
      · exact hbase
    · rw [post_process_ellipse_off m h cfg sws (by simpa using hr)]
      intro i j a b _ _ hi _
      exact absurd hi (by simp)
  exact hsep

/-- C28, the claim as stated fails: under the ellipse method, two copies of one signal-way
give two equal seed points, stored at positions 0 and 1 of `ellipse_intersections`. -/
theorem post_process_ellipse_separation_counterexample :
    ∃ s : Detection,
      (post_process libm_sample hash_sample cfg_ellipse
        [sw_circle, sw_circle]).ellipse_intersections[0]? = some s ∧
      (post_process libm_sample hash_sample cfg_ellipse
        [sw_circle, sw_circle]).ellipse_intersections[1]? = some s ∧
      ¬ ((s.1 - s.1) * (s.1 - s.1) + (s.2 - s.2) * (s.2 - s.2) > 64 / 10000) := by
  obtain ⟨t, ht⟩ := post_process_starts_with_seeds libm_sample hash_sample cfg_ellipse
    [sw_circle, sw_circle] rfl
  rw [seed_points_circle_twice] at ht
  refine ⟨ellipse_point libm_sample
    { cx := 3238 / 1000, cy := 913 / 1000, axis_a := 1, axis_b := 1, theta := 0 }
    ((3 / 10) * pi_d), ?_, ?_, ?_⟩
  · rw [← ht]; simp
  · rw [← ht]; simp
  · norm_num

/-- C28, on the circles of 1 m around sensors 0 and 1 under the ellipse method, with the
step library: the list starts with the two seed points; the crossing `(4.238, 0.913)` that
the traverse collector finds at its first sample is stored at position 2, behind the seed
points, and is more than 0.08 m from the seed point at position 0. -/
theorem post_process_ellipse_separation_witness :
    runs_ellipse cfg_ellipse.processing_method = true ∧
    seed_points libm_step [sw_circle, sw_circle1] <+:
      (post_process libm_step hash_sample cfg_ellipse
        [sw_circle, sw_circle1]).ellipse_intersections ∧
    (seed_points libm_step [sw_circle, sw_circle1]).length ≤ 2 ∧
    (post_process libm_step hash_sample cfg_ellipse
      [sw_circle, sw_circle1]).ellipse_intersections[0]? = some (3238 / 1000, 1913 / 1000) ∧
    (post_process libm_step hash_sample cfg_ellipse
      [sw_circle, sw_circle1]).ellipse_intersections[2]? = some (4238 / 1000, 913 / 1000) ∧
    ((3238 / 1000 : ℚ) - 4238 / 1000) * (3238 / 1000 - 4238 / 1000) +
      ((1913 / 1000 : ℚ) - 913 / 1000) * (1913 / 1000 - 913 / 1000) > 64 / 10000 := by
  have hlen : (seed_points libm_step [sw_circle, sw_circle1]).length ≤ 2 := by
    rw [seed_points_step]; exact Nat.le_refl _
  obtain ⟨t, ht⟩ := post_process_step_front hash_sample
  have h0 : (post_process libm_step hash_sample cfg_ellipse
      [sw_circle, sw_circle1]).ellipse_intersections[0]? =
      some ((3238 / 1000 : ℚ), (1913 / 1000 : ℚ)) := by
    rw [← ht]; simp
  have h2 : (post_process libm_step hash_sample cfg_ellipse
      [sw_circle, sw_circle1]).ellipse_intersections[2]? =
      some ((4238 / 1000 : ℚ), (913 / 1000 : ℚ)) := by
    rw [← ht]; simp
  have h := post_process_ellipse_separation libm_step hash_sample cfg_ellipse
    [sw_circle, sw_circle1]
  exact ⟨rfl, h.1 rfl, hlen, h0, h2, h.2.2 0 2 _ _ (by decide) hlen h0 h2⟩

/-- C29: every entry of `ellipse_intersections` is classified as outside the vehicle
contour by `is_inside_vehicle_contour`: the seed points are, each of the two intersection
collectors adds only such points (sign-change crossings, tolerance samples and best
samples), and so every entry of the list returned by `post_process` is. -/
theorem post_process_ellipse_outside_contour (m : Libm) (h : HashOrder) (cfg : ProcessorConfig)
    (sws : List SignalWay) :
    (∀ x ∈ seed_points m sws, is_inside_vehicle_contour x.1 x.2 = false) ∧
    (∀ (models : List EllipseModel) (out : List Detection),
      (∀ x ∈ out, is_inside_vehicle_contour x.1 x.2 = false) →
      ∀ x ∈ collect_ellipse_intersections_traverse m models out,
        is_inside_vehicle_contour x.1 x.2 = false) ∧
    (∀ (models : List EllipseModel) (out : List Detection) (tolerance best_limit : ℚ),
      (∀ x ∈ out, is_inside_vehicle_contour x.1 x.2 = false) →
      ∀ x ∈ collect_ellipse_intersections m models out tolerance best_limit,
        is_inside_vehicle_contour x.1 x.2 = false) ∧
    (∀ x ∈ (post_process m h cfg sws).ellipse_intersections,
      is_inside_vehicle_contour x.1 x.2 = false) := by
  have htrav : ∀ (models : List EllipseModel) (out : List Detection),
      (∀ x ∈ out, is_inside_vehicle_contour x.1 x.2 = false) →
      ∀ x ∈ collect_ellipse_intersections_traverse m models out,
        is_inside_vehicle_contour x.1 x.2 = false :=
    fun models out hout =>
      collect_ellipse_intersections_traverse_forall m models out _ (fun x hx => hx) hout
  have hcoll : ∀ (models : List EllipseModel) (out : List Detection) (tolerance best_limit : ℚ),
      (∀ x ∈ out, is_inside_vehicle_contour x.1 x.2 = false) →
      ∀ x ∈ collect_ellipse_intersections m models out tolerance best_limit,
        is_inside_vehicle_contour x.1 x.2 = false :=
    fun models out tolerance best_limit hout =>
      collect_ellipse_intersections_forall m models out tolerance best_limit _ (fun x hx => hx) hout
  refine ⟨seed_points_outside m sws, htrav, hcoll, ?_⟩
  by_cases hr : runs_ellipse cfg.processing_method = true
  · rw [post_process_ellipse_eq m h cfg sws hr]
    split
    · exact hcoll _ _ _ _ (htrav _ _ (seed_points_outside m sws))
    · exact seed_points_outside m sws
  · rw [post_process_ellipse_off m h cfg sws (by simpa using hr)]
    intro x hx
    exact absurd hx (List.not_mem_nil x)

/-- C29, on `sw_circle` under the ellipse method: the seed point of the unit circle around
sensor 0 is in the ellipse list and is classified as outside the contour. -/
theorem post_process_ellipse_outside_contour_witness :
    ellipse_point libm_sample
      { cx := 3238 / 1000, cy := 913 / 1000, axis_a := 1, axis_b := 1, theta := 0 }
      ((3 / 10) * pi_d) ∈
      (post_process libm_sample hash_sample cfg_ellipse [sw_circle]).ellipse_intersections ∧
    is_inside_vehicle_contour
      (ellipse_point libm_sample
        { cx := 3238 / 1000, cy := 913 / 1000, axis_a := 1, axis_b := 1, theta := 0 }
        ((3 / 10) * pi_d)).1
      (ellipse_point libm_sample
        { cx := 3238 / 1000, cy := 913 / 1000, axis_a := 1, axis_b := 1, theta := 0 }
        ((3 / 10) * pi_d)).2 = false :=
  have hmem : ellipse_point libm_sample
      { cx := 3238 / 1000, cy := 913 / 1000, axis_a := 1, axis_b := 1, theta := 0 }
      ((3 / 10) * pi_d) ∈
      (post_process libm_sample hash_sample cfg_ellipse [sw_circle]).ellipse_intersections := by
    rw [post_process_circle]
    exact List.mem_singleton.mpr rfl
  ⟨hmem, (post_process_ellipse_outside_contour libm_sample hash_sample cfg_ellipse
    [sw_circle]).2.2.2 _ hmem⟩

/-- C31, amended: a fallback point is a tracing detection like any other and can be fused.
When the tracing method runs, the fallback point of every kept signal-way that encodes no
sensor pair is in the tracing list. When the FOV and the ellipse list are empty (as they are
when no kept signal-way encodes a sensor pair), the fused list is the tracing list run
through the de-duplicating push: every tracing detection, fallback or not, is fused or
within 0.08 m of a fused point. When at least two method lists are non-empty, a fused point
belongs to the FOV or the ellipse list or has points of at least two method lists within
0.55 m. -/
theorem post_process_fallback_fusion (m : Libm) (h : HashOrder) (cfg : ProcessorConfig)
    (sws : List SignalWay) :
    (runs_tracing cfg.processing_method = true →
      ∀ sw ∈ sws, map_signal_way_to_sensor_pair sw.group_id sw.signal_way_id = none →
        tracing_fallback sw ∈ (post_process m h cfg sws).tracing) ∧
    ((∀ sw ∈ sws, map_signal_way_to_sensor_pair sw.group_id sw.signal_way_id = none) →
      (post_process m h cfg sws).fov_intersections = [] ∧
      (post_process m h cfg sws).ellipse_intersections = []) ∧
    ((post_process m h cfg sws).fov_intersections = [] →
      (post_process m h cfg sws).ellipse_intersections = [] →
      (post_process m h cfg sws).fused =
        (post_process m h cfg sws).tracing.foldl push_unique_detection [] ∧
      ∀ x ∈ (post_process m h cfg sws).tracing,
        ∃ y ∈ (post_process m h cfg sws).fused, too_close x y = true) ∧
    (2 ≤ available_methods (post_process m h cfg sws) →
      ∀ c ∈ (post_process m h cfg sws).fused,
        c ∈ (post_process m h cfg sws).fov_intersections ∨
        c ∈ (post_process m h cfg sws).ellipse_intersections ∨
        2 ≤ support_count (post_process m h cfg sws) c) := by
  refine ⟨?_, post_process_all_undecodable m h cfg sws, ?_, ?_⟩
  · intro hr sw hsw hmap
    rw [post_process_tracing_eq, if_pos hr, ← (post_step_undecodable m cfg
      { out := ProcessedDetections.zero, ellipses := [], fov_models := [] } sw hmap).2]
    exact List.mem_map_of_mem _ hsw
  · intro hf he
    have hfused := fuse_tracing_only _ hf he
    rw [← post_process_fused_eq] at hfused
    refine ⟨hfused, ?_⟩
    intro x hx
    rw [hfused]
    exact foldl_push_unique_covers _ [] x (Or.inr hx)
  · intro h2 c hc
    rw [post_process_fused_eq] at hc
    exact fuse_supported_of_two _ h2 c hc

/-- C31, the claim as stated fails: on the seeded processor with the default configuration,
the frame stamped 1500 whose one signal-way has id 16 (kept: 2 m, front group) is accepted,
and its fused list is the fallback point `(2, 1)` of that signal-way. -/
theorem post_process_fallback_fusion_counterexample :
    sw_undecodable.signal_way_id > 15 ∧
    signal_way_kept ProcessorConfig.defaults sw_undecodable = true ∧
    tracing_fallback sw_undecodable = (2, 1) ∧
    (process_frame (post_process libm_sample hash_sample) StageTimingUs.zero seeded
      (frame_of 1500 [sw_undecodable])).2.code = ErrorCode.Ok ∧
    (process_frame (post_process libm_sample hash_sample) StageTimingUs.zero seeded
      (frame_of 1500 [sw_undecodable])).1.last_output_.map
        (fun out => out.processed.fused) = some [(2, 1)] := by
  have hkept : signal_way_kept ProcessorConfig.defaults sw_undecodable = true := by
    norm_num [signal_way_kept, ProcessorConfig.defaults, sw_undecodable, group_matches]
  have hok : (process_frame (post_process libm_sample hash_sample) StageTimingUs.zero seeded
      (frame_of 1500 [sw_undecodable])).2.code = ErrorCode.Ok := by
    simp [seeded, UltrasoundProcessor.init, frame_of, sw_undecodable,
      process_frame, seed_queue, state_at, interpolate_pose, interpolate_loop, Status.ok,
      ProcessorConfig.defaults]
  refine ⟨by decide, hkept, by norm_num [tracing_fallback, sw_undecodable], hok, ?_⟩
  obtain ⟨pose, _, hout⟩ := process_frame_ok_output _ _ _ _ hok
  have hkeep : (frame_of 1500 [sw_undecodable]).signal_ways.filter
      (signal_way_kept seeded.config_) = [sw_undecodable] := by
    show [sw_undecodable].filter (signal_way_kept ProcessorConfig.defaults) = _
    rw [List.filter_cons, if_pos hkept]
    rfl
  rw [hout, hkeep]
  exact congrArg some (post_process_fallback_default libm_sample hash_sample).2

/-- C31, amended, on the default configuration and the one undecodable signal-way: the FOV
and the ellipse list are empty, and the fallback point `(2, 1)` is in the tracing list and in
the fused list. -/
theorem post_process_fallback_fusion_witness :
    (post_process libm_sample hash_sample ProcessorConfig.defaults
      [sw_undecodable]).fov_intersections = [] ∧
    (post_process libm_sample hash_sample ProcessorConfig.defaults
      [sw_undecodable]).ellipse_intersections = [] ∧
    tracing_fallback sw_undecodable ∈
      (post_process libm_sample hash_sample ProcessorConfig.defaults [sw_undecodable]).tracing ∧
    (post_process libm_sample hash_sample ProcessorConfig.defaults [sw_undecodable]).fused =
      [(2, 1)] :=
  have hmap : ∀ sw ∈ [sw_undecodable],
      map_signal_way_to_sensor_pair sw.group_id sw.signal_way_id = none := by
    intro sw hsw
    rw [List.mem_singleton.mp hsw]
    rfl
  have hempty := (post_process_fallback_fusion libm_sample hash_sample ProcessorConfig.defaults
    [sw_undecodable]).2.1 hmap
  ⟨hempty.1, hempty.2,
   (post_process_fallback_fusion libm_sample hash_sample ProcessorConfig.defaults
      [sw_undecodable]).1 rfl sw_undecodable (List.mem_singleton.mpr rfl) rfl,
   (post_process_fallback_default libm_sample hash_sample).2⟩

/-- C32, amended: for every input list and every radius, the `while (changed)` loop of the
flood fill has stopped after at most `n + 1` passes (more passes change nothing), every
input point gets one label from 1 below `next_id`, and two input points have the same label
if and only if they are joined by a chain of input points whose consecutive members are at
distance at most `|radius|`: the radius enters the code only through `radius * radius`.
The function returns one centroid per label. For a radius that is not negative this is the
claim as stated. -/
theorem cluster_with_table_melt_components (h : HashOrder) (inp : List Detection)
    (radius_m : ℚ) :
    (∀ (next_id : Nat) (cluster_id : List Nat) (k : Nat), next_id ≠ 0 →
      cluster_id.length = inp.length →
      melt_loop inp (radius_m * radius_m) next_id (inp.length + 1 + k) cluster_id =
        melt_loop inp (radius_m * radius_m) next_id (inp.length + 1) cluster_id) ∧
    (melt_labels inp (radius_m * radius_m)).1.length = inp.length ∧
    (∀ i, i < inp.length → 1 ≤ (melt_labels inp (radius_m * radius_m)).1.getD i 0 ∧
      (melt_labels inp (radius_m * radius_m)).1.getD i 0 <
        (melt_labels inp (radius_m * radius_m)).2) ∧
    (∀ i j, i < inp.length → j < inp.length →
      ((melt_labels inp (radius_m * radius_m)).1.getD i 0 =
          (melt_labels inp (radius_m * radius_m)).1.getD j 0 ↔
        joined inp |radius_m| i j)) ∧
    (0 ≤ radius_m → ∀ i j, i < inp.length → j < inp.length →
      ((melt_labels inp (radius_m * radius_m)).1.getD i 0 =
          (melt_labels inp (radius_m * radius_m)).1.getD j 0 ↔
        joined inp radius_m i j)) ∧
    cluster_with_table_melt h inp radius_m =
      (if inp = [] then []
       else (List.range' 1 ((melt_labels inp (radius_m * radius_m)).2 - 1)).map
        (centroid inp (melt_labels inp (radius_m * radius_m)).1)) := by
  obtain ⟨h1, h2, h3⟩ := melt_labels_components inp radius_m
  refine ⟨?_, h1, h2, h3, ?_, cluster_with_table_melt_eq h inp radius_m⟩
  · intro next_id cluster_id k hid hlen
    exact melt_loop_fuel inp (radius_m * radius_m) next_id hid cluster_id hlen k
  · intro hr i j hi hj
    have := h3 i j hi hj
    rw [abs_of_nonneg hr] at this
    exact this

/-- C32, the claim as stated fails for a negative radius: with radius -1 the two points
`(0, 0)` and `(0.5, 0)` get the same label and are merged into `(0.25, 0)`, but no chain of
points at distance at most -1 joins them. -/
theorem cluster_with_table_melt_components_counterexample :
    (melt_labels points_half (-1 * -1)).1 = [1, 1] ∧
    ¬ joined points_half (-1) 0 1 ∧
    cluster_with_table_melt hash_sample points_half (-1) = [(1 / 4, 0)] := by
  refine ⟨by rw [melt_labels_half], ?_, ?_⟩
  · intro hj
    have := joined_negative points_half (-1) (by norm_num) 0 1 hj
    omega
  · have hne : points_half ≠ [] := List.cons_ne_nil _ _
    rw [cluster_with_table_melt_eq, if_neg hne, melt_labels_half]
    norm_num [centroid, members, points_half, List.range, List.range.loop, List.range',
      List.filter]

/-- C32, amended, on the points `(0, 0)`, `(5, 5)`, `(0.1, 0)` with radius 0.35: the labels
are 1, 2, 1, so the first and the third point are joined by a chain and the first and the
second are not; the function returns the centroids `(0.05, 0)` and `(5, 5)`. -/
theorem cluster_with_table_melt_components_witness :
    (melt_labels points_three (35 / 100 * (35 / 100))).1 = [1, 2, 1] ∧
    joined points_three |35 / 100| 0 2 ∧
    ¬ joined points_three |35 / 100| 0 1 ∧
    cluster_with_table_melt hash_sample points_three (35 / 100) = [(1 / 20, 0), (5, 5)] :=
  ⟨by rw [melt_labels_three],
   ((cluster_with_table_melt_components hash_sample points_three (35 / 100)).2.2.2.1 0 2
      (by decide) (by decide)).mp (by rw [melt_labels_three]; rfl),
   fun hj => absurd
    (((cluster_with_table_melt_components hash_sample points_three (35 / 100)).2.2.2.1 0 1
      (by decide) (by decide)).mpr hj) (by rw [melt_labels_three]; decide),
   by
    have hne : points_three ≠ [] := List.cons_ne_nil _ _
    rw [cluster_with_table_melt_eq, if_neg hne, melt_labels_three]
    norm_num [centroid, members, points_three, List.range, List.range.loop, List.range',
      List.filter]⟩

/-- C33: for every input list, `cluster_with_table_melt` emits the centroids of the labels
`1, ..., next_id - 1` in this order. Every such label has a first input point; the points
before it carry smaller labels (so it is the lowest-indexed point not in an earlier
component), the points with that label are exactly the points joined to it by a chain, and
the first points of the labels come in the order of the labels. For a non-empty input the
label of point 0 is 1. -/
theorem cluster_with_table_melt_order (h : HashOrder) (inp : List Detection) (radius_m : ℚ) :
    cluster_with_table_melt h inp radius_m =
      (if inp = [] then []
       else (List.range' 1 ((melt_labels inp (radius_m * radius_m)).2 - 1)).map
        (centroid inp (melt_labels inp (radius_m * radius_m)).1)) ∧
    (∀ c, 1 ≤ c → c < (melt_labels inp (radius_m * radius_m)).2 →
      ∃ s, s < inp.length ∧ first_member (melt_labels inp (radius_m * radius_m)).1 c s ∧
        (∀ j, j < s → 1 ≤ (melt_labels inp (radius_m * radius_m)).1.getD j 0 ∧
          (melt_labels inp (radius_m * radius_m)).1.getD j 0 < c) ∧
        (∀ j, j < inp.length →
          ((melt_labels inp (radius_m * radius_m)).1.getD j 0 = c ↔
            joined inp |radius_m| s j))) ∧
    (∀ c d s t, 1 ≤ c → c < d → d < (melt_labels inp (radius_m * radius_m)).2 →
      first_member (melt_labels inp (radius_m * radius_m)).1 c s →
      first_member (melt_labels inp (radius_m * radius_m)).1 d t → s < t) ∧
    (inp ≠ [] → (melt_labels inp (radius_m * radius_m)).1.getD 0 0 = 1) := by
  refine ⟨cluster_with_table_melt_eq h inp radius_m,
    fun c hc1 hc2 => melt_labels_first inp radius_m c hc1 hc2,
    fun c d s t hc1 hcd hd hs ht => melt_labels_first_order inp radius_m c d s t hc1 hcd hd hs ht,
    ?_⟩
  intro hne
  have hpos : 0 < inp.length := List.length_pos.mpr hne
  obtain ⟨hge, hlt⟩ := (melt_labels_components inp radius_m).2.1 0 hpos
  obtain ⟨s, _, hs, hbefore, _⟩ := melt_labels_first inp radius_m 1 (le_refl 1) (by omega)
  have hs0 : s = 0 := by
    by_contra hne0
    have := hbefore 0 (Nat.pos_of_ne_zero hne0)
    omega
  have hs1 := hs.1
  rw [hs0] at hs1
  exact hs1

/-- C33, on the points `(0, 0)`, `(5, 5)`, `(0.1, 0)` with radius 0.35 (labels 1, 2, 1): the
centroid of the component of point 0 comes first, then the point 1 on its own; the first
points of the labels 1 and 2 are the points 0 and 1. -/
theorem cluster_with_table_melt_order_witness :
    cluster_with_table_melt hash_sample points_three (35 / 100) = [(1 / 20, 0), (5, 5)] ∧
    first_member (melt_labels points_three (35 / 100 * (35 / 100))).1 1 0 ∧
    first_member (melt_labels points_three (35 / 100 * (35 / 100))).1 2 1 ∧
    (0 : Nat) < 1 :=
  have h1 : first_member (melt_labels points_three (35 / 100 * (35 / 100))).1 1 0 := by
    rw [melt_labels_three]
    exact ⟨rfl, fun j hj => absurd hj (Nat.not_lt_zero j)⟩
  have h2 : first_member (melt_labels points_three (35 / 100 * (35 / 100))).1 2 1 := by
    rw [melt_labels_three]
    refine ⟨rfl, fun j hj => ?_⟩
    have hj0 : j = 0 := by omega
    rw [hj0]
    decide
  ⟨by
    have hne : points_three ≠ [] := List.cons_ne_nil _ _
    rw [(cluster_with_table_melt_order hash_sample points_three (35 / 100)).1,
      if_neg hne, melt_labels_three]
    norm_num [centroid, members, points_three, List.range, List.range.loop, List.range',
      List.filter],
   h1, h2,
   (cluster_with_table_melt_order hash_sample points_three (35 / 100)).2.2.1 1 2 0 1
    (le_refl 1) (by decide) (by rw [melt_labels_three]; decide) h1 h2⟩

/-- C34: for all points `p0`, `p1`, directions `d0`, `d1` and every previous value of the
output argument, with `det = d0.x * d1.y - d0.y * d1.x` and the ray parameters `t` and `u`
computed from it: `ray_intersection` returns true if and only if `|det| >= 1e-6`, `t >= 0`
and `u >= 0`; when it returns true the output is `p0 + t * d0`, which is also
`p1 + u * d1`; when it returns false the output argument keeps its value. -/
theorem ray_intersection_spec (p0 d0 p1 d1 out : Detection) :
    ((ray_intersection p0 d0 p1 d1 out).1 = true ↔
      (|ray_det d0 d1| ≥ 1 / 10 ^ 6 ∧ 0 ≤ ray_param_t p0 d0 p1 d1 ∧
        0 ≤ ray_param_u p0 d0 p1 d1)) ∧
    ((ray_intersection p0 d0 p1 d1 out).1 = true →
      (ray_intersection p0 d0 p1 d1 out).2 =
        (p0.1 + ray_param_t p0 d0 p1 d1 * d0.1, p0.2 + ray_param_t p0 d0 p1 d1 * d0.2) ∧
      (ray_intersection p0 d0 p1 d1 out).2 =
        (p1.1 + ray_param_u p0 d0 p1 d1 * d1.1, p1.2 + ray_param_u p0 d0 p1 d1 * d1.2)) ∧
    ((ray_intersection p0 d0 p1 d1 out).1 = false →
      (ray_intersection p0 d0 p1 d1 out).2 = out) := by
  unfold ray_intersection
  simp only
  by_cases hdet : |d0.1 * d1.2 - d0.2 * d1.1| < 1 / 10 ^ 6
  · rw [if_pos hdet]
    refine ⟨⟨fun h => absurd h (by simp), fun h => ?_⟩, fun h => absurd h (by simp), fun _ => rfl⟩
    have := h.1
    unfold ray_det at this
    linarith
  · rw [if_neg hdet]
    have hne : d0.1 * d1.2 - d0.2 * d1.1 ≠ 0 := by
      intro h0
      rw [h0] at hdet
      norm_num at hdet
    by_cases htu : ((p1.1 - p0.1) * d1.2 - (p1.2 - p0.2) * d1.1) / (d0.1 * d1.2 - d0.2 * d1.1) < 0 ∨
        ((p1.1 - p0.1) * d0.2 - (p1.2 - p0.2) * d0.1) / (d0.1 * d1.2 - d0.2 * d1.1) < 0
    · rw [if_pos htu]
      refine ⟨⟨fun h => absurd h (by simp), fun h => ?_⟩, fun h => absurd h (by simp),
        fun _ => rfl⟩
      unfold ray_param_t ray_param_u ray_det at h
      rcases htu with h1 | h1
      · linarith [h.2.1]
      · linarith [h.2.2]
    · rw [if_neg htu]
      have htu2 := not_or.mp htu
      refine ⟨⟨fun _ => ?_, fun _ => rfl⟩, fun _ => ⟨rfl, ?_⟩, fun h => absurd h (by simp)⟩
      · unfold ray_param_t ray_param_u ray_det
        exact ⟨le_of_not_lt hdet, le_of_not_lt htu2.1, le_of_not_lt htu2.2⟩
      · unfold ray_param_u ray_det
        refine Prod.ext ?_ ?_
        · show p0.1 + _ / _ * d0.1 = p1.1 + _ / _ * d1.1
          field_simp
          ring
        · show p0.2 + _ / _ * d0.2 = p1.2 + _ / _ * d1.2
          field_simp
          ring

/-- C34, on the rays from `(0, 0)` along `(1, 0)` and from `(1, -1)` along `(0, 1)`: the
determinant is 1, both parameters are 1, the call succeeds and returns `(1, 0)`; with the
second ray turned to `(0, -1)` the parameter `u` is negative, the call fails and the output
argument keeps its value `(7, 7)`. -/
theorem ray_intersection_spec_witness :
    ray_det (1, 0) (0, 1) = 1 ∧
    ray_param_t (0, 0) (1, 0) (1, -1) (0, 1) = 1 ∧
    ray_param_u (0, 0) (1, 0) (1, -1) (0, 1) = 1 ∧
    ray_intersection (0, 0) (1, 0) (1, -1) (0, 1) (7, 7) = (true, (1, 0)) ∧
    ray_intersection (0, 0) (1, 0) (1, -1) (0, -1) (7, 7) = (false, (7, 7)) ∧
    ((ray_intersection (0, 0) (1, 0) (1, -1) (0, 1) (7, 7)).1 = true ↔
      (|ray_det (1, 0) (0, 1)| ≥ 1 / 10 ^ 6 ∧ 0 ≤ ray_param_t (0, 0) (1, 0) (1, -1) (0, 1) ∧
        0 ≤ ray_param_u (0, 0) (1, 0) (1, -1) (0, 1))) :=
  ⟨by norm_num [ray_det], by norm_num [ray_param_t, ray_det], by norm_num [ray_param_u, ray_det],
   by norm_num [ray_intersection], by norm_num [ray_intersection],
   (ray_intersection_spec (0, 0) (1, 0) (1, -1) (0, 1) (7, 7)).1⟩

/-- C35: for every signal-way that decodes to a sensor pair `(tx, rx)`, with distance
`d > 0` and with the computed length `norm` of the summed heading vector `v` above `1e-9`,
the tracing detection is `midpoint + d * (v / norm)`. When the library square root is exact
at the squared length of `v`, the detection is at squared distance `d * d` from the
midpoint of the pair. For a monostatic pair (`tx = rx`), when moreover the library cosine
and sine of the mounting angle have squares adding up to 1, the detection is
`s0 + d * (cos m0, sin m0)`, and `fov_pie_detection` returns the same point. -/
theorem tracing_detection_on_bisector (m : Libm) (sw : SignalWay) (tx rx : Int)
    (hmap : map_signal_way_to_sensor_pair sw.group_id sw.signal_way_id = some (tx, rx))
    (hd : 0 < sw.distance_m) (hn : heading_norm m sw tx rx > 1 / 10 ^ 9) :
    tracing_detection_from_signal_way m sw =
      ((pair_midpoint tx rx).1 +
          sw.distance_m * ((heading_sum m sw tx rx).1 / heading_norm m sw tx rx),
       (pair_midpoint tx rx).2 +
          sw.distance_m * ((heading_sum m sw tx rx).2 / heading_norm m sw tx rx)) ∧
    (sqrt_exact_at m ((heading_sum m sw tx rx).1 * (heading_sum m sw tx rx).1 +
        (heading_sum m sw tx rx).2 * (heading_sum m sw tx rx).2) →
      ((tracing_detection_from_signal_way m sw).1 - (pair_midpoint tx rx).1) *
          ((tracing_detection_from_signal_way m sw).1 - (pair_midpoint tx rx).1) +
        ((tracing_detection_from_signal_way m sw).2 - (pair_midpoint tx rx).2) *
          ((tracing_detection_from_signal_way m sw).2 - (pair_midpoint tx rx).2) =
        sw.distance_m * sw.distance_m) ∧
    (tx = rx →
      sqrt_exact_at m ((heading_sum m sw tx rx).1 * (heading_sum m sw tx rx).1 +
        (heading_sum m sw tx rx).2 * (heading_sum m sw tx rx).2) →
      m.cos (sensor_at tx).mounting_rad * m.cos (sensor_at tx).mounting_rad +
        m.sin (sensor_at tx).mounting_rad * m.sin (sensor_at tx).mounting_rad = 1 →
      tracing_detection_from_signal_way m sw =
        ((sensor_at tx).x_m + sw.distance_m * m.cos (sensor_at tx).mounting_rad,
         (sensor_at tx).y_m + sw.distance_m * m.sin (sensor_at tx).mounting_rad) ∧
      fov_pie_detection m sw = some (tracing_detection_from_signal_way m sw)) := by
  have htr := tracing_detection_of_pair m sw tx rx hmap
  rw [if_pos hn] at htr
  have hnpos : (0 : ℚ) < heading_norm m sw tx rx := lt_trans (by norm_num) hn
  have hnne : heading_norm m sw tx rx ≠ 0 := ne_of_gt hnpos
  refine ⟨htr, ?_, ?_⟩
  · intro hex
    have hsq : heading_norm m sw tx rx * heading_norm m sw tx rx =
        (heading_sum m sw tx rx).1 * (heading_sum m sw tx rx).1 +
          (heading_sum m sw tx rx).2 * (heading_sum m sw tx rx).2 := hex.2
    rw [htr]
    simp only [add_sub_cancel_left]
    have e : sw.distance_m * ((heading_sum m sw tx rx).1 / heading_norm m sw tx rx) *
          (sw.distance_m * ((heading_sum m sw tx rx).1 / heading_norm m sw tx rx)) +
        sw.distance_m * ((heading_sum m sw tx rx).2 / heading_norm m sw tx rx) *
          (sw.distance_m * ((heading_sum m sw tx rx).2 / heading_norm m sw tx rx)) =
        sw.distance_m * sw.distance_m *
          (((heading_sum m sw tx rx).1 * (heading_sum m sw tx rx).1 +
            (heading_sum m sw tx rx).2 * (heading_sum m sw tx rx).2) /
            (heading_norm m sw tx rx * heading_norm m sw tx rx)) := by
      field_simp
      ring
    rw [e, ← hsq, div_self (mul_ne_zero hnne hnne), mul_one]
  · intro htx hex hcs
    subst htx
    have hsq : heading_norm m sw tx tx * heading_norm m sw tx tx =
        (heading_sum m sw tx tx).1 * (heading_sum m sw tx tx).1 +
          (heading_sum m sw tx tx).2 * (heading_sum m sw tx tx).2 := hex.2
    have hnorm : heading_norm m sw tx tx = 2 * sw.distance_m := by
      have h4 : heading_norm m sw tx tx * heading_norm m sw tx tx =
          (2 * sw.distance_m) * (2 * sw.distance_m) := by
        rw [hsq]
        unfold heading_sum
        simp only
        have : (m.cos (sensor_at tx).mounting_rad * sw.distance_m +
              m.cos (sensor_at tx).mounting_rad * sw.distance_m) *
            (m.cos (sensor_at tx).mounting_rad * sw.distance_m +
              m.cos (sensor_at tx).mounting_rad * sw.distance_m) +
            (m.sin (sensor_at tx).mounting_rad * sw.distance_m +
              m.sin (sensor_at tx).mounting_rad * sw.distance_m) *
            (m.sin (sensor_at tx).mounting_rad * sw.distance_m +
              m.sin (sensor_at tx).mounting_rad * sw.distance_m) =
            4 * sw.distance_m * sw.distance_m *
              (m.cos (sensor_at tx).mounting_rad * m.cos (sensor_at tx).mounting_rad +
                m.sin (sensor_at tx).mounting_rad * m.sin (sensor_at tx).mounting_rad) := by
          ring
        rw [this, hcs]
        ring
      exact (mul_self_inj (le_of_lt hnpos) (by linarith)).mp h4
    have hpt : tracing_detection_from_signal_way m sw =
        ((sensor_at tx).x_m + sw.distance_m * m.cos (sensor_at tx).mounting_rad,
         (sensor_at tx).y_m + sw.distance_m * m.sin (sensor_at tx).mounting_rad) := by
      rw [htr, hnorm]
      have hd0 : sw.distance_m ≠ 0 := ne_of_gt hd
      unfold heading_sum pair_midpoint
      refine Prod.ext ?_ ?_
      · show _ + _ = _ + _
        field_simp
        ring
      · show _ + _ = _ + _
        field_simp
        ring
    refine ⟨hpt, ?_⟩
    rw [fov_pie_monostatic m sw tx hmap hd, hpt]

/-- C35, under the step library on the signal-way at 0.5 m of sensor 0 (mounting angle 87
degrees, library cosine 0 and sine 1): the summed vector is `(0, 1)`, its computed length is
1, and the tracing detection is `(3.238, 1.413)`, at squared distance 0.25 from the sensor;
`fov_pie_detection` returns the same point. -/
theorem tracing_detection_on_bisector_witness :
    map_signal_way_to_sensor_pair sw_half.group_id sw_half.signal_way_id = some (0, 0) ∧
    heading_sum libm_step sw_half 0 0 = (0, 1) ∧
    heading_norm libm_step sw_half 0 0 = 1 ∧
    tracing_detection_from_signal_way libm_step sw_half = (3238 / 1000, 1413 / 1000) ∧
    fov_pie_detection libm_step sw_half = some (3238 / 1000, 1413 / 1000) :=
  have hmap : map_signal_way_to_sensor_pair sw_half.group_id sw_half.signal_way_id =
      some (0, 0) := by decide
  have hsum : heading_sum libm_step sw_half 0 0 = (0, 1) := by
    norm_num [heading_sum, sensor_at_zero, libm_step, sw_half, deg, pi_d]
  have hnorm : heading_norm libm_step sw_half 0 0 = 1 := by
    unfold heading_norm
    rw [hsum]
    norm_num [libm_step, libm_sample, sqrt_newton, List.range, List.range.loop]
  have hd : 0 < sw_half.distance_m := by norm_num [sw_half]
  have hn : heading_norm libm_step sw_half 0 0 > 1 / 10 ^ 9 := by rw [hnorm]; norm_num
  have hex : sqrt_exact_at libm_step
      ((heading_sum libm_step sw_half 0 0).1 * (heading_sum libm_step sw_half 0 0).1 +
        (heading_sum libm_step sw_half 0 0).2 * (heading_sum libm_step sw_half 0 0).2) := by
    have h1 : libm_step.sqrt ((heading_sum libm_step sw_half 0 0).1 *
        (heading_sum libm_step sw_half 0 0).1 + (heading_sum libm_step sw_half 0 0).2 *
        (heading_sum libm_step sw_half 0 0).2) = 1 := hnorm
    unfold sqrt_exact_at
    rw [h1, hsum]
    norm_num
  have hcs : libm_step.cos (sensor_at 0).mounting_rad * libm_step.cos (sensor_at 0).mounting_rad +
      libm_step.sin (sensor_at 0).mounting_rad * libm_step.sin (sensor_at 0).mounting_rad = 1 := by
    norm_num [sensor_at_zero, libm_step, deg, pi_d]
  have hpt : tracing_detection_from_signal_way libm_step sw_half =
      (3238 / 1000, 1413 / 1000) := by
    rw [((tracing_detection_on_bisector libm_step sw_half 0 0 hmap hd hn).2.2 rfl hex hcs).1]
    norm_num [sensor_at_zero, libm_step, sw_half, deg, pi_d]
  ⟨hmap, hsum, hnorm, hpt, by
    rw [((tracing_detection_on_bisector libm_step sw_half 0 0 hmap hd hn).2.2 rfl hex hcs).2, hpt]⟩

/-- C36: in `collect_ellipse_intersections_traverse`, for every pair of ellipses `(mi, mj)`
and every sample `s` from 1 to 360, the sample loop reaches sample `s` with `prev_t` the
parameter of sample `s - 1` and `prev_v` the value of `F` there. If `F` has weakly opposite
signs at the samples `s - 1` and `s`, then after each of the 20 bisection steps `lo <= hi`,
`[lo, hi]` lies inside the sample interval, `F` has weakly opposite signs at `lo` and `hi`,
and `hi - lo` is the sample spacing `2 * pi / 360` halved once per step; the sample emits
(through the contour test and the de-duplicating push) the point of `mi` at the parameter
`(lo + hi) / 2` of the last bracket, which is within `(2 * pi / 360) / 2 ^ 21` of every
parameter of that bracket. Without the sign change the sample emits nothing. -/
theorem traverse_bisection_bracket (m : Libm) (mi mj : EllipseModel) (out : List Detection)
    (s : Nat) (h1 : 1 ≤ s) (h2 : s ≤ kSamples) :
    traverse_pair m mi out mj =
      ((List.range' s (kSamples + 1 - s)).foldl (traverse_sample_step m mi mj)
        (traverse_state m mi mj out s)).1 ∧
    (traverse_state m mi mj out s).2 =
      (sample_param (s - 1), crossing_value m mi mj (sample_param (s - 1))) ∧
    (sign_change (crossing_value m mi mj (sample_param (s - 1)))
        (crossing_value m mi mj (sample_param s)) = true →
      (∀ k, k ≤ 20 → bracket m mi mj s k (bisect_state m mi mj s k)) ∧
      (traverse_sample_step m mi mj (traverse_state m mi mj out s) s).1 =
        (if is_inside_vehicle_contour
            (ellipse_point m mi
              ((1 / 2) * ((bisect_state m mi mj s 20).1 + (bisect_state m mi mj s 20).2.1))).1
            (ellipse_point m mi
              ((1 / 2) * ((bisect_state m mi mj s 20).1 + (bisect_state m mi mj s 20).2.1))).2
         then (traverse_state m mi mj out s).1
         else push_unique_detection (traverse_state m mi mj out s).1
          (ellipse_point m mi
            ((1 / 2) * ((bisect_state m mi mj s 20).1 + (bisect_state m mi mj s 20).2.1)))) ∧
      (∀ x : ℚ, (bisect_state m mi mj s 20).1 ≤ x → x ≤ (bisect_state m mi mj s 20).2.1 →
        |(1 / 2) * ((bisect_state m mi mj s 20).1 + (bisect_state m mi mj s 20).2.1) - x| ≤
          (2 * pi_d / 360) / 2 ^ 21)) ∧
    (sign_change (crossing_value m mi mj (sample_param (s - 1)))
        (crossing_value m mi mj (sample_param s)) = false →
      (traverse_sample_step m mi mj (traverse_state m mi mj out s) s).1 =
        (traverse_state m mi mj out s).1) := by
  have hstate : (traverse_state m mi mj out s).2 =
      (sample_param (s - 1), crossing_value m mi mj (sample_param (s - 1))) :=
    traverse_fold_state m mi mj out (s - 1)
  have hst1 : (traverse_state m mi mj out s).2.1 = sample_param (s - 1) := by rw [hstate]
  have hst2 : (traverse_state m mi mj out s).2.2 =
      crossing_value m mi mj (sample_param (s - 1)) := by rw [hstate]
  have hv : ellipse_implicit_value m mj (ellipse_point m mi (sample_param s)).1
      (ellipse_point m mi (sample_param s)).2 = crossing_value m mi mj (sample_param s) := rfl
  refine ⟨?_, hstate, ?_, ?_⟩
  · unfold traverse_pair traverse_state
    rw [← List.foldl_append]
    have hr : List.range' 1 (s - 1) ++ List.range' s (kSamples + 1 - s) = List.range' 1 kSamples := by
      have := List.range'_append 1 (s - 1) (kSamples + 1 - s) 1
      rw [show 1 + 1 * (s - 1) = s by omega,
        show kSamples + 1 - s + (s - 1) = kSamples by omega] at this
      exact this
    rw [hr]
    rfl
  · intro hs
    have hb := bisect_state_bracket m mi mj s h1 hs
    refine ⟨fun k _ => hb k, ?_, ?_⟩
    · unfold traverse_sample_step
      simp only [hv, hst1, hst2, hs, if_true]
      by_cases hin : is_inside_vehicle_contour
          (ellipse_point m mi
            ((1 / 2) * ((bisect_state m mi mj s 20).1 + (bisect_state m mi mj s 20).2.1))).1
          (ellipse_point m mi
            ((1 / 2) * ((bisect_state m mi mj s 20).1 + (bisect_state m mi mj s 20).2.1))).2 = true
      · rw [if_pos hin]
        unfold bisect_state at hin
        simp only [hin, Bool.not_true, Bool.false_eq_true, if_false]
      · rw [if_neg hin]
        unfold bisect_state at hin ⊢
        simp only [Bool.not_eq_true] at hin
        simp only [hin, Bool.not_false, if_true]
    · intro x hx1 hx2
      obtain ⟨_, _, _, _, _, hw⟩ := hb 20
      have hw21 : (2 * pi_d / 360) / 2 ^ 21 = (1 / 2) * ((2 * pi_d / 360) / 2 ^ 20) := by
        rw [pow_succ]
        field_simp
        ring
      rw [hw21, ← hw, abs_le]
      constructor <;> linarith
  · intro hs
    unfold traverse_sample_step
    simp only [hv, hst2, hs, Bool.false_eq_true, if_false]

/-- C36, on the two circles of the step library at the first sample: `F` is negative at
parameter 0 and positive at the first sample, so the sign test holds; the bracket after 20
steps is inside the first sample interval and has the width `(2 * pi / 360) / 2 ^ 20`, and
the emitted parameter is within `(2 * pi / 360) / 2 ^ 21` of its lower end. -/
theorem traverse_bisection_bracket_witness :
    sign_change (crossing_value libm_step circle0 circle1 (sample_param (1 - 1)))
      (crossing_value libm_step circle0 circle1 (sample_param 1)) = true ∧
    bracket libm_step circle0 circle1 1 20 (bisect_state libm_step circle0 circle1 1 20) ∧
    |(1 / 2) * ((bisect_state libm_step circle0 circle1 1 20).1 +
        (bisect_state libm_step circle0 circle1 1 20).2.1) -
      (bisect_state libm_step circle0 circle1 1 20).1| ≤ (2 * pi_d / 360) / 2 ^ 21 :=
  have hz : (0 : ℚ) < pi_d / 180 := by norm_num [pi_d]
  have ht : sample_param 1 = pi_d / 180 := by
    unfold sample_param kSamples
    norm_num
    ring
  have hs : sign_change (crossing_value libm_step circle0 circle1 (sample_param (1 - 1)))
      (crossing_value libm_step circle0 circle1 (sample_param 1)) = true := by
    show sign_change (crossing_value libm_step circle0 circle1 (sample_param 0))
      (crossing_value libm_step circle0 circle1 (sample_param 1)) = true
    rw [sample_param_zero, ht]
    unfold crossing_value
    rw [ellipse_point_step, ellipse_point_step, if_pos hz, if_neg (lt_irrefl _),
      implicit_value_step.1, implicit_value_step.2]
    norm_num [sign_change]
  have hall := (traverse_bisection_bracket libm_step circle0 circle1 [] 1 (le_refl 1)
    (by decide)).2.2.1 hs
  ⟨hs, hall.1 20 (le_refl 20),
   hall.2.2 _ (le_refl _) (hall.1 20 (le_refl 20)).1⟩

/-- C37: the table `kDefaultContour` that `is_inside_vehicle_contour` tests against has
twelve vertices, vertex `i` being the position of sensor `11 - i` of the twelve-entry sensor
table, each sensor position once; the loop treats it as a closed ring (vertex `i` is paired
with vertex `i - 1`, vertex 0 with vertex 11). The ring is strictly convex: every vertex
other than the two ends of an edge lies strictly to the left of that edge, so no vertex is a
convex combination of the others: the ring is the boundary of the convex hull of the twelve
sensors, each sensor being a corner of it. -/
theorem contour_is_convex_sensor_ring :
    kDefaultContour.length = 12 ∧ kDefaultSensors.length = 12 ∧
    (∀ i, i < 12 → kDefaultContour[i]? = (kDefaultSensors[11 - i]?).map SensorPose.position) ∧
    kDefaultContour.Nodup ∧
    (∀ x_m y_m : ℚ, is_inside_vehicle_contour x_m y_m =
      (List.range 12).foldl (fun inside i =>
        if contour_edge_intersect x_m y_m (contour_vertex i) (contour_vertex (i + 11))
        then !inside else inside) false) ∧
    (∀ i k, i < 12 → k < 12 → k ≠ i → k ≠ (i + 1) % 12 →
      0 < left_turn (contour_vertex i) (contour_vertex (i + 1)) (contour_vertex k)) ∧
    (∀ i, i < 12 → contour_vertex i ∉
      convexHull ℚ {p : ℚ × ℚ | ∃ k, k < 12 ∧ k ≠ i ∧ p = contour_vertex k}) := by
  refine ⟨rfl, rfl, ?_, ?_, is_inside_vehicle_contour_ring, contour_left_turns,
    contour_vertex_extreme⟩
  · intro i hi
    rw [contour_eq_sensors_reversed]
    have hlen : kDefaultSensors.length = 12 := rfl
    rw [List.getElem?_map, List.getElem?_reverse (by rw [hlen]; exact hi), hlen]
  · rw [contour_eq_of_mm]
    exact List.Nodup.map of_mm_injective (by decide)

/-- C37, read off at vertex 0 and at the edge from vertex 5 to vertex 6: vertex 0 is
`(-0.775, 0.822)`, the position of sensor 11; vertex 0 lies strictly to the left of the edge
from `(-0.775, -0.822)` to `(3.238, -0.913)`. -/
theorem contour_is_convex_sensor_ring_witness :
    kDefaultContour[0]? = some ((-775 / 1000 : ℚ), (822 / 1000 : ℚ)) ∧
    (kDefaultSensors[11]?).map SensorPose.position = some ((-775 / 1000 : ℚ), (822 / 1000 : ℚ)) ∧
    0 < left_turn (contour_vertex 5) (contour_vertex 6) (contour_vertex 0) :=
  ⟨rfl, rfl,
   contour_is_convex_sensor_ring.2.2.2.2.2.1 5 0 (by decide) (by decide) (by decide) (by decide)⟩

/-- C38: on a processor constructed with `strict_monotonic_timestamps` enabled (the
default) that has only received `push_vehicle_state` calls, the comparison timestamp is 0;
a frame stamped 0 is answered OutOfOrderTimestamp whatever it holds and whatever was pushed,
and a frame stamped 1 or more is not answered OutOfOrderTimestamp. -/
theorem process_frame_first_frame_guard (pp : PostProcess) (clock : StageTimingUs)
    (config : ProcessorConfig) (states : List VehicleState) (input : FrameInput)
    (hs : config.strict_monotonic_timestamps = true) :
    ProcessorConfig.defaults.strict_monotonic_timestamps = true ∧
    (run pp (UltrasoundProcessor.init config) (states.map Call.push)).last_timestamp_us_ = 0 ∧
    (input.timestamp_us = 0 →
      (process_frame pp clock (run pp (UltrasoundProcessor.init config) (states.map Call.push))
        input).2.code = ErrorCode.OutOfOrderTimestamp) ∧
    (1 ≤ input.timestamp_us →
      (process_frame pp clock (run pp (UltrasoundProcessor.init config) (states.map Call.push))
        input).2.code ≠ ErrorCode.OutOfOrderTimestamp) := by
  have hlast : (run pp (UltrasoundProcessor.init config) (states.map Call.push)).last_timestamp_us_
      = 0 := by
    rw [run_pushes_last_timestamp]; rfl
  have hcfg : (run pp (UltrasoundProcessor.init config)
      (states.map Call.push)).config_.strict_monotonic_timestamps = true := by
    rw [run_config]; exact hs
  refine ⟨rfl, hlast, ?_, ?_⟩
  · intro h0
    rw [process_frame_code, if_pos ⟨hcfg, by rw [hlast, h0]⟩]
  · intro h1
    rw [process_frame_code, if_neg (fun hh => by have := hh.2; rw [hlast] at this; omega)]
    by_cases h2 : input.signal_ways = [] ∧ input.static_features = []
    · rw [if_pos h2]; decide
    · rw [if_neg h2]
      by_cases h3 : interpolate_pose (run pp (UltrasoundProcessor.init config)
          (states.map Call.push)).state_queue_ input.timestamp_us = none
      · rw [if_pos h3]; decide
      · rw [if_neg h3]; decide

/-- C38, on the default configuration after the two seed states were pushed: the frame
stamped 0 with the signal-way `(1.0, 0, 1)` is answered OutOfOrderTimestamp, the same frame
stamped 1 is accepted. -/
theorem process_frame_first_frame_guard_witness :
    ProcessorConfig.defaults.strict_monotonic_timestamps = true ∧
    (process_frame pp_sample StageTimingUs.zero
      (run pp_sample (UltrasoundProcessor.init ProcessorConfig.defaults)
        (seed_queue.map Call.push)) (frame_of 0 [sw_sample 0])).2.code =
      ErrorCode.OutOfOrderTimestamp ∧
    (process_frame pp_sample StageTimingUs.zero
      (run pp_sample (UltrasoundProcessor.init ProcessorConfig.defaults)
        (seed_queue.map Call.push)) (frame_of 1 [sw_sample 1])).2.code = ErrorCode.Ok :=
  ⟨rfl,
   (process_frame_first_frame_guard pp_sample StageTimingUs.zero ProcessorConfig.defaults
      seed_queue (frame_of 0 [sw_sample 0]) rfl).2.2.1 rfl,
   by
    simp [run, step, seed_queue, push_vehicle_state, process_frame, UltrasoundProcessor.init,
      ProcessorConfig.defaults, trim_queue, kMaxQueue, state_at, frame_of, sw_sample,
      interpolate_pose, interpolate_loop, Status.ok]⟩

/-- C39: after every sequence of `push_vehicle_state` and `process_frame` calls on a fresh
processor, `dropped_frames` is the sum of `out_of_order_frames`, `missing_state_frames` and
`invalid_input_frames`, and `processed_frames + dropped_frames` is the number of
`process_frame` calls made, both modulo `2 ^ 64`; and one more `process_frame` call
increments exactly one of `processed_frames` and `dropped_frames` (by one, modulo
`2 ^ 64`), a drop incrementing exactly the one cause counter of its status code. -/
theorem reachable_counter_identities (pp : PostProcess) (config : ProcessorConfig)
    (calls : List Call) :
    (run pp (UltrasoundProcessor.init config) calls).diagnostics_.dropped_frames =
      ((run pp (UltrasoundProcessor.init config) calls).diagnostics_.out_of_order_frames +
        (run pp (UltrasoundProcessor.init config) calls).diagnostics_.missing_state_frames +
        (run pp (UltrasoundProcessor.init config) calls).diagnostics_.invalid_input_frames) %
          2 ^ 64 ∧
    ((run pp (UltrasoundProcessor.init config) calls).diagnostics_.processed_frames +
        (run pp (UltrasoundProcessor.init config) calls).diagnostics_.dropped_frames) % 2 ^ 64 =
      frame_calls calls % 2 ^ 64 ∧
    (∀ (clock : StageTimingUs) (input : FrameInput),
      counts_one
        (process_frame pp clock (run pp (UltrasoundProcessor.init config) calls) input).2.code
        (run pp (UltrasoundProcessor.init config) calls).diagnostics_
        (process_frame pp clock (run pp (UltrasoundProcessor.init config) calls)
          input).1.diagnostics_) := by
  have h0 : counters_inv 0 (UltrasoundProcessor.init config).diagnostics_ := by
    unfold counters_inv
    norm_num [UltrasoundProcessor.init, Diagnostics.zero]
  have h := run_counters_inv pp calls (UltrasoundProcessor.init config) 0 h0
  rw [Nat.zero_add] at h
  exact ⟨h.2.2.2.2.2.1, h.2.2.2.2.2.2, fun clock input => process_frame_counts_one pp clock _ input⟩

/-- C39, on scenario S1 extended (frames stamped 1500, 1400 and 1600 after two pushes): two
frames are processed and one is dropped as out of order, three `process_frame` calls in
all, and the two identities hold. -/
theorem reachable_counter_identities_witness :
    (run pp_sample (UltrasoundProcessor.init ProcessorConfig.defaults)
      calls_s1).diagnostics_.processed_frames = 2 ∧
    (run pp_sample (UltrasoundProcessor.init ProcessorConfig.defaults)
      calls_s1).diagnostics_.dropped_frames = 1 ∧
    (run pp_sample (UltrasoundProcessor.init ProcessorConfig.defaults)
      calls_s1).diagnostics_.out_of_order_frames = 1 ∧
    frame_calls calls_s1 = 3 ∧
    (run pp_sample (UltrasoundProcessor.init ProcessorConfig.defaults)
      calls_s1).diagnostics_.dropped_frames =
      ((run pp_sample (UltrasoundProcessor.init ProcessorConfig.defaults)
          calls_s1).diagnostics_.out_of_order_frames +
        (run pp_sample (UltrasoundProcessor.init ProcessorConfig.defaults)
          calls_s1).diagnostics_.missing_state_frames +
        (run pp_sample (UltrasoundProcessor.init ProcessorConfig.defaults)
          calls_s1).diagnostics_.invalid_input_frames) % 2 ^ 64 :=
  have hrun : (run pp_sample (UltrasoundProcessor.init ProcessorConfig.defaults)
      calls_s1).diagnostics_.processed_frames = 2 ∧
      (run pp_sample (UltrasoundProcessor.init ProcessorConfig.defaults)
        calls_s1).diagnostics_.dropped_frames = 1 ∧
      (run pp_sample (UltrasoundProcessor.init ProcessorConfig.defaults)
        calls_s1).diagnostics_.out_of_order_frames = 1 := by
    simp [run, step, calls_s1, push_vehicle_state, process_frame, UltrasoundProcessor.init,
      ProcessorConfig.defaults, trim_queue, kMaxQueue, state_at, frame_of, sw_sample,
      interpolate_pose, interpolate_loop, Diagnostics.zero, incr64]
  ⟨hrun.1, hrun.2.1, hrun.2.2, rfl,
   (reachable_counter_identities pp_sample ProcessorConfig.defaults calls_s1).1⟩

/-- C40, amended: for every input list whose points are pairwise farther apart than
`|radius|`, `cluster_with_table_melt` returns the input unchanged (same points, same
order): the radius enters the code only through `radius * radius`. Since fused points are
pairwise more than 0.08 m apart, `post_process` returns its fused list as clustered list
whenever `|cluster_radius_m| <= 0.08`, and so does every accepted frame, in particular
whenever `0 <= cluster_radius_m <= 0.08`. -/
theorem cluster_with_table_melt_identity (m : Libm) (h : HashOrder) :
    (∀ (inp : List Detection) (radius_m : ℚ),
      inp.Pairwise (fun a b => ¬ dist_le a b |radius_m|) →
      cluster_with_table_melt h inp radius_m = inp) ∧
    (∀ (cfg : ProcessorConfig) (sws : List SignalWay), |cfg.cluster_radius_m| ≤ 8 / 100 →
      (post_process m h cfg sws).clustered = (post_process m h cfg sws).fused) ∧
    (∀ (clock : StageTimingUs) (p : UltrasoundProcessor) (input : FrameInput),
      0 ≤ p.config_.cluster_radius_m → p.config_.cluster_radius_m ≤ 8 / 100 →
      (process_frame (post_process m h) clock p input).2.code = ErrorCode.Ok →
      ∃ out : FrameOutput,
        (process_frame (post_process m h) clock p input).1.last_output_ = some out ∧
        out.processed.clustered = out.processed.fused) := by
  have hsq : ∀ r : ℚ, |r| ≤ 8 / 100 → r * r ≤ 64 / 10000 := by
    intro r hr
    have h1 := (abs_le.mp hr).1
    have h2 := (abs_le.mp hr).2
    nlinarith
  refine ⟨?_, ?_, ?_⟩
  · intro inp radius_m hsep
    apply cluster_separated
    exact List.Pairwise.imp (fun {a b} hab => (not_dist_le_abs a b radius_m).mp hab) hsep
  · intro cfg sws hr
    exact post_process_clustered_eq_fused m h cfg sws (hsq _ hr)
  · intro clock p input h0 h8 hok
    obtain ⟨pose, _, hout⟩ := process_frame_ok_output (post_process m h) clock p input hok
    refine ⟨_, hout, ?_⟩
    exact post_process_clustered_eq_fused m h p.config_ _
      (hsq _ (abs_le.mpr ⟨by linarith, h8⟩))

/-- C40, the first sentence as stated fails for a negative radius: the points `(1, 1)` and
`(1, 2)` are farther apart than the radius -2, and `cluster_with_table_melt` merges them
into `(1, 1.5)`. -/
theorem cluster_with_table_melt_identity_counterexample :
    points_unit.Pairwise (fun a b => ¬ dist_le a b (-2)) ∧
    cluster_with_table_melt hash_sample points_unit (-2) = [(1, 3 / 2)] ∧
    cluster_with_table_melt hash_sample points_unit (-2) ≠ points_unit := by
  have hl : melt_labels points_unit (-2 * -2) = ([1, 1], 2) := by
    norm_num [points_unit, melt_labels, melt_seed, melt_loop, melt_pass, melt_member,
      melt_neighbour, adjacency, List.range, List.range.loop, List.replicate, List.set]
  have hne : points_unit ≠ [] := List.cons_ne_nil _ _
  have hout : cluster_with_table_melt hash_sample points_unit (-2) = [(1, 3 / 2)] := by
    rw [cluster_with_table_melt_eq, if_neg hne, hl]
    norm_num [centroid, members, points_unit, List.range, List.range.loop, List.range',
      List.filter]
  refine ⟨?_, hout, ?_⟩
  · apply List.pairwise_of_forall
    intro a b hd
    have := hd.1
    linarith
  · rw [hout]
    intro heq
    have := congrArg List.length heq
    simp [points_unit] at this

/-- C40, amended, on the points `(0, 0)`, `(5, 5)`, `(0.1, 0)` with radius 0.08: they are
pairwise farther apart than 0.08 m and are returned unchanged. -/
theorem cluster_with_table_melt_identity_witness :
    points_three.Pairwise (fun a b => ¬ dist_le a b |8 / 100|) ∧
    cluster_with_table_melt hash_sample points_three (8 / 100) = points_three :=
  have hsep : points_three.Pairwise (fun a b => ¬ dist_le a b |8 / 100|) := by
    have h8 : |(8 / 100 : ℚ)| = 8 / 100 := abs_of_nonneg (by norm_num)
    rw [h8]
    unfold points_three dist_le
    simp only [List.pairwise_cons, List.mem_cons, List.mem_singleton, List.not_mem_nil,
      forall_eq_or_imp, forall_eq, IsEmpty.forall_iff, implies_true, List.Pairwise.nil,
      and_true]
    norm_num
  ⟨hsep, (cluster_with_table_melt_identity libm_sample hash_sample).1 points_three (8 / 100) hsep⟩

end Ultrasound
